import Mathlib

/-!
# Sparse triangular solve kernels of ViennaCL (CUDA backend)

A shallow embedding of the kernels of
`viennacl/linalg/cuda/sparse_matrix_operations_solve.hpp`.

* `unsigned int` values are natural numbers below `2^32`; the arithmetic of the
  kernels on them is `uadd`, `usub`, `umul`, which reduce modulo `2^32`.
* Arrays in global memory are lists.  A read or write outside an array gives
  `none`, and so does the kernel that performs it.
* A `__shared__` array is a function on slot numbers together with its declared
  capacity; an access at or beyond the capacity gives `none`.  The contents that
  the slots hold when the kernel starts are not determined by the program, so
  they are an argument of every kernel.
* The scalar type `T` is any field (exact arithmetic).
* `B` is `blockDim.x`; lane `tid` runs with `threadIdx.x = tid`.  The lanes of
  the block meet at every `__syncthreads()`, so a kernel is a sequence of
  phases; inside a phase the lanes are run in the order of their number.
  The loop counter of lane `tid` is obtained from the counter `i` of lane `0`
  as `uadd i tid`.
-/

namespace ViennaCL

/-! ## Machine arithmetic and memory -/

/-- Sum of two `unsigned int`. -/
def uadd (a b : Nat) : Nat := (a + b) % 4294967296

/-- Difference of two `unsigned int` (wraps below zero). -/
def usub (a b : Nat) : Nat := (a + (4294967296 - b % 4294967296)) % 4294967296

/-- Product of two `unsigned int`. -/
def umul (a b : Nat) : Nat := (a * b) % 4294967296

/-- Read of slot `i` of a global array. -/
def gread {α : Type} (a : List α) (i : Nat) : Option α := a[i]?

/-- Write of slot `i` of a global array. -/
def gwrite {α : Type} (a : List α) (i : Nat) (v : α) : Option (List α) :=
  if i < a.length then some (a.set i v) else none

/-- Read of slot `i` of a shared array of capacity `cap`. -/
def sread {α : Type} (cap : Nat) (buf : Nat → α) (i : Nat) : Option α :=
  if i < cap then some (buf i) else none

/-- Write of slot `i` of a shared array of capacity `cap`. -/
def swrite {α : Type} (cap : Nat) (buf : Nat → α) (i : Nat) (v : α) : Option (Nat → α) :=
  if i < cap then some (Function.update buf i v) else none

/-! ## Loops -/

/-- The loop `for (k = k0; k < k0 + c; ++k) body`: `c` rounds, counting up from `k0`. -/
def forCount {σ : Type} (body : Nat → σ → Option σ) : Nat → Nat → σ → Option σ
  | 0, _, s => some s
  | c + 1, k, s => (body k s).bind (forCount body c (k + 1))

/-- The loop `for (i = i0; i < loop_end; i += B) body` of lane `0`.  The result is `none`
when the loop is still running after `fuel` rounds. -/
def forStride {σ : Type} (B loop_end : Nat) (body : Nat → σ → Option σ) :
    Nat → Nat → σ → Option σ
  | 0, i, s => if i < loop_end then none else some s
  | fuel + 1, i, s =>
    if i < loop_end then (body i s).bind (forStride B loop_end body fuel (uadd i B))
    else some s

/-- The loop `while (1) { body; if (i < B) break; i -= B; }` of lane `0`.  The result is
`none` when the loop is still running after `fuel` rounds. -/
def whileDown {σ : Type} (B : Nat) (body : Nat → σ → Option σ) : Nat → Nat → σ → Option σ
  | 0, _, _ => none
  | fuel + 1, i, s =>
    (body i s).bind fun s1 => if i < B then some s1 else whileDown B body fuel (usub i B) s1

/-! ## Non-transposed kernels: state -/

/-- The three staging arrays `col_index_buffer[128]`, `element_buffer[128]`,
`vector_buffer[128]` of the non-transposed kernels. -/
structure Staging (T : Type) where
  col_index_buffer : Nat → Nat
  element_buffer : Nat → T
  vector_buffer : Nat → T

/-- The solution vector in global memory and the registers of lane `0`. -/
structure SolveState (T : Type) where
  vector : List T
  current_row : Nat
  row_at_window_start : Nat
  current_vector_entry : T
  next_row : Nat

/-- The state of `csr_lu_backward_kernel`, which has the further register
`diagonal_entry`. -/
structure SolveStateD (T : Type) where
  vector : List T
  current_row : Nat
  row_at_window_start : Nat
  current_vector_entry : T
  next_row : Nat
  diagonal_entry : T

variable {T : Type} [Field T]

/-- The load of one lane into shared memory, lines 62-68 (the same text in the four
non-transposed kernels): `i` is the loop counter of the lane. -/
def load_lane (column_indices : List Nat) (elements vector : List T) (nnz i tid : Nat)
    (st : Staging T) : Option (Staging T) :=
  if i < nnz then
    (gread elements i).bind fun e =>
    (swrite 128 st.element_buffer tid e).bind fun eb =>
    (gread column_indices i).bind fun tmp =>
    (swrite 128 st.col_index_buffer tid tmp).bind fun cb =>
    (gread vector tmp).bind fun v =>
    (swrite 128 st.vector_buffer tid v).bind fun vb =>
    some { col_index_buffer := cb, element_buffer := eb, vector_buffer := vb }
  else some st

/-- The load phase of a window of a forward kernel: every lane whose counter is below
`loop_end` is in the loop and loads. -/
def load_forward (column_indices : List Nat) (elements vector : List T)
    (nnz loop_end B i : Nat) (st : Staging T) : Option (Staging T) :=
  forCount (fun tid st1 =>
    if uadd i tid < loop_end then
      load_lane column_indices elements vector nnz (uadd i tid) tid st1
    else some st1) B 0 st

/-- The load phase of a window of a backward kernel. -/
def load_backward (column_indices : List Nat) (elements vector : List T)
    (nnz B i : Nat) (st : Staging T) : Option (Staging T) :=
  forCount (fun tid st1 =>
    load_lane column_indices elements vector nnz (uadd i tid) tid st1) B 0 st

/-! ## `csr_unit_lu_forward_kernel` -/

/-- Body of the loop over `k` of lane `0`, lines 78-95. -/
def unit_forward_step (row_indices : List Nat) (size i : Nat) (st : Staging T)
    (k : Nat) (s : SolveState T) : Option (SolveState T) :=
  (if s.current_row < size ∧ uadd i k = s.next_row then
      (gwrite s.vector s.current_row s.current_vector_entry).bind fun vec =>
      if uadd s.current_row 1 < size then
        (gread row_indices (uadd (uadd s.current_row 1) 1)).bind fun nr =>
        (gread vec (uadd s.current_row 1)).bind fun cve =>
        some { s with vector := vec, current_row := uadd s.current_row 1,
                      next_row := nr, current_vector_entry := cve }
      else some { s with vector := vec, current_row := uadd s.current_row 1 }
    else some s).bind fun s1 =>
  if s1.current_row < size then
    (sread 128 st.col_index_buffer k).bind fun c =>
    if c < s1.current_row then
      if c < s1.row_at_window_start then
        (sread 128 st.element_buffer k).bind fun e =>
        (sread 128 st.vector_buffer k).bind fun v =>
        some { s1 with current_vector_entry := s1.current_vector_entry - e * v }
      else if c < s1.current_row then
        (sread 128 st.element_buffer k).bind fun e =>
        (gread s1.vector c).bind fun x =>
        some { s1 with current_vector_entry := s1.current_vector_entry - e * x }
      else some s1
    else some s1
  else some s1

/-- One round of the loop over `i`, lines 61-102: load, barrier, the work of lane `0`,
barrier. -/
def unit_forward_window (row_indices column_indices : List Nat) (elements : List T)
    (size nnz loop_end B i : Nat) (p : Staging T × SolveState T) :
    Option (Staging T × SolveState T) :=
  (load_forward column_indices elements p.2.vector nnz loop_end B i p.1).bind fun st =>
  (forCount (unit_forward_step row_indices size i st) B 0 p.2).bind fun s =>
  some (st, { s with row_at_window_start := s.current_row })

/-- The kernel `csr_unit_lu_forward_kernel`, lines 40-104, run by a block of `B` lanes;
`st0` is what the staging arrays hold at the start.  The result is the vector left in
global memory. -/
def csr_unit_lu_forward_kernel (B : Nat) (st0 : Staging T)
    (row_indices column_indices : List Nat) (elements vector : List T) (size : Nat) :
    Option (List T) :=
  (gread row_indices size).bind fun nnz =>
  (gread vector 0).bind fun cve =>
  (gread row_indices 1).bind fun next_row =>
  (forStride B (umul (uadd (nnz / B) 1) B)
      (unit_forward_window row_indices column_indices elements size nnz
        (umul (uadd (nnz / B) 1) B) B)
      (umul (uadd (nnz / B) 1) B) 0
      (st0, { vector := vector, current_row := 0, row_at_window_start := 0,
              current_vector_entry := cve, next_row := next_row })).bind fun p =>
  some p.2.vector

/-! ## `csr_lu_forward_kernel` -/

/-- Body of the loop over `k` of lane `0`, lines 147-164. -/
def lu_forward_step (row_indices : List Nat) (diagonal_entries : List T) (size i : Nat)
    (st : Staging T) (k : Nat) (s : SolveState T) : Option (SolveState T) :=
  (if s.current_row < size ∧ uadd i k = s.next_row then
      (gread diagonal_entries s.current_row).bind fun d =>
      (gwrite s.vector s.current_row (s.current_vector_entry / d)).bind fun vec =>
      if uadd s.current_row 1 < size then
        (gread row_indices (uadd (uadd s.current_row 1) 1)).bind fun nr =>
        (gread vec (uadd s.current_row 1)).bind fun cve =>
        some { s with vector := vec, current_row := uadd s.current_row 1,
                      next_row := nr, current_vector_entry := cve }
      else some { s with vector := vec, current_row := uadd s.current_row 1 }
    else some s).bind fun s1 =>
  if s1.current_row < size then
    (sread 128 st.col_index_buffer k).bind fun c =>
    if c < s1.current_row then
      if c < s1.row_at_window_start then
        (sread 128 st.element_buffer k).bind fun e =>
        (sread 128 st.vector_buffer k).bind fun v =>
        some { s1 with current_vector_entry := s1.current_vector_entry - e * v }
      else if c < s1.current_row then
        (sread 128 st.element_buffer k).bind fun e =>
        (gread s1.vector c).bind fun x =>
        some { s1 with current_vector_entry := s1.current_vector_entry - e * x }
      else some s1
    else some s1
  else some s1

/-- One round of the loop over `i`, lines 130-171. -/
def lu_forward_window (row_indices column_indices : List Nat)
    (elements diagonal_entries : List T) (size nnz loop_end B i : Nat)
    (p : Staging T × SolveState T) : Option (Staging T × SolveState T) :=
  (load_forward column_indices elements p.2.vector nnz loop_end B i p.1).bind fun st =>
  (forCount (lu_forward_step row_indices diagonal_entries size i st) B 0 p.2).bind fun s =>
  some (st, { s with row_at_window_start := s.current_row })

/-- The kernel `csr_lu_forward_kernel`, lines 108-173. -/
def csr_lu_forward_kernel (B : Nat) (st0 : Staging T)
    (row_indices column_indices : List Nat) (elements diagonal_entries vector : List T)
    (size : Nat) : Option (List T) :=
  (gread row_indices size).bind fun nnz =>
  (gread vector 0).bind fun cve =>
  (gread row_indices 1).bind fun next_row =>
  (forStride B (umul (uadd (nnz / B) 1) B)
      (lu_forward_window row_indices column_indices elements diagonal_entries size nnz
        (umul (uadd (nnz / B) 1) B) B)
      (umul (uadd (nnz / B) 1) B) 0
      (st0, { vector := vector, current_row := 0, row_at_window_start := 0,
              current_vector_entry := cve, next_row := next_row })).bind fun p =>
  some p.2.vector

/-! ## `csr_unit_lu_backward_kernel` -/

/-- Body of the loop over `k2` of lane `0`, lines 215-234. -/
def unit_backward_step (row_indices : List Nat) (nnz B i : Nat) (st : Staging T)
    (k2 : Nat) (s : SolveState T) : Option (SolveState T) :=
  if uadd i (usub (usub B k2) 1) ≥ nnz then some s
  else
    (sread 128 st.col_index_buffer (usub (usub B k2) 1)).bind fun c =>
    (if c > s.row_at_window_start then
        (sread 128 st.element_buffer (usub (usub B k2) 1)).bind fun e =>
        (sread 128 st.vector_buffer (usub (usub B k2) 1)).bind fun v =>
        some { s with current_vector_entry := s.current_vector_entry - e * v }
      else if c > s.current_row then
        (sread 128 st.element_buffer (usub (usub B k2) 1)).bind fun e =>
        (gread s.vector c).bind fun x =>
        some { s with current_vector_entry := s.current_vector_entry - e * x }
      else some s).bind fun s1 =>
    if uadd i (usub (usub B k2) 1) = s1.next_row then
      (gwrite s1.vector s1.current_row s1.current_vector_entry).bind fun vec =>
      if s1.current_row > 0 then
        (gread row_indices (usub s1.current_row 1)).bind fun nr =>
        (gread vec (usub s1.current_row 1)).bind fun cve =>
        some { s1 with vector := vec, current_row := usub s1.current_row 1,
                       next_row := nr, current_vector_entry := cve }
      else some { s1 with vector := vec }
    else some s1

/-- One round of the loop `while (1)`, lines 198-242. -/
def unit_backward_window (row_indices column_indices : List Nat) (elements : List T)
    (nnz B i : Nat) (p : Staging T × SolveState T) : Option (Staging T × SolveState T) :=
  (load_backward column_indices elements p.2.vector nnz B i p.1).bind fun st =>
  (forCount (unit_backward_step row_indices nnz B i st) B 0 p.2).bind fun s =>
  some (st, { s with row_at_window_start := s.current_row })

/-- The kernel `csr_unit_lu_backward_kernel`, lines 176-249. -/
def csr_unit_lu_backward_kernel (B : Nat) (st0 : Staging T)
    (row_indices column_indices : List Nat) (elements vector : List T) (size : Nat) :
    Option (List T) :=
  (gread row_indices size).bind fun nnz =>
  (gread vector (usub size 1)).bind fun cve =>
  (gread row_indices (usub size 1)).bind fun next_row =>
  (whileDown B (unit_backward_window row_indices column_indices elements nnz B)
      (umul (usub nnz 1 / B) B + 1) (umul (usub nnz 1 / B) B)
      (st0, { vector := vector, current_row := usub size 1,
              row_at_window_start := usub size 1,
              current_vector_entry := cve, next_row := next_row })).bind fun p =>
  some p.2.vector

/-! ## `csr_lu_backward_kernel` -/

/-- Body of the loop over `k2` of lane `0`, lines 293-314. -/
def lu_backward_step (row_indices : List Nat) (nnz B i : Nat) (st : Staging T)
    (k2 : Nat) (s : SolveStateD T) : Option (SolveStateD T) :=
  if uadd i (usub (usub B k2) 1) ≥ nnz then some s
  else
    (sread 128 st.col_index_buffer (usub (usub B k2) 1)).bind fun c =>
    (if c > s.row_at_window_start then
        (sread 128 st.element_buffer (usub (usub B k2) 1)).bind fun e =>
        (sread 128 st.vector_buffer (usub (usub B k2) 1)).bind fun v =>
        some { s with current_vector_entry := s.current_vector_entry - e * v }
      else if c > s.current_row then
        (sread 128 st.element_buffer (usub (usub B k2) 1)).bind fun e =>
        (gread s.vector c).bind fun x =>
        some { s with current_vector_entry := s.current_vector_entry - e * x }
      else if c = s.current_row then
        (sread 128 st.element_buffer (usub (usub B k2) 1)).bind fun e =>
        some { s with diagonal_entry := e }
      else some s).bind fun s1 =>
    if uadd i (usub (usub B k2) 1) = s1.next_row then
      (gwrite s1.vector s1.current_row
        (s1.current_vector_entry / s1.diagonal_entry)).bind fun vec =>
      if s1.current_row > 0 then
        (gread row_indices (usub s1.current_row 1)).bind fun nr =>
        (gread vec (usub s1.current_row 1)).bind fun cve =>
        some { s1 with vector := vec, current_row := usub s1.current_row 1,
                       next_row := nr, current_vector_entry := cve }
      else some { s1 with vector := vec }
    else some s1

/-- One round of the loop `while (1)`, lines 276-322. -/
def lu_backward_window (row_indices column_indices : List Nat) (elements : List T)
    (nnz B i : Nat) (p : Staging T × SolveStateD T) : Option (Staging T × SolveStateD T) :=
  (load_backward column_indices elements p.2.vector nnz B i p.1).bind fun st =>
  (forCount (lu_backward_step row_indices nnz B i st) B 0 p.2).bind fun s =>
  some (st, { s with row_at_window_start := s.current_row })

/-- The kernel `csr_lu_backward_kernel`, lines 253-329.  The register `diagonal_entry`
is declared without a value: `diag0` is what it holds at the start. -/
def csr_lu_backward_kernel (B : Nat) (st0 : Staging T) (diag0 : T)
    (row_indices column_indices : List Nat) (elements vector : List T) (size : Nat) :
    Option (List T) :=
  (gread row_indices size).bind fun nnz =>
  (gread vector (usub size 1)).bind fun cve =>
  (gread row_indices (usub size 1)).bind fun next_row =>
  (whileDown B (lu_backward_window row_indices column_indices elements nnz B)
      (umul (usub nnz 1 / B) B + 1) (umul (usub nnz 1 / B) B)
      (st0, { vector := vector, current_row := usub size 1,
              row_at_window_start := usub size 1,
              current_vector_entry := cve, next_row := next_row,
              diagonal_entry := diag0 })).bind fun p =>
  some p.2.vector

/-! ## Transposed kernels: state and phases -/

/-- The loop `for (row = first; row <= last; ++row) body`.  The result is `none` when the
loop is still running after `fuel` rounds. -/
def forUpTo {σ : Type} (last : Nat) (body : Nat → σ → Option σ) : Nat → Nat → σ → Option σ
  | 0, row, s => if row ≤ last then none else some s
  | fuel + 1, row, s =>
    if row ≤ last then (body row s).bind (forUpTo last body fuel (uadd row 1)) else some s

/-- The registers `row_index`, `col_index`, `matrix_entry` of the lanes: one value for
each lane number.  Every lane assigns them in a round before it uses them. -/
structure LaneRegs (T : Type) where
  row_index : Nat → Nat
  col_index : Nat → Nat
  matrix_entry : Nat → T

/-- The solution vector, the shared arrays `row_index_lookahead[256]` and
`row_index_buffer[256]`, and the registers `row_at_window_start`, `row_at_window_end`,
which hold the same value in every lane. -/
structure TransState (T : Type) where
  vector : List T
  row_index_lookahead : Nat → Nat
  row_index_buffer : Nat → Nat
  row_at_window_start : Nat
  row_at_window_end : Nat

/-- Lines 384-386 for lane `tid` with counter `i`: the registers `col_index` and
`matrix_entry` and the slot `tid` of the lookahead table. -/
def trans_forward_fetch (row_indices column_indices : List Nat) (elements : List T)
    (size nnz row_at_window_start i tid : Nat) (p : (Nat → Nat) × LaneRegs T) :
    Option ((Nat → Nat) × LaneRegs T) :=
  (if i < nnz then gread column_indices i else some 0).bind fun c =>
  (if i < nnz then gread elements i else some 0).bind fun e =>
  (if uadd row_at_window_start tid < size then
      gread row_indices (uadd row_at_window_start tid)
    else some (usub size 1)).bind fun la =>
  (swrite 256 p.1 tid la).bind fun lookahead =>
  some (lookahead, { p.2 with col_index := Function.update p.2.col_index tid c,
                              matrix_entry := Function.update p.2.matrix_entry tid e })

/-- The loop `while (i >= row_index_lookahead[row_index_inc + 1]) ++row_index_inc;`,
lines 393-394.  Every round reads a further slot of the table, so 256 rounds of fuel are
never used up: the read of slot 256 is outside the table. -/
def lookup_forward (lookahead : Nat → Nat) (i : Nat) : Nat → Nat → Option Nat
  | 0, _ => none
  | fuel + 1, row_index_inc =>
    (sread 256 lookahead (uadd row_index_inc 1)).bind fun x =>
    if i ≥ x then lookup_forward lookahead i fuel (uadd row_index_inc 1)
    else some row_index_inc

/-- Lines 390-402 for lane `tid` with counter `i`: the register `row_index` and the slot
`tid` of `row_index_buffer`. -/
def trans_forward_rows (lookahead : Nat → Nat) (size nnz row_at_window_start i tid : Nat)
    (p : (Nat → Nat) × LaneRegs T) : Option ((Nat → Nat) × LaneRegs T) :=
  if i < nnz then
    (lookup_forward lookahead i 256 0).bind fun row_index_inc =>
    (swrite 256 p.1 tid (uadd row_at_window_start row_index_inc)).bind fun rib =>
    some (rib, { p.2 with
      row_index := Function.update p.2.row_index tid (uadd row_at_window_start row_index_inc) })
  else
    (swrite 256 p.1 tid (usub size 1)).bind fun rib =>
    some (rib, { p.2 with row_index := Function.update p.2.row_index tid (uadd size 1) })

/-- The scatter of one row by the lanes in lockstep, line 414-415 (and 542-543 with
`below = true`): every lane of the loop reads its target slot of `v`, the vector as it is
when the statement starts, and writes the new value. -/
def trans_scatter (below : Bool) (B loop_end i row : Nat) (regs : LaneRegs T)
    (result_entry : T) (v : List T) : Option (List T) :=
  forCount (fun tid acc =>
    if uadd i tid < loop_end ∧ regs.row_index tid = row ∧
        (if below then regs.col_index tid < row else regs.col_index tid > row) then
      (gread v (regs.col_index tid)).bind fun old =>
      gwrite acc (regs.col_index tid) (old - result_entry * regs.matrix_entry tid)
    else some acc) B 0 v

/-- Body of the loop over `row` of the unit kernels, lines 412-417 and 540-545. -/
def trans_unit_row (below : Bool) (B loop_end i : Nat) (regs : LaneRegs T)
    (row : Nat) (v : List T) : Option (List T) :=
  (gread v row).bind fun result_entry =>
  trans_scatter below B loop_end i row regs result_entry v

/-- Body of the loop over `row` of the kernels with a diagonal, lines 475-481 and
640-646: all lanes read `vector[row]` and `diagonal_entries[row]`, then all write the
quotient to `vector[row]`, then the scatter. -/
def trans_lu_row (below : Bool) (diagonal_entries : List T) (B loop_end i : Nat)
    (regs : LaneRegs T) (row : Nat) (v : List T) : Option (List T) :=
  (gread v row).bind fun x =>
  (gread diagonal_entries row).bind fun d =>
  (gwrite v row (x / d)).bind fun v1 =>
  trans_scatter below B loop_end i row regs (x / d) v1

/-- Lines 384-407 of a round of a transposed forward kernel: the two phases that fill the
lookahead table and find the rows, and the reads of `row_index_buffer[0]` and
`row_index_buffer[blockDim.x - 1]`. -/
def trans_forward_prepare (row_indices column_indices : List Nat) (elements : List T)
    (size nnz loop_end B i : Nat) (s : TransState T) : Option (TransState T × LaneRegs T) :=
  (forCount (fun tid p =>
      if uadd i tid < loop_end then
        trans_forward_fetch row_indices column_indices elements size nnz
          s.row_at_window_start (uadd i tid) tid p
      else some p) B 0
    (s.row_index_lookahead,
      { row_index := fun _ => 0, col_index := fun _ => 0, matrix_entry := fun _ => 0 })).bind
  fun p1 =>
  (forCount (fun tid p =>
      if uadd i tid < loop_end then
        trans_forward_rows p1.1 size nnz s.row_at_window_start (uadd i tid) tid p
      else some p) B 0 (s.row_index_buffer, p1.2)).bind fun p2 =>
  (sread 256 p2.1 0).bind fun ws =>
  (sread 256 p2.1 (usub B 1)).bind fun we =>
  some ({ s with row_index_lookahead := p1.1, row_index_buffer := p2.1,
                 row_at_window_start := ws, row_at_window_end := we }, p2.2)

/-! ## `csr_trans_unit_lu_forward_kernel` -/

/-- One round of the loop over `i`, lines 384-420. -/
def trans_unit_forward_window (row_indices column_indices : List Nat) (elements : List T)
    (size nnz loop_end B i : Nat) (s : TransState T) : Option (TransState T) :=
  (trans_forward_prepare row_indices column_indices elements size nnz loop_end B i s).bind
  fun q =>
  (forUpTo q.1.row_at_window_end (trans_unit_row false B loop_end i q.2)
      (q.1.row_at_window_end + 1) q.1.row_at_window_start q.1.vector).bind fun vec =>
  some { q.1 with vector := vec, row_at_window_start := q.1.row_at_window_end }

/-- The kernel `csr_trans_unit_lu_forward_kernel`, lines 363-423; `la0` and `rib0` are what
the two shared arrays hold at the start. -/
def csr_trans_unit_lu_forward_kernel (B : Nat) (la0 rib0 : Nat → Nat)
    (row_indices column_indices : List Nat) (elements vector : List T) (size : Nat) :
    Option (List T) :=
  (gread row_indices size).bind fun nnz =>
  (forStride B (umul (uadd (usub nnz 1 / B) 1) B)
      (trans_unit_forward_window row_indices column_indices elements size nnz
        (umul (uadd (usub nnz 1 / B) 1) B) B)
      (umul (uadd (usub nnz 1 / B) 1) B) 0
      { vector := vector, row_index_lookahead := la0, row_index_buffer := rib0,
        row_at_window_start := 0, row_at_window_end := 0 }).bind fun s =>
  some s.vector

/-! ## `csr_trans_lu_forward_kernel` -/

/-- One round of the loop over `i`, lines 447-484. -/
def trans_lu_forward_window (row_indices column_indices : List Nat)
    (elements diagonal_entries : List T) (size nnz loop_end B i : Nat) (s : TransState T) :
    Option (TransState T) :=
  (trans_forward_prepare row_indices column_indices elements size nnz loop_end B i s).bind
  fun q =>
  (forUpTo q.1.row_at_window_end (trans_lu_row false diagonal_entries B loop_end i q.2)
      (q.1.row_at_window_end + 1) q.1.row_at_window_start q.1.vector).bind fun vec =>
  some { q.1 with vector := vec, row_at_window_start := q.1.row_at_window_end }

/-- The kernel `csr_trans_lu_forward_kernel`, lines 425-487. -/
def csr_trans_lu_forward_kernel (B : Nat) (la0 rib0 : Nat → Nat)
    (row_indices column_indices : List Nat) (elements diagonal_entries vector : List T)
    (size : Nat) : Option (List T) :=
  (gread row_indices size).bind fun nnz =>
  (forStride B (umul (uadd (usub nnz 1 / B) 1) B)
      (trans_lu_forward_window row_indices column_indices elements diagonal_entries size nnz
        (umul (uadd (usub nnz 1 / B) 1) B) B)
      (umul (uadd (usub nnz 1 / B) 1) B) 0
      { vector := vector, row_index_lookahead := la0, row_index_buffer := rib0,
        row_at_window_start := 0, row_at_window_end := 0 }).bind fun s =>
  some s.vector

/-! ## `csr_trans_unit_lu_backward_kernel` and `csr_trans_lu_backward_kernel`

In both, line 514 (614) subtracts `threadIdx.x` from `blockDim`; it is read as
`blockDim.x - threadIdx.x`. -/

/-- Lines 511-514 for lane `tid` with counter `i2`; `i = (loop_end - i2) - 1`. -/
def trans_backward_fetch (row_indices column_indices : List Nat) (elements : List T)
    (nnz loop_end B row_at_window_start i2 tid : Nat) (p : (Nat → Nat) × LaneRegs T) :
    Option ((Nat → Nat) × LaneRegs T) :=
  (if usub (usub loop_end i2) 1 < nnz then gread column_indices (usub (usub loop_end i2) 1)
    else some 0).bind fun c =>
  (if usub (usub loop_end i2) 1 < nnz then gread elements (usub (usub loop_end i2) 1)
    else some 0).bind fun e =>
  (if row_at_window_start ≥ usub B tid then
      gread row_indices (usub row_at_window_start (usub (usub B tid) 1))
    else some 0).bind fun la =>
  (swrite 256 p.1 tid la).bind fun lookahead =>
  some (lookahead, { p.2 with col_index := Function.update p.2.col_index tid c,
                              matrix_entry := Function.update p.2.matrix_entry tid e })

/-- The loop `while (row_index_lookahead[blockDim.x - row_index_dec - 1] > i)
++row_index_dec;`, lines 521-522. -/
def lookup_backward (lookahead : Nat → Nat) (B i : Nat) : Nat → Nat → Option Nat
  | 0, _ => none
  | fuel + 1, row_index_dec =>
    (sread 256 lookahead (usub (usub B row_index_dec) 1)).bind fun x =>
    if x > i then lookup_backward lookahead B i fuel (uadd row_index_dec 1)
    else some row_index_dec

/-- Lines 518-530 for lane `tid` with counter `i2`.  The loop of lines 521-522 reads the
slots `B - 1`, `B - 2`, ... and leaves the table after `B` rounds at the latest. -/
def trans_backward_rows (lookahead : Nat → Nat) (size nnz loop_end B row_at_window_start
    i2 tid : Nat) (p : (Nat → Nat) × LaneRegs T) : Option ((Nat → Nat) × LaneRegs T) :=
  if usub (usub loop_end i2) 1 < nnz then
    (lookup_backward lookahead B (usub (usub loop_end i2) 1) (B + 1) 0).bind
    fun row_index_dec =>
    (swrite 256 p.1 tid (usub row_at_window_start row_index_dec)).bind fun rib =>
    some (rib, { p.2 with
      row_index := Function.update p.2.row_index tid (usub row_at_window_start row_index_dec) })
  else
    (swrite 256 p.1 tid (usub size 1)).bind fun rib =>
    some (rib, { p.2 with row_index := Function.update p.2.row_index tid (uadd size 1) })

/-- Lines 511-535 of a round of a transposed backward kernel. -/
def trans_backward_prepare (row_indices column_indices : List Nat) (elements : List T)
    (size nnz loop_end B i2 : Nat) (s : TransState T) : Option (TransState T × LaneRegs T) :=
  (forCount (fun tid p =>
      if uadd i2 tid < loop_end then
        trans_backward_fetch row_indices column_indices elements nnz loop_end B
          s.row_at_window_start (uadd i2 tid) tid p
      else some p) B 0
    (s.row_index_lookahead,
      { row_index := fun _ => 0, col_index := fun _ => 0, matrix_entry := fun _ => 0 })).bind
  fun p1 =>
  (forCount (fun tid p =>
      if uadd i2 tid < loop_end then
        trans_backward_rows p1.1 size nnz loop_end B s.row_at_window_start (uadd i2 tid) tid p
      else some p) B 0 (s.row_index_buffer, p1.2)).bind fun p2 =>
  (sread 256 p2.1 0).bind fun ws =>
  (sread 256 p2.1 (usub B 1)).bind fun we =>
  some ({ s with row_index_lookahead := p1.1, row_index_buffer := p2.1,
                 row_at_window_start := ws, row_at_window_end := we }, p2.2)

/-- One round of the loop over `i2` of `csr_trans_unit_lu_backward_kernel`,
lines 511-548. -/
def trans_unit_backward_window (row_indices column_indices : List Nat) (elements : List T)
    (size nnz loop_end B i2 : Nat) (s : TransState T) : Option (TransState T) :=
  (trans_backward_prepare row_indices column_indices elements size nnz loop_end B i2 s).bind
  fun q =>
  (forUpTo q.1.row_at_window_end (trans_unit_row true B loop_end i2 q.2)
      (q.1.row_at_window_end + 1) q.1.row_at_window_start q.1.vector).bind fun vec =>
  some { q.1 with vector := vec, row_at_window_start := q.1.row_at_window_end }

/-- The kernel `csr_trans_unit_lu_backward_kernel`, lines 490-551. -/
def csr_trans_unit_lu_backward_kernel (B : Nat) (la0 rib0 : Nat → Nat)
    (row_indices column_indices : List Nat) (elements vector : List T) (size : Nat) :
    Option (List T) :=
  (gread row_indices size).bind fun nnz =>
  (forStride B (umul (uadd (usub nnz 1 / B) 1) B)
      (trans_unit_backward_window row_indices column_indices elements size nnz
        (umul (uadd (usub nnz 1 / B) 1) B) B)
      (umul (uadd (usub nnz 1 / B) 1) B) 0
      { vector := vector, row_index_lookahead := la0, row_index_buffer := rib0,
        row_at_window_start := 0, row_at_window_end := 0 }).bind fun s =>
  some s.vector

/-- One round of the loop over `i2` of `csr_trans_lu_backward_kernel`, lines 611-649. -/
def trans_lu_backward_window (row_indices column_indices : List Nat)
    (elements diagonal_entries : List T) (size nnz loop_end B i2 : Nat) (s : TransState T) :
    Option (TransState T) :=
  (trans_backward_prepare row_indices column_indices elements size nnz loop_end B i2 s).bind
  fun q =>
  (forUpTo q.1.row_at_window_end (trans_lu_row true diagonal_entries B loop_end i2 q.2)
      (q.1.row_at_window_end + 1) q.1.row_at_window_start q.1.vector).bind fun vec =>
  some { q.1 with vector := vec, row_at_window_start := q.1.row_at_window_end }

/-- The kernel `csr_trans_lu_backward_kernel`, lines 589-652. -/
def csr_trans_lu_backward_kernel (B : Nat) (la0 rib0 : Nat → Nat)
    (row_indices column_indices : List Nat) (elements diagonal_entries vector : List T)
    (size : Nat) : Option (List T) :=
  (gread row_indices size).bind fun nnz =>
  (forStride B (umul (uadd (usub nnz 1 / B) 1) B)
      (trans_lu_backward_window row_indices column_indices elements diagonal_entries size
        nnz (umul (uadd (usub nnz 1 / B) 1) B) B)
      (umul (uadd (usub nnz 1 / B) 1) B) 0
      { vector := vector, row_index_lookahead := la0, row_index_buffer := rib0,
        row_at_window_start := 0, row_at_window_end := 0 }).bind fun s =>
  some s.vector

/-! ## Vocabulary of the statements -/

/-- A well-formed CSR input of dimension `n`: `row_indices` has `n + 1` entries, starts at
`0`, does not decrease and ends at `nnz`, the common length of `column_indices` and
`elements`; every column index is below `n`. -/
structure WellFormedCSR (n : Nat) (row_indices column_indices : List Nat)
    (elements : List T) : Prop where
  rows_len : row_indices.length = n + 1
  rows_zero : row_indices.getD 0 0 = 0
  rows_mono : ∀ r, r < n → row_indices.getD r 0 ≤ row_indices.getD (r + 1) 0
  cols_len : column_indices.length = row_indices.getD n 0
  elems_len : elements.length = row_indices.getD n 0
  cols_lt : ∀ q, q < column_indices.length → column_indices.getD q 0 < n

/-- The sum of `a_ij * x_j` over the stored entries `(i, j)` of row `i` with `j < i`. -/
def lowerSum (row_indices column_indices : List Nat) (elements x : List T) (i : Nat) : T :=
  ∑ q ∈ (Finset.Ico (row_indices.getD i 0) (row_indices.getD (i + 1) 0)).filter
      (fun q => column_indices.getD q 0 < i),
    elements.getD q 0 * x.getD (column_indices.getD q 0) 0

/-- The sum of `a_ij * x_j` over the stored entries `(i, j)` of row `i` with `j > i`. -/
def upperSum (row_indices column_indices : List Nat) (elements x : List T) (i : Nat) : T :=
  ∑ q ∈ (Finset.Ico (row_indices.getD i 0) (row_indices.getD (i + 1) 0)).filter
      (fun q => i < column_indices.getD q 0),
    elements.getD q 0 * x.getD (column_indices.getD q 0) 0

/-- The sum of `a_ij * x_j` over all stored entries of row `i`: entry `i` of the product of
the matrix with `x`. -/
def rowSum (row_indices column_indices : List Nat) (elements x : List T) (i : Nat) : T :=
  ∑ q ∈ Finset.Ico (row_indices.getD i 0) (row_indices.getD (i + 1) 0),
    elements.getD q 0 * x.getD (column_indices.getD q 0) 0

/-- The part of `lowerSum` over the positions of row `r` below `hi`. -/
def lowerPart (row_indices column_indices : List Nat) (elements x : List T) (r hi : Nat) :
    T :=
  ∑ q ∈ Finset.Ico (row_indices.getD r 0) hi,
    if column_indices.getD q 0 < r then
      elements.getD q 0 * x.getD (column_indices.getD q 0) 0 else 0

/-- The part of `upperSum` over the positions of row `r` from `lo` on. -/
def upperPart (row_indices column_indices : List Nat) (elements x : List T) (r lo : Nat) :
    T :=
  ∑ q ∈ Finset.Ico lo (row_indices.getD (r + 1) 0),
    if r < column_indices.getD q 0 then
      elements.getD q 0 * x.getD (column_indices.getD q 0) 0 else 0

/-- A lower-triangular matrix with unit diagonal stored in CSR form: every stored entry of
row `i` has a column `≤ i`, and the stored entries of row `i` in column `i` add up to `1`. -/
def UnitLower (n : Nat) (row_indices column_indices : List Nat) (elements : List T) : Prop :=
  ∀ i, i < n →
    (∀ q, row_indices.getD i 0 ≤ q → q < row_indices.getD (i + 1) 0 →
      column_indices.getD q 0 ≤ i) ∧
    ∑ q ∈ (Finset.Ico (row_indices.getD i 0) (row_indices.getD (i + 1) 0)).filter
        (fun q => column_indices.getD q 0 = i), elements.getD q 0 = 1

/-- An upper-triangular matrix with unit diagonal stored in CSR form. -/
def UnitUpper (n : Nat) (row_indices column_indices : List Nat) (elements : List T) : Prop :=
  ∀ i, i < n →
    (∀ q, row_indices.getD i 0 ≤ q → q < row_indices.getD (i + 1) 0 →
      i ≤ column_indices.getD q 0) ∧
    ∑ q ∈ (Finset.Ico (row_indices.getD i 0) (row_indices.getD (i + 1) 0)).filter
        (fun q => column_indices.getD q 0 = i), elements.getD q 0 = 1

/-- An upper-triangular matrix stored in CSR form: every stored entry of row `i` has a
column `≥ i`. -/
def UpperTriangular (n : Nat) (row_indices column_indices : List Nat) : Prop :=
  ∀ i, i < n → ∀ q, row_indices.getD i 0 ≤ q → q < row_indices.getD (i + 1) 0 →
    i ≤ column_indices.getD q 0

/-- What the staging arrays hold after the load phase of the window that starts at
position `i0`, when `v` is the vector at that time: slot `k` has entry `i0 + k`. -/
def Loaded (column_indices : List Nat) (elements v : List T) (nnz i0 B : Nat)
    (st : Staging T) : Prop :=
  ∀ k, k < B → i0 + k < nnz →
    st.col_index_buffer k = column_indices.getD (i0 + k) 0 ∧
    st.element_buffer k = elements.getD (i0 + k) 0 ∧
    st.vector_buffer k = v.getD (column_indices.getD (i0 + k) 0) 0

/-- The inputs on which the forward kernels are followed: a well-formed CSR input whose rows
`1, ..., n - 1` store at least one entry each, a right-hand side of length `n`, a block of
`1 ≤ B ≤ 128` lanes, and `nnz + B` in the range of `unsigned int`. -/
structure ForwardInput (n B : Nat) (row_indices column_indices : List Nat)
    (elements b : List T) : Prop where
  wf : WellFormedCSR n row_indices column_indices elements
  n_pos : 1 ≤ n
  B_pos : 1 ≤ B
  B_le : B ≤ 128
  b_len : b.length = n
  rows : ∀ r, 1 ≤ r → r < n → row_indices.getD r 0 < row_indices.getD (r + 1) 0
  fit : row_indices.getD n 0 + B < 4294967296

/-- The state of lane `0` of a forward kernel before it handles position `p`; `finv r v` is
the value the kernel writes for row `r` when the accumulator is `v`. -/
structure ForwardInv (n : Nat) (row_indices column_indices : List Nat) (elements b : List T)
    (finv : Nat → T → T) (p : Nat) (s : SolveState T) : Prop where
  len : s.vector.length = n
  row_le : s.current_row ≤ n
  solved : ∀ j, j < s.current_row → s.vector.getD j 0 =
    finv j (b.getD j 0 -
      lowerPart row_indices column_indices elements s.vector j (row_indices.getD (j + 1) 0))
  pending : ∀ j, s.current_row ≤ j → j < n → s.vector.getD j 0 = b.getD j 0
  next : s.current_row < n → s.next_row = row_indices.getD (s.current_row + 1) 0
  lo : s.current_row < n → row_indices.getD s.current_row 0 ≤ p
  hi : s.current_row < n → p ≤ row_indices.getD (s.current_row + 1) 0
  acc : s.current_row < n → s.current_vector_entry =
    b.getD s.current_row 0 -
      lowerPart row_indices column_indices elements s.vector s.current_row p
  done : s.current_row = n → row_indices.getD n 0 < p

/-- The state of lane `0` of a forward kernel at position `p` between the two halves of the
loop body. -/
structure ForwardMid (n : Nat) (row_indices column_indices : List Nat) (elements b : List T)
    (finv : Nat → T → T) (p : Nat) (s : SolveState T) : Prop where
  len : s.vector.length = n
  row_le : s.current_row ≤ n
  solved : ∀ j, j < s.current_row → s.vector.getD j 0 =
    finv j (b.getD j 0 -
      lowerPart row_indices column_indices elements s.vector j (row_indices.getD (j + 1) 0))
  pending : ∀ j, s.current_row ≤ j → j < n → s.vector.getD j 0 = b.getD j 0
  next : s.current_row < n → s.next_row = row_indices.getD (s.current_row + 1) 0
  lo : s.current_row < n → row_indices.getD s.current_row 0 ≤ p
  hi : s.current_row < n → p < row_indices.getD (s.current_row + 1) 0
  acc : s.current_row < n → s.current_vector_entry =
    b.getD s.current_row 0 -
      lowerPart row_indices column_indices elements s.vector s.current_row p
  done : s.current_row = n → row_indices.getD n 0 ≤ p

/-- The inputs on which the backward kernels are followed: a well-formed CSR input with at
least one stored entry whose rows `1, ..., n - 1` store at least one entry each, a
right-hand side of length `n`, `1 ≤ B ≤ 128` lanes, and `nnz + B` in the range of
`unsigned int`. -/
structure BackwardInput (n B : Nat) (row_indices column_indices : List Nat)
    (elements b : List T) : Prop where
  wf : WellFormedCSR n row_indices column_indices elements
  n_pos : 1 ≤ n
  B_pos : 1 ≤ B
  B_le : B ≤ 128
  b_len : b.length = n
  rows : ∀ r, 1 ≤ r → r < n → row_indices.getD r 0 < row_indices.getD (r + 1) 0
  nnz_pos : 1 ≤ row_indices.getD n 0
  fit : row_indices.getD n 0 + B < 4294967296

/-- The state of lane `0` of a backward kernel when the positions `≥ p` have been handled
and the positions `< p` have not; `finv r v` is the value the kernel writes for row `r`
when the accumulator is `v`.  Either some entry of the current row is still to come, or
nothing is left to do (`p = 0`) and row `0` has its final value. -/
structure BackwardInv (n : Nat) (row_indices column_indices : List Nat) (elements b : List T)
    (finv : Nat → T → T) (p : Nat) (s : SolveState T) : Prop where
  len : s.vector.length = n
  row_lt : s.current_row < n
  solved : ∀ j, s.current_row < j → j < n → s.vector.getD j 0 =
    finv j (b.getD j 0 -
      upperPart row_indices column_indices elements s.vector j (row_indices.getD j 0))
  pending : ∀ j, j < s.current_row → s.vector.getD j 0 = b.getD j 0
  cases : (row_indices.getD s.current_row 0 < p ∧
      p ≤ row_indices.getD (s.current_row + 1) 0 ∧
      s.vector.getD s.current_row 0 = b.getD s.current_row 0 ∧
      s.next_row = row_indices.getD s.current_row 0 ∧
      s.current_vector_entry = b.getD s.current_row 0 -
        upperPart row_indices column_indices elements s.vector s.current_row p) ∨
    (p = 0 ∧ s.current_row = 0 ∧ s.vector.getD 0 0 =
      finv 0 (b.getD 0 0 -
        upperPart row_indices column_indices elements s.vector 0 (row_indices.getD 0 0)))

/-- Every row stores its diagonal: row `r` has a stored entry in column `r`, and every
stored entry of row `r` in column `r` has the value `dval r`. -/
structure DiagonalStored (n : Nat) (row_indices column_indices : List Nat)
    (elements : List T) (dval : Nat → T) : Prop where
  ex : ∀ r, r < n → ∃ q, row_indices.getD r 0 ≤ q ∧ q < row_indices.getD (r + 1) 0 ∧
    column_indices.getD q 0 = r
  val : ∀ r, r < n → ∀ q, row_indices.getD r 0 ≤ q → q < row_indices.getD (r + 1) 0 →
    column_indices.getD q 0 = r → elements.getD q 0 = dval r

/-- The register `diagonal_entry` when the positions `≥ p` have been handled: it holds the
diagonal of the current row as soon as a diagonal entry of that row has been passed. -/
def DiagInv (row_indices column_indices : List Nat) (dval : Nat → T) (p : Nat)
    (s : SolveStateD T) : Prop :=
  (∃ q, p ≤ q ∧ q < row_indices.getD (s.current_row + 1) 0 ∧
    column_indices.getD q 0 = s.current_row) → s.diagonal_entry = dval s.current_row

/-- The registers of `csr_lu_backward_kernel` without `diagonal_entry`. -/
def SolveStateD.toSolve (s : SolveStateD T) : SolveState T :=
  { vector := s.vector, current_row := s.current_row,
    row_at_window_start := s.row_at_window_start,
    current_vector_entry := s.current_vector_entry, next_row := s.next_row }

/-! ## The two halves of the body of the forward kernels -/


/-- Lines 78-87 (147-156) at position `p = i + k`; `fin r v` is the value written for row
`r` with accumulator `v`. -/
def forward_finalize (fin : Nat → T → Option T) (row_indices : List Nat) (size p : Nat)
    (s : SolveState T) : Option (SolveState T) :=
  if s.current_row < size ∧ p = s.next_row then
    (fin s.current_row s.current_vector_entry).bind fun val =>
    (gwrite s.vector s.current_row val).bind fun vec =>
    if uadd s.current_row 1 < size then
      (gread row_indices (uadd (uadd s.current_row 1) 1)).bind fun nr =>
      (gread vec (uadd s.current_row 1)).bind fun cve =>
      some { s with vector := vec, current_row := uadd s.current_row 1,
                    next_row := nr, current_vector_entry := cve }
    else some { s with vector := vec, current_row := uadd s.current_row 1 }
  else some s

/-- Lines 89-95 (158-164) for slot `k` of the staging arrays. -/
def forward_substitute (size : Nat) (st : Staging T) (k : Nat) (s1 : SolveState T) :
    Option (SolveState T) :=
  if s1.current_row < size then
    (sread 128 st.col_index_buffer k).bind fun c =>
    if c < s1.current_row then
      if c < s1.row_at_window_start then
        (sread 128 st.element_buffer k).bind fun e =>
        (sread 128 st.vector_buffer k).bind fun v =>
        some { s1 with current_vector_entry := s1.current_vector_entry - e * v }
      else if c < s1.current_row then
        (sread 128 st.element_buffer k).bind fun e =>
        (gread s1.vector c).bind fun x =>
        some { s1 with current_vector_entry := s1.current_vector_entry - e * x }
      else some s1
    else some s1
  else some s1

/-- One round of the loop over `i` of a forward kernel, with the value written for a row
given by `fin`. -/
def forward_round (fin : Nat → T → Option T) (row_indices column_indices : List Nat)
    (elements : List T) (size nnz loop_end B i : Nat) (p : Staging T × SolveState T) :
    Option (Staging T × SolveState T) :=
  (load_forward column_indices elements p.2.vector nnz loop_end B i p.1).bind fun st =>
  (forCount (fun k s => (forward_finalize fin row_indices size (uadd i k) s).bind
      (forward_substitute size st k)) B 0 p.2).bind fun s =>
  some (st, { s with row_at_window_start := s.current_row })

/-- One round of the loop `while (1)` of a backward kernel whose loop body over `k2` is
`stepf`; `vec` reads the vector and `setR` is the assignment
`row_at_window_start = current_row`. -/
def backward_round {σ : Type} (vec : σ → List T) (setR : σ → σ)
    (stepf : Nat → Staging T → Nat → σ → Option σ) (column_indices : List Nat)
    (elements : List T) (nnz B i : Nat) (p : Staging T × σ) : Option (Staging T × σ) :=
  (load_backward column_indices elements (vec p.2) nnz B i p.1).bind fun st =>
  (forCount (stepf i st) B 0 p.2).bind fun s => some (st, setR s)

/-! ## The two transposed kernels without windows -/

/-- Body of the loop over `entry_index`, lines 354-356 (`below = false`) and 576-578
(`below = true`). -/
def trans_entry2 (below : Bool) (column_indices : List Nat) (elements : List T) (row : Nat)
    (result_entry : T) (entry_index : Nat) (v : List T) : Option (List T) :=
  (gread column_indices entry_index).bind fun col_index =>
  if (if below then col_index < row else col_index > row) then
    (gread v col_index).bind fun old =>
    (gread elements entry_index).bind fun e =>
    gwrite v col_index (old - result_entry * e)
  else some v

/-- The kernel `csr_trans_lu_forward_kernel2`, lines 338-361.  Between two barriers the
lanes run one after the other; lane `tid` starts at `row_start + tid` and steps by `B`. -/
def csr_trans_lu_forward_kernel2 (B : Nat) (row_indices column_indices : List Nat)
    (elements vector : List T) (size : Nat) : Option (List T) :=
  forCount (fun row v =>
    (gread v row).bind fun result_entry =>
    (gread row_indices row).bind fun row_start =>
    (gread row_indices (uadd row 1)).bind fun row_stop =>
    forCount (fun tid acc =>
      forStride B row_stop (trans_entry2 false column_indices elements row result_entry)
        row_stop (uadd row_start tid) acc) B 0 v) size 0 vector

/-- The kernel `csr_trans_lu_backward_kernel2`, lines 555-586.  Lane `tid` starts at
`row_start + tid` and steps by one (line 574); after the barrier lane `0` stores
`result_entry`. -/
def csr_trans_lu_backward_kernel2 (B : Nat) (row_indices column_indices : List Nat)
    (elements diagonal_entries vector : List T) (size : Nat) : Option (List T) :=
  forCount (fun row2 v =>
    (gread v (usub (usub size row2) 1)).bind fun x =>
    (gread diagonal_entries (usub (usub size row2) 1)).bind fun d =>
    (gread row_indices (usub (usub size row2) 1)).bind fun row_start =>
    (gread row_indices (uadd (usub (usub size row2) 1) 1)).bind fun row_stop =>
    (forCount (fun tid acc =>
      forStride 1 row_stop
        (trans_entry2 true column_indices elements (usub (usub size row2) 1) (x / d))
        row_stop (uadd row_start tid) acc) B 0 v).bind fun v1 =>
    gwrite v1 (usub (usub size row2) 1) (x / d)) size 0 vector

/-! ## Observed runs of the non-transposed kernels

The four kernels once more, with a record of what lane `0` does.  With `direct = true`
the branch that takes the solution entry from `vector_buffer` reads it from the vector
in global memory instead. -/

/-- What a run records: the start of a round of the outer loop, a store to
`vector[row]`, and a use of `vector_buffer[k]` for an entry of the matrix, together with
what a read of `vector[col_index_buffer[k]]` gives at that moment. -/
inductive Event (T : Type) where
  | window : Event T
  | write (row : Nat) : Event T
  | shortcut (staged : T) (current : Option T) : Event T

/-- The rows stored, in the order of the stores. -/
def writtenRows : List (Event T) → List Nat
  | [] => []
  | Event.write row :: l => row :: writtenRows l
  | _ :: l => writtenRows l

/-- The number of rounds of the outer loop. -/
def windowCount : List (Event T) → Nat
  | [] => 0
  | Event.window :: l => windowCount l + 1
  | _ :: l => windowCount l

/-- Every recorded use of `vector_buffer` took the value that the vector held. -/
def ShortcutsSound (ev : List (Event T)) : Prop :=
  ∀ staged current, Event.shortcut staged current ∈ ev → current = some staged

/-- Lines 78-87 (147-156) at position `p = i + k` with their record; `fin r v` is the
value stored to `vector[r]` when the accumulator is `v`. -/
def forward_finalize_observed (fin : Nat → T → Option T) (row_indices : List Nat)
    (size p : Nat) (q : SolveState T × List (Event T)) :
    Option (SolveState T × List (Event T)) :=
  if q.1.current_row < size ∧ p = q.1.next_row then
    (fin q.1.current_row q.1.current_vector_entry).bind fun val =>
    (gwrite q.1.vector q.1.current_row val).bind fun vec =>
    if uadd q.1.current_row 1 < size then
      (gread row_indices (uadd (uadd q.1.current_row 1) 1)).bind fun nr =>
      (gread vec (uadd q.1.current_row 1)).bind fun cve =>
      some ({ q.1 with vector := vec, current_row := uadd q.1.current_row 1,
                       next_row := nr, current_vector_entry := cve },
            q.2 ++ [Event.write q.1.current_row])
    else some ({ q.1 with vector := vec, current_row := uadd q.1.current_row 1 },
               q.2 ++ [Event.write q.1.current_row])
  else some q

/-- Lines 89-95 (158-164) for slot `k` of the staging arrays with their record. -/
def forward_substitute_observed (direct : Bool) (size nnz i : Nat) (st : Staging T)
    (k : Nat) (q : SolveState T × List (Event T)) :
    Option (SolveState T × List (Event T)) :=
  if q.1.current_row < size then
    (sread 128 st.col_index_buffer k).bind fun c =>
    if c < q.1.current_row then
      if c < q.1.row_at_window_start then
        (sread 128 st.element_buffer k).bind fun e =>
        if direct then
          (gread q.1.vector c).bind fun x =>
          some ({ q.1 with current_vector_entry := q.1.current_vector_entry - e * x }, q.2)
        else
          (sread 128 st.vector_buffer k).bind fun v =>
          some ({ q.1 with current_vector_entry := q.1.current_vector_entry - e * v },
                if uadd i k < nnz then q.2 ++ [Event.shortcut v (gread q.1.vector c)]
                else q.2)
      else if c < q.1.current_row then
        (sread 128 st.element_buffer k).bind fun e =>
        (gread q.1.vector c).bind fun x =>
        some ({ q.1 with current_vector_entry := q.1.current_vector_entry - e * x }, q.2)
      else some q
    else some q
  else some q

/-- Body of the loop over `k` of a forward kernel (lines 78-95 and 147-164) with its
record. -/
def forward_step_observed (direct : Bool) (fin : Nat → T → Option T)
    (row_indices : List Nat) (size nnz i : Nat) (st : Staging T) (k : Nat)
    (q : SolveState T × List (Event T)) : Option (SolveState T × List (Event T)) :=
  (forward_finalize_observed fin row_indices size (uadd i k) q).bind
    (forward_substitute_observed direct size nnz i st k)

/-- One round of the loop over `i` of a forward kernel with its record. -/
def forward_window_observed (direct : Bool) (fin : Nat → T → Option T)
    (row_indices column_indices : List Nat) (elements : List T)
    (size nnz loop_end B i : Nat) (p : (Staging T × SolveState T) × List (Event T)) :
    Option ((Staging T × SolveState T) × List (Event T)) :=
  (load_forward column_indices elements p.1.2.vector nnz loop_end B i p.1.1).bind fun st =>
  (forCount (forward_step_observed direct fin row_indices size nnz i st) B 0
      (p.1.2, p.2 ++ [Event.window])).bind fun q =>
  some ((st, { q.1 with row_at_window_start := q.1.current_row }), q.2)

/-- A forward kernel with its record: the vector left in global memory and the events. -/
def forward_kernel_observed (direct : Bool) (fin : Nat → T → Option T) (B : Nat)
    (st0 : Staging T) (row_indices column_indices : List Nat) (elements vector : List T)
    (size : Nat) : Option (List T × List (Event T)) :=
  (gread row_indices size).bind fun nnz =>
  (gread vector 0).bind fun cve =>
  (gread row_indices 1).bind fun next_row =>
  (forStride B (umul (uadd (nnz / B) 1) B)
      (forward_window_observed direct fin row_indices column_indices elements size nnz
        (umul (uadd (nnz / B) 1) B) B)
      (umul (uadd (nnz / B) 1) B) 0
      ((st0, { vector := vector, current_row := 0, row_at_window_start := 0,
               current_vector_entry := cve, next_row := next_row }), [])).bind fun p =>
  some (p.1.2.vector, p.2)

/-- The kernel `csr_unit_lu_forward_kernel` with its record. -/
def csr_unit_lu_forward_kernel_observed (direct : Bool) (B : Nat) (st0 : Staging T)
    (row_indices column_indices : List Nat) (elements vector : List T) (size : Nat) :
    Option (List T × List (Event T)) :=
  forward_kernel_observed direct (fun _ v => some v) B st0 row_indices column_indices
    elements vector size

/-- The kernel `csr_lu_forward_kernel` with its record. -/
def csr_lu_forward_kernel_observed (direct : Bool) (B : Nat) (st0 : Staging T)
    (row_indices column_indices : List Nat) (elements diagonal_entries vector : List T)
    (size : Nat) : Option (List T × List (Event T)) :=
  forward_kernel_observed direct
    (fun r v => (gread diagonal_entries r).bind fun d => some (v / d)) B st0 row_indices
    column_indices elements vector size

/-- Lines 218-223 (296-303) for slot `kk` of the staging arrays with their record.  With
`unit_diag = true` it is the text of `csr_unit_lu_backward_kernel`, which has no register
`diagonal_entry`. -/
def backward_substitute_observed (direct unit_diag : Bool) (st : Staging T) (kk : Nat)
    (q : SolveStateD T × List (Event T)) : Option (SolveStateD T × List (Event T)) :=
  (sread 128 st.col_index_buffer kk).bind fun c =>
  if c > q.1.row_at_window_start then
    (sread 128 st.element_buffer kk).bind fun e =>
    if direct then
      (gread q.1.vector c).bind fun x =>
      some ({ q.1 with current_vector_entry := q.1.current_vector_entry - e * x }, q.2)
    else
      (sread 128 st.vector_buffer kk).bind fun v =>
      some ({ q.1 with current_vector_entry := q.1.current_vector_entry - e * v },
            q.2 ++ [Event.shortcut v (gread q.1.vector c)])
  else if c > q.1.current_row then
    (sread 128 st.element_buffer kk).bind fun e =>
    (gread q.1.vector c).bind fun x =>
    some ({ q.1 with current_vector_entry := q.1.current_vector_entry - e * x }, q.2)
  else if unit_diag = false ∧ c = q.1.current_row then
    (sread 128 st.element_buffer kk).bind fun e =>
    some ({ q.1 with diagonal_entry := e }, q.2)
  else some q

/-- Lines 225-233 (305-313) at position `p` with their record. -/
def backward_finalize_observed (unit_diag : Bool) (row_indices : List Nat) (p : Nat)
    (q : SolveStateD T × List (Event T)) : Option (SolveStateD T × List (Event T)) :=
  if p = q.1.next_row then
    (gwrite q.1.vector q.1.current_row
      (if unit_diag then q.1.current_vector_entry
        else q.1.current_vector_entry / q.1.diagonal_entry)).bind fun vec =>
    if q.1.current_row > 0 then
      (gread row_indices (usub q.1.current_row 1)).bind fun nr =>
      (gread vec (usub q.1.current_row 1)).bind fun cve =>
      some ({ q.1 with vector := vec, current_row := usub q.1.current_row 1,
                       next_row := nr, current_vector_entry := cve },
            q.2 ++ [Event.write q.1.current_row])
    else some ({ q.1 with vector := vec }, q.2 ++ [Event.write q.1.current_row])
  else some q

/-- Body of the loop over `k2` of a backward kernel (lines 215-234 and 293-314) with its
record. -/
def backward_step_observed (direct unit_diag : Bool) (row_indices : List Nat)
    (nnz B i : Nat) (st : Staging T) (k2 : Nat) (q : SolveStateD T × List (Event T)) :
    Option (SolveStateD T × List (Event T)) :=
  if uadd i (usub (usub B k2) 1) ≥ nnz then some q
  else
    (backward_substitute_observed direct unit_diag st (usub (usub B k2) 1) q).bind
      (backward_finalize_observed unit_diag row_indices (uadd i (usub (usub B k2) 1)))

/-- Lines 218-223 (296-303) for slot `kk` of the staging arrays, on the registers of
`csr_lu_backward_kernel`; with `unit_diag = true` the text of
`csr_unit_lu_backward_kernel`. -/
def backward_substitute (unit_diag : Bool) (st : Staging T) (kk : Nat)
    (s : SolveStateD T) : Option (SolveStateD T) :=
  (sread 128 st.col_index_buffer kk).bind fun c =>
  if c > s.row_at_window_start then
    (sread 128 st.element_buffer kk).bind fun e =>
    (sread 128 st.vector_buffer kk).bind fun v =>
    some { s with current_vector_entry := s.current_vector_entry - e * v }
  else if c > s.current_row then
    (sread 128 st.element_buffer kk).bind fun e =>
    (gread s.vector c).bind fun x =>
    some { s with current_vector_entry := s.current_vector_entry - e * x }
  else if unit_diag = false ∧ c = s.current_row then
    (sread 128 st.element_buffer kk).bind fun e =>
    some { s with diagonal_entry := e }
  else some s

/-- Lines 225-233 (305-313) at position `p`. -/
def backward_finalize (unit_diag : Bool) (row_indices : List Nat) (p : Nat)
    (s : SolveStateD T) : Option (SolveStateD T) :=
  if p = s.next_row then
    (gwrite s.vector s.current_row
      (if unit_diag then s.current_vector_entry
        else s.current_vector_entry / s.diagonal_entry)).bind fun vec =>
    if s.current_row > 0 then
      (gread row_indices (usub s.current_row 1)).bind fun nr =>
      (gread vec (usub s.current_row 1)).bind fun cve =>
      some { s with vector := vec, current_row := usub s.current_row 1,
                    next_row := nr, current_vector_entry := cve }
    else some { s with vector := vec }
  else some s

/-- Body of the loop over `k2` of a backward kernel on the registers of
`csr_lu_backward_kernel`. -/
def backward_step (unit_diag : Bool) (row_indices : List Nat) (nnz B i : Nat)
    (st : Staging T) (k2 : Nat) (s : SolveStateD T) : Option (SolveStateD T) :=
  if uadd i (usub (usub B k2) 1) ≥ nnz then some s
  else
    (backward_substitute unit_diag st (usub (usub B k2) 1) s).bind
      (backward_finalize unit_diag row_indices (uadd i (usub (usub B k2) 1)))

/-- One round of the loop `while (1)` of a backward kernel with its record. -/
def backward_window_observed (direct unit_diag : Bool)
    (row_indices column_indices : List Nat) (elements : List T) (nnz B i : Nat)
    (p : (Staging T × SolveStateD T) × List (Event T)) :
    Option ((Staging T × SolveStateD T) × List (Event T)) :=
  (load_backward column_indices elements p.1.2.vector nnz B i p.1.1).bind fun st =>
  (forCount (backward_step_observed direct unit_diag row_indices nnz B i st) B 0
      (p.1.2, p.2 ++ [Event.window])).bind fun q =>
  some ((st, { q.1 with row_at_window_start := q.1.current_row }), q.2)

/-- A backward kernel with its record. -/
def backward_kernel_observed (direct unit_diag : Bool) (B : Nat) (st0 : Staging T)
    (diag0 : T) (row_indices column_indices : List Nat) (elements vector : List T)
    (size : Nat) : Option (List T × List (Event T)) :=
  (gread row_indices size).bind fun nnz =>
  (gread vector (usub size 1)).bind fun cve =>
  (gread row_indices (usub size 1)).bind fun next_row =>
  (whileDown B (backward_window_observed direct unit_diag row_indices column_indices
        elements nnz B)
      (umul (usub nnz 1 / B) B + 1) (umul (usub nnz 1 / B) B)
      ((st0, { vector := vector, current_row := usub size 1,
               row_at_window_start := usub size 1,
               current_vector_entry := cve, next_row := next_row,
               diagonal_entry := diag0 }), [])).bind fun p =>
  some (p.1.2.vector, p.2)

/-- The kernel `csr_unit_lu_backward_kernel` with its record. -/
def csr_unit_lu_backward_kernel_observed (direct : Bool) (B : Nat) (st0 : Staging T)
    (row_indices column_indices : List Nat) (elements vector : List T) (size : Nat) :
    Option (List T × List (Event T)) :=
  backward_kernel_observed direct true B st0 0 row_indices column_indices elements vector
    size

/-- The kernel `csr_lu_backward_kernel` with its record. -/
def csr_lu_backward_kernel_observed (direct : Bool) (B : Nat) (st0 : Staging T) (diag0 : T)
    (row_indices column_indices : List Nat) (elements vector : List T) (size : Nat) :
    Option (List T × List (Event T)) :=
  backward_kernel_observed direct false B st0 diag0 row_indices column_indices elements
    vector size

/-! ## The windowed transposed kernels with the scatter restricted to the lanes below `nnz`

In the kernels of this section a lane at a position `i >= nnz` is left out of the
scatter and of nothing else: as in the source it stores the lookahead entry in
`row_index_lookahead[threadIdx.x]` and `size - 1` in `row_index_buffer[threadIdx.x]`,
from which `row_at_window_start` and `row_at_window_end` are read, and in the kernels
with a diagonal it takes part in the store of `vector[row]`. -/

/-- The scatter of `trans_scatter` in which a lane takes part only when its position
`pos tid` in the nonzero arrays is below `nnz`. -/
def trans_scatter_in_range (below : Bool) (nnz : Nat) (pos : Nat → Nat)
    (B loop_end i row : Nat) (regs : LaneRegs T) (result_entry : T) (v : List T) :
    Option (List T) :=
  forCount (fun tid acc =>
    if pos tid < nnz ∧ uadd i tid < loop_end ∧ regs.row_index tid = row ∧
        (if below then regs.col_index tid < row else regs.col_index tid > row) then
      (gread v (regs.col_index tid)).bind fun old =>
      gwrite acc (regs.col_index tid) (old - result_entry * regs.matrix_entry tid)
    else some acc) B 0 v

/-- The body `trans_unit_row` with the scatter `scatter`. -/
def trans_unit_row_with (scatter : Nat → LaneRegs T → T → List T → Option (List T))
    (regs : LaneRegs T) (row : Nat) (v : List T) : Option (List T) :=
  (gread v row).bind fun result_entry => scatter row regs result_entry v

/-- The body `trans_lu_row` with the scatter `scatter`. -/
def trans_lu_row_with (scatter : Nat → LaneRegs T → T → List T → Option (List T))
    (diagonal_entries : List T) (regs : LaneRegs T) (row : Nat) (v : List T) :
    Option (List T) :=
  (gread v row).bind fun x =>
  (gread diagonal_entries row).bind fun d =>
  (gwrite v row (x / d)).bind fun v1 =>
  scatter row regs (x / d) v1

/-- One round of the outer loop of a windowed transposed kernel: `prepare` is the part
up to the row loop and `rowf` the body of the row loop. -/
def trans_window_with (prepare : Nat → TransState T → Option (TransState T × LaneRegs T))
    (rowf : Nat → LaneRegs T → Nat → List T → Option (List T)) (i : Nat)
    (s : TransState T) : Option (TransState T) :=
  (prepare i s).bind fun q =>
  (forUpTo q.1.row_at_window_end (rowf i q.2)
      (q.1.row_at_window_end + 1) q.1.row_at_window_start q.1.vector).bind fun vec =>
  some { q.1 with vector := vec, row_at_window_start := q.1.row_at_window_end }

/-- A windowed transposed kernel built from `prepare` and `rowf`, which are given `nnz`
and `loop_end`. -/
def trans_kernel_with
    (prepare : Nat → Nat → Nat → TransState T → Option (TransState T × LaneRegs T))
    (rowf : Nat → Nat → Nat → LaneRegs T → Nat → List T → Option (List T))
    (B : Nat) (la0 rib0 : Nat → Nat) (row_indices : List Nat) (vector : List T)
    (size : Nat) : Option (List T) :=
  (gread row_indices size).bind fun nnz =>
  (forStride B (umul (uadd (usub nnz 1 / B) 1) B)
      (trans_window_with (prepare nnz (umul (uadd (usub nnz 1 / B) 1) B))
        (rowf nnz (umul (uadd (usub nnz 1 / B) 1) B)))
      (umul (uadd (usub nnz 1 / B) 1) B) 0
      { vector := vector, row_index_lookahead := la0, row_index_buffer := rib0,
        row_at_window_start := 0, row_at_window_end := 0 }).bind fun s =>
  some s.vector

/-- The kernel `csr_trans_unit_lu_forward_kernel` in which the lanes at a position
`i >= nnz` take no part in the scatter; the part `trans_forward_prepare`, with the stores
of these lanes to the two shared tables, is that of the source. -/
def csr_trans_unit_lu_forward_kernel_in_range (B : Nat) (la0 rib0 : Nat → Nat)
    (row_indices column_indices : List Nat) (elements vector : List T) (size : Nat) :
    Option (List T) :=
  trans_kernel_with
    (fun nnz loop_end =>
      trans_forward_prepare row_indices column_indices elements size nnz loop_end B)
    (fun nnz loop_end i =>
      trans_unit_row_with (trans_scatter_in_range false nnz (uadd i) B loop_end i))
    B la0 rib0 row_indices vector size

/-- The kernel `csr_trans_lu_forward_kernel` in which the lanes at a position `i >= nnz`
take no part in the scatter; the part `trans_forward_prepare` and the store of
`vector[row]` are those of the source. -/
def csr_trans_lu_forward_kernel_in_range (B : Nat) (la0 rib0 : Nat → Nat)
    (row_indices column_indices : List Nat) (elements diagonal_entries vector : List T)
    (size : Nat) : Option (List T) :=
  trans_kernel_with
    (fun nnz loop_end =>
      trans_forward_prepare row_indices column_indices elements size nnz loop_end B)
    (fun nnz loop_end i =>
      trans_lu_row_with (trans_scatter_in_range false nnz (uadd i) B loop_end i)
        diagonal_entries)
    B la0 rib0 row_indices vector size

/-- The kernel `csr_trans_unit_lu_backward_kernel` in which the lanes at a position
`i >= nnz` take no part in the scatter; the position of lane `tid` in round `i2` is
`(loop_end - (i2 + tid)) - 1`.  The part `trans_backward_prepare` is that of the
source. -/
def csr_trans_unit_lu_backward_kernel_in_range (B : Nat) (la0 rib0 : Nat → Nat)
    (row_indices column_indices : List Nat) (elements vector : List T) (size : Nat) :
    Option (List T) :=
  trans_kernel_with
    (fun nnz loop_end =>
      trans_backward_prepare row_indices column_indices elements size nnz loop_end B)
    (fun nnz loop_end i2 =>
      trans_unit_row_with (trans_scatter_in_range true nnz
        (fun tid => usub (usub loop_end (uadd i2 tid)) 1) B loop_end i2))
    B la0 rib0 row_indices vector size

/-- The kernel `csr_trans_lu_backward_kernel` in which the lanes at a position
`i >= nnz` take no part in the scatter; the part `trans_backward_prepare` and the store
of `vector[row]` are those of the source. -/
def csr_trans_lu_backward_kernel_in_range (B : Nat) (la0 rib0 : Nat → Nat)
    (row_indices column_indices : List Nat) (elements diagonal_entries vector : List T)
    (size : Nat) : Option (List T) :=
  trans_kernel_with
    (fun nnz loop_end =>
      trans_backward_prepare row_indices column_indices elements size nnz loop_end B)
    (fun nnz loop_end i2 =>
      trans_lu_row_with (trans_scatter_in_range true nnz
        (fun tid => usub (usub loop_end (uadd i2 tid)) 1) B loop_end i2)
        diagonal_entries)
    B la0 rib0 row_indices vector size

/-! ## Invariants of the observed runs -/

/-- Two runs of a forward kernel side by side before position `q` is finalized, in round
`w` counting from one: `a` with the record `ev` is the state of lane `0` in the first run
and `b` in the second.  `V` is the vector at the start of the round.  The runs agree on
everything but the accumulator, and they agree on the accumulator as long as a store of
it can still come. -/
structure ForwardPair (n nnz : Nat) (V : List T) (w q : Nat) (a : SolveState T)
    (ev : List (Event T)) (b : SolveState T) : Prop where
  len : a.vector.length = n
  row_le : a.current_row ≤ n
  start_le : a.row_at_window_start ≤ a.current_row
  next_le : a.current_row < n → a.next_row ≤ nnz
  kept : ∀ j, j < a.row_at_window_start → a.vector.getD j 0 = V.getD j 0
  same_vector : b.vector = a.vector
  same_row : b.current_row = a.current_row
  same_start : b.row_at_window_start = a.row_at_window_start
  same_next : b.next_row = a.next_row
  acc : a.current_vector_entry = b.current_vector_entry ∨ n ≤ a.current_row ∨
    a.next_row < q
  windows : windowCount ev = w
  increasing : List.Pairwise (fun r1 r2 => r1 < r2) (writtenRows ev)
  below : ∀ r, r ∈ writtenRows ev → r < a.current_row
  sound : ShortcutsSound ev

/-- The state `s` of lane `0` of a backward kernel with the record `ev` when the positions
`u` and above have been handled, after `wc` rounds have started.  `V` is the vector at
the start of the round. -/
structure BackwardObs (n : Nat) (V : List T) (wc u : Nat) (s : SolveStateD T)
    (ev : List (Event T)) : Prop where
  len : s.vector.length = n
  row_lt : s.current_row < n
  le_start : s.current_row ≤ s.row_at_window_start
  kept : ∀ j, s.row_at_window_start < j → s.vector.getD j 0 = V.getD j 0
  windows : windowCount ev = wc
  decreasing : List.Pairwise (fun r1 r2 => r1 > r2) (writtenRows ev)
  above : (∀ r, r ∈ writtenRows ev → s.current_row < r) ∨ u ≤ s.next_row
  sound : ShortcutsSound ev

/-! ## Matrix views and the product dispatch (`matrix_operations.hpp`)

`vcl_size_t` is `std::size_t`, an unsigned integer of 64 bits; its arithmetic is `zadd`,
`zmul`.  The argument `k` of the two diagonal functions is an `int` of 32 bits.  The four
functions that address a part of a matrix compute `mat_start` and `mat_stride` as
`vcl_size_t` and pass them to `av_kernel` as `unsigned int`. -/

/-- Sum of two `vcl_size_t`. -/
def zadd (a b : Nat) : Nat := (a + b) % 18446744073709551616

/-- Product of two `vcl_size_t`. -/
def zmul (a b : Nat) : Nat := (a * b) % 18446744073709551616

/-- The negation `-k` of an `int` (two's complement, 32 bits). -/
def ineg (k : Int) : Int := (-k + 2147483648) % 4294967296 - 2147483648

/-- The conversion `vcl_size_t(x)` of an `int`. -/
def to_size (x : Int) : Nat := (x % 18446744073709551616).toNat

/-- The conversion `static_cast<unsigned int>(x)` of a `vcl_size_t`. -/
def to_uint (x : Nat) : Nat := x % 4294967296

/-- What `viennacl::traits` and `row_major()` give for a matrix. -/
structure MatrixView where
  row_major : Bool
  start1 : Nat
  start2 : Nat
  stride1 : Nat
  stride2 : Nat
  internal_size1 : Nat
  internal_size2 : Nat

/-- The arguments `static_cast<unsigned int>(mat_start)` and
`static_cast<unsigned int>(mat_stride)` of the launch of `av_kernel` in
`matrix_diag_from_vector`, lines 334-364. -/
def matrix_diag_from_vector (mat : MatrixView) (k : Int) : Nat × Nat :=
  if mat.row_major then
    (to_uint (zadd (zadd (zmul (zadd mat.start1
        (zmul (if k < 0 then to_size (ineg k) else 0) mat.stride1)) mat.internal_size2)
        mat.start2) (zmul (if k < 0 then 0 else to_size k) mat.stride2)),
      to_uint (zadd (zmul mat.stride1 mat.internal_size2) mat.stride2))
  else
    (to_uint (zadd (zadd mat.start1
        (zmul (if k < 0 then to_size (ineg k) else 0) mat.stride1))
        (zmul (zadd mat.start2 (zmul (if k < 0 then 0 else to_size k) mat.stride2))
          mat.internal_size1)),
      to_uint (zadd (zmul mat.stride2 mat.internal_size1) mat.stride1))

/-- The arguments `static_cast<unsigned int>(mat_start)` and
`static_cast<unsigned int>(mat_stride)` of the launch of `av_kernel` in
`matrix_diag_to_vector`, lines 382-418. -/
def matrix_diag_to_vector (mat : MatrixView) (k : Int) : Nat × Nat :=
  if mat.row_major then
    (to_uint (zadd (zadd (zmul (zadd mat.start1
        (zmul (if k < 0 then to_size (ineg k) else 0) mat.stride1)) mat.internal_size2)
        mat.start2) (zmul (if k < 0 then 0 else to_size k) mat.stride2)),
      to_uint (zadd (zmul mat.stride1 mat.internal_size2) mat.stride2))
  else
    (to_uint (zadd (zadd mat.start1
        (zmul (if k < 0 then to_size (ineg k) else 0) mat.stride1))
        (zmul (zadd mat.start2 (zmul (if k < 0 then 0 else to_size k) mat.stride2))
          mat.internal_size1)),
      to_uint (zadd (zmul mat.stride2 mat.internal_size1) mat.stride1))

/-- The arguments `static_cast<unsigned int>(mat_start)` and
`static_cast<unsigned int>(mat_stride)` of the launch of `av_kernel` in `matrix_row`,
lines 429-451. -/
def matrix_row (mat : MatrixView) (i : Nat) : Nat × Nat :=
  if mat.row_major then
    (to_uint (zadd (zmul (zadd mat.start1 (zmul i mat.stride1)) mat.internal_size2)
        mat.start2),
      to_uint mat.stride2)
  else
    (to_uint (zadd (zadd mat.start1 (zmul i mat.stride1))
        (zmul mat.start2 mat.internal_size1)),
      to_uint (zmul mat.stride2 mat.internal_size1))

/-- The arguments `static_cast<unsigned int>(mat_start)` and
`static_cast<unsigned int>(mat_stride)` of the launch of `av_kernel` in `matrix_column`,
lines 462-484. -/
def matrix_column (mat : MatrixView) (j : Nat) : Nat × Nat :=
  if mat.row_major then
    (to_uint (zadd (zadd (zmul mat.start1 mat.internal_size2) mat.start2)
        (zmul j mat.stride2)),
      to_uint (zmul mat.stride2 mat.internal_size2))
  else
    (to_uint (zadd mat.start1
        (zmul (zadd mat.start2 (zmul j mat.stride2)) mat.internal_size1)),
      to_uint mat.stride2)

/-- The linear index of the element `(r, c)` of a matrix view. -/
def linear_index (mat : MatrixView) (r c : Nat) : Nat :=
  if mat.row_major then
    (mat.start1 + r * mat.stride1) * mat.internal_size2 + mat.start2 + c * mat.stride2
  else
    mat.start1 + r * mat.stride1 + (mat.start2 + c * mat.stride2) * mat.internal_size1

/-- The kernels launched by `detail::prod_slow_kernel`, lines 1514-2288, in the order of the
launches. -/
def prod_slow_kernel (row_major_C row_major_A row_major_B transposed_A transposed_B : Bool) :
    List String :=
  if !row_major_C && !row_major_A && !row_major_B && !transposed_A && !transposed_B then
    ["matrix_matrix_col_col_col_prod_AA_kernel"]
  else if !row_major_C && !row_major_A && !row_major_B && !transposed_A && transposed_B then
    ["matrix_matrix_col_col_col_prod_AT_kernel"]
  else if !row_major_C && !row_major_A && !row_major_B && transposed_A && !transposed_B then
    ["matrix_matrix_col_col_col_prod_TA_kernel"]
  else if !row_major_C && !row_major_A && !row_major_B && transposed_A && transposed_B then
    ["matrix_matrix_col_col_col_prod_TT_kernel"]
  else if !row_major_C && !row_major_A && row_major_B && !transposed_A && !transposed_B then
    ["matrix_matrix_col_col_row_prod_AA_kernel"]
  else if !row_major_C && !row_major_A && row_major_B && !transposed_A && transposed_B then
    ["matrix_matrix_col_col_row_prod_AT_kernel"]
  else if !row_major_C && !row_major_A && row_major_B && transposed_A && !transposed_B then
    ["matrix_matrix_col_col_row_prod_TA_kernel"]
  else if !row_major_C && !row_major_A && row_major_B && transposed_A && transposed_B then
    ["matrix_matrix_col_col_row_prod_TT_kernel"]
  else if !row_major_C && row_major_A && !row_major_B && !transposed_A && !transposed_B then
    ["matrix_matrix_col_row_col_prod_AA_kernel"]
  else if !row_major_C && row_major_A && !row_major_B && !transposed_A && transposed_B then
    ["matrix_matrix_col_row_col_prod_AT_kernel"]
  else if !row_major_C && row_major_A && !row_major_B && transposed_A && !transposed_B then
    ["matrix_matrix_col_row_col_prod_TA_kernel"]
  else if !row_major_C && row_major_A && !row_major_B && transposed_A && transposed_B then
    ["matrix_matrix_col_row_col_prod_TT_kernel"]
  else if !row_major_C && row_major_A && row_major_B && !transposed_A && !transposed_B then
    ["matrix_matrix_col_row_row_prod_AA_kernel"]
  else if !row_major_C && row_major_A && row_major_B && !transposed_A && transposed_B then
    ["matrix_matrix_col_row_row_prod_AT_kernel"]
  else if !row_major_C && row_major_A && row_major_B && transposed_A && !transposed_B then
    ["matrix_matrix_col_row_row_prod_TA_kernel"]
  else if !row_major_C && row_major_A && row_major_B && transposed_A && transposed_B then
    ["matrix_matrix_col_row_row_prod_TT_kernel"]
  else if row_major_C && !row_major_A && !row_major_B && !transposed_A && !transposed_B then
    ["matrix_matrix_row_col_col_prod_AA_kernel"]
  else if row_major_C && !row_major_A && !row_major_B && !transposed_A && transposed_B then
    ["matrix_matrix_row_col_col_prod_AT_kernel"]
  else if row_major_C && !row_major_A && !row_major_B && transposed_A && !transposed_B then
    ["matrix_matrix_row_col_col_prod_TA_kernel"]
  else if row_major_C && !row_major_A && !row_major_B && transposed_A && transposed_B then
    ["matrix_matrix_row_col_col_prod_TT_kernel"]
  else if row_major_C && !row_major_A && row_major_B && !transposed_A && !transposed_B then
    ["matrix_matrix_row_col_row_prod_AA_kernel"]
  else if row_major_C && !row_major_A && row_major_B && !transposed_A && transposed_B then
    ["matrix_matrix_row_col_row_prod_AT_kernel"]
  else if row_major_C && !row_major_A && row_major_B && transposed_A && !transposed_B then
    ["matrix_matrix_row_col_row_prod_TA_kernel"]
  else if row_major_C && !row_major_A && row_major_B && transposed_A && transposed_B then
    ["matrix_matrix_row_col_row_prod_TT_kernel"]
  else if row_major_C && row_major_A && !row_major_B && !transposed_A && !transposed_B then
    ["matrix_matrix_row_row_col_prod_AA_kernel"]
  else if row_major_C && row_major_A && !row_major_B && !transposed_A && transposed_B then
    ["matrix_matrix_row_row_col_prod_AT_kernel"]
  else if row_major_C && row_major_A && !row_major_B && transposed_A && !transposed_B then
    ["matrix_matrix_row_row_col_prod_TA_kernel"]
  else if row_major_C && row_major_A && !row_major_B && transposed_A && transposed_B then
    ["matrix_matrix_row_row_col_prod_TT_kernel"]
  else if row_major_C && row_major_A && row_major_B && !transposed_A && !transposed_B then
    ["matrix_matrix_row_row_row_prod_AA_kernel"]
  else if row_major_C && row_major_A && row_major_B && !transposed_A && transposed_B then
    ["matrix_matrix_row_row_row_prod_AT_kernel"]
  else if row_major_C && row_major_A && row_major_B && transposed_A && !transposed_B then
    ["matrix_matrix_row_row_row_prod_TA_kernel"]
  else if row_major_C && row_major_A && row_major_B && transposed_A && transposed_B then
    ["matrix_matrix_row_row_row_prod_TT_kernel"]
  else []
/-- The kernels launched by `detail::prod`, lines 2329-2358; the three sizes are
`size1(A)`, `size2(A)`, `size1(B)`. -/
def prod (size1_A size2_A size1_B : Nat)
    (row_major_C row_major_A row_major_B transposed_A transposed_B : Bool) : List String :=
  if size1_A < 64 ∨ size2_A < 64 ∨ size1_B < 64 then
    prod_slow_kernel row_major_C row_major_A row_major_B transposed_A transposed_B
  else
    prod_slow_kernel row_major_C row_major_A row_major_B transposed_A transposed_B

/-- The name `matrix_matrix_<C>_<A>_<B>_prod_<tA><tB>_kernel`. -/
def prod_kernel_name (row_major_C row_major_A row_major_B transposed_A transposed_B : Bool) :
    String :=
  "matrix_matrix_" ++ (if row_major_C then "row" else "col") ++ "_" ++
    (if row_major_A then "row" else "col") ++ "_" ++
    (if row_major_B then "row" else "col") ++ "_prod_" ++
    (if transposed_A then "T" else "A") ++ (if transposed_B then "T" else "A") ++ "_kernel"

/-! ## The frontier of a forward kernel below an empty row -/

/-- The state `s` of lane `0` of a forward kernel with the record `ev` before position `q`
is handled, when row `r` has no entry: the cursor has not passed `r`, and once it is at
`r` the boundary it waits for lies behind.  `b` is the vector at the start. -/
structure ForwardFrontier (n : Nat) (row_indices : List Nat) (b : List T) (r q : Nat)
    (s : SolveState T) (ev : List (Event T)) : Prop where
  len : s.vector.length = n
  row_le : s.current_row ≤ r
  next_eq : s.next_row = row_indices.getD (s.current_row + 1) 0
  stuck : s.current_row = r → s.next_row < q
  pending : ∀ j, s.current_row ≤ j → s.vector.getD j 0 = b.getD j 0
  below : ∀ w, w ∈ writtenRows ev → w < s.current_row

/-! ## The lanes that write a slot of the vector between two barriers -/

/-- The slots of `vector` that lane `tid` writes in one round of the loop over `row` of
`csr_trans_lu_forward_kernel`, lines 475-479 (with `below = true`: of
`csr_trans_lu_backward_kernel`, lines 640-644): `vector[row]`, written by every lane, and
`vector[col_index]` when the lane holds an entry of the row. -/
def trans_lu_row_writes (below : Bool) (loop_end i row : Nat) (regs : LaneRegs T)
    (tid : Nat) : List Nat :=
  if uadd i tid < loop_end then
    row :: (if regs.row_index tid = row ∧
        (if below then regs.col_index tid < row else regs.col_index tid > row) then
      [regs.col_index tid] else [])
  else []

/-- Body of the loop over `entry_index` of `csr_trans_lu_backward_kernel2`, lines 576-578,
keeping only the slot written. -/
def trans_entry2_writes (below : Bool) (column_indices : List Nat) (row entry_index : Nat)
    (log : List Nat) : Option (List Nat) :=
  (gread column_indices entry_index).bind fun col_index =>
  if (if below then col_index < row else col_index > row) then some (log ++ [col_index])
  else some log

/-- The slots of `vector` that lane `tid` of `csr_trans_lu_backward_kernel2` writes in the
round `row2` of the outer loop before the barrier of line 581 (lines 569-579). -/
def csr_trans_lu_backward_kernel2_writes (row_indices column_indices : List Nat)
    (size row2 tid : Nat) : Option (List Nat) :=
  (gread row_indices (usub (usub size row2) 1)).bind fun row_start =>
  (gread row_indices (uadd (usub (usub size row2) 1) 1)).bind fun row_stop =>
  forStride 1 row_stop
    (trans_entry2_writes true column_indices (usub (usub size row2) 1))
    row_stop (uadd row_start tid) []

/-- Between two barriers no slot is written by two lanes: `writes tid` are the slots that
lane `tid` writes. -/
def SingleWriter (B : Nat) (writes : Nat → List Nat) : Prop :=
  ∀ t1 t2 slot, t1 < B → t2 < B → t1 ≠ t2 → slot ∈ writes t1 → slot ∉ writes t2

/-! ## The transposed system -/

/-- Every index of the record is below `m`. -/
def ReadsBelow (m : Nat) (log : List Nat) : Prop :=
  ∀ j, j ∈ log → j < m

/-- Sequencing in a run with a record: after an access out of bounds nothing more is
done, and the record stays. -/
def then_logged {α β : Type} (x : Option α × List Nat)
    (f : α → List Nat → Option β × List Nat) : Option β × List Nat :=
  match x.1 with
  | none => (none, x.2)
  | some a => f a x.2

/-- A read of slot `i` of `column_indices` or of `elements`, entered in the record. -/
def gread_logged {α : Type} (a : List α) (i : Nat) (log : List Nat) :
    Option α × List Nat :=
  (gread a i, log ++ [i])

/-- The loop `forCount` with a record. -/
def forCount_logged {σ : Type} (body : Nat → σ → List Nat → Option σ × List Nat) :
    Nat → Nat → σ → List Nat → Option σ × List Nat
  | 0, _, s, log => (some s, log)
  | c + 1, k, s, log => then_logged (body k s log) (forCount_logged body c (k + 1))

/-- The loop `forStride` with a record. -/
def forStride_logged {σ : Type} (B loop_end : Nat)
    (body : Nat → σ → List Nat → Option σ × List Nat) :
    Nat → Nat → σ → List Nat → Option σ × List Nat
  | 0, i, s, log => (if i < loop_end then none else some s, log)
  | fuel + 1, i, s, log =>
    if i < loop_end then
      then_logged (body i s log) (forStride_logged B loop_end body fuel (uadd i B))
    else (some s, log)

/-- The loop `whileDown` with a record. -/
def whileDown_logged {σ : Type} (B : Nat) (body : Nat → σ → List Nat → Option σ × List Nat) :
    Nat → Nat → σ → List Nat → Option σ × List Nat
  | 0, _, _, log => (none, log)
  | fuel + 1, i, s, log =>
    then_logged (body i s log) fun s1 log1 =>
    if i < B then (some s1, log1) else whileDown_logged B body fuel (usub i B) s1 log1

/-- The load `load_lane` of one lane, lines 62-68, with the record of its reads of
`elements` (line 64) and of `column_indices` (line 65). -/
def load_lane_logged (column_indices : List Nat) (elements vector : List T) (nnz i tid : Nat)
    (st : Staging T) (log : List Nat) : Option (Staging T) × List Nat :=
  if i < nnz then
    then_logged (gread_logged elements i log) fun e log1 =>
    then_logged (swrite 128 st.element_buffer tid e, log1) fun eb log2 =>
    then_logged (gread_logged column_indices i log2) fun tmp log3 =>
    ((swrite 128 st.col_index_buffer tid tmp).bind fun cb =>
      (gread vector tmp).bind fun v =>
      (swrite 128 st.vector_buffer tid v).bind fun vb =>
      some { col_index_buffer := cb, element_buffer := eb, vector_buffer := vb }, log3)
  else (some st, log)

/-- The load phase `load_forward` with the record. -/
def load_forward_logged (column_indices : List Nat) (elements vector : List T)
    (nnz loop_end B i : Nat) (st : Staging T) (log : List Nat) :
    Option (Staging T) × List Nat :=
  forCount_logged (fun tid st1 log1 =>
    if uadd i tid < loop_end then
      load_lane_logged column_indices elements vector nnz (uadd i tid) tid st1 log1
    else (some st1, log1)) B 0 st log

/-- The load phase `load_backward` with the record. -/
def load_backward_logged (column_indices : List Nat) (elements vector : List T)
    (nnz B i : Nat) (st : Staging T) (log : List Nat) : Option (Staging T) × List Nat :=
  forCount_logged (fun tid st1 log1 =>
    load_lane_logged column_indices elements vector nnz (uadd i tid) tid st1 log1) B 0 st log

/-- One round `forward_round` of a forward kernel with the record: the work of lane `0`
after the load reads neither array. -/
def forward_round_logged (fin : Nat → T → Option T) (row_indices column_indices : List Nat)
    (elements : List T) (size nnz loop_end B i : Nat) (p : Staging T × SolveState T)
    (log : List Nat) : Option (Staging T × SolveState T) × List Nat :=
  then_logged (load_forward_logged column_indices elements p.2.vector nnz loop_end B i p.1
    log) fun st log1 =>
  ((forCount (fun k s => (forward_finalize fin row_indices size (uadd i k) s).bind
      (forward_substitute size st k)) B 0 p.2).bind fun s =>
    some (st, { s with row_at_window_start := s.current_row }), log1)

/-- A forward kernel with the record; `fin` is as in `forward_round`. -/
def forward_kernel_logged (fin : Nat → T → Option T) (B : Nat) (st0 : Staging T)
    (row_indices column_indices : List Nat) (elements vector : List T) (size : Nat) :
    Option (List T) × List Nat :=
  then_logged (gread row_indices size, []) fun nnz log =>
  then_logged (gread vector 0, log) fun cve log1 =>
  then_logged (gread row_indices 1, log1) fun next_row log2 =>
  then_logged (forStride_logged B (umul (uadd (nnz / B) 1) B)
      (forward_round_logged fin row_indices column_indices elements size nnz
        (umul (uadd (nnz / B) 1) B) B)
      (umul (uadd (nnz / B) 1) B) 0
      (st0, { vector := vector, current_row := 0, row_at_window_start := 0,
              current_vector_entry := cve, next_row := next_row }) log2) fun p log3 =>
  (some p.2.vector, log3)

/-- The kernel `csr_unit_lu_forward_kernel` with the record. -/
def csr_unit_lu_forward_kernel_logged (B : Nat) (st0 : Staging T)
    (row_indices column_indices : List Nat) (elements vector : List T) (size : Nat) :
    Option (List T) × List Nat :=
  forward_kernel_logged (fun _ v => some v) B st0 row_indices column_indices elements vector
    size

/-- The kernel `csr_lu_forward_kernel` with the record. -/
def csr_lu_forward_kernel_logged (B : Nat) (st0 : Staging T)
    (row_indices column_indices : List Nat) (elements diagonal_entries vector : List T)
    (size : Nat) : Option (List T) × List Nat :=
  forward_kernel_logged (fun r v => (gread diagonal_entries r).bind fun d => some (v / d))
    B st0 row_indices column_indices elements vector size

/-- One round `backward_round` of a backward kernel with the record. -/
def backward_round_logged {σ : Type} (vec : σ → List T) (setR : σ → σ)
    (stepf : Nat → Staging T → Nat → σ → Option σ) (column_indices : List Nat)
    (elements : List T) (nnz B i : Nat) (p : Staging T × σ) (log : List Nat) :
    Option (Staging T × σ) × List Nat :=
  then_logged (load_backward_logged column_indices elements (vec p.2) nnz B i p.1 log)
    fun st log1 =>
  ((forCount (stepf i st) B 0 p.2).bind fun s => some (st, setR s), log1)

/-- The kernel `csr_unit_lu_backward_kernel` with the record. -/
def csr_unit_lu_backward_kernel_logged (B : Nat) (st0 : Staging T)
    (row_indices column_indices : List Nat) (elements vector : List T) (size : Nat) :
    Option (List T) × List Nat :=
  then_logged (gread row_indices size, []) fun nnz log =>
  then_logged (gread vector (usub size 1), log) fun cve log1 =>
  then_logged (gread row_indices (usub size 1), log1) fun next_row log2 =>
  then_logged (whileDown_logged B
      (backward_round_logged (fun s : SolveState T => s.vector)
        (fun s => { s with row_at_window_start := s.current_row })
        (unit_backward_step row_indices nnz B) column_indices elements nnz B)
      (umul (usub nnz 1 / B) B + 1) (umul (usub nnz 1 / B) B)
      (st0, { vector := vector, current_row := usub size 1,
              row_at_window_start := usub size 1,
              current_vector_entry := cve, next_row := next_row }) log2) fun p log3 =>
  (some p.2.vector, log3)

/-- The kernel `csr_lu_backward_kernel` with the record. -/
def csr_lu_backward_kernel_logged (B : Nat) (st0 : Staging T) (diag0 : T)
    (row_indices column_indices : List Nat) (elements vector : List T) (size : Nat) :
    Option (List T) × List Nat :=
  then_logged (gread row_indices size, []) fun nnz log =>
  then_logged (gread vector (usub size 1), log) fun cve log1 =>
  then_logged (gread row_indices (usub size 1), log1) fun next_row log2 =>
  then_logged (whileDown_logged B
      (backward_round_logged (fun s : SolveStateD T => s.vector)
        (fun s => { s with row_at_window_start := s.current_row })
        (lu_backward_step row_indices nnz B) column_indices elements nnz B)
      (umul (usub nnz 1 / B) B + 1) (umul (usub nnz 1 / B) B)
      (st0, { vector := vector, current_row := usub size 1,
              row_at_window_start := usub size 1,
              current_vector_entry := cve, next_row := next_row,
              diagonal_entry := diag0 }) log2) fun p log3 =>
  (some p.2.vector, log3)

/-- The fetch `trans_forward_fetch` of one lane, lines 384-386, with the record of its
reads of `column_indices` (line 384) and of `elements` (line 385). -/
def trans_forward_fetch_logged (row_indices column_indices : List Nat) (elements : List T)
    (size nnz row_at_window_start i tid : Nat) (p : (Nat → Nat) × LaneRegs T)
    (log : List Nat) : Option ((Nat → Nat) × LaneRegs T) × List Nat :=
  then_logged (if i < nnz then gread_logged column_indices i log else (some 0, log))
    fun c log1 =>
  then_logged (if i < nnz then gread_logged elements i log1 else (some 0, log1))
    fun e log2 =>
  ((if uadd row_at_window_start tid < size then
        gread row_indices (uadd row_at_window_start tid)
      else some (usub size 1)).bind fun la =>
    (swrite 256 p.1 tid la).bind fun lookahead =>
    some (lookahead, { p.2 with col_index := Function.update p.2.col_index tid c,
                                matrix_entry := Function.update p.2.matrix_entry tid e }),
    log2)

/-- The part `trans_forward_prepare` of a round with the record: the second phase and the
two reads of `row_index_buffer` read neither array. -/
def trans_forward_prepare_logged (row_indices column_indices : List Nat) (elements : List T)
    (size nnz loop_end B i : Nat) (s : TransState T) (log : List Nat) :
    Option (TransState T × LaneRegs T) × List Nat :=
  then_logged (forCount_logged (fun tid p log1 =>
      if uadd i tid < loop_end then
        trans_forward_fetch_logged row_indices column_indices elements size nnz
          s.row_at_window_start (uadd i tid) tid p log1
      else (some p, log1)) B 0
    (s.row_index_lookahead,
      { row_index := fun _ => 0, col_index := fun _ => 0, matrix_entry := fun _ => 0 })
    log) fun p1 log1 =>
  ((forCount (fun tid p =>
      if uadd i tid < loop_end then
        trans_forward_rows p1.1 size nnz s.row_at_window_start (uadd i tid) tid p
      else some p) B 0 (s.row_index_buffer, p1.2)).bind fun p2 =>
    (sread 256 p2.1 0).bind fun ws =>
    (sread 256 p2.1 (usub B 1)).bind fun we =>
    some ({ s with row_index_lookahead := p1.1, row_index_buffer := p2.1,
                   row_at_window_start := ws, row_at_window_end := we }, p2.2), log1)

/-- The fetch `trans_backward_fetch` of one lane, lines 511-514, with the record of its
reads of `column_indices` (line 512) and of `elements` (line 513). -/
def trans_backward_fetch_logged (row_indices column_indices : List Nat) (elements : List T)
    (nnz loop_end B row_at_window_start i2 tid : Nat) (p : (Nat → Nat) × LaneRegs T)
    (log : List Nat) : Option ((Nat → Nat) × LaneRegs T) × List Nat :=
  then_logged (if usub (usub loop_end i2) 1 < nnz then
      gread_logged column_indices (usub (usub loop_end i2) 1) log else (some 0, log))
    fun c log1 =>
  then_logged (if usub (usub loop_end i2) 1 < nnz then
      gread_logged elements (usub (usub loop_end i2) 1) log1 else (some 0, log1))
    fun e log2 =>
  ((if row_at_window_start ≥ usub B tid then
        gread row_indices (usub row_at_window_start (usub (usub B tid) 1))
      else some 0).bind fun la =>
    (swrite 256 p.1 tid la).bind fun lookahead =>
    some (lookahead, { p.2 with col_index := Function.update p.2.col_index tid c,
                                matrix_entry := Function.update p.2.matrix_entry tid e }),
    log2)

/-- The part `trans_backward_prepare` of a round with the record. -/
def trans_backward_prepare_logged (row_indices column_indices : List Nat)
    (elements : List T) (size nnz loop_end B i2 : Nat) (s : TransState T) (log : List Nat) :
    Option (TransState T × LaneRegs T) × List Nat :=
  then_logged (forCount_logged (fun tid p log1 =>
      if uadd i2 tid < loop_end then
        trans_backward_fetch_logged row_indices column_indices elements nnz loop_end B
          s.row_at_window_start (uadd i2 tid) tid p log1
      else (some p, log1)) B 0
    (s.row_index_lookahead,
      { row_index := fun _ => 0, col_index := fun _ => 0, matrix_entry := fun _ => 0 })
    log) fun p1 log1 =>
  ((forCount (fun tid p =>
      if uadd i2 tid < loop_end then
        trans_backward_rows p1.1 size nnz loop_end B s.row_at_window_start (uadd i2 tid) tid p
      else some p) B 0 (s.row_index_buffer, p1.2)).bind fun p2 =>
    (sread 256 p2.1 0).bind fun ws =>
    (sread 256 p2.1 (usub B 1)).bind fun we =>
    some ({ s with row_index_lookahead := p1.1, row_index_buffer := p2.1,
                   row_at_window_start := ws, row_at_window_end := we }, p2.2), log1)

/-- One round `trans_window_with` of a windowed transposed kernel with the record: the
loop over `row` reads neither array. -/
def trans_window_with_logged
    (prepare : Nat → TransState T → List Nat → Option (TransState T × LaneRegs T) × List Nat)
    (rowf : Nat → LaneRegs T → Nat → List T → Option (List T)) (i : Nat)
    (s : TransState T) (log : List Nat) : Option (TransState T) × List Nat :=
  then_logged (prepare i s log) fun q log1 =>
  ((forUpTo q.1.row_at_window_end (rowf i q.2)
      (q.1.row_at_window_end + 1) q.1.row_at_window_start q.1.vector).bind fun vec =>
    some { q.1 with vector := vec, row_at_window_start := q.1.row_at_window_end }, log1)

/-- A windowed transposed kernel `trans_kernel_with` with the record. -/
def trans_kernel_with_logged
    (prepare : Nat → Nat → Nat → TransState T → List Nat →
      Option (TransState T × LaneRegs T) × List Nat)
    (rowf : Nat → Nat → Nat → LaneRegs T → Nat → List T → Option (List T))
    (B : Nat) (la0 rib0 : Nat → Nat) (row_indices : List Nat) (vector : List T)
    (size : Nat) : Option (List T) × List Nat :=
  then_logged (gread row_indices size, []) fun nnz log =>
  then_logged (forStride_logged B (umul (uadd (usub nnz 1 / B) 1) B)
      (trans_window_with_logged (prepare nnz (umul (uadd (usub nnz 1 / B) 1) B))
        (rowf nnz (umul (uadd (usub nnz 1 / B) 1) B)))
      (umul (uadd (usub nnz 1 / B) 1) B) 0
      { vector := vector, row_index_lookahead := la0, row_index_buffer := rib0,
        row_at_window_start := 0, row_at_window_end := 0 } log) fun s log1 =>
  (some s.vector, log1)

/-- The kernel `csr_trans_unit_lu_forward_kernel` with the record. -/
def csr_trans_unit_lu_forward_kernel_logged (B : Nat) (la0 rib0 : Nat → Nat)
    (row_indices column_indices : List Nat) (elements vector : List T) (size : Nat) :
    Option (List T) × List Nat :=
  trans_kernel_with_logged
    (fun nnz loop_end =>
      trans_forward_prepare_logged row_indices column_indices elements size nnz loop_end B)
    (fun _ loop_end i regs => trans_unit_row false B loop_end i regs)
    B la0 rib0 row_indices vector size

/-- The kernel `csr_trans_lu_forward_kernel` with the record. -/
def csr_trans_lu_forward_kernel_logged (B : Nat) (la0 rib0 : Nat → Nat)
    (row_indices column_indices : List Nat) (elements diagonal_entries vector : List T)
    (size : Nat) : Option (List T) × List Nat :=
  trans_kernel_with_logged
    (fun nnz loop_end =>
      trans_forward_prepare_logged row_indices column_indices elements size nnz loop_end B)
    (fun _ loop_end i regs => trans_lu_row false diagonal_entries B loop_end i regs)
    B la0 rib0 row_indices vector size

/-- The kernel `csr_trans_unit_lu_backward_kernel` with the record. -/
def csr_trans_unit_lu_backward_kernel_logged (B : Nat) (la0 rib0 : Nat → Nat)
    (row_indices column_indices : List Nat) (elements vector : List T) (size : Nat) :
    Option (List T) × List Nat :=
  trans_kernel_with_logged
    (fun nnz loop_end =>
      trans_backward_prepare_logged row_indices column_indices elements size nnz loop_end B)
    (fun _ loop_end i2 regs => trans_unit_row true B loop_end i2 regs)
    B la0 rib0 row_indices vector size

/-- The kernel `csr_trans_lu_backward_kernel` with the record. -/
def csr_trans_lu_backward_kernel_logged (B : Nat) (la0 rib0 : Nat → Nat)
    (row_indices column_indices : List Nat) (elements diagonal_entries vector : List T)
    (size : Nat) : Option (List T) × List Nat :=
  trans_kernel_with_logged
    (fun nnz loop_end =>
      trans_backward_prepare_logged row_indices column_indices elements size nnz loop_end B)
    (fun _ loop_end i2 regs => trans_lu_row true diagonal_entries B loop_end i2 regs)
    B la0 rib0 row_indices vector size

/-- The body `trans_entry2` of the loop over `entry_index`, lines 354-356 and 576-578,
with the record of its reads of `column_indices` and of `elements`. -/
def trans_entry2_logged (below : Bool) (column_indices : List Nat) (elements : List T)
    (row : Nat) (result_entry : T) (entry_index : Nat) (v : List T) (log : List Nat) :
    Option (List T) × List Nat :=
  then_logged (gread_logged column_indices entry_index log) fun col_index log1 =>
  if (if below then col_index < row else col_index > row) then
    then_logged (gread v col_index, log1) fun old log2 =>
    then_logged (gread_logged elements entry_index log2) fun e log3 =>
    (gwrite v col_index (old - result_entry * e), log3)
  else (some v, log1)

/-- The kernel `csr_trans_lu_forward_kernel2` with the record. -/
def csr_trans_lu_forward_kernel2_logged (B : Nat) (row_indices column_indices : List Nat)
    (elements vector : List T) (size : Nat) : Option (List T) × List Nat :=
  forCount_logged (fun row v log =>
    then_logged (gread v row, log) fun result_entry log1 =>
    then_logged (gread row_indices row, log1) fun row_start log2 =>
    then_logged (gread row_indices (uadd row 1), log2) fun row_stop log3 =>
    forCount_logged (fun tid acc log4 =>
      forStride_logged B row_stop
        (trans_entry2_logged false column_indices elements row result_entry)
        row_stop (uadd row_start tid) acc log4) B 0 v log3) size 0 vector []

/-- The kernel `csr_trans_lu_backward_kernel2` with the record. -/
def csr_trans_lu_backward_kernel2_logged (B : Nat) (row_indices column_indices : List Nat)
    (elements diagonal_entries vector : List T) (size : Nat) : Option (List T) × List Nat :=
  forCount_logged (fun row2 v log =>
    then_logged (gread v (usub (usub size row2) 1), log) fun x log1 =>
    then_logged (gread diagonal_entries (usub (usub size row2) 1), log1) fun d log2 =>
    then_logged (gread row_indices (usub (usub size row2) 1), log2) fun row_start log3 =>
    then_logged (gread row_indices (uadd (usub (usub size row2) 1) 1), log3)
      fun row_stop log4 =>
    then_logged (forCount_logged (fun tid acc log5 =>
      forStride_logged 1 row_stop
        (trans_entry2_logged true column_indices elements (usub (usub size row2) 1) (x / d))
        row_stop (uadd row_start tid) acc log5) B 0 v log4) fun v1 log6 =>
    (gwrite v1 (usub (usub size row2) 1) (x / d), log6)) size 0 vector []

/-! ## The windowed transposed kernels with the lanes beyond `nnz` left out

The definitions of this section are not taken from the source.  They say what a round
would be if the lanes whose position in the nonzero arrays is `nnz` or more did not
exist: such a lane stores nothing in `row_index_lookahead` and in `row_index_buffer` and
takes no part in the scatter.  The kernels of the source are compared with them. -/

/-- The part `trans_forward_prepare` of a round in which the lanes at a position
`i >= nnz` do nothing: the slots of these lanes in `row_index_lookahead` and in
`row_index_buffer` keep what they held. -/
def trans_forward_prepare_lanes_absent (row_indices column_indices : List Nat)
    (elements : List T) (size nnz loop_end B i : Nat) (s : TransState T) :
    Option (TransState T × LaneRegs T) :=
  (forCount (fun tid p =>
      if uadd i tid < loop_end ∧ uadd i tid < nnz then
        trans_forward_fetch row_indices column_indices elements size nnz
          s.row_at_window_start (uadd i tid) tid p
      else some p) B 0
    (s.row_index_lookahead,
      { row_index := fun _ => 0, col_index := fun _ => 0, matrix_entry := fun _ => 0 })).bind
  fun p1 =>
  (forCount (fun tid p =>
      if uadd i tid < loop_end ∧ uadd i tid < nnz then
        trans_forward_rows p1.1 size nnz s.row_at_window_start (uadd i tid) tid p
      else some p) B 0 (s.row_index_buffer, p1.2)).bind fun p2 =>
  (sread 256 p2.1 0).bind fun ws =>
  (sread 256 p2.1 (usub B 1)).bind fun we =>
  some ({ s with row_index_lookahead := p1.1, row_index_buffer := p2.1,
                 row_at_window_start := ws, row_at_window_end := we }, p2.2)

/-- The part `trans_backward_prepare` of a round in which the lanes at a position
`(loop_end - (i2 + tid)) - 1 >= nnz` do nothing. -/
def trans_backward_prepare_lanes_absent (row_indices column_indices : List Nat)
    (elements : List T) (size nnz loop_end B i2 : Nat) (s : TransState T) :
    Option (TransState T × LaneRegs T) :=
  (forCount (fun tid p =>
      if uadd i2 tid < loop_end ∧ usub (usub loop_end (uadd i2 tid)) 1 < nnz then
        trans_backward_fetch row_indices column_indices elements nnz loop_end B
          s.row_at_window_start (uadd i2 tid) tid p
      else some p) B 0
    (s.row_index_lookahead,
      { row_index := fun _ => 0, col_index := fun _ => 0, matrix_entry := fun _ => 0 })).bind
  fun p1 =>
  (forCount (fun tid p =>
      if uadd i2 tid < loop_end ∧ usub (usub loop_end (uadd i2 tid)) 1 < nnz then
        trans_backward_rows p1.1 size nnz loop_end B s.row_at_window_start (uadd i2 tid) tid p
      else some p) B 0 (s.row_index_buffer, p1.2)).bind fun p2 =>
  (sread 256 p2.1 0).bind fun ws =>
  (sread 256 p2.1 (usub B 1)).bind fun we =>
  some ({ s with row_index_lookahead := p1.1, row_index_buffer := p2.1,
                 row_at_window_start := ws, row_at_window_end := we }, p2.2)

/-- The kernel `csr_trans_unit_lu_forward_kernel` without the lanes at a position
`i >= nnz`. -/
def csr_trans_unit_lu_forward_kernel_lanes_absent (B : Nat) (la0 rib0 : Nat → Nat)
    (row_indices column_indices : List Nat) (elements vector : List T) (size : Nat) :
    Option (List T) :=
  trans_kernel_with
    (fun nnz loop_end =>
      trans_forward_prepare_lanes_absent row_indices column_indices elements size nnz
        loop_end B)
    (fun nnz loop_end i =>
      trans_unit_row_with (trans_scatter_in_range false nnz (uadd i) B loop_end i))
    B la0 rib0 row_indices vector size

/-- The kernel `csr_trans_lu_forward_kernel` without the lanes at a position
`i >= nnz`. -/
def csr_trans_lu_forward_kernel_lanes_absent (B : Nat) (la0 rib0 : Nat → Nat)
    (row_indices column_indices : List Nat) (elements diagonal_entries vector : List T)
    (size : Nat) : Option (List T) :=
  trans_kernel_with
    (fun nnz loop_end =>
      trans_forward_prepare_lanes_absent row_indices column_indices elements size nnz
        loop_end B)
    (fun nnz loop_end i =>
      trans_lu_row_with (trans_scatter_in_range false nnz (uadd i) B loop_end i)
        diagonal_entries)
    B la0 rib0 row_indices vector size

/-- The kernel `csr_trans_unit_lu_backward_kernel` without the lanes at a position
`i >= nnz`. -/
def csr_trans_unit_lu_backward_kernel_lanes_absent (B : Nat) (la0 rib0 : Nat → Nat)
    (row_indices column_indices : List Nat) (elements vector : List T) (size : Nat) :
    Option (List T) :=
  trans_kernel_with
    (fun nnz loop_end =>
      trans_backward_prepare_lanes_absent row_indices column_indices elements size nnz
        loop_end B)
    (fun nnz loop_end i2 =>
      trans_unit_row_with (trans_scatter_in_range true nnz
        (fun tid => usub (usub loop_end (uadd i2 tid)) 1) B loop_end i2))
    B la0 rib0 row_indices vector size

/-- The kernel `csr_trans_lu_backward_kernel` without the lanes at a position
`i >= nnz`. -/
def csr_trans_lu_backward_kernel_lanes_absent (B : Nat) (la0 rib0 : Nat → Nat)
    (row_indices column_indices : List Nat) (elements diagonal_entries vector : List T)
    (size : Nat) : Option (List T) :=
  trans_kernel_with
    (fun nnz loop_end =>
      trans_backward_prepare_lanes_absent row_indices column_indices elements size nnz
        loop_end B)
    (fun nnz loop_end i2 =>
      trans_lu_row_with (trans_scatter_in_range true nnz
        (fun tid => usub (usub loop_end (uadd i2 tid)) 1) B loop_end i2)
        diagonal_entries)
    B la0 rib0 row_indices vector size

/-! ## The non-transposed kernels entry by entry

The definitions of this section are not taken from the source.  They are the plain
sequential substitution with which the runs of the non-transposed kernels are compared:
the positions of the nonzero arrays are handled one after the other, every entry is read
from `column_indices` and `elements` in global memory and every solution entry from
`vector`, and there are no windows and no staging arrays. -/

/-- The registers of lane `0` without `row_at_window_start`. -/
def forget_window (s : SolveState T) : SolveState T :=
  { s with row_at_window_start := 0 }

/-- The registers of lane `0` without `row_at_window_start` and the accumulator. -/
def forget_accumulator (s : SolveState T) : SolveState T :=
  { s with row_at_window_start := 0, current_vector_entry := 0 }

/-- The registers of lane `0` of a backward kernel without `row_at_window_start`. -/
def forget_window_d (s : SolveStateD T) : SolveStateD T :=
  { s with row_at_window_start := 0 }

/-- The substitution of lines 89-95 (158-164) for the entry at position `p`, read from
global memory. -/
def forward_entry (column_indices : List Nat) (elements : List T) (size p : Nat)
    (s : SolveState T) : Option (SolveState T) :=
  if s.current_row < size then
    (gread column_indices p).bind fun c =>
    if c < s.current_row then
      (gread elements p).bind fun e =>
      (gread s.vector c).bind fun x =>
      some { s with current_vector_entry := s.current_vector_entry - e * x }
    else some s
  else some s

/-- Position `p` of the sequential forward substitution: the store of lines 78-87
(147-156) when a row ends at `p`, then the entry at `p` when there is one. -/
def forward_position (fin : Nat → T → Option T) (row_indices column_indices : List Nat)
    (elements : List T) (size nnz p : Nat) (s : SolveState T) : Option (SolveState T) :=
  (forward_finalize fin row_indices size p s).bind fun s1 =>
  if p < nnz then forward_entry column_indices elements size p s1 else some s1

/-- The sequential forward substitution over the positions `0, ..., nnz`; `fin r v` is the
value stored to `vector[r]` when the accumulator is `v`. -/
def forward_sequential (fin : Nat → T → Option T) (row_indices column_indices : List Nat)
    (elements vector : List T) (size : Nat) : Option (List T) :=
  (gread row_indices size).bind fun nnz =>
  (gread vector 0).bind fun cve =>
  (gread row_indices 1).bind fun next_row =>
  (forCount (forward_position fin row_indices column_indices elements size nnz) (nnz + 1) 0
      { vector := vector, current_row := 0, row_at_window_start := 0,
        current_vector_entry := cve, next_row := next_row }).bind fun s =>
  some s.vector

/-- The substitution of lines 218-223 (296-303) for the entry at position `p`, read from
global memory. -/
def backward_entry (unit_diag : Bool) (column_indices : List Nat) (elements : List T)
    (p : Nat) (s : SolveStateD T) : Option (SolveStateD T) :=
  (gread column_indices p).bind fun c =>
  if c > s.current_row then
    (gread elements p).bind fun e =>
    (gread s.vector c).bind fun x =>
    some { s with current_vector_entry := s.current_vector_entry - e * x }
  else if unit_diag = false ∧ c = s.current_row then
    (gread elements p).bind fun e =>
    some { s with diagonal_entry := e }
  else some s

/-- Position `p` of the sequential backward substitution: the entry at `p`, then the
store of lines 225-233 (305-313) when a row starts at `p`. -/
def backward_position (unit_diag : Bool) (row_indices column_indices : List Nat)
    (elements : List T) (p : Nat) (s : SolveStateD T) : Option (SolveStateD T) :=
  (backward_entry unit_diag column_indices elements p s).bind
    (backward_finalize unit_diag row_indices p)

/-- The sequential backward substitution over the positions `nnz - 1, ..., 0`. -/
def backward_sequential (unit_diag : Bool) (diag0 : T)
    (row_indices column_indices : List Nat) (elements vector : List T) (size : Nat) :
    Option (List T) :=
  (gread row_indices size).bind fun nnz =>
  (gread vector (usub size 1)).bind fun cve =>
  (gread row_indices (usub size 1)).bind fun next_row =>
  (forCount (fun j s =>
        backward_position unit_diag row_indices column_indices elements (nnz - 1 - j) s)
      nnz 0
      { vector := vector, current_row := usub size 1, row_at_window_start := 0,
        current_vector_entry := cve, next_row := next_row,
        diagonal_entry := diag0 }).bind fun s =>
  some s.vector

/-- The state `s` of lane `0` of a forward kernel when the positions below `p` have been
handled, against the sequential substitution from `s0`: up to position `nnz` the
registers are those of the sequential substitution after `p` positions, and beyond it
the vector, `current_row` and `next_row` are those it ends with. -/
def ForwardAt (fin : Nat → T → Option T) (row_indices column_indices : List Nat)
    (elements : List T) (size nnz : Nat) (s0 : SolveState T) (p : Nat)
    (s : SolveState T) : Prop :=
  s.vector.length = size ∧
  (s.current_row < size → s.next_row ≤ nnz) ∧
  (p ≤ nnz →
    forCount (forward_position fin row_indices column_indices elements size nnz) p 0 s0 =
      some (forget_window s)) ∧
  (nnz < p → ∃ r,
    forCount (forward_position fin row_indices column_indices elements size nnz)
      (nnz + 1) 0 s0 = some r ∧ forget_accumulator s = forget_accumulator r)

/-- The state `s` of lane `0` of a backward kernel when the positions `u` and above have
been handled, against the sequential substitution from `s0`. -/
def BackwardAt (unit_diag : Bool) (row_indices column_indices : List Nat)
    (elements : List T) (size nnz : Nat) (s0 : SolveStateD T) (u : Nat)
    (s : SolveStateD T) : Prop :=
  s.vector.length = size ∧
  s.current_row ≤ s.row_at_window_start ∧
  forCount (fun j s1 =>
      backward_position unit_diag row_indices column_indices elements (nnz - 1 - j) s1)
    (nnz - u) 0 s0 = some (forget_window_d s)

/-! ## Memory and loops: basic facts -/

theorem gread_of_lt {α : Type} (a : List α) (i : Nat) (d : α) (h : i < a.length) :
    gread a i = some (a.getD i d) := by
  simp [gread, List.getD_eq_getElem?_getD, List.getElem?_eq_getElem h]

theorem gwrite_of_lt {α : Type} (a : List α) (i : Nat) (v : α) (h : i < a.length) :
    gwrite a i v = some (a.set i v) := by
  simp [gwrite, h]

theorem sread_of_lt {α : Type} (cap : Nat) (buf : Nat → α) (i : Nat) (h : i < cap) :
    sread cap buf i = some (buf i) := by
  simp [sread, h]

theorem swrite_of_lt {α : Type} (cap : Nat) (buf : Nat → α) (i : Nat) (v : α) (h : i < cap) :
    swrite cap buf i v = some (Function.update buf i v) := by
  simp [swrite, h]

theorem getD_set_self {α : Type} (a : List α) (i : Nat) (v d : α) (h : i < a.length) :
    (a.set i v).getD i d = v := by
  simp [List.getD_eq_getElem?_getD, List.getElem?_set, h]

theorem getD_set_of_ne {α : Type} (a : List α) (i j : Nat) (v d : α) (h : i ≠ j) :
    (a.set i v).getD j d = a.getD j d := by
  simp [List.getD_eq_getElem?_getD, List.getElem?_set, h]

theorem uadd_of_lt (a b : Nat) (h : a + b < 4294967296) : uadd a b = a + b := by
  unfold uadd; omega

theorem usub_of_le (a b : Nat) (h : b ≤ a) (ha : a < 4294967296) : usub a b = a - b := by
  unfold usub; omega

theorem umul_of_lt (a b : Nat) (h : a * b < 4294967296) : umul a b = a * b := by
  unfold umul; exact Nat.mod_eq_of_lt h

/-- Invariant rule for `forCount`. -/
theorem forCount_inv {σ : Type} (body : Nat → σ → Option σ) (P : Nat → σ → Prop) :
    ∀ (c k : Nat) (s : σ), P k s →
      (∀ j s1, k ≤ j → j < k + c → P j s1 → ∃ s2, body j s1 = some s2 ∧ P (j + 1) s2) →
      ∃ s2, forCount body c k s = some s2 ∧ P (k + c) s2 := by
  intro c
  induction c with
  | zero => intro k s h0 _; exact ⟨s, rfl, by simpa using h0⟩
  | succ c ih =>
    intro k s h0 hstep
    obtain ⟨s1, hs1, hP1⟩ := hstep k s (le_refl k) (by omega) h0
    obtain ⟨s2, hs2, hP2⟩ := ih (k + 1) s1 hP1 (fun j s3 hj1 hj2 hP =>
      hstep j s3 (by omega) (by omega) hP)
    refine ⟨s2, ?_, ?_⟩
    · simp [forCount, hs1, hs2]
    · have : k + 1 + c = k + (c + 1) := by omega
      rw [← this]; exact hP2

/-- Invariant rule for `forStride` when `loop_end` is `m` strides. -/
theorem forStride_inv {σ : Type} (B m : Nat) (body : Nat → σ → Option σ)
    (Q : Nat → σ → Prop) (hB : 1 ≤ B) (hfit : m * B < 4294967296)
    (hbody : ∀ w s, w < m → Q w s → ∃ s1, body (w * B) s = some s1 ∧ Q (w + 1) s1) :
    ∀ (fuel w : Nat) (s : σ), w ≤ m → m - w ≤ fuel → Q w s →
      ∃ s1, forStride B (m * B) body fuel (w * B) s = some s1 ∧ Q m s1 := by
  intro fuel
  induction fuel with
  | zero =>
    intro w s hw hf hQ
    have hwm : w = m := by omega
    subst hwm
    exact ⟨s, by simp [forStride], hQ⟩
  | succ fuel ih =>
    intro w s hw hf hQ
    by_cases hwm : w = m
    · subst hwm
      exact ⟨s, by simp [forStride], hQ⟩
    · have hlt : w < m := by omega
      have h1 : w * B < m * B := Nat.mul_lt_mul_of_pos_right hlt (by omega)
      obtain ⟨s1, hs1, hQ1⟩ := hbody w s hlt hQ
      have h2 : (w + 1) * B ≤ m * B := Nat.mul_le_mul_right B (by omega)
      have h3 : uadd (w * B) B = (w + 1) * B := by
        rw [uadd_of_lt _ _ (by rw [Nat.add_mul] at h2; omega), Nat.add_mul]; omega
      obtain ⟨s2, hs2, hQ2⟩ := ih (w + 1) s1 (by omega) (by omega) hQ1
      exact ⟨s2, by simp [forStride, h1, hs1, h3, hs2], hQ2⟩

/-- Invariant rule for `whileDown` started at `m` strides: `Q (w + 1)` holds before the
round with counter `w * B` and `Q w` after it. -/
theorem whileDown_inv {σ : Type} (B m : Nat) (body : Nat → σ → Option σ)
    (Q : Nat → σ → Prop) (hB : 1 ≤ B) (hfit : m * B < 4294967296)
    (hbody : ∀ w s, w ≤ m → Q (w + 1) s → ∃ s1, body (w * B) s = some s1 ∧ Q w s1) :
    ∀ (fuel w : Nat) (s : σ), w ≤ m → w < fuel → Q (w + 1) s →
      ∃ s1, whileDown B body fuel (w * B) s = some s1 ∧ Q 0 s1 := by
  intro fuel
  induction fuel with
  | zero => intro w s _ hf _; omega
  | succ fuel ih =>
    intro w s hw hf hQ
    obtain ⟨s1, hs1, hQ1⟩ := hbody w s hw hQ
    by_cases hw0 : w = 0
    · subst hw0
      refine ⟨s1, ?_, hQ1⟩
      have : 0 * B < B := by omega
      simp only [whileDown, hs1, Option.some_bind, this, if_true]
    · have hwB : w * B ≤ m * B := Nat.mul_le_mul_right B hw
      have h1 : B ≤ w * B := Nat.le_mul_of_pos_left B (by omega)
      have h2 : usub (w * B) B = (w - 1) * B := by
        rw [usub_of_le _ _ h1 (by omega), Nat.sub_mul, Nat.one_mul]
      have h3 : w - 1 + 1 = w := by omega
      obtain ⟨s2, hs2, hQ2⟩ := ih (w - 1) s1 (by omega) (by omega) (by rw [h3]; exact hQ1)
      refine ⟨s2, ?_, hQ2⟩
      have : ¬ w * B < B := by omega
      simp only [whileDown, hs1, Option.some_bind, this, if_false, h2, hs2]

/-! ## The load phase -/

theorem load_lane_spec (column_indices : List Nat) (elements v : List T) (nnz i tid : Nat)
    (st : Staging T) (htid : tid < 128) (hc : column_indices.length = nnz)
    (he : elements.length = nnz)
    (hv : ∀ q, q < nnz → column_indices.getD q 0 < v.length) :
    ∃ st2, load_lane column_indices elements v nnz i tid st = some st2 ∧
      (∀ k, k ≠ tid → st2.col_index_buffer k = st.col_index_buffer k ∧
        st2.element_buffer k = st.element_buffer k ∧
        st2.vector_buffer k = st.vector_buffer k) ∧
      (i < nnz → st2.col_index_buffer tid = column_indices.getD i 0 ∧
        st2.element_buffer tid = elements.getD i 0 ∧
        st2.vector_buffer tid = v.getD (column_indices.getD i 0) 0) := by
  by_cases hi : i < nnz
  · refine ⟨{ col_index_buffer := Function.update st.col_index_buffer tid
                (column_indices.getD i 0),
              element_buffer := Function.update st.element_buffer tid (elements.getD i 0),
              vector_buffer := Function.update st.vector_buffer tid
                (v.getD (column_indices.getD i 0) 0) }, ?_, ?_, ?_⟩
    · simp only [load_lane, hi, if_true]
      rw [gread_of_lt elements i 0 (by omega), Option.some_bind,
        swrite_of_lt _ _ _ _ htid, Option.some_bind,
        gread_of_lt column_indices i 0 (by omega), Option.some_bind,
        swrite_of_lt _ _ _ _ htid, Option.some_bind,
        gread_of_lt v _ 0 (hv i hi), Option.some_bind,
        swrite_of_lt _ _ _ _ htid, Option.some_bind]
    · intro k hk
      simp [Function.update_noteq hk]
    · intro _
      simp
  · exact ⟨st, by simp [load_lane, hi], fun _ _ => ⟨rfl, rfl, rfl⟩, fun h => absurd h hi⟩

theorem load_forward_spec (column_indices : List Nat) (elements v : List T)
    (nnz loop_end B i0 : Nat) (st : Staging T) (hB : B ≤ 128)
    (hend : i0 + B ≤ loop_end) (hfit : loop_end < 4294967296)
    (hc : column_indices.length = nnz) (he : elements.length = nnz)
    (hv : ∀ q, q < nnz → column_indices.getD q 0 < v.length) :
    ∃ st2, load_forward column_indices elements v nnz loop_end B i0 st = some st2 ∧
      Loaded column_indices elements v nnz i0 B st2 := by
  have h := forCount_inv
    (fun tid st1 =>
      if uadd i0 tid < loop_end then
        load_lane column_indices elements v nnz (uadd i0 tid) tid st1
      else some st1)
    (fun t st1 => ∀ k, k < t → i0 + k < nnz →
      st1.col_index_buffer k = column_indices.getD (i0 + k) 0 ∧
      st1.element_buffer k = elements.getD (i0 + k) 0 ∧
      st1.vector_buffer k = v.getD (column_indices.getD (i0 + k) 0) 0)
    B 0 st (fun k hk => absurd hk (Nat.not_lt_zero k))
    (by
      intro j st1 _ hj hP
      have hu : uadd i0 j = i0 + j := uadd_of_lt _ _ (by omega)
      have hlt : i0 + j < loop_end := by omega
      obtain ⟨st2, h2, hne, heq⟩ := load_lane_spec column_indices elements v nnz (i0 + j) j
        st1 (by omega) hc he hv
      refine ⟨st2, by simp only [hu, hlt, if_true]; exact h2, ?_⟩
      intro k hk hin
      by_cases hkj : k = j
      · subst hkj; exact heq hin
      · obtain ⟨a1, a2, a3⟩ := hne k hkj
        obtain ⟨b1, b2, b3⟩ := hP k (by omega) hin
        exact ⟨a1.trans b1, a2.trans b2, a3.trans b3⟩)
  obtain ⟨st2, h2, hP⟩ := h
  refine ⟨st2, h2, ?_⟩
  intro k hk hin
  exact hP k (by omega) hin

theorem load_backward_spec (column_indices : List Nat) (elements v : List T)
    (nnz B i0 : Nat) (st : Staging T) (hB : B ≤ 128)
    (hfit : i0 + B < 4294967296)
    (hc : column_indices.length = nnz) (he : elements.length = nnz)
    (hv : ∀ q, q < nnz → column_indices.getD q 0 < v.length) :
    ∃ st2, load_backward column_indices elements v nnz B i0 st = some st2 ∧
      Loaded column_indices elements v nnz i0 B st2 := by
  have h := forCount_inv
    (fun tid st1 => load_lane column_indices elements v nnz (uadd i0 tid) tid st1)
    (fun t st1 => ∀ k, k < t → i0 + k < nnz →
      st1.col_index_buffer k = column_indices.getD (i0 + k) 0 ∧
      st1.element_buffer k = elements.getD (i0 + k) 0 ∧
      st1.vector_buffer k = v.getD (column_indices.getD (i0 + k) 0) 0)
    B 0 st (fun k hk => absurd hk (Nat.not_lt_zero k))
    (by
      intro j st1 _ hj hP
      have hu : uadd i0 j = i0 + j := uadd_of_lt _ _ (by omega)
      obtain ⟨st2, h2, hne, heq⟩ := load_lane_spec column_indices elements v nnz (i0 + j) j
        st1 (by omega) hc he hv
      refine ⟨st2, by simp only [hu]; exact h2, ?_⟩
      intro k hk hin
      by_cases hkj : k = j
      · subst hkj; exact heq hin
      · obtain ⟨a1, a2, a3⟩ := hne k hkj
        obtain ⟨b1, b2, b3⟩ := hP k (by omega) hin
        exact ⟨a1.trans b1, a2.trans b2, a3.trans b3⟩)
  obtain ⟨st2, h2, hP⟩ := h
  refine ⟨st2, h2, ?_⟩
  intro k hk hin
  exact hP k (by omega) hin

/-! ## Facts on well-formed inputs and on the partial sums -/

omit [Field T] in
theorem WellFormedCSR.mono_le {n : Nat} {ro col : List Nat} {el : List T}
    (h : WellFormedCSR n ro col el) :
    ∀ (r2 r1 : Nat), r1 ≤ r2 → r2 ≤ n → ro.getD r1 0 ≤ ro.getD r2 0 := by
  intro r2
  induction r2 with
  | zero => intro r1 h1 _; have : r1 = 0 := by omega
            subst this; exact le_refl _
  | succ r2 ih =>
    intro r1 h1 h2
    by_cases hr : r1 = r2 + 1
    · subst hr; exact le_refl _
    · exact le_trans (ih r1 (by omega) (by omega)) (h.rows_mono r2 (by omega))

omit [Field T] in
theorem ForwardInput.rows_ge_fwd {n B : Nat} {ro col : List Nat} {el b : List T}
    (H : ForwardInput n B ro col el b) :
    ∀ r, 1 ≤ r → r ≤ n → r ≤ ro.getD r 0 + 1 := by
  intro r
  induction r with
  | zero => intro h; omega
  | succ r ih =>
    intro _ h2
    by_cases hr : r = 0
    · subst hr; omega
    · have h3 := ih (by omega) (by omega)
      have h4 := H.rows r (by omega) (by omega)
      omega

omit [Field T] in
theorem ForwardInput.n_lt_fwd {n B : Nat} {ro col : List Nat} {el b : List T}
    (H : ForwardInput n B ro col el b) : n < 4294967296 := by
  have h1 := H.rows_ge_fwd n H.n_pos (le_refl n)
  have h2 := H.fit
  have h3 := H.B_pos
  omega

omit [Field T] in
theorem BackwardInput.rows_ge_bwd {n B : Nat} {ro col : List Nat} {el b : List T}
    (H : BackwardInput n B ro col el b) :
    ∀ r, 1 ≤ r → r ≤ n → r ≤ ro.getD r 0 + 1 := by
  intro r
  induction r with
  | zero => intro h; omega
  | succ r ih =>
    intro _ h2
    by_cases hr : r = 0
    · subst hr; omega
    · have h3 := ih (by omega) (by omega)
      have h4 := H.rows r (by omega) (by omega)
      omega

omit [Field T] in
theorem BackwardInput.n_lt_bwd {n B : Nat} {ro col : List Nat} {el b : List T}
    (H : BackwardInput n B ro col el b) : n < 4294967296 := by
  have h1 := H.rows_ge_bwd n H.n_pos (le_refl n)
  have h2 := H.fit
  have h3 := H.B_pos
  omega

theorem lowerPart_congr (ro col : List Nat) (el x y : List T) (r hi : Nat)
    (h : ∀ c, c < r → x.getD c 0 = y.getD c 0) :
    lowerPart ro col el x r hi = lowerPart ro col el y r hi := by
  unfold lowerPart
  apply Finset.sum_congr rfl
  intro q _
  by_cases hq : col.getD q 0 < r
  · simp only [hq, if_true, h _ hq]
  · simp only [hq, if_false]

theorem lowerPart_succ (ro col : List Nat) (el x : List T) (r p : Nat)
    (h : ro.getD r 0 ≤ p) :
    lowerPart ro col el x r (p + 1) = lowerPart ro col el x r p +
      (if col.getD p 0 < r then el.getD p 0 * x.getD (col.getD p 0) 0 else 0) := by
  unfold lowerPart
  rw [Finset.sum_Ico_succ_top h]

theorem lowerPart_self (ro col : List Nat) (el x : List T) (r : Nat) :
    lowerPart ro col el x r (ro.getD r 0) = 0 := by
  unfold lowerPart
  simp

theorem lowerSum_eq_lowerPart (ro col : List Nat) (el x : List T) (i : Nat) :
    lowerSum ro col el x i = lowerPart ro col el x i (ro.getD (i + 1) 0) := by
  unfold lowerSum lowerPart
  rw [Finset.sum_filter]

/-! ## The forward kernels: one position -/

theorem forward_finalize_spec {n B : Nat} {ro col : List Nat} {el b : List T}
    (H : ForwardInput n B ro col el b) (fin : Nat → T → Option T) (finv : Nat → T → T)
    (hfin : ∀ r v, r < n → fin r v = some (finv r v)) (p : Nat) (s : SolveState T)
    (hinv : ForwardInv n ro col el b finv p s) :
    ∃ s1, forward_finalize fin ro n p s = some s1 ∧
      s1.row_at_window_start = s.row_at_window_start ∧
      s.current_row ≤ s1.current_row ∧
      (∀ j, j < s.current_row → s1.vector.getD j 0 = s.vector.getD j 0) ∧
      ForwardMid n ro col el b finv p s1 := by
  have hn32 := H.n_lt_fwd
  by_cases hc : s.current_row < n ∧ p = s.next_row
  · obtain ⟨hlt, hp⟩ := hc
    have hnext := hinv.next hlt
    have hw := gwrite_of_lt s.vector s.current_row
      (finv s.current_row s.current_vector_entry) (by rw [hinv.len]; exact hlt)
    have hu1 : uadd s.current_row 1 = s.current_row + 1 := uadd_of_lt _ _ (by omega)
    have hsame : ∀ j, j < s.current_row →
        (s.vector.set s.current_row (finv s.current_row s.current_vector_entry)).getD j 0 =
          s.vector.getD j 0 := fun j hj => getD_set_of_ne _ _ _ _ _ (by omega)
    have hsolved : ∀ j, j < s.current_row + 1 →
        (s.vector.set s.current_row (finv s.current_row s.current_vector_entry)).getD j 0 =
        finv j (b.getD j 0 - lowerPart ro col el
          (s.vector.set s.current_row (finv s.current_row s.current_vector_entry)) j
          (ro.getD (j + 1) 0)) := by
      intro j hj
      by_cases hjc : j = s.current_row
      · subst hjc
        rw [getD_set_self _ _ _ _ (by rw [hinv.len]; exact hlt),
          lowerPart_congr ro col el _ s.vector _ _ hsame, hinv.acc hlt, hp, hnext]
      · have hj2 : j < s.current_row := by omega
        rw [hsame j hj2, hinv.solved j hj2]
        congr 2
        exact (lowerPart_congr ro col el _ s.vector _ _
          (fun c hc => getD_set_of_ne _ _ _ _ _ (by omega))).symm
    have hpend : ∀ j, s.current_row + 1 ≤ j → j < n →
        (s.vector.set s.current_row (finv s.current_row s.current_vector_entry)).getD j 0 =
          b.getD j 0 := by
      intro j hj1 hj2
      rw [getD_set_of_ne _ _ _ _ _ (by omega)]
      exact hinv.pending j (by omega) hj2
    by_cases hlast : s.current_row + 1 < n
    · have hu2 : uadd (s.current_row + 1) 1 = s.current_row + 2 := uadd_of_lt _ _ (by omega)
      have hr1 := gread_of_lt ro (s.current_row + 2) 0 (by rw [H.wf.rows_len]; omega)
      have hr2 := gread_of_lt
        (s.vector.set s.current_row (finv s.current_row s.current_vector_entry))
        (s.current_row + 1) 0 (by rw [List.length_set, hinv.len]; exact hlast)
      refine ⟨{ s with
          vector := s.vector.set s.current_row (finv s.current_row s.current_vector_entry),
          current_row := s.current_row + 1,
          next_row := ro.getD (s.current_row + 2) 0,
          current_vector_entry := b.getD (s.current_row + 1) 0 }, ?_, rfl, ?_, ?_, ?_⟩
      · simp only [forward_finalize, hlt, hp, and_self, if_true, hfin _ _ hlt,
          Option.some_bind, hw, hu1, hlast, hu2, hr1, hr2]
        rw [hpend _ (le_refl _) hlast]
      · show s.current_row ≤ s.current_row + 1
        omega
      · exact hsame
      · have hpe : p = ro.getD (s.current_row + 1) 0 := hp.trans hnext
        exact {
          len := by simp [hinv.len]
          row_le := by show s.current_row + 1 ≤ n; omega
          solved := hsolved
          pending := hpend
          next := fun _ => rfl
          lo := fun _ => by show ro.getD (s.current_row + 1) 0 ≤ p; omega
          hi := fun _ => by
            show p < ro.getD (s.current_row + 1 + 1) 0
            have := H.rows (s.current_row + 1) (by omega) hlast
            omega
          acc := fun _ => by
            show b.getD (s.current_row + 1) 0 = b.getD (s.current_row + 1) 0 -
              lowerPart ro col el _ (s.current_row + 1) p
            rw [hpe, lowerPart_self, sub_zero]
          done := fun h => by
            have : s.current_row + 1 = n := h
            omega }
    · have hcn : s.current_row + 1 = n := by omega
      refine ⟨{ s with
          vector := s.vector.set s.current_row (finv s.current_row s.current_vector_entry),
          current_row := s.current_row + 1 }, ?_, rfl, ?_, ?_, ?_⟩
      · simp only [forward_finalize, hlt, hp, and_self, if_true, hfin _ _ hlt,
          Option.some_bind, hw, hu1, hlast, if_false]
      · show s.current_row ≤ s.current_row + 1
        omega
      · exact hsame
      · exact {
          len := by simp [hinv.len]
          row_le := by show s.current_row + 1 ≤ n; omega
          solved := hsolved
          pending := hpend
          next := fun h => by
            have : s.current_row + 1 < n := h
            omega
          lo := fun h => by
            have : s.current_row + 1 < n := h
            omega
          hi := fun h => by
            have : s.current_row + 1 < n := h
            omega
          acc := fun h => by
            have : s.current_row + 1 < n := h
            omega
          done := fun _ => by
            rw [← hcn, ← hnext, ← hp] }
  · refine ⟨s, by simp only [forward_finalize, hc, if_false], rfl, le_refl _,
      fun _ _ => rfl, ?_⟩
    exact {
      len := hinv.len
      row_le := hinv.row_le
      solved := hinv.solved
      pending := hinv.pending
      next := hinv.next
      lo := hinv.lo
      hi := fun h => by
        have h1 := hinv.hi h
        have h2 := hinv.next h
        have h3 : p ≠ s.next_row := fun e => hc ⟨h, e⟩
        omega
      acc := hinv.acc
      done := fun h => le_of_lt (hinv.done h) }

theorem ForwardMid.advance {n : Nat} {ro col : List Nat} {el b : List T}
    {finv : Nat → T → T} {p : Nat} {s1 s2 : SolveState T}
    (hmid : ForwardMid n ro col el b finv p s1)
    (hvec : s2.vector = s1.vector) (hrow : s2.current_row = s1.current_row)
    (hnext : s2.next_row = s1.next_row)
    (hacc : s1.current_row < n → s2.current_vector_entry = s1.current_vector_entry -
      (if col.getD p 0 < s1.current_row then
        el.getD p 0 * s1.vector.getD (col.getD p 0) 0 else 0)) :
    ForwardInv n ro col el b finv (p + 1) s2 where
  len := by rw [hvec]; exact hmid.len
  row_le := by rw [hrow]; exact hmid.row_le
  solved := by rw [hvec, hrow]; exact hmid.solved
  pending := by rw [hvec, hrow]; exact hmid.pending
  next := by rw [hrow, hnext]; exact hmid.next
  lo := by
    rw [hrow]; intro h
    have := hmid.lo h
    omega
  hi := by
    rw [hrow]; intro h
    have := hmid.hi h
    omega
  acc := by
    rw [hrow, hvec]; intro h
    rw [hacc h, hmid.acc h, lowerPart_succ ro col el s1.vector _ p (hmid.lo h)]
    ring
  done := by
    rw [hrow]; intro h
    have := hmid.done h
    omega

theorem forward_substitute_spec {n B : Nat} {ro col : List Nat} {el b : List T}
    (H : ForwardInput n B ro col el b) (finv : Nat → T → T) (i0 k : Nat) (st : Staging T)
    (V : List T) (s1 : SolveState T) (hk : k < B)
    (hload : Loaded col el V (ro.getD n 0) i0 B st)
    (hmid : ForwardMid n ro col el b finv (i0 + k) s1)
    (hV : ∀ j, j < s1.row_at_window_start → s1.vector.getD j 0 = V.getD j 0) :
    ∃ s2, forward_substitute n st k s1 = some s2 ∧ s2.vector = s1.vector ∧
      s2.current_row = s1.current_row ∧
      s2.row_at_window_start = s1.row_at_window_start ∧
      ForwardInv n ro col el b finv (i0 + k + 1) s2 := by
  have hk128 : k < 128 := lt_of_lt_of_le hk H.B_le
  by_cases hlt : s1.current_row < n
  · have hp : i0 + k < ro.getD n 0 :=
      lt_of_lt_of_le (hmid.hi hlt) (H.wf.mono_le n (s1.current_row + 1) (by omega) (le_refl n))
    obtain ⟨hc, he, hv⟩ := hload k hk hp
    have hcn : col.getD (i0 + k) 0 < n :=
      H.wf.cols_lt (i0 + k) (by rw [H.wf.cols_len]; exact hp)
    by_cases h1 : col.getD (i0 + k) 0 < s1.current_row
    · by_cases h2 : col.getD (i0 + k) 0 < s1.row_at_window_start
      · refine ⟨{ s1 with current_vector_entry := s1.current_vector_entry -
            st.element_buffer k * st.vector_buffer k }, ?_, rfl, rfl, rfl, ?_⟩
        · simp only [forward_substitute, hlt, if_true, sread_of_lt _ _ _ hk128,
            Option.some_bind, hc, h1, h2]
        · refine hmid.advance ?_ ?_ ?_ ?_ <;> try rfl
          intro _
          show s1.current_vector_entry - st.element_buffer k * st.vector_buffer k = _
          rw [if_pos h1, he, hv, hV _ h2]
      · refine ⟨{ s1 with current_vector_entry := s1.current_vector_entry -
            st.element_buffer k * s1.vector.getD (col.getD (i0 + k) 0) 0 }, ?_, rfl, rfl,
            rfl, ?_⟩
        · simp only [forward_substitute, hlt, if_true, sread_of_lt _ _ _ hk128,
            Option.some_bind, hc, h1, h2, if_false,
            gread_of_lt s1.vector _ 0 (by rw [hmid.len]; exact hcn)]
        · refine hmid.advance ?_ ?_ ?_ ?_ <;> try rfl
          intro _
          show s1.current_vector_entry -
            st.element_buffer k * s1.vector.getD (col.getD (i0 + k) 0) 0 = _
          rw [if_pos h1, he]
    · refine ⟨s1, ?_, rfl, rfl, rfl, ?_⟩
      · simp only [forward_substitute, hlt, if_true, sread_of_lt _ _ _ hk128,
          Option.some_bind, hc, h1, if_false]
      · refine hmid.advance ?_ ?_ ?_ ?_ <;> try rfl
        intro _
        rw [if_neg h1, sub_zero]
  · refine ⟨s1, by simp only [forward_substitute, hlt, if_false], rfl, rfl, rfl, ?_⟩
    exact hmid.advance rfl rfl rfl (fun h => absurd h hlt)

/-- One position of a forward kernel: the invariant moves from `i0 + k` to `i0 + k + 1`. -/
theorem forward_step_spec {n B : Nat} {ro col : List Nat} {el b : List T}
    (H : ForwardInput n B ro col el b) (fin : Nat → T → Option T) (finv : Nat → T → T)
    (hfin : ∀ r v, r < n → fin r v = some (finv r v)) (i0 k : Nat) (st : Staging T)
    (V : List T) (s : SolveState T) (hk : k < B) (hi0 : i0 ≤ ro.getD n 0)
    (hload : Loaded col el V (ro.getD n 0) i0 B st)
    (hinv : ForwardInv n ro col el b finv (i0 + k) s)
    (hR : s.row_at_window_start ≤ s.current_row)
    (hV : ∀ j, j < s.row_at_window_start → s.vector.getD j 0 = V.getD j 0) :
    ∃ s2, (forward_finalize fin ro n (uadd i0 k) s).bind (forward_substitute n st k) =
        some s2 ∧
      ForwardInv n ro col el b finv (i0 + k + 1) s2 ∧
      s2.row_at_window_start = s.row_at_window_start ∧
      s2.row_at_window_start ≤ s2.current_row ∧
      (∀ j, j < s2.row_at_window_start → s2.vector.getD j 0 = V.getD j 0) := by
  have hu : uadd i0 k = i0 + k := uadd_of_lt _ _ (by have := H.fit; omega)
  obtain ⟨s1, h1, hr1, hc1, hv1, hmid⟩ := forward_finalize_spec H fin finv hfin (i0 + k) s hinv
  obtain ⟨s2, h2, hvec, hrow, hr2, hinv2⟩ := forward_substitute_spec H finv i0 k st V s1 hk
    hload hmid (fun j hj => (hv1 j (by omega)).trans (hV j (by omega)))
  refine ⟨s2, by rw [hu, h1, Option.some_bind, h2], hinv2, by omega, by omega, ?_⟩
  intro j hj
  rw [hvec, hv1 j (by omega)]
  exact hV j (by omega)

/-! ## The forward kernels: one window and the whole run -/

theorem forward_round_spec {n B : Nat} {ro col : List Nat} {el b : List T}
    (H : ForwardInput n B ro col el b) (fin : Nat → T → Option T) (finv : Nat → T → T)
    (hfin : ∀ r v, r < n → fin r v = some (finv r v)) (w : Nat)
    (hw : w < ro.getD n 0 / B + 1) (p : Staging T × SolveState T)
    (hinv : ForwardInv n ro col el b finv (w * B) p.2)
    (hR : p.2.row_at_window_start = p.2.current_row) :
    ∃ p2, forward_round fin ro col el n (ro.getD n 0) ((ro.getD n 0 / B + 1) * B) B (w * B) p
        = some p2 ∧
      ForwardInv n ro col el b finv ((w + 1) * B) p2.2 ∧
      p2.2.row_at_window_start = p2.2.current_row := by
  have hB := H.B_pos
  have hdiv : ro.getD n 0 / B * B ≤ ro.getD n 0 := Nat.div_mul_le_self _ _
  have hend : (ro.getD n 0 / B + 1) * B ≤ ro.getD n 0 + B := by
    rw [Nat.add_mul]; omega
  have hwB : w * B ≤ ro.getD n 0 / B * B := Nat.mul_le_mul_right B (by omega)
  have hw1 : (w + 1) * B ≤ (ro.getD n 0 / B + 1) * B := Nat.mul_le_mul_right B (by omega)
  have hw2 : (w + 1) * B = w * B + B := by rw [Nat.add_mul]; omega
  obtain ⟨st, hst, hload⟩ := load_forward_spec col el p.2.vector (ro.getD n 0)
    ((ro.getD n 0 / B + 1) * B) B (w * B) p.1 H.B_le (by omega)
    (by have := H.fit; omega) H.wf.cols_len H.wf.elems_len
    (fun q hq => by rw [hinv.len]; exact H.wf.cols_lt q (by rw [H.wf.cols_len]; exact hq))
  obtain ⟨s, hs, hP, hr, hc, _⟩ := forCount_inv
    (fun k s => (forward_finalize fin ro n (uadd (w * B) k) s).bind
      (forward_substitute n st k))
    (fun k s => ForwardInv n ro col el b finv (w * B + k) s ∧
      s.row_at_window_start = p.2.row_at_window_start ∧
      s.row_at_window_start ≤ s.current_row ∧
      ∀ j, j < s.row_at_window_start → s.vector.getD j 0 = p.2.vector.getD j 0)
    B 0 p.2 ⟨hinv, rfl, by omega, fun _ _ => rfl⟩
    (by
      intro k s1 _ hk ⟨h1, h2, h3, h4⟩
      obtain ⟨s2, e, g1, g2, g3, g4⟩ := forward_step_spec H fin finv hfin (w * B) k st
        p.2.vector s1 (by omega) (by omega) hload h1 h3 h4
      exact ⟨s2, e, g1, by omega, g3, g4⟩)
  refine ⟨(st, { s with row_at_window_start := s.current_row }), ?_, ?_, rfl⟩
  · simp only [forward_round, hst, Option.some_bind, hs]
  · rw [hw2]
    have hP2 : ForwardInv n ro col el b finv (w * B + B) s := by
      have : w * B + (0 + B) = w * B + B := by omega
      rw [← this]; exact hP
    exact ⟨hP2.len, hP2.row_le, hP2.solved, hP2.pending, hP2.next, hP2.lo, hP2.hi, hP2.acc,
      hP2.done⟩

/-- The run of a forward kernel on a `ForwardInput`: it ends, and every row `i` of the
vector it leaves has the value `finv i (b_i - lowerSum i)`. -/
theorem forward_run_spec {n B : Nat} {ro col : List Nat} {el b : List T}
    (H : ForwardInput n B ro col el b) (fin : Nat → T → Option T) (finv : Nat → T → T)
    (hfin : ∀ r v, r < n → fin r v = some (finv r v)) (st0 : Staging T) :
    ∃ p, forStride B (umul (uadd (ro.getD n 0 / B) 1) B)
        (forward_round fin ro col el n (ro.getD n 0) (umul (uadd (ro.getD n 0 / B) 1) B) B)
        (umul (uadd (ro.getD n 0 / B) 1) B) 0
        (st0, { vector := b, current_row := 0, row_at_window_start := 0,
                current_vector_entry := b.getD 0 0, next_row := ro.getD 1 0 }) = some p ∧
      p.2.vector.length = n ∧
      ∀ i, i < n → p.2.vector.getD i 0 =
        finv i (b.getD i 0 - lowerSum ro col el p.2.vector i) := by
  have hB := H.B_pos
  have hdiv : ro.getD n 0 / B * B ≤ ro.getD n 0 := Nat.div_mul_le_self _ _
  have hend : (ro.getD n 0 / B + 1) * B ≤ ro.getD n 0 + B := by
    rw [Nat.add_mul]; omega
  have hfit := H.fit
  have hdivle : ro.getD n 0 / B ≤ ro.getD n 0 := Nat.div_le_self _ _
  have hle : umul (uadd (ro.getD n 0 / B) 1) B = (ro.getD n 0 / B + 1) * B := by
    rw [uadd_of_lt _ _ (by omega), umul_of_lt _ _ (by omega)]
  rw [hle]
  have hgt : ro.getD n 0 < (ro.getD n 0 / B + 1) * B := by
    have := Nat.lt_div_mul_add (a := ro.getD n 0) (b := B) (by omega)
    rw [Nat.add_mul]; omega
  have hm : ro.getD n 0 / B + 1 ≤ (ro.getD n 0 / B + 1) * B :=
    Nat.le_mul_of_pos_right _ (by omega)
  obtain ⟨p, hp, hQ, _⟩ := forStride_inv B (ro.getD n 0 / B + 1)
    (forward_round fin ro col el n (ro.getD n 0) ((ro.getD n 0 / B + 1) * B) B)
    (fun w p => ForwardInv n ro col el b finv (w * B) p.2 ∧
      p.2.row_at_window_start = p.2.current_row)
    hB (by omega)
    (fun w p hw hQ => forward_round_spec H fin finv hfin w hw p hQ.1 hQ.2)
    ((ro.getD n 0 / B + 1) * B) 0
    (st0, { vector := b, current_row := 0, row_at_window_start := 0,
            current_vector_entry := b.getD 0 0, next_row := ro.getD 1 0 })
    (Nat.zero_le _) (by rw [Nat.sub_zero]; exact hm)
    ⟨{ len := H.b_len
       row_le := Nat.zero_le n
       solved := fun j hj => absurd hj (Nat.not_lt_zero j)
       pending := fun _ _ _ => rfl
       next := fun _ => rfl
       lo := fun _ => by
        show ro.getD 0 0 ≤ 0 * B
        rw [H.wf.rows_zero]; omega
       hi := fun _ => by
        show 0 * B ≤ ro.getD (0 + 1) 0
        omega
       acc := fun _ => by
        show b.getD 0 0 = b.getD 0 0 - lowerPart ro col el b 0 (0 * B)
        unfold lowerPart
        rw [H.wf.rows_zero, Nat.zero_mul, Finset.Ico_self, Finset.sum_empty, sub_zero]
       done := fun h => by
        have : 0 = n := h
        have := H.n_pos
        omega }, rfl⟩
  rw [Nat.zero_mul] at hp
  refine ⟨p, hp, hQ.len, ?_⟩
  have hrow : p.2.current_row = n := by
    by_contra hne
    have hlt : p.2.current_row < n := lt_of_le_of_ne hQ.row_le hne
    have h1 := hQ.hi hlt
    have h2 := H.wf.mono_le n (p.2.current_row + 1) (by omega) (le_refl n)
    omega
  intro i hi
  rw [lowerSum_eq_lowerPart]
  exact hQ.solved i (by omega)

/-! ## The forward kernels are instances of `forward_round` -/

theorem unit_forward_window_eq (ro col : List Nat) (el : List T) (size nnz loop_end B : Nat) :
    unit_forward_window ro col el size nnz loop_end B =
      forward_round (fun _ v => some v) ro col el size nnz loop_end B := by
  funext i p
  rfl

theorem lu_forward_step_eq (ro : List Nat) (d : List T) (size i : Nat) (st : Staging T) :
    lu_forward_step ro d size i st =
      fun k s => (forward_finalize (fun r v => (gread d r).bind fun dd => some (v / dd))
        ro size (uadd i k) s).bind (forward_substitute size st k) := by
  funext k s
  unfold lu_forward_step forward_finalize forward_substitute
  by_cases hc : s.current_row < size ∧ uadd i k = s.next_row
  · simp only [hc, and_self, if_true]
    cases gread d s.current_row with
    | none => rfl
    | some dd => rfl
  · simp only [hc, if_false]

theorem lu_forward_window_eq (ro col : List Nat) (el d : List T) (size nnz loop_end B : Nat) :
    lu_forward_window ro col el d size nnz loop_end B =
      forward_round (fun r v => (gread d r).bind fun dd => some (v / dd))
        ro col el size nnz loop_end B := by
  funext i p
  unfold lu_forward_window forward_round
  simp only [lu_forward_step_eq]

/-- The product of a unit lower-triangular matrix with a solution of the forward
recurrence is the right-hand side. -/
theorem unitLower_rowSum (n : Nat) (ro col : List Nat) (el b x : List T)
    (hL : UnitLower n ro col el) (i : Nat) (hi : i < n)
    (hx : x.getD i 0 = b.getD i 0 - lowerSum ro col el x i) :
    rowSum ro col el x i = b.getD i 0 := by
  obtain ⟨htri, hdiag⟩ := hL i hi
  have hsplit := Finset.sum_filter_add_sum_filter_not
    (Finset.Ico (ro.getD i 0) (ro.getD (i + 1) 0)) (fun q => col.getD q 0 < i)
    (fun q => el.getD q 0 * x.getD (col.getD q 0) 0)
  have hfil : (Finset.Ico (ro.getD i 0) (ro.getD (i + 1) 0)).filter
      (fun q => ¬ col.getD q 0 < i) =
      (Finset.Ico (ro.getD i 0) (ro.getD (i + 1) 0)).filter (fun q => col.getD q 0 = i) := by
    apply Finset.filter_congr
    intro q hq
    rw [Finset.mem_Ico] at hq
    have := htri q hq.1 hq.2
    omega
  have hd : ∑ q ∈ (Finset.Ico (ro.getD i 0) (ro.getD (i + 1) 0)).filter
      (fun q => col.getD q 0 = i), el.getD q 0 * x.getD (col.getD q 0) 0 = x.getD i 0 := by
    have : ∑ q ∈ (Finset.Ico (ro.getD i 0) (ro.getD (i + 1) 0)).filter
        (fun q => col.getD q 0 = i), el.getD q 0 * x.getD (col.getD q 0) 0 =
        ∑ q ∈ (Finset.Ico (ro.getD i 0) (ro.getD (i + 1) 0)).filter
        (fun q => col.getD q 0 = i), el.getD q 0 * x.getD i 0 := by
      apply Finset.sum_congr rfl
      intro q hq
      rw [(Finset.mem_filter.mp hq).2]
    rw [this, ← Finset.sum_mul, hdiag, one_mul]
  unfold rowSum
  rw [← hsplit, hfil, hd, hx]
  unfold lowerSum
  ring

/-! ## The forward kernels on a `ForwardInput` -/

theorem csr_unit_lu_forward_kernel_run {n B : Nat} {ro col : List Nat} {el b : List T}
    (H : ForwardInput n B ro col el b) (st0 : Staging T) :
    ∃ x, csr_unit_lu_forward_kernel B st0 ro col el b n = some x ∧ x.length = n ∧
      ∀ i, i < n → x.getD i 0 = b.getD i 0 - lowerSum ro col el x i := by
  obtain ⟨p, hp, hlen, hx⟩ := forward_run_spec H (fun _ v => some v) (fun _ v => v)
    (fun _ _ _ => rfl) st0
  have hn := H.n_pos
  have hb := H.b_len
  refine ⟨p.2.vector, ?_, hlen, hx⟩
  unfold csr_unit_lu_forward_kernel
  rw [gread_of_lt ro n 0 (by rw [H.wf.rows_len]; omega), Option.some_bind,
    gread_of_lt b 0 0 (by omega), Option.some_bind,
    gread_of_lt ro 1 0 (by rw [H.wf.rows_len]; omega), Option.some_bind,
    unit_forward_window_eq, hp, Option.some_bind]

theorem csr_lu_forward_kernel_run {n B : Nat} {ro col : List Nat} {el b : List T}
    (H : ForwardInput n B ro col el b) (d : List T) (hd : d.length = n) (st0 : Staging T) :
    ∃ x, csr_lu_forward_kernel B st0 ro col el d b n = some x ∧ x.length = n ∧
      ∀ i, i < n → x.getD i 0 = (b.getD i 0 - lowerSum ro col el x i) / d.getD i 0 := by
  obtain ⟨p, hp, hlen, hx⟩ := forward_run_spec H
    (fun r v => (gread d r).bind fun dd => some (v / dd))
    (fun r v => v / d.getD r 0)
    (fun r v hr => by
      show (gread d r).bind (fun dd => some (v / dd)) = _
      rw [gread_of_lt d r 0 (by omega), Option.some_bind]) st0
  have hn := H.n_pos
  have hb := H.b_len
  refine ⟨p.2.vector, ?_, hlen, hx⟩
  unfold csr_lu_forward_kernel
  rw [gread_of_lt ro n 0 (by rw [H.wf.rows_len]; omega), Option.some_bind,
    gread_of_lt b 0 0 (by omega), Option.some_bind,
    gread_of_lt ro 1 0 (by rw [H.wf.rows_len]; omega), Option.some_bind,
    lu_forward_window_eq, hp, Option.some_bind]

/-! ## Claims on the forward kernels -/

/-- C1: `csr_unit_lu_forward_kernel` solves the unit lower-triangular system in place.  For
`n ≥ 1`, a block of `1 ≤ B ≤ 128` lanes, a well-formed CSR input in which every row stores
at least one entry, and any right-hand side `b` (with `nnz + B` an `unsigned int`), the kernel
ends and leaves a vector `x` with `x_i = b_i - Σ a_ij x_j` over the stored entries `(i, j)`
with `j < i`; hence `L x = b` when `L` is lower triangular with unit diagonal. -/
theorem csr_unit_lu_forward_kernel_solves (n B : Nat) (st0 : Staging T)
    (row_indices column_indices : List Nat) (elements b : List T)
    (hn : 1 ≤ n) (hB1 : 1 ≤ B) (hB : B ≤ 128)
    (hwf : WellFormedCSR n row_indices column_indices elements) (hb : b.length = n)
    (hrows : ∀ r, r < n → row_indices.getD r 0 < row_indices.getD (r + 1) 0)
    (hfit : row_indices.getD n 0 + B < 4294967296) :
    ∃ x, csr_unit_lu_forward_kernel B st0 row_indices column_indices elements b n = some x ∧
      x.length = n ∧
      (∀ i, i < n →
        x.getD i 0 = b.getD i 0 - lowerSum row_indices column_indices elements x i) ∧
      (UnitLower n row_indices column_indices elements →
        ∀ i, i < n → rowSum row_indices column_indices elements x i = b.getD i 0) := by
  obtain ⟨x, hk, hlen, hx⟩ := csr_unit_lu_forward_kernel_run
    (⟨hwf, hn, hB1, hB, hb, fun r _ hr => hrows r hr, hfit⟩ :
      ForwardInput n B row_indices column_indices elements b) st0
  exact ⟨x, hk, hlen, hx, fun hL i hi =>
    unitLower_rowSum n row_indices column_indices elements b x hL i hi (hx i hi)⟩

/-- C2: `csr_lu_forward_kernel` solves the lower-triangular system with explicit diagonal in
place.  For `n ≥ 1`, `1 ≤ B ≤ 128`, a well-formed CSR input in which every row stores at
least one entry, diagonal entries `d` that are all nonzero, and any `b` (with `nnz + B` an
`unsigned int`), the kernel ends and leaves `x` with
`x_i = (b_i - Σ a_ij x_j over the stored entries (i, j) with j < i) / d_i`: the accumulator
of every row is divided by `d_i` once. -/
theorem csr_lu_forward_kernel_solves (n B : Nat) (st0 : Staging T)
    (row_indices column_indices : List Nat) (elements diagonal_entries b : List T)
    (hn : 1 ≤ n) (hB1 : 1 ≤ B) (hB : B ≤ 128)
    (hwf : WellFormedCSR n row_indices column_indices elements) (hb : b.length = n)
    (hd : diagonal_entries.length = n)
    (hd0 : ∀ i, i < n → diagonal_entries.getD i 0 ≠ 0)
    (hrows : ∀ r, r < n → row_indices.getD r 0 < row_indices.getD (r + 1) 0)
    (hfit : row_indices.getD n 0 + B < 4294967296) :
    ∃ x, csr_lu_forward_kernel B st0 row_indices column_indices elements diagonal_entries b n
        = some x ∧
      x.length = n ∧
      ∀ i, i < n → diagonal_entries.getD i 0 ≠ 0 ∧
        x.getD i 0 = (b.getD i 0 - lowerSum row_indices column_indices elements x i) /
          diagonal_entries.getD i 0 := by
  obtain ⟨x, hk, hlen, hx⟩ := csr_lu_forward_kernel_run
    (⟨hwf, hn, hB1, hB, hb, fun r _ hr => hrows r hr, hfit⟩ :
      ForwardInput n B row_indices column_indices elements b) diagonal_entries hd st0
  exact ⟨x, hk, hlen, fun i hi => ⟨hd0 i hi, hx i hi⟩⟩

/-! ## The backward kernels: the invariant along one position -/

theorem upperPart_congr (ro col : List Nat) (el x y : List T) (r lo : Nat)
    (h : ∀ c, r < c → x.getD c 0 = y.getD c 0) :
    upperPart ro col el x r lo = upperPart ro col el y r lo := by
  unfold upperPart
  apply Finset.sum_congr rfl
  intro q _
  by_cases hq : r < col.getD q 0
  · simp only [hq, if_true, h _ hq]
  · simp only [hq, if_false]

theorem upperPart_pred (ro col : List Nat) (el x : List T) (r q : Nat)
    (h : q < ro.getD (r + 1) 0) :
    upperPart ro col el x r q =
      (if r < col.getD q 0 then el.getD q 0 * x.getD (col.getD q 0) 0 else 0) +
        upperPart ro col el x r (q + 1) := by
  unfold upperPart
  rw [Finset.sum_eq_sum_Ico_succ_bot h]

theorem upperPart_top (ro col : List Nat) (el x : List T) (r : Nat) :
    upperPart ro col el x r (ro.getD (r + 1) 0) = 0 := by
  unfold upperPart
  simp

theorem upperSum_eq_upperPart (ro col : List Nat) (el x : List T) (i : Nat) :
    upperSum ro col el x i = upperPart ro col el x i (ro.getD i 0) := by
  unfold upperSum upperPart
  rw [Finset.sum_filter]

/-- While a position `q` is still to be handled, the current row owns it. -/
theorem BackwardInv.mid {n : Nat} {ro col : List Nat} {el b : List T} {finv : Nat → T → T}
    {q : Nat} {s : SolveState T} (h : BackwardInv n ro col el b finv (q + 1) s) :
    ro.getD s.current_row 0 ≤ q ∧ q < ro.getD (s.current_row + 1) 0 ∧
      s.vector.getD s.current_row 0 = b.getD s.current_row 0 ∧
      s.next_row = ro.getD s.current_row 0 ∧
      s.current_vector_entry = b.getD s.current_row 0 -
        upperPart ro col el s.vector s.current_row (q + 1) := by
  rcases h.cases with ⟨h1, h2, h3, h4, h5⟩ | ⟨h1, _, _⟩
  · exact ⟨by omega, by omega, h3, h4, h5⟩
  · omega

/-- Position `q` is handled and is not the first of its row: the row stays current. -/
theorem BackwardInv.stay {n : Nat} {ro col : List Nat} {el b : List T} {finv : Nat → T → T}
    {q : Nat} {s s2 : SolveState T} (h : BackwardInv n ro col el b finv (q + 1) s)
    (hq : q ≠ ro.getD s.current_row 0)
    (hvec : s2.vector = s.vector) (hrow : s2.current_row = s.current_row)
    (hnext : s2.next_row = s.next_row)
    (hacc : s2.current_vector_entry = s.current_vector_entry -
      (if s.current_row < col.getD q 0 then
        el.getD q 0 * s.vector.getD (col.getD q 0) 0 else 0)) :
    BackwardInv n ro col el b finv q s2 := by
  obtain ⟨m1, m2, m3, m4, m5⟩ := h.mid
  exact {
    len := by rw [hvec]; exact h.len
    row_lt := by rw [hrow]; exact h.row_lt
    solved := by rw [hvec, hrow]; exact h.solved
    pending := by rw [hvec, hrow]; exact h.pending
    cases := by
      left
      rw [hvec, hrow, hnext, hacc, m5, upperPart_pred ro col el s.vector _ q m2]
      exact ⟨by omega, by omega, m3, m4, by ring⟩ }

/-- Position `q` is the first of the current row `r`: the row gets its value `val`, and
row `r - 1` becomes current (or, for `r = 0`, nothing is left to do). -/
theorem BackwardInv.finish {n B : Nat} {ro col : List Nat} {el b : List T}
    {finv : Nat → T → T} {q : Nat} {s s2 : SolveState T}
    (H : BackwardInput n B ro col el b)
    (h0 : ro.getD 1 0 = 0 → ∀ v, finv 0 v = v)
    (h : BackwardInv n ro col el b finv (q + 1) s)
    (hq : q = ro.getD s.current_row 0) (val : T)
    (hval : val = finv s.current_row (s.current_vector_entry -
      (if s.current_row < col.getD q 0 then
        el.getD q 0 * s.vector.getD (col.getD q 0) 0 else 0)))
    (hvec : s2.vector = s.vector.set s.current_row val)
    (hrow : s2.current_row = s.current_row - 1)
    (hnext : 0 < s.current_row → s2.next_row = ro.getD (s.current_row - 1) 0)
    (hacc : 0 < s.current_row → s2.current_vector_entry = b.getD (s.current_row - 1) 0) :
    BackwardInv n ro col el b finv q s2 := by
  obtain ⟨m1, m2, m3, m4, m5⟩ := h.mid
  have hlt := h.row_lt
  have hsame : ∀ j, s.current_row < j →
      (s.vector.set s.current_row val).getD j 0 = s.vector.getD j 0 :=
    fun j hj => getD_set_of_ne _ _ _ _ _ (by omega)
  have hcur : (s.vector.set s.current_row val).getD s.current_row 0 =
      finv s.current_row (b.getD s.current_row 0 -
        upperPart ro col el (s.vector.set s.current_row val) s.current_row
          (ro.getD s.current_row 0)) := by
    rw [getD_set_self _ _ _ _ (by rw [h.len]; exact hlt),
      upperPart_congr ro col el _ s.vector _ _ hsame, hval, m5, ← hq,
      upperPart_pred ro col el s.vector _ q m2]
    congr 1
    ring
  have hsolved : ∀ j, s.current_row ≤ j → j < n →
      (s.vector.set s.current_row val).getD j 0 =
        finv j (b.getD j 0 - upperPart ro col el (s.vector.set s.current_row val) j
          (ro.getD j 0)) := by
    intro j hj1 hj2
    by_cases hjc : j = s.current_row
    · subst hjc; exact hcur
    · have hj3 : s.current_row < j := by omega
      rw [hsame j hj3, h.solved j hj3 hj2]
      congr 2
      exact (upperPart_congr ro col el _ s.vector _ _
        (fun c hc => getD_set_of_ne _ _ _ _ _ (by omega))).symm
  have hpend : ∀ j, j < s.current_row →
      (s.vector.set s.current_row val).getD j 0 = b.getD j 0 := by
    intro j hj
    rw [getD_set_of_ne _ _ _ _ _ (by omega)]
    exact h.pending j hj
  by_cases hr : 0 < s.current_row
  · have hrow2 : s2.current_row + 1 = s.current_row := by omega
    exact {
      len := by rw [hvec, List.length_set]; exact h.len
      row_lt := by omega
      solved := by
        rw [hvec]; intro j hj1 hj2
        exact hsolved j (by omega) hj2
      pending := by
        rw [hvec]; intro j hj
        exact hpend j (by omega)
      cases := by
        by_cases he : ro.getD s2.current_row 0 < q
        · left
          refine ⟨he, by rw [hrow2]; omega, ?_, ?_, ?_⟩
          · rw [hvec, hrow]; exact hpend _ (by omega)
          · rw [hnext hr, hrow]
          · rw [hacc hr, hvec, hrow]
            have : s.current_row - 1 + 1 = s.current_row := by omega
            have e : upperPart ro col el (s.vector.set s.current_row val)
                (s.current_row - 1) q = 0 := by
              unfold upperPart
              rw [this, hq, Finset.Ico_self, Finset.sum_empty]
            rw [e, sub_zero]
        · right
          have hz : s2.current_row = 0 := by
            by_contra hne
            have := H.rows s2.current_row (by omega) (by omega)
            rw [hrow2] at this
            omega
          have hs1 : s.current_row = 1 := by omega
          have hmono := H.wf.rows_mono 0 (by omega)
          have hq0 : q = 0 := by
            rw [hz, H.wf.rows_zero] at he
            omega
          have hro1 : ro.getD 1 0 = 0 := by rw [← hs1, ← hq, hq0]
          refine ⟨hq0, hz, ?_⟩
          rw [hvec, hpend 0 (by omega), h0 hro1]
          have e : upperPart ro col el (s.vector.set s.current_row val) 0 (ro.getD 0 0) = 0 := by
            unfold upperPart
            rw [H.wf.rows_zero]
            show ∑ q ∈ Finset.Ico 0 (ro.getD 1 0), _ = 0
            rw [hro1, Finset.Ico_self, Finset.sum_empty]
          rw [e, sub_zero] }
  · have hz : s.current_row = 0 := by omega
    exact {
      len := by rw [hvec, List.length_set]; exact h.len
      row_lt := by omega
      solved := by
        rw [hvec]; intro j hj1 hj2
        exact hsolved j (by omega) hj2
      pending := by
        rw [hvec]; intro j hj
        exact hpend j (by omega)
      cases := by
        right
        refine ⟨by rw [hq, hz, H.wf.rows_zero], by omega, ?_⟩
        have := hcur
        rw [hz] at this
        rw [hvec, hz]
        exact this }

/-! ## `csr_unit_lu_backward_kernel`: one position -/

theorem usub_lane (B k2 : Nat) (hk : k2 < B) (hB : B ≤ 128) :
    usub (usub B k2) 1 = B - 1 - k2 := by
  unfold usub; omega

theorem unit_backward_step_skip (ro : List Nat) (nnz B i : Nat) (st : Staging T) (k2 : Nat)
    (s : SolveState T) (hk : k2 < B) (hB : B ≤ 128) (hfit : i + B < 4294967296)
    (hq : nnz ≤ i + (B - 1 - k2)) :
    unit_backward_step ro nnz B i st k2 s = some s := by
  have hu : uadd i (B - 1 - k2) = i + (B - 1 - k2) := uadd_of_lt _ _ (by omega)
  unfold unit_backward_step
  rw [usub_lane B k2 hk hB, hu, if_pos hq]

theorem unit_backward_step_spec {n B : Nat} {ro col : List Nat} {el b : List T}
    (H : BackwardInput n B ro col el b) (i k2 : Nat) (st : Staging T) (V : List T)
    (s : SolveState T) (hk : k2 < B)
    (hload : Loaded col el V (ro.getD n 0) i B st)
    (hq : i + (B - 1 - k2) < ro.getD n 0)
    (hinv : BackwardInv n ro col el b (fun _ v => v) (i + (B - 1 - k2) + 1) s)
    (hR : s.current_row ≤ s.row_at_window_start)
    (hV : ∀ j, s.row_at_window_start < j → s.vector.getD j 0 = V.getD j 0) :
    ∃ s2, unit_backward_step ro (ro.getD n 0) B i st k2 s = some s2 ∧
      BackwardInv n ro col el b (fun _ v => v) (i + (B - 1 - k2)) s2 ∧
      s2.row_at_window_start = s.row_at_window_start ∧
      s2.current_row ≤ s2.row_at_window_start ∧
      (∀ j, s2.row_at_window_start < j → s2.vector.getD j 0 = V.getD j 0) := by
  have hB := H.B_le
  have hfit := H.fit
  have hk128 : B - 1 - k2 < 128 := by omega
  have hu : uadd i (B - 1 - k2) = i + (B - 1 - k2) := uadd_of_lt _ _ (by omega)
  obtain ⟨hc, he, hv⟩ := hload (B - 1 - k2) (by omega) hq
  obtain ⟨m1, m2, m3, m4, m5⟩ := hinv.mid
  have hlt := hinv.row_lt
  have hcn : col.getD (i + (B - 1 - k2)) 0 < n :=
    H.wf.cols_lt _ (by rw [H.wf.cols_len]; exact hq)
  -- the substitution
  have hsub : (if st.col_index_buffer (B - 1 - k2) > s.row_at_window_start then
        (sread 128 st.element_buffer (B - 1 - k2)).bind fun e =>
        (sread 128 st.vector_buffer (B - 1 - k2)).bind fun v =>
        some { s with current_vector_entry := s.current_vector_entry - e * v }
      else if st.col_index_buffer (B - 1 - k2) > s.current_row then
        (sread 128 st.element_buffer (B - 1 - k2)).bind fun e =>
        (gread s.vector (st.col_index_buffer (B - 1 - k2))).bind fun x =>
        some { s with current_vector_entry := s.current_vector_entry - e * x }
      else some s) =
      some { s with current_vector_entry := s.current_vector_entry -
        (if s.current_row < col.getD (i + (B - 1 - k2)) 0 then
          el.getD (i + (B - 1 - k2)) 0 * s.vector.getD (col.getD (i + (B - 1 - k2)) 0) 0
          else 0) } := by
    rw [hc]
    by_cases h1 : col.getD (i + (B - 1 - k2)) 0 > s.row_at_window_start
    · have h2 : s.current_row < col.getD (i + (B - 1 - k2)) 0 := by omega
      rw [if_pos h1, if_pos h2, sread_of_lt _ _ _ hk128, sread_of_lt _ _ _ hk128,
        Option.some_bind, Option.some_bind, he, hv, hV _ h1]
    · by_cases h2 : col.getD (i + (B - 1 - k2)) 0 > s.current_row
      · rw [if_neg h1, if_pos h2, if_pos h2, sread_of_lt _ _ _ hk128,
          gread_of_lt s.vector _ 0 (by rw [hinv.len]; exact hcn),
          Option.some_bind, Option.some_bind, he]
      · rw [if_neg h1, if_neg h2, if_neg h2, sub_zero]
  unfold unit_backward_step
  rw [usub_lane B k2 hk hB, hu, if_neg (by omega), sread_of_lt _ _ _ hk128, Option.some_bind,
    hsub, Option.some_bind]
  have hn32 := H.n_lt_bwd
  obtain ⟨cve1, hcve1⟩ : ∃ c, c = s.current_vector_entry -
      (if s.current_row < col.getD (i + (B - 1 - k2)) 0 then
        el.getD (i + (B - 1 - k2)) 0 * s.vector.getD (col.getD (i + (B - 1 - k2)) 0) 0
        else 0) := ⟨_, rfl⟩
  rw [← hcve1]
  by_cases hfin : i + (B - 1 - k2) = s.next_row
  · have hqr : i + (B - 1 - k2) = ro.getD s.current_row 0 := hfin.trans m4
    have hw := gwrite_of_lt s.vector s.current_row cve1 (by rw [hinv.len]; exact hlt)
    by_cases hr : s.current_row > 0
    · have hus : usub s.current_row 1 = s.current_row - 1 := usub_of_le _ _ (by omega) (by omega)
      have hr1 := gread_of_lt ro (s.current_row - 1) 0 (by rw [H.wf.rows_len]; omega)
      have hr2 := gread_of_lt (s.vector.set s.current_row cve1) (s.current_row - 1) 0
        (by rw [List.length_set, hinv.len]; omega)
      have hb : (s.vector.set s.current_row cve1).getD (s.current_row - 1) 0 =
          b.getD (s.current_row - 1) 0 := by
        rw [getD_set_of_ne _ _ _ _ _ (by omega)]
        exact hinv.pending _ (by omega)
      refine ⟨{ s with vector := s.vector.set s.current_row cve1,
                       current_row := s.current_row - 1,
                       next_row := ro.getD (s.current_row - 1) 0,
                       current_vector_entry := b.getD (s.current_row - 1) 0 }, ?_, ?_, rfl,
        ?_, ?_⟩
      · dsimp only
        rw [if_pos hfin, hw, Option.some_bind, if_pos hr, hus, hr1, hr2, Option.some_bind,
          Option.some_bind, hb]
      · exact hinv.finish H (fun _ _ => rfl) hqr cve1 hcve1 rfl rfl (fun _ => rfl)
          (fun _ => rfl)
      · show s.current_row - 1 ≤ s.row_at_window_start
        omega
      · intro j hj
        show (List.set _ _ _).getD j 0 = _
        have hj2 : s.row_at_window_start < j := hj
        rw [getD_set_of_ne _ _ _ _ _ (by omega)]
        exact hV j hj2
    · refine ⟨{ s with vector := s.vector.set s.current_row cve1,
                       current_vector_entry := cve1 }, ?_, ?_, rfl, hR, ?_⟩
      · dsimp only
        rw [if_pos hfin, hw, Option.some_bind, if_neg hr]
      · refine hinv.finish H (fun _ _ => rfl) hqr cve1 hcve1 rfl ?_ (fun h => absurd h hr)
          (fun h => absurd h hr)
        show s.current_row = s.current_row - 1
        omega
      · intro j hj
        show (List.set _ _ _).getD j 0 = _
        have hj2 : s.row_at_window_start < j := hj
        rw [getD_set_of_ne _ _ _ _ _ (by omega)]
        exact hV j hj2
  · refine ⟨{ s with current_vector_entry := cve1 }, ?_, ?_, rfl, hR, hV⟩
    · dsimp only
      rw [if_neg hfin]
    · exact hinv.stay (by rw [← m4]; exact hfin) rfl rfl rfl hcve1

/-! ## `csr_lu_backward_kernel`: one position -/

theorem lu_backward_step_skip (ro : List Nat) (nnz B i : Nat) (st : Staging T) (k2 : Nat)
    (s : SolveStateD T) (hk : k2 < B) (hB : B ≤ 128) (hfit : i + B < 4294967296)
    (hq : nnz ≤ i + (B - 1 - k2)) :
    lu_backward_step ro nnz B i st k2 s = some s := by
  have hu : uadd i (B - 1 - k2) = i + (B - 1 - k2) := uadd_of_lt _ _ (by omega)
  unfold lu_backward_step
  rw [usub_lane B k2 hk hB, hu, if_pos hq]

theorem lu_backward_step_spec {n B : Nat} {ro col : List Nat} {el b : List T}
    (H : BackwardInput n B ro col el b) (dval : Nat → T)
    (D : DiagonalStored n ro col el dval) (i k2 : Nat) (st : Staging T) (V : List T)
    (s : SolveStateD T) (hk : k2 < B)
    (hload : Loaded col el V (ro.getD n 0) i B st)
    (hq : i + (B - 1 - k2) < ro.getD n 0)
    (hinv : BackwardInv n ro col el b (fun r v => v / dval r) (i + (B - 1 - k2) + 1)
      s.toSolve)
    (hdiag : DiagInv ro col dval (i + (B - 1 - k2) + 1) s)
    (hR : s.current_row ≤ s.row_at_window_start)
    (hV : ∀ j, s.row_at_window_start < j → s.vector.getD j 0 = V.getD j 0) :
    ∃ s2, lu_backward_step ro (ro.getD n 0) B i st k2 s = some s2 ∧
      BackwardInv n ro col el b (fun r v => v / dval r) (i + (B - 1 - k2)) s2.toSolve ∧
      DiagInv ro col dval (i + (B - 1 - k2)) s2 ∧
      s2.row_at_window_start = s.row_at_window_start ∧
      s2.current_row ≤ s2.row_at_window_start ∧
      (∀ j, s2.row_at_window_start < j → s2.vector.getD j 0 = V.getD j 0) := by
  have hB := H.B_le
  have hfit := H.fit
  have hk128 : B - 1 - k2 < 128 := by omega
  have hu : uadd i (B - 1 - k2) = i + (B - 1 - k2) := uadd_of_lt _ _ (by omega)
  obtain ⟨hc, he, hv⟩ := hload (B - 1 - k2) (by omega) hq
  obtain ⟨m1, m2, m3, m4, m5⟩ := hinv.mid
  have hlt : s.current_row < n := hinv.row_lt
  have hlen : s.vector.length = n := hinv.len
  have hcn : col.getD (i + (B - 1 - k2)) 0 < n :=
    H.wf.cols_lt _ (by rw [H.wf.cols_len]; exact hq)
  have h0 : ro.getD 1 0 = 0 → ∀ v : T, (fun r v => v / dval r) 0 v = v := by
    intro h
    obtain ⟨q, q1, q2, _⟩ := D.ex 0 H.n_pos
    rw [H.wf.rows_zero] at q1
    have : q < ro.getD 1 0 := q2
    omega
  obtain ⟨cve1, hcve1⟩ : ∃ c, c = s.current_vector_entry -
      (if s.current_row < col.getD (i + (B - 1 - k2)) 0 then
        el.getD (i + (B - 1 - k2)) 0 * s.vector.getD (col.getD (i + (B - 1 - k2)) 0) 0
        else 0) := ⟨_, rfl⟩
  obtain ⟨d1, hd1⟩ : ∃ d, d = if col.getD (i + (B - 1 - k2)) 0 = s.current_row then
      el.getD (i + (B - 1 - k2)) 0 else s.diagonal_entry := ⟨_, rfl⟩
  -- the register after the position
  have hdiag1 : (∃ q, i + (B - 1 - k2) ≤ q ∧ q < ro.getD (s.current_row + 1) 0 ∧
      col.getD q 0 = s.current_row) → d1 = dval s.current_row := by
    rintro ⟨q, q1, q2, q3⟩
    rw [hd1]
    by_cases hcq : col.getD (i + (B - 1 - k2)) 0 = s.current_row
    · rw [if_pos hcq]
      exact D.val _ hlt _ m1 m2 hcq
    · rw [if_neg hcq]
      have hne : q ≠ i + (B - 1 - k2) := fun e => hcq (e ▸ q3)
      exact hdiag ⟨q, by omega, q2, q3⟩
  -- the substitution
  have hsub : (if st.col_index_buffer (B - 1 - k2) > s.row_at_window_start then
        (sread 128 st.element_buffer (B - 1 - k2)).bind fun e =>
        (sread 128 st.vector_buffer (B - 1 - k2)).bind fun v =>
        some { s with current_vector_entry := s.current_vector_entry - e * v }
      else if st.col_index_buffer (B - 1 - k2) > s.current_row then
        (sread 128 st.element_buffer (B - 1 - k2)).bind fun e =>
        (gread s.vector (st.col_index_buffer (B - 1 - k2))).bind fun x =>
        some { s with current_vector_entry := s.current_vector_entry - e * x }
      else if st.col_index_buffer (B - 1 - k2) = s.current_row then
        (sread 128 st.element_buffer (B - 1 - k2)).bind fun e =>
        some { s with diagonal_entry := e }
      else some s) =
      some { s with current_vector_entry := cve1, diagonal_entry := d1 } := by
    rw [hc, hcve1, hd1]
    by_cases h1 : col.getD (i + (B - 1 - k2)) 0 > s.row_at_window_start
    · have h2 : s.current_row < col.getD (i + (B - 1 - k2)) 0 := by omega
      have h3 : ¬ col.getD (i + (B - 1 - k2)) 0 = s.current_row := by omega
      rw [if_pos h1, if_pos h2, if_neg h3, sread_of_lt _ _ _ hk128, sread_of_lt _ _ _ hk128,
        Option.some_bind, Option.some_bind, he, hv, hV _ h1]
    · by_cases h2 : col.getD (i + (B - 1 - k2)) 0 > s.current_row
      · have h3 : ¬ col.getD (i + (B - 1 - k2)) 0 = s.current_row := by omega
        rw [if_neg h1, if_pos h2, if_pos h2, if_neg h3, sread_of_lt _ _ _ hk128,
          gread_of_lt s.vector _ 0 (by rw [hlen]; exact hcn),
          Option.some_bind, Option.some_bind, he]
      · by_cases h3 : col.getD (i + (B - 1 - k2)) 0 = s.current_row
        · rw [if_neg h1, if_neg h2, if_neg h2, if_pos h3, if_pos h3,
            sread_of_lt _ _ _ hk128, Option.some_bind, he, sub_zero]
        · rw [if_neg h1, if_neg h2, if_neg h2, if_neg h3, if_neg h3, sub_zero]
  unfold lu_backward_step
  rw [usub_lane B k2 hk hB, hu, if_neg (by omega), sread_of_lt _ _ _ hk128, Option.some_bind,
    hsub, Option.some_bind]
  have hn32 := H.n_lt_bwd
  by_cases hfin : i + (B - 1 - k2) = s.next_row
  · have hqr : i + (B - 1 - k2) = ro.getD s.current_row 0 := hfin.trans m4
    have hdv : d1 = dval s.current_row := by
      obtain ⟨q, q1, q2, q3⟩ := D.ex _ hlt
      exact hdiag1 ⟨q, by omega, q2, q3⟩
    have hw := gwrite_of_lt s.vector s.current_row (cve1 / d1) (by rw [hlen]; exact hlt)
    have hval : cve1 / d1 = (fun r v => v / dval r) s.toSolve.current_row
        (s.toSolve.current_vector_entry -
        (if s.toSolve.current_row < col.getD (i + (B - 1 - k2)) 0 then
          el.getD (i + (B - 1 - k2)) 0 *
            s.toSolve.vector.getD (col.getD (i + (B - 1 - k2)) 0) 0
          else 0)) := by
      show cve1 / d1 = (s.current_vector_entry -
        (if s.current_row < col.getD (i + (B - 1 - k2)) 0 then
          el.getD (i + (B - 1 - k2)) 0 * s.vector.getD (col.getD (i + (B - 1 - k2)) 0) 0
          else 0)) / dval s.current_row
      rw [← hcve1, hdv]
    by_cases hr : s.current_row > 0
    · have hus : usub s.current_row 1 = s.current_row - 1 := usub_of_le _ _ (by omega) (by omega)
      have hr1 := gread_of_lt ro (s.current_row - 1) 0 (by rw [H.wf.rows_len]; omega)
      have hr2 := gread_of_lt (s.vector.set s.current_row (cve1 / d1)) (s.current_row - 1) 0
        (by rw [List.length_set, hlen]; omega)
      have hb : (s.vector.set s.current_row (cve1 / d1)).getD (s.current_row - 1) 0 =
          b.getD (s.current_row - 1) 0 := by
        rw [getD_set_of_ne _ _ _ _ _ (by omega)]
        exact hinv.pending _ (by show s.current_row - 1 < s.current_row; omega)
      refine ⟨{ s with vector := s.vector.set s.current_row (cve1 / d1),
                       current_row := s.current_row - 1,
                       next_row := ro.getD (s.current_row - 1) 0,
                       current_vector_entry := b.getD (s.current_row - 1) 0,
                       diagonal_entry := d1 }, ?_, ?_, ?_, rfl, ?_, ?_⟩
      · dsimp only
        rw [if_pos hfin, hw, Option.some_bind, if_pos hr, hus, hr1, hr2, Option.some_bind,
          Option.some_bind, hb]
      · exact hinv.finish H h0 hqr (cve1 / d1) hval rfl rfl (fun _ => rfl) (fun _ => rfl)
      · rintro ⟨q, q1, q2, _⟩
        have : q < ro.getD (s.current_row - 1 + 1) 0 := q2
        have e : s.current_row - 1 + 1 = s.current_row := by omega
        rw [e] at this
        omega
      · show s.current_row - 1 ≤ s.row_at_window_start
        omega
      · intro j hj
        show (List.set _ _ _).getD j 0 = _
        have hj2 : s.row_at_window_start < j := hj
        rw [getD_set_of_ne _ _ _ _ _ (by omega)]
        exact hV j hj2
    · refine ⟨{ s with vector := s.vector.set s.current_row (cve1 / d1),
                       current_vector_entry := cve1, diagonal_entry := d1 }, ?_, ?_, ?_,
          rfl, hR, ?_⟩
      · dsimp only
        rw [if_pos hfin, hw, Option.some_bind, if_neg hr]
      · refine hinv.finish H h0 hqr (cve1 / d1) hval rfl ?_ (fun h => absurd h hr)
          (fun h => absurd h hr)
        show s.current_row = s.current_row - 1
        omega
      · exact fun _ => hdv
      · intro j hj
        show (List.set _ _ _).getD j 0 = _
        have hj2 : s.row_at_window_start < j := hj
        rw [getD_set_of_ne _ _ _ _ _ (by omega)]
        exact hV j hj2
  · refine ⟨{ s with current_vector_entry := cve1, diagonal_entry := d1 }, ?_, ?_, ?_, rfl,
      hR, hV⟩
    · dsimp only
      rw [if_neg hfin]
    · exact hinv.stay (by rw [← m4]; exact hfin) rfl rfl rfl hcve1
    · exact hdiag1

/-! ## The backward kernels: one window and the whole run -/

theorem backward_round_spec {σ : Type} {n B : Nat} {ro col : List Nat} {el b : List T}
    (H : BackwardInput n B ro col el b) (finv : Nat → T → T)
    (view : σ → SolveState T) (X : Nat → σ → Prop) (vec : σ → List T) (setR : σ → σ)
    (stepf : Nat → Staging T → Nat → σ → Option σ)
    (hvec : ∀ s, vec s = (view s).vector)
    (hsetR : ∀ s, view (setR s) =
      { view s with row_at_window_start := (view s).current_row })
    (hsetX : ∀ p s, X p s → X p (setR s))
    (hskip : ∀ i st k2 s, k2 < B → i + B < 4294967296 → ro.getD n 0 ≤ i + (B - 1 - k2) →
      stepf i st k2 s = some s)
    (hstep : ∀ i k2 st V s, k2 < B → Loaded col el V (ro.getD n 0) i B st →
      i + (B - 1 - k2) < ro.getD n 0 →
      BackwardInv n ro col el b finv (i + (B - 1 - k2) + 1) (view s) →
      X (i + (B - 1 - k2) + 1) s →
      (view s).current_row ≤ (view s).row_at_window_start →
      (∀ j, (view s).row_at_window_start < j → (view s).vector.getD j 0 = V.getD j 0) →
      ∃ s2, stepf i st k2 s = some s2 ∧
        BackwardInv n ro col el b finv (i + (B - 1 - k2)) (view s2) ∧
        X (i + (B - 1 - k2)) s2 ∧
        (view s2).row_at_window_start = (view s).row_at_window_start ∧
        (view s2).current_row ≤ (view s2).row_at_window_start ∧
        (∀ j, (view s2).row_at_window_start < j → (view s2).vector.getD j 0 = V.getD j 0))
    (w : Nat) (hw : w * B < ro.getD n 0) (p : Staging T × σ)
    (hinv : BackwardInv n ro col el b finv (min (ro.getD n 0) ((w + 1) * B)) (view p.2))
    (hX : X (min (ro.getD n 0) ((w + 1) * B)) p.2)
    (hR : (view p.2).row_at_window_start = (view p.2).current_row) :
    ∃ p2, backward_round vec setR stepf col el (ro.getD n 0) B (w * B) p = some p2 ∧
      BackwardInv n ro col el b finv (min (ro.getD n 0) (w * B)) (view p2.2) ∧
      X (min (ro.getD n 0) (w * B)) p2.2 ∧
      (view p2.2).row_at_window_start = (view p2.2).current_row := by
  have hB := H.B_pos
  have hfit := H.fit
  have hw2 : (w + 1) * B = w * B + B := by rw [Nat.add_mul]; omega
  obtain ⟨st, hst, hload⟩ := load_backward_spec col el (vec p.2) (ro.getD n 0) B (w * B) p.1
    H.B_le (by omega) H.wf.cols_len H.wf.elems_len
    (fun q hq => by
      rw [hvec, hinv.len]; exact H.wf.cols_lt q (by rw [H.wf.cols_len]; exact hq))
  rw [hvec] at hload
  obtain ⟨s, hs, hP, hPX, _, _, _⟩ := forCount_inv (stepf (w * B) st)
    (fun k2 s => BackwardInv n ro col el b finv (min (ro.getD n 0) (w * B + (B - k2))) (view s) ∧
      X (min (ro.getD n 0) (w * B + (B - k2))) s ∧
      (view s).row_at_window_start = (view p.2).row_at_window_start ∧
      (view s).current_row ≤ (view s).row_at_window_start ∧
      ∀ j, (view s).row_at_window_start < j →
        (view s).vector.getD j 0 = (view p.2).vector.getD j 0)
    B 0 p.2
    ⟨by rw [Nat.sub_zero, ← hw2]; exact hinv, by rw [Nat.sub_zero, ← hw2]; exact hX, rfl,
      by omega, fun _ _ => rfl⟩
    (by
      intro k2 s1 _ hk ⟨h1, h2, h3, h4, h5⟩
      by_cases hq : ro.getD n 0 ≤ w * B + (B - 1 - k2)
      · refine ⟨s1, hskip _ _ _ _ (by omega) (by omega) hq, ?_, ?_, h3, h4, h5⟩
        · have e : min (ro.getD n 0) (w * B + (B - (k2 + 1))) =
              min (ro.getD n 0) (w * B + (B - k2)) := by omega
          rw [e]; exact h1
        · have e : min (ro.getD n 0) (w * B + (B - (k2 + 1))) =
              min (ro.getD n 0) (w * B + (B - k2)) := by omega
          rw [e]; exact h2
      · have e1 : min (ro.getD n 0) (w * B + (B - k2)) = w * B + (B - 1 - k2) + 1 := by omega
        have e2 : min (ro.getD n 0) (w * B + (B - (k2 + 1))) = w * B + (B - 1 - k2) := by
          omega
        rw [e1] at h1 h2
        obtain ⟨s2, g0, g1, g2, g3, g4, g5⟩ := hstep (w * B) k2 st (view p.2).vector s1
          (by omega) hload (by omega) h1 h2 h4 h5
        refine ⟨s2, g0, by rw [e2]; exact g1, by rw [e2]; exact g2, by omega, g4, g5⟩)
  refine ⟨(st, setR s), ?_, ?_, ?_, ?_⟩
  · simp only [backward_round, hst, Option.some_bind, hs]
  · have e : w * B + (B - (0 + B)) = w * B := by omega
    rw [e] at hP
    show BackwardInv n ro col el b finv _ (view (setR s))
    rw [hsetR]
    exact ⟨hP.len, hP.row_lt, hP.solved, hP.pending, hP.cases⟩
  · have e : w * B + (B - (0 + B)) = w * B := by omega
    rw [e] at hPX
    exact hsetX _ _ hPX
  · show (view (setR s)).row_at_window_start = (view (setR s)).current_row
    rw [hsetR]

/-- The run of a backward kernel on a `BackwardInput`: it ends, and every row `i` of the
vector it leaves has the value `finv i (b_i - upperSum i)`. -/
theorem backward_run_spec {σ : Type} {n B : Nat} {ro col : List Nat} {el b : List T}
    (H : BackwardInput n B ro col el b) (finv : Nat → T → T)
    (view : σ → SolveState T) (X : Nat → σ → Prop) (vec : σ → List T) (setR : σ → σ)
    (stepf : Nat → Staging T → Nat → σ → Option σ)
    (hvec : ∀ s, vec s = (view s).vector)
    (hsetR : ∀ s, view (setR s) =
      { view s with row_at_window_start := (view s).current_row })
    (hsetX : ∀ p s, X p s → X p (setR s))
    (hskip : ∀ i st k2 s, k2 < B → i + B < 4294967296 → ro.getD n 0 ≤ i + (B - 1 - k2) →
      stepf i st k2 s = some s)
    (hstep : ∀ i k2 st V s, k2 < B → Loaded col el V (ro.getD n 0) i B st →
      i + (B - 1 - k2) < ro.getD n 0 →
      BackwardInv n ro col el b finv (i + (B - 1 - k2) + 1) (view s) →
      X (i + (B - 1 - k2) + 1) s →
      (view s).current_row ≤ (view s).row_at_window_start →
      (∀ j, (view s).row_at_window_start < j → (view s).vector.getD j 0 = V.getD j 0) →
      ∃ s2, stepf i st k2 s = some s2 ∧
        BackwardInv n ro col el b finv (i + (B - 1 - k2)) (view s2) ∧
        X (i + (B - 1 - k2)) s2 ∧
        (view s2).row_at_window_start = (view s).row_at_window_start ∧
        (view s2).current_row ≤ (view s2).row_at_window_start ∧
        (∀ j, (view s2).row_at_window_start < j → (view s2).vector.getD j 0 = V.getD j 0))
    (st0 : Staging T) (s0 : σ)
    (hview : view s0 =
      { vector := b, current_row := n - 1, row_at_window_start := n - 1,
        current_vector_entry := b.getD (n - 1) 0, next_row := ro.getD (n - 1) 0 })
    (hX0 : X (ro.getD n 0) s0) :
    ∃ p, whileDown B (backward_round vec setR stepf col el (ro.getD n 0) B)
        (umul (usub (ro.getD n 0) 1 / B) B + 1) (umul (usub (ro.getD n 0) 1 / B) B)
        (st0, s0) = some p ∧
      (view p.2).vector.length = n ∧
      ∀ i, i < n → (view p.2).vector.getD i 0 =
        finv i (b.getD i 0 - upperSum ro col el (view p.2).vector i) := by
  have hB := H.B_pos
  have hfit := H.fit
  have hnnz := H.nnz_pos
  have hn := H.n_pos
  have hdiv : (ro.getD n 0 - 1) / B * B ≤ ro.getD n 0 - 1 := Nat.div_mul_le_self _ _
  have hle : umul (usub (ro.getD n 0) 1 / B) B = (ro.getD n 0 - 1) / B * B := by
    rw [usub_of_le _ _ hnnz (by omega), umul_of_lt _ _ (by omega)]
  rw [hle]
  have hgt : ro.getD n 0 - 1 < ((ro.getD n 0 - 1) / B + 1) * B := by
    have := Nat.lt_div_mul_add (a := ro.getD n 0 - 1) (b := B) (by omega)
    rw [Nat.add_mul]; omega
  have hm : (ro.getD n 0 - 1) / B ≤ (ro.getD n 0 - 1) / B * B :=
    Nat.le_mul_of_pos_right _ (by omega)
  have hlast : ro.getD (n - 1) 0 < ro.getD n 0 := by
    by_cases h1 : n = 1
    · subst h1
      show ro.getD 0 0 < ro.getD 1 0
      rw [H.wf.rows_zero]; omega
    · have := H.rows (n - 1) (by omega) (by omega)
      have e : n - 1 + 1 = n := by omega
      rw [e] at this
      exact this
  have hn1 : n - 1 + 1 = n := by omega
  have hinv0 : BackwardInv n ro col el b finv
      (min (ro.getD n 0) (((ro.getD n 0 - 1) / B + 1) * B)) (view s0) := by
    have e : min (ro.getD n 0) (((ro.getD n 0 - 1) / B + 1) * B) = ro.getD n 0 := by omega
    rw [e, hview]
    exact {
      len := H.b_len
      row_lt := by show n - 1 < n; omega
      solved := fun j hj1 hj2 => by
        have : n - 1 < j := hj1
        omega
      pending := fun _ _ => rfl
      cases := by
        left
        refine ⟨hlast, ?_, rfl, rfl, ?_⟩
        · show ro.getD n 0 ≤ ro.getD (n - 1 + 1) 0
          rw [hn1]
        · show b.getD (n - 1) 0 = b.getD (n - 1) 0 - upperPart ro col el b (n - 1) (ro.getD n 0)
          unfold upperPart
          rw [hn1, Finset.Ico_self, Finset.sum_empty, sub_zero] }
  obtain ⟨p, hp, hQ, _⟩ := whileDown_inv B ((ro.getD n 0 - 1) / B)
    (backward_round vec setR stepf col el (ro.getD n 0) B)
    (fun w p => BackwardInv n ro col el b finv (min (ro.getD n 0) (w * B)) (view p.2) ∧
      X (min (ro.getD n 0) (w * B)) p.2 ∧
      (view p.2).row_at_window_start = (view p.2).current_row)
    hB (by omega)
    (fun w p hw hQ => backward_round_spec H finv view X vec setR stepf hvec hsetR hsetX hskip
      hstep w (by
        have := Nat.mul_le_mul_right B hw
        omega) p hQ.1 hQ.2.1 hQ.2.2)
    ((ro.getD n 0 - 1) / B * B + 1) ((ro.getD n 0 - 1) / B) (st0, s0) (le_refl _)
    (by omega)
    ⟨hinv0, by
      have e : min (ro.getD n 0) (((ro.getD n 0 - 1) / B + 1) * B) = ro.getD n 0 := by omega
      rw [e]; exact hX0, by rw [hview]⟩
  refine ⟨p, hp, hQ.len, ?_⟩
  have e : min (ro.getD n 0) (0 * B) = 0 := by omega
  rw [e] at hQ
  intro i hi
  rw [upperSum_eq_upperPart]
  rcases hQ.cases with ⟨h1, _⟩ | ⟨_, h2, h3⟩
  · omega
  · by_cases hi0 : i = 0
    · subst hi0; exact h3
    · exact hQ.solved i (by omega) hi

/-! ## The backward kernels are instances of `backward_round` -/

theorem unit_backward_window_eq (ro col : List Nat) (el : List T) (nnz B : Nat) :
    unit_backward_window ro col el nnz B =
      backward_round (fun s => s.vector)
        (fun s => { s with row_at_window_start := s.current_row })
        (unit_backward_step ro nnz B) col el nnz B := by
  funext i p
  rfl

theorem lu_backward_window_eq (ro col : List Nat) (el : List T) (nnz B : Nat) :
    lu_backward_window ro col el nnz B =
      backward_round (fun s => s.vector)
        (fun s => { s with row_at_window_start := s.current_row })
        (lu_backward_step ro nnz B) col el nnz B := by
  funext i p
  rfl

/-- The product of a unit upper-triangular matrix with a solution of the backward
recurrence is the right-hand side. -/
theorem unitUpper_rowSum (n : Nat) (ro col : List Nat) (el b x : List T)
    (hU : UnitUpper n ro col el) (i : Nat) (hi : i < n)
    (hx : x.getD i 0 = b.getD i 0 - upperSum ro col el x i) :
    rowSum ro col el x i = b.getD i 0 := by
  obtain ⟨htri, hdiag⟩ := hU i hi
  have hsplit := Finset.sum_filter_add_sum_filter_not
    (Finset.Ico (ro.getD i 0) (ro.getD (i + 1) 0)) (fun q => i < col.getD q 0)
    (fun q => el.getD q 0 * x.getD (col.getD q 0) 0)
  have hfil : (Finset.Ico (ro.getD i 0) (ro.getD (i + 1) 0)).filter
      (fun q => ¬ i < col.getD q 0) =
      (Finset.Ico (ro.getD i 0) (ro.getD (i + 1) 0)).filter (fun q => col.getD q 0 = i) := by
    apply Finset.filter_congr
    intro q hq
    rw [Finset.mem_Ico] at hq
    have := htri q hq.1 hq.2
    omega
  have hd : ∑ q ∈ (Finset.Ico (ro.getD i 0) (ro.getD (i + 1) 0)).filter
      (fun q => col.getD q 0 = i), el.getD q 0 * x.getD (col.getD q 0) 0 = x.getD i 0 := by
    have : ∑ q ∈ (Finset.Ico (ro.getD i 0) (ro.getD (i + 1) 0)).filter
        (fun q => col.getD q 0 = i), el.getD q 0 * x.getD (col.getD q 0) 0 =
        ∑ q ∈ (Finset.Ico (ro.getD i 0) (ro.getD (i + 1) 0)).filter
        (fun q => col.getD q 0 = i), el.getD q 0 * x.getD i 0 := by
      apply Finset.sum_congr rfl
      intro q hq
      rw [(Finset.mem_filter.mp hq).2]
    rw [this, ← Finset.sum_mul, hdiag, one_mul]
  unfold rowSum
  rw [← hsplit, hfil, hd, hx]
  unfold upperSum
  ring

/-- The product of an upper-triangular matrix, whose row `i` stores its diagonal once at
position `q`, with a solution of the backward recurrence is the right-hand side. -/
theorem upper_rowSum (n : Nat) (ro col : List Nat) (el b x : List T)
    (hU : UpperTriangular n ro col) (i : Nat) (hi : i < n) (q : Nat)
    (hq1 : ro.getD i 0 ≤ q) (hq2 : q < ro.getD (i + 1) 0) (hq3 : col.getD q 0 = i)
    (huniq : ∀ q2, ro.getD i 0 ≤ q2 → q2 < ro.getD (i + 1) 0 → col.getD q2 0 = i → q2 = q)
    (hne : el.getD q 0 ≠ 0)
    (hx : x.getD i 0 = (b.getD i 0 - upperSum ro col el x i) / el.getD q 0) :
    rowSum ro col el x i = b.getD i 0 := by
  have hsplit := Finset.sum_filter_add_sum_filter_not
    (Finset.Ico (ro.getD i 0) (ro.getD (i + 1) 0)) (fun q => i < col.getD q 0)
    (fun q => el.getD q 0 * x.getD (col.getD q 0) 0)
  have hfil : (Finset.Ico (ro.getD i 0) (ro.getD (i + 1) 0)).filter
      (fun q => ¬ i < col.getD q 0) = {q} := by
    ext q2
    rw [Finset.mem_filter, Finset.mem_Ico, Finset.mem_singleton]
    constructor
    · rintro ⟨⟨a1, a2⟩, a3⟩
      have := hU i hi q2 a1 a2
      exact huniq q2 a1 a2 (by omega)
    · intro e
      subst e
      exact ⟨⟨hq1, hq2⟩, by omega⟩
  have hcancel : el.getD q 0 * ((b.getD i 0 - upperSum ro col el x i) / el.getD q 0) =
      b.getD i 0 - upperSum ro col el x i := by
    rw [mul_comm, div_mul_cancel₀ _ hne]
  unfold rowSum
  rw [← hsplit, hfil, Finset.sum_singleton, hq3, hx, hcancel]
  unfold upperSum
  ring

/-! ## The backward kernels on a `BackwardInput` -/

theorem csr_unit_lu_backward_kernel_run {n B : Nat} {ro col : List Nat} {el b : List T}
    (H : BackwardInput n B ro col el b) (st0 : Staging T) :
    ∃ x, csr_unit_lu_backward_kernel B st0 ro col el b n = some x ∧ x.length = n ∧
      ∀ i, i < n → x.getD i 0 = b.getD i 0 - upperSum ro col el x i := by
  have hn32 := H.n_lt_bwd
  have hn := H.n_pos
  have hb := H.b_len
  obtain ⟨p, hp, hlen, hx⟩ := backward_run_spec H (fun _ v => v) (fun s => s)
    (fun _ _ => True) (fun s => s.vector)
    (fun s => { s with row_at_window_start := s.current_row })
    (unit_backward_step ro (ro.getD n 0) B)
    (fun _ => rfl) (fun _ => rfl) (fun _ _ _ => trivial)
    (fun i st k2 s hk hf hq => unit_backward_step_skip ro _ B i st k2 s hk H.B_le hf hq)
    (fun i k2 st V s hk hload hq hinv _ hR hV => by
      obtain ⟨s2, g0, g1, g2, g3, g4⟩ := unit_backward_step_spec H i k2 st V s hk hload hq
        hinv hR hV
      exact ⟨s2, g0, g1, trivial, g2, g3, g4⟩)
    st0 { vector := b, current_row := n - 1, row_at_window_start := n - 1,
          current_vector_entry := b.getD (n - 1) 0,
          next_row := ro.getD (n - 1) 0 } rfl trivial
  refine ⟨p.2.vector, ?_, hlen, hx⟩
  unfold csr_unit_lu_backward_kernel
  rw [gread_of_lt ro n 0 (by rw [H.wf.rows_len]; omega), Option.some_bind,
    usub_of_le n 1 hn hn32,
    gread_of_lt b (n - 1) 0 (by omega), Option.some_bind,
    gread_of_lt ro (n - 1) 0 (by rw [H.wf.rows_len]; omega), Option.some_bind,
    unit_backward_window_eq, hp, Option.some_bind]

theorem csr_lu_backward_kernel_run {n B : Nat} {ro col : List Nat} {el b : List T}
    (H : BackwardInput n B ro col el b) (dval : Nat → T)
    (D : DiagonalStored n ro col el dval) (st0 : Staging T) (diag0 : T) :
    ∃ x, csr_lu_backward_kernel B st0 diag0 ro col el b n = some x ∧ x.length = n ∧
      ∀ i, i < n → x.getD i 0 = (b.getD i 0 - upperSum ro col el x i) / dval i := by
  have hn32 := H.n_lt_bwd
  have hn := H.n_pos
  have hb := H.b_len
  have hn1 : n - 1 + 1 = n := by omega
  obtain ⟨p, hp, hlen, hx⟩ := backward_run_spec H (fun r v => v / dval r)
    (fun s : SolveStateD T => s.toSolve)
    (DiagInv ro col dval) (fun s => s.vector)
    (fun s => { s with row_at_window_start := s.current_row })
    (lu_backward_step ro (ro.getD n 0) B)
    (fun _ => rfl) (fun _ => rfl) (fun _ _ h => h)
    (fun i st k2 s hk hf hq => lu_backward_step_skip ro _ B i st k2 s hk H.B_le hf hq)
    (fun i k2 st V s hk hload hq hinv hX hR hV =>
      lu_backward_step_spec H dval D i k2 st V s hk hload hq hinv hX hR hV)
    st0 { vector := b, current_row := n - 1, row_at_window_start := n - 1,
          current_vector_entry := b.getD (n - 1) 0,
          next_row := ro.getD (n - 1) 0, diagonal_entry := diag0 } rfl
    (by
      rintro ⟨q, q1, q2, _⟩
      have : q < ro.getD (n - 1 + 1) 0 := q2
      rw [hn1] at this
      omega)
  refine ⟨p.2.vector, ?_, hlen, hx⟩
  unfold csr_lu_backward_kernel
  rw [gread_of_lt ro n 0 (by rw [H.wf.rows_len]; omega), Option.some_bind,
    usub_of_le n 1 hn hn32,
    gread_of_lt b (n - 1) 0 (by omega), Option.some_bind,
    gread_of_lt ro (n - 1) 0 (by rw [H.wf.rows_len]; omega), Option.some_bind,
    lu_backward_window_eq, hp, Option.some_bind]

/-! ## Claims on the backward kernels -/

/-- C3: `csr_unit_lu_backward_kernel` solves the unit upper-triangular system in place.  For
`n ≥ 1`, `1 ≤ B ≤ 128`, a well-formed CSR input with `nnz ≥ 1` in which every row stores at
least one entry, and any `b` (with `nnz + B` an `unsigned int`), the kernel ends and leaves a
vector `x` with `x_i = b_i - Σ a_ij x_j` over the stored entries `(i, j)` with `j > i`;
hence `U x = b` when `U` is upper triangular with unit diagonal. -/
theorem csr_unit_lu_backward_kernel_solves (n B : Nat) (st0 : Staging T)
    (row_indices column_indices : List Nat) (elements b : List T)
    (hn : 1 ≤ n) (hB1 : 1 ≤ B) (hB : B ≤ 128)
    (hwf : WellFormedCSR n row_indices column_indices elements) (hb : b.length = n)
    (hnnz : 1 ≤ row_indices.getD n 0)
    (hrows : ∀ r, r < n → row_indices.getD r 0 < row_indices.getD (r + 1) 0)
    (hfit : row_indices.getD n 0 + B < 4294967296) :
    ∃ x, csr_unit_lu_backward_kernel B st0 row_indices column_indices elements b n = some x ∧
      x.length = n ∧
      (∀ i, i < n →
        x.getD i 0 = b.getD i 0 - upperSum row_indices column_indices elements x i) ∧
      (UnitUpper n row_indices column_indices elements →
        ∀ i, i < n → rowSum row_indices column_indices elements x i = b.getD i 0) := by
  obtain ⟨x, hk, hlen, hx⟩ := csr_unit_lu_backward_kernel_run
    (⟨hwf, hn, hB1, hB, hb, fun r _ hr => hrows r hr, hnnz, hfit⟩ :
      BackwardInput n B row_indices column_indices elements b) st0
  exact ⟨x, hk, hlen, hx, fun hU i hi =>
    unitUpper_rowSum n row_indices column_indices elements b x hU i hi (hx i hi)⟩

/-- C4: `csr_lu_backward_kernel` solves the upper-triangular system with explicit diagonal
in place, taking the diagonal of a row from the stored element whose column is the row.
For `n ≥ 1`, `1 ≤ B ≤ 128`, a well-formed CSR input in which every row stores exactly one
entry in the column of the row and that entry is nonzero, and any `b` (with `nnz + B` an
`unsigned int`), whatever the register `diagonal_entry` holds at the start, the kernel ends
and leaves `x` with `x_i = (b_i - Σ a_ij x_j over the stored entries (i, j) with j > i) /
a_ii`; so `U x = b` when `U` is upper triangular. -/
theorem csr_lu_backward_kernel_solves (n B : Nat) (st0 : Staging T) (diag0 : T)
    (row_indices column_indices : List Nat) (elements b : List T)
    (hn : 1 ≤ n) (hB1 : 1 ≤ B) (hB : B ≤ 128)
    (hwf : WellFormedCSR n row_indices column_indices elements) (hb : b.length = n)
    (hdiag : ∀ i, i < n → ∃ q, (row_indices.getD i 0 ≤ q ∧ q < row_indices.getD (i + 1) 0 ∧
        column_indices.getD q 0 = i) ∧
      (∀ q2, row_indices.getD i 0 ≤ q2 → q2 < row_indices.getD (i + 1) 0 →
        column_indices.getD q2 0 = i → q2 = q) ∧
      elements.getD q 0 ≠ 0)
    (hfit : row_indices.getD n 0 + B < 4294967296) :
    ∃ x, csr_lu_backward_kernel B st0 diag0 row_indices column_indices elements b n = some x ∧
      x.length = n ∧
      (∀ i q, i < n → row_indices.getD i 0 ≤ q → q < row_indices.getD (i + 1) 0 →
        column_indices.getD q 0 = i →
        elements.getD q 0 ≠ 0 ∧
        x.getD i 0 = (b.getD i 0 - upperSum row_indices column_indices elements x i) /
          elements.getD q 0) ∧
      (UpperTriangular n row_indices column_indices →
        ∀ i, i < n → rowSum row_indices column_indices elements x i = b.getD i 0) := by
  have hrows : ∀ r, r < n → row_indices.getD r 0 < row_indices.getD (r + 1) 0 := by
    intro r hr
    obtain ⟨q, ⟨q1, q2, _⟩, _⟩ := hdiag r hr
    omega
  have hnnz : 1 ≤ row_indices.getD n 0 := by
    have h1 := hrows 0 hn
    have h2 := hwf.mono_le n 1 hn (le_refl n)
    have h3 : row_indices.getD (0 + 1) 0 = row_indices.getD 1 0 := rfl
    omega
  have H : BackwardInput n B row_indices column_indices elements b :=
    ⟨hwf, hn, hB1, hB, hb, fun r _ hr => hrows r hr, hnnz, hfit⟩
  -- the value of the diagonal of every row
  have hdv : ∃ dval : Nat → T, ∀ r, r < n → ∀ q, row_indices.getD r 0 ≤ q →
      q < row_indices.getD (r + 1) 0 → column_indices.getD q 0 = r →
      elements.getD q 0 = dval r := by
    refine ⟨fun r => if h : r < n then elements.getD (Classical.choose (hdiag r h)) 0 else 0,
      ?_⟩
    intro r hr q q1 q2 q3
    simp only [dif_pos hr]
    have := (Classical.choose_spec (hdiag r hr)).2.1 q q1 q2 q3
    rw [this]
  obtain ⟨dval, hdval⟩ := hdv
  have D : DiagonalStored n row_indices column_indices elements dval :=
    ⟨fun r hr => by
      obtain ⟨q, hq, _⟩ := hdiag r hr
      exact ⟨q, hq⟩, hdval⟩
  obtain ⟨x, hk, hlen, hx⟩ := csr_lu_backward_kernel_run H dval D st0 diag0
  have hx2 : ∀ i q, i < n → row_indices.getD i 0 ≤ q → q < row_indices.getD (i + 1) 0 →
      column_indices.getD q 0 = i →
      elements.getD q 0 ≠ 0 ∧
      x.getD i 0 =
        (b.getD i 0 - upperSum row_indices column_indices elements x i) /
          elements.getD q 0 := by
    intro i q hi q1 q2 q3
    obtain ⟨q0, ⟨a1, a2, a3⟩, huniq, hne⟩ := hdiag i hi
    have e : q = q0 := huniq q q1 q2 q3
    subst e
    refine ⟨hne, ?_⟩
    rw [hdval i hi q q1 q2 q3]
    exact hx i hi
  refine ⟨x, hk, hlen, hx2, ?_⟩
  intro hU i hi
  obtain ⟨q0, ⟨a1, a2, a3⟩, huniq, hne⟩ := hdiag i hi
  exact upper_rowSum n row_indices column_indices elements b x hU i hi q0 a1 a2 a3
    huniq hne (hx2 i q0 hi a1 a2 a3).2

/-! ## Instances of the four theorems -/

/-- The theorem for C1 at the matrix `[[1,0,0],[2,1,0],[3,4,1]]` with two lanes. -/
theorem csr_unit_lu_forward_kernel_solves_witness :
    WellFormedCSR 3 [0, 1, 3, 6] [0, 0, 1, 0, 1, 2] [(1 : ℚ), 2, 1, 3, 4, 1] ∧
    ∃ x, csr_unit_lu_forward_kernel 2 ⟨fun _ => 0, fun _ => 0, fun _ => 0⟩
        [0, 1, 3, 6] [0, 0, 1, 0, 1, 2] [(1 : ℚ), 2, 1, 3, 4, 1] [1, 4, 11] 3 = some x ∧
      x.length = 3 ∧
      (∀ i, i < 3 → x.getD i 0 = ([1, 4, 11] : List ℚ).getD i 0 -
        lowerSum [0, 1, 3, 6] [0, 0, 1, 0, 1, 2] [(1 : ℚ), 2, 1, 3, 4, 1] x i) ∧
      (UnitLower 3 [0, 1, 3, 6] [0, 0, 1, 0, 1, 2] [(1 : ℚ), 2, 1, 3, 4, 1] →
        ∀ i, i < 3 → rowSum [0, 1, 3, 6] [0, 0, 1, 0, 1, 2] [(1 : ℚ), 2, 1, 3, 4, 1] x i =
          ([1, 4, 11] : List ℚ).getD i 0) :=
  ⟨⟨by decide, by decide, by decide, by decide, by decide, by decide⟩,
    csr_unit_lu_forward_kernel_solves 3 2 ⟨fun _ => 0, fun _ => 0, fun _ => 0⟩
      [0, 1, 3, 6] [0, 0, 1, 0, 1, 2] [(1 : ℚ), 2, 1, 3, 4, 1] [1, 4, 11]
      (by decide) (by decide) (by decide)
      ⟨by decide, by decide, by decide, by decide, by decide, by decide⟩
      (by decide) (by decide) (by decide)⟩

/-- The theorem for C2 at the same matrix with the diagonal `[1, 2, 4]`. -/
theorem csr_lu_forward_kernel_solves_witness :
    (∀ i, i < 3 → ([1, 2, 4] : List ℚ).getD i 0 ≠ 0) ∧
    ∃ x, csr_lu_forward_kernel 2 ⟨fun _ => 0, fun _ => 0, fun _ => 0⟩
        [0, 1, 3, 6] [0, 0, 1, 0, 1, 2] [(1 : ℚ), 2, 1, 3, 4, 1] [1, 2, 4] [1, 4, 11] 3
        = some x ∧
      x.length = 3 ∧
      ∀ i, i < 3 → ([1, 2, 4] : List ℚ).getD i 0 ≠ 0 ∧
        x.getD i 0 = (([1, 4, 11] : List ℚ).getD i 0 -
          lowerSum [0, 1, 3, 6] [0, 0, 1, 0, 1, 2] [(1 : ℚ), 2, 1, 3, 4, 1] x i) /
          ([1, 2, 4] : List ℚ).getD i 0 :=
  ⟨by intro i hi; interval_cases i <;> norm_num [List.getD],
    csr_lu_forward_kernel_solves 3 2 ⟨fun _ => 0, fun _ => 0, fun _ => 0⟩
      [0, 1, 3, 6] [0, 0, 1, 0, 1, 2] [(1 : ℚ), 2, 1, 3, 4, 1] [1, 2, 4] [1, 4, 11]
      (by decide) (by decide) (by decide)
      ⟨by decide, by decide, by decide, by decide, by decide, by decide⟩
      (by decide) (by decide)
      (by intro i hi; interval_cases i <;> norm_num [List.getD])
      (by decide) (by decide)⟩

/-- The theorem for C3 at the matrix `[[2,1,3],[0,4,5],[0,0,8]]` with two lanes. -/
theorem csr_unit_lu_backward_kernel_solves_witness :
    WellFormedCSR 3 [0, 3, 5, 6] [0, 1, 2, 1, 2, 2] [(2 : ℚ), 1, 3, 4, 5, 8] ∧
    ∃ x, csr_unit_lu_backward_kernel 2 ⟨fun _ => 0, fun _ => 0, fun _ => 0⟩
        [0, 3, 5, 6] [0, 1, 2, 1, 2, 2] [(2 : ℚ), 1, 3, 4, 5, 8] [1, 2, 3] 3 = some x ∧
      x.length = 3 ∧
      (∀ i, i < 3 → x.getD i 0 = ([1, 2, 3] : List ℚ).getD i 0 -
        upperSum [0, 3, 5, 6] [0, 1, 2, 1, 2, 2] [(2 : ℚ), 1, 3, 4, 5, 8] x i) ∧
      (UnitUpper 3 [0, 3, 5, 6] [0, 1, 2, 1, 2, 2] [(2 : ℚ), 1, 3, 4, 5, 8] →
        ∀ i, i < 3 → rowSum [0, 3, 5, 6] [0, 1, 2, 1, 2, 2] [(2 : ℚ), 1, 3, 4, 5, 8] x i =
          ([1, 2, 3] : List ℚ).getD i 0) :=
  ⟨⟨by decide, by decide, by decide, by decide, by decide, by decide⟩,
    csr_unit_lu_backward_kernel_solves 3 2 ⟨fun _ => 0, fun _ => 0, fun _ => 0⟩
      [0, 3, 5, 6] [0, 1, 2, 1, 2, 2] [(2 : ℚ), 1, 3, 4, 5, 8] [1, 2, 3]
      (by decide) (by decide) (by decide)
      ⟨by decide, by decide, by decide, by decide, by decide, by decide⟩
      (by decide) (by decide) (by decide) (by decide)⟩

/-- The theorem for C4 at the matrix `[[2,1,3],[0,4,5],[0,0,8]]` with two lanes. -/
theorem csr_lu_backward_kernel_solves_witness :
    WellFormedCSR 3 [0, 3, 5, 6] [0, 1, 2, 1, 2, 2] [(2 : ℚ), 1, 3, 4, 5, 8] ∧
    ∃ x, csr_lu_backward_kernel 2 ⟨fun _ => 0, fun _ => 0, fun _ => 0⟩ 0
        [0, 3, 5, 6] [0, 1, 2, 1, 2, 2] [(2 : ℚ), 1, 3, 4, 5, 8] [1, 2, 3] 3 = some x ∧
      x.length = 3 ∧
      (∀ i q, i < 3 → ([0, 3, 5, 6] : List Nat).getD i 0 ≤ q →
        q < ([0, 3, 5, 6] : List Nat).getD (i + 1) 0 →
        ([0, 1, 2, 1, 2, 2] : List Nat).getD q 0 = i →
        ([(2 : ℚ), 1, 3, 4, 5, 8]).getD q 0 ≠ 0 ∧
        x.getD i 0 = (([1, 2, 3] : List ℚ).getD i 0 -
          upperSum [0, 3, 5, 6] [0, 1, 2, 1, 2, 2] [(2 : ℚ), 1, 3, 4, 5, 8] x i) /
          ([(2 : ℚ), 1, 3, 4, 5, 8]).getD q 0) ∧
      (UpperTriangular 3 [0, 3, 5, 6] [0, 1, 2, 1, 2, 2] →
        ∀ i, i < 3 → rowSum [0, 3, 5, 6] [0, 1, 2, 1, 2, 2] [(2 : ℚ), 1, 3, 4, 5, 8] x i =
          ([1, 2, 3] : List ℚ).getD i 0) :=
  ⟨⟨by decide, by decide, by decide, by decide, by decide, by decide⟩,
    csr_lu_backward_kernel_solves 3 2 ⟨fun _ => 0, fun _ => 0, fun _ => 0⟩ 0
      [0, 3, 5, 6] [0, 1, 2, 1, 2, 2] [(2 : ℚ), 1, 3, 4, 5, 8] [1, 2, 3]
      (by decide) (by decide) (by decide)
      ⟨by decide, by decide, by decide, by decide, by decide, by decide⟩
      (by decide)
      (by
        intro i hi
        interval_cases i
        · refine ⟨0, by decide, ?_, by norm_num [List.getD]⟩
          intro q2 _ h2 h3
          have h2a : q2 < 3 := h2
          interval_cases q2 <;> simp_all
        · refine ⟨3, by decide, ?_, by norm_num [List.getD]⟩
          intro q2 h1 h2 h3
          have h1a : 3 ≤ q2 := h1
          have h2a : q2 < 5 := h2
          interval_cases q2 <;> simp_all
        · refine ⟨5, by decide, ?_, by norm_num [List.getD]⟩
          intro q2 h1 h2 _
          have h1a : 5 ≤ q2 := h1
          have h2a : q2 < 6 := h2
          omega)
      (by decide)⟩

/-! ## The concrete scenario, the identity matrix and dimension one -/

theorem list_eq_of_getD {α : Type} (x y : List α) (d : α) (n : Nat) (hx : x.length = n)
    (hy : y.length = n) (h : ∀ i, i < n → x.getD i d = y.getD i d) : x = y := by
  apply List.ext_getElem (by omega)
  intro i h1 h2
  have := h i (by omega)
  rwa [List.getD_eq_getElem _ _ h1, List.getD_eq_getElem _ _ h2] at this

/-- C5: the concrete scenario.  For `n = 3`, `row_offsets = [0,1,3,6]`,
`column_indices = [0,0,1,0,1,2]`, `elements = [1,2,1,3,4,1]` and `b = [1,4,11]`,
`csr_unit_lu_forward_kernel` leaves `[1,2,0]`, for every number of lanes `1 ≤ B ≤ 128` and
whatever the staging arrays hold at the start. -/
theorem csr_unit_lu_forward_kernel_scenario (B : Nat) (st0 : Staging T)
    (hB1 : 1 ≤ B) (hB : B ≤ 128) :
    csr_unit_lu_forward_kernel B st0 [0, 1, 3, 6] [0, 0, 1, 0, 1, 2]
      [(1 : T), 2, 1, 3, 4, 1] [1, 4, 11] 3 = some [1, 2, 0] := by
  have H : ForwardInput 3 B [0, 1, 3, 6] [0, 0, 1, 0, 1, 2] [(1 : T), 2, 1, 3, 4, 1]
      [1, 4, 11] :=
    { wf := ⟨rfl, rfl, by decide, rfl, rfl, by decide⟩
      n_pos := by omega
      B_pos := hB1
      B_le := hB
      b_len := rfl
      rows := by decide
      fit := by
        show 6 + B < 4294967296
        omega }
  obtain ⟨x, hk, hlen, hx⟩ := csr_unit_lu_forward_kernel_run H st0
  rw [hk]
  have h0 := hx 0 (by omega)
  have h1 := hx 1 (by omega)
  have h2 := hx 2 (by omega)
  simp [lowerSum, Finset.sum_filter, Finset.sum_Ico_succ_top] at h0 h1 h2
  obtain ⟨a, b', c, rfl⟩ := List.length_eq_three.mp hlen
  simp only [List.getElem?_cons_zero, List.getElem?_cons_succ, Option.getD_some] at h0 h1 h2
  subst h0
  rw [h1] at h2
  rw [h1, h2]
  norm_num

/-- The theorem for C5 with 128 lanes (one window, partially filled) and with 2 lanes
(four windows). -/
theorem csr_unit_lu_forward_kernel_scenario_witness :
    csr_unit_lu_forward_kernel 128 ⟨fun _ => 0, fun _ => 0, fun _ => 0⟩ [0, 1, 3, 6]
      [0, 0, 1, 0, 1, 2] [(1 : ℚ), 2, 1, 3, 4, 1] [1, 4, 11] 3 = some [1, 2, 0] ∧
    csr_unit_lu_forward_kernel 2 ⟨fun _ => 0, fun _ => 0, fun _ => 0⟩ [0, 1, 3, 6]
      [0, 0, 1, 0, 1, 2] [(1 : ℚ), 2, 1, 3, 4, 1] [1, 4, 11] 3 = some [1, 2, 0] :=
  ⟨csr_unit_lu_forward_kernel_scenario 128 _ (by decide) (by decide),
    csr_unit_lu_forward_kernel_scenario 2 _ (by decide) (by decide)⟩

theorem getD_range (m r : Nat) (h : r < m) : (List.range m).getD r 0 = r := by
  rw [List.getD_eq_getElem _ _ (by rw [List.length_range]; exact h), List.getElem_range]

omit [Field T] in
theorem wellFormed_identity (n : Nat) (el : List T) (hel : el.length = n) :
    WellFormedCSR n (List.range (n + 1)) (List.range n) el where
  rows_len := List.length_range _
  rows_zero := getD_range _ _ (by omega)
  rows_mono := fun r hr => by
    rw [getD_range _ _ (by omega), getD_range _ _ (by omega)]; omega
  cols_len := by rw [List.length_range, getD_range _ _ (by omega)]
  elems_len := by rw [hel, getD_range _ _ (by omega)]
  cols_lt := fun q hq => by
    rw [List.length_range] at hq
    rw [getD_range _ _ hq]; exact hq

theorem lowerSum_identity (n : Nat) (el x : List T) (i : Nat) (hi : i < n) :
    lowerSum (List.range (n + 1)) (List.range n) el x i = 0 := by
  unfold lowerSum
  rw [getD_range _ _ (by omega), getD_range _ _ (by omega)]
  apply Finset.sum_eq_zero
  intro q hq
  rw [Finset.mem_filter, Finset.mem_Ico] at hq
  obtain ⟨⟨h1, h2⟩, h3⟩ := hq
  rw [getD_range _ _ (by omega)] at h3
  omega

theorem upperSum_identity (n : Nat) (el x : List T) (i : Nat) (hi : i < n) :
    upperSum (List.range (n + 1)) (List.range n) el x i = 0 := by
  unfold upperSum
  rw [getD_range _ _ (by omega), getD_range _ _ (by omega)]
  apply Finset.sum_eq_zero
  intro q hq
  rw [Finset.mem_filter, Finset.mem_Ico] at hq
  obtain ⟨⟨h1, h2⟩, h3⟩ := hq
  rw [getD_range _ _ (by omega)] at h3
  omega

/-- C9: the identity pattern.  For `n ≥ 1`, `1 ≤ B ≤ 128` and any `b`, on the diagonal-only
CSR matrix (`row_offsets = [0,1,...,n]`, `column_indices = [0,...,n-1]`, with `n + B` an
`unsigned int`): `csr_unit_lu_forward_kernel` and `csr_unit_lu_backward_kernel` return `b`
unchanged, `csr_lu_forward_kernel` returns `b_i / diagonal_entries[i]` for every `i`, and
`csr_lu_backward_kernel` returns `b_i / elements[i]` for every `i`. -/
theorem identity_pattern_solves (n B : Nat) (st0 : Staging T) (diag0 : T)
    (elements diagonal_entries b : List T)
    (hn : 1 ≤ n) (hB1 : 1 ≤ B) (hB : B ≤ 128)
    (hel : elements.length = n) (hd : diagonal_entries.length = n) (hb : b.length = n)
    (hfit : n + B < 4294967296) :
    csr_unit_lu_forward_kernel B st0 (List.range (n + 1)) (List.range n) elements b n
      = some b ∧
    csr_unit_lu_backward_kernel B st0 (List.range (n + 1)) (List.range n) elements b n
      = some b ∧
    (∃ x, csr_lu_forward_kernel B st0 (List.range (n + 1)) (List.range n) elements
        diagonal_entries b n = some x ∧ x.length = n ∧
      ∀ i, i < n → x.getD i 0 = b.getD i 0 / diagonal_entries.getD i 0) ∧
    (∃ x, csr_lu_backward_kernel B st0 diag0 (List.range (n + 1)) (List.range n) elements
        b n = some x ∧ x.length = n ∧
      ∀ i, i < n → x.getD i 0 = b.getD i 0 / elements.getD i 0) := by
  have hwf := wellFormed_identity n elements hel
  have hnn : (List.range (n + 1)).getD n 0 = n := getD_range _ _ (by omega)
  have hrows : ∀ r, 1 ≤ r → r < n →
      (List.range (n + 1)).getD r 0 < (List.range (n + 1)).getD (r + 1) 0 := by
    intro r _ hr
    rw [getD_range _ _ (by omega), getD_range _ _ (by omega)]; omega
  have HF : ForwardInput n B (List.range (n + 1)) (List.range n) elements b :=
    ⟨hwf, hn, hB1, hB, hb, hrows, by rw [hnn]; exact hfit⟩
  have HB : BackwardInput n B (List.range (n + 1)) (List.range n) elements b :=
    ⟨hwf, hn, hB1, hB, hb, hrows, by rw [hnn]; exact hn, by rw [hnn]; exact hfit⟩
  have D : DiagonalStored n (List.range (n + 1)) (List.range n) elements
      (fun i => elements.getD i 0) :=
    ⟨fun r hr => ⟨r, by rw [getD_range _ _ (by omega)],
        by rw [getD_range _ _ (by omega)]; omega, getD_range _ _ hr⟩,
      fun r hr q q1 q2 _ => by
        rw [getD_range _ _ (by omega)] at q1 q2
        have : q = r := by omega
        rw [this]⟩
  refine ⟨?_, ?_, ?_, ?_⟩
  · obtain ⟨x, hk, hlen, hx⟩ := csr_unit_lu_forward_kernel_run HF st0
    rw [hk, list_eq_of_getD x b 0 n hlen hb (fun i hi => by
      rw [hx i hi, lowerSum_identity n elements x i hi, sub_zero])]
  · obtain ⟨x, hk, hlen, hx⟩ := csr_unit_lu_backward_kernel_run HB st0
    rw [hk, list_eq_of_getD x b 0 n hlen hb (fun i hi => by
      rw [hx i hi, upperSum_identity n elements x i hi, sub_zero])]
  · obtain ⟨x, hk, hlen, hx⟩ := csr_lu_forward_kernel_run HF diagonal_entries hd st0
    exact ⟨x, hk, hlen, fun i hi => by
      rw [hx i hi, lowerSum_identity n elements x i hi, sub_zero]⟩
  · obtain ⟨x, hk, hlen, hx⟩ := csr_lu_backward_kernel_run HB _ D st0 diag0
    exact ⟨x, hk, hlen, fun i hi => by
      rw [hx i hi, upperSum_identity n elements x i hi, sub_zero]⟩

/-- The theorem for C9 at `n = 3` with two lanes. -/
theorem identity_pattern_solves_witness :
    csr_unit_lu_forward_kernel 2 ⟨fun _ => 0, fun _ => 0, fun _ => 0⟩ (List.range (3 + 1))
      (List.range 3) [(5 : ℚ), 6, 7] [1, 4, 11] 3 = some [1, 4, 11] ∧
    csr_unit_lu_backward_kernel 2 ⟨fun _ => 0, fun _ => 0, fun _ => 0⟩ (List.range (3 + 1))
      (List.range 3) [(5 : ℚ), 6, 7] [1, 4, 11] 3 = some [1, 4, 11] ∧
    (∃ x, csr_lu_forward_kernel 2 ⟨fun _ => 0, fun _ => 0, fun _ => 0⟩ (List.range (3 + 1))
        (List.range 3) [(5 : ℚ), 6, 7] [2, 3, 4] [1, 4, 11] 3 = some x ∧ x.length = 3 ∧
      ∀ i, i < 3 → x.getD i 0 = ([1, 4, 11] : List ℚ).getD i 0 /
        ([2, 3, 4] : List ℚ).getD i 0) ∧
    (∃ x, csr_lu_backward_kernel 2 ⟨fun _ => 0, fun _ => 0, fun _ => 0⟩ 0
        (List.range (3 + 1)) (List.range 3) [(5 : ℚ), 6, 7] [1, 4, 11] 3 = some x ∧
      x.length = 3 ∧
      ∀ i, i < 3 → x.getD i 0 = ([1, 4, 11] : List ℚ).getD i 0 /
        ([(5 : ℚ), 6, 7]).getD i 0) :=
  identity_pattern_solves 3 2 ⟨fun _ => 0, fun _ => 0, fun _ => 0⟩ 0 [(5 : ℚ), 6, 7]
    [2, 3, 4] [1, 4, 11] (by decide) (by decide) (by decide) rfl rfl rfl (by decide)

/-- C10: dimension one for the kernels with a diagonal.  For `1 ≤ B ≤ 128`, any `b0` and
nonzero diagonal: `csr_lu_forward_kernel` with `size = 1` ends (no read outside an array)
and leaves `b0 / diagonal_entries[0]`, both when the row stores one entry
(`row_offsets = [0,1]`) and when it stores none (`row_offsets = [0,0]`);
`csr_lu_backward_kernel` with `size = 1` and one stored diagonal element `e` ends and
leaves `b0 / e`. -/
theorem dimension_one_solves (B : Nat) (st0 : Staging T) (diag0 a e d0 b0 : T)
    (hB1 : 1 ≤ B) (hB : B ≤ 128) (hd0 : d0 ≠ 0) (he : e ≠ 0) :
    d0 ≠ 0 ∧ e ≠ 0 ∧
    csr_lu_forward_kernel B st0 [0, 1] [0] [a] [d0] [b0] 1 = some [b0 / d0] ∧
    csr_lu_forward_kernel B st0 [0, 0] [] [] [d0] [b0] 1 = some [b0 / d0] ∧
    csr_lu_backward_kernel B st0 diag0 [0, 1] [0] [e] [b0] 1 = some [b0 / e] := by
  have H1 : ForwardInput 1 B [0, 1] [0] [a] [b0] :=
    { wf := ⟨rfl, rfl, by decide, rfl, rfl, by decide⟩
      n_pos := le_refl 1
      B_pos := hB1
      B_le := hB
      b_len := rfl
      rows := fun r h1 h2 => by omega
      fit := by
        show 1 + B < 4294967296
        omega }
  have H0 : ForwardInput 1 B [0, 0] [] ([] : List T) [b0] :=
    { wf := ⟨rfl, rfl, by decide, rfl, rfl, by decide⟩
      n_pos := le_refl 1
      B_pos := hB1
      B_le := hB
      b_len := rfl
      rows := fun r h1 h2 => by omega
      fit := by
        show 0 + B < 4294967296
        omega }
  have HB : BackwardInput 1 B [0, 1] [0] [e] [b0] :=
    { wf := ⟨rfl, rfl, by decide, rfl, rfl, by decide⟩
      n_pos := le_refl 1
      B_pos := hB1
      B_le := hB
      b_len := rfl
      rows := fun r h1 h2 => by omega
      nnz_pos := by decide
      fit := by
        show 1 + B < 4294967296
        omega }
  have D : DiagonalStored 1 [0, 1] [0] [e] (fun _ => e) :=
    ⟨fun r hr => ⟨0, by
        have : r = 0 := by omega
        subst this
        decide⟩,
      fun r hr q q1 q2 _ => by
        have hr0 : r = 0 := by omega
        subst hr0
        have : q < 1 := q2
        have hq0 : q = 0 := by omega
        subst hq0
        rfl⟩
  refine ⟨hd0, he, ?_, ?_, ?_⟩
  · obtain ⟨x, hk, hlen, hx⟩ := csr_lu_forward_kernel_run H1 [d0] rfl st0
    have h0 := hx 0 (by omega)
    simp [lowerSum, Finset.sum_filter] at h0
    obtain ⟨x0, rfl⟩ := List.length_eq_one.mp hlen
    simp only [List.getElem?_cons_zero, Option.getD_some] at h0
    rw [hk, h0]
  · obtain ⟨x, hk, hlen, hx⟩ := csr_lu_forward_kernel_run H0 [d0] rfl st0
    have h0 := hx 0 (by omega)
    simp [lowerSum, Finset.sum_filter] at h0
    obtain ⟨x0, rfl⟩ := List.length_eq_one.mp hlen
    simp only [List.getElem?_cons_zero, Option.getD_some] at h0
    rw [hk, h0]
  · obtain ⟨x, hk, hlen, hx⟩ := csr_lu_backward_kernel_run HB _ D st0 diag0
    have h0 := hx 0 (by omega)
    simp [upperSum, Finset.sum_filter] at h0
    obtain ⟨x0, rfl⟩ := List.length_eq_one.mp hlen
    simp only [List.getElem?_cons_zero, Option.getD_some] at h0
    rw [hk, h0]

/-- The theorem for C10 with 128 lanes, `b0 = 3` and the diagonal `4`. -/
theorem dimension_one_solves_witness :
    (4 : ℚ) ≠ 0 ∧ (4 : ℚ) ≠ 0 ∧
    csr_lu_forward_kernel 128 ⟨fun _ => 0, fun _ => 0, fun _ => 0⟩ [0, 1] [0] [(7 : ℚ)] [4]
      [3] 1 = some [3 / 4] ∧
    csr_lu_forward_kernel 128 ⟨fun _ => 0, fun _ => 0, fun _ => 0⟩ [0, 0] [] [] [(4 : ℚ)]
      [3] 1 = some [3 / 4] ∧
    csr_lu_backward_kernel 128 ⟨fun _ => 0, fun _ => 0, fun _ => 0⟩ 0 [0, 1] [0] [(4 : ℚ)]
      [3] 1 = some [3 / 4] :=
  dimension_one_solves 128 ⟨fun _ => 0, fun _ => 0, fun _ => 0⟩ 0 7 4 4 3 (by decide)
    (by decide) (by norm_num) (by norm_num)

/-! ## The transposed kernels at three inputs -/

/-- C6, at two inputs on which the kernel does not do what the claim says, both with 256
lanes.  First the 1 x 1 upper triangular matrix with its diagonal stored
(`row_offsets = [0,1]`, `column_indices = [0]`): every slot `1, ..., 255` of
`row_index_lookahead` is filled with `size - 1 = 0`, so the row lookup of lane `0` for
position `0` runs through the whole table and reads slot 256, outside the array; the kernel
does not end regularly.  Second a 300 x 300 strictly upper triangular matrix without stored
diagonal whose only entry is `(298, 299)`: the table holds `row_indices[0 .. 255]`, all `0`,
and the lookup for position `0` leaves it in the same way. -/
theorem csr_trans_unit_lu_forward_kernel_leaves_lookahead :
    csr_trans_unit_lu_forward_kernel 256 (fun _ => 0) (fun _ => 0) [0, 1] [0] [(1 : ℚ)] [5] 1
      = none ∧
    csr_trans_unit_lu_forward_kernel 256 (fun _ => 0) (fun _ => 0)
      (List.replicate 299 0 ++ [1, 1]) [299] [(1 : ℚ)] (List.replicate 300 1) 300 = none := by
  decide!

/-- C7, at an input on which the kernel does not do what the claim says: the lower
triangular matrix `[[1,0],[3,1]]` and `b = [1,2]` with 256 lanes.  The solution of
`L^T x = b` with unit diagonal is `[-5, 2]`; the kernel, whose `row_at_window_start` starts
at `0`, finds row `0` for every position, scatters nothing and leaves `[1, 2]`. -/
theorem csr_trans_unit_lu_backward_kernel_leaves_rhs :
    csr_trans_unit_lu_backward_kernel 256 (fun _ => 0) (fun _ => 0) [0, 1, 3] [0, 0, 1]
      [(1 : ℚ), 3, 1] [1, 2] 2 = some [1, 2] := by
  decide!

/-- C8, at an input on which the kernel does not do what the claim says: row `0` of a
4 x 4 strictly upper triangular body stores three entries, the window has two lanes, so
the row straddles two windows; `diagonal_entries = [2,1,1,1]` and `b = [4,4,4,4]`.  The
solution is `[2,2,2,2]`; the kernel divides `vector[0]` by `diagonal_entries[0]` in both
windows and leaves `[1,2,2,3]`. -/
theorem csr_trans_lu_forward_kernel_divides_twice :
    csr_trans_lu_forward_kernel 2 (fun _ => 0) (fun _ => 0) [0, 3, 3, 3, 3] [1, 2, 3]
      [(1 : ℚ), 1, 1] [2, 1, 1, 1] [4, 4, 4, 4] 4 = some [1, 2, 2, 3] := by
  decide!

/-! ## Loops: two runs side by side, and runs seen through a map -/

/-- Invariant rule for two runs of `forCount` side by side. -/
theorem forCount_inv2 {σ τ : Type} (bodyA : Nat → σ → Option σ) (bodyB : Nat → τ → Option τ)
    (P : Nat → σ → τ → Prop) :
    ∀ (c k : Nat) (s : σ) (t : τ), P k s t →
      (∀ j s1 t1, k ≤ j → j < k + c → P j s1 t1 →
        ∃ s2 t2, bodyA j s1 = some s2 ∧ bodyB j t1 = some t2 ∧ P (j + 1) s2 t2) →
      ∃ s2 t2, forCount bodyA c k s = some s2 ∧ forCount bodyB c k t = some t2 ∧
        P (k + c) s2 t2 := by
  intro c
  induction c with
  | zero => intro k s t h0 _; exact ⟨s, t, rfl, rfl, by simpa using h0⟩
  | succ c ih =>
    intro k s t h0 hstep
    obtain ⟨s1, t1, hs1, ht1, hP1⟩ := hstep k s t (le_refl k) (by omega) h0
    obtain ⟨s2, t2, hs2, ht2, hP2⟩ := ih (k + 1) s1 t1 hP1 (fun j s3 t3 hj1 hj2 hP =>
      hstep j s3 t3 (by omega) (by omega) hP)
    refine ⟨s2, t2, ?_, ?_, ?_⟩
    · simp [forCount, hs1, hs2]
    · simp [forCount, ht1, ht2]
    · have : k + 1 + c = k + (c + 1) := by omega
      rw [← this]; exact hP2

/-- Invariant rule for two runs of `forStride` side by side. -/
theorem forStride_inv2 {σ τ : Type} (B m : Nat) (bodyA : Nat → σ → Option σ)
    (bodyB : Nat → τ → Option τ) (Q : Nat → σ → τ → Prop) (hB : 1 ≤ B)
    (hfit : m * B < 4294967296)
    (hbody : ∀ w s t, w < m → Q w s t →
      ∃ s1 t1, bodyA (w * B) s = some s1 ∧ bodyB (w * B) t = some t1 ∧ Q (w + 1) s1 t1) :
    ∀ (fuel w : Nat) (s : σ) (t : τ), w ≤ m → m - w ≤ fuel → Q w s t →
      ∃ s1 t1, forStride B (m * B) bodyA fuel (w * B) s = some s1 ∧
        forStride B (m * B) bodyB fuel (w * B) t = some t1 ∧ Q m s1 t1 := by
  intro fuel
  induction fuel with
  | zero =>
    intro w s t hw hf hQ
    have hwm : w = m := by omega
    subst hwm
    exact ⟨s, t, by simp [forStride], by simp [forStride], hQ⟩
  | succ fuel ih =>
    intro w s t hw hf hQ
    by_cases hwm : w = m
    · subst hwm
      exact ⟨s, t, by simp [forStride], by simp [forStride], hQ⟩
    · have hlt : w < m := by omega
      have h1 : w * B < m * B := Nat.mul_lt_mul_of_pos_right hlt (by omega)
      obtain ⟨s1, t1, hs1, ht1, hQ1⟩ := hbody w s t hlt hQ
      have h2 : (w + 1) * B ≤ m * B := Nat.mul_le_mul_right B (by omega)
      have h3 : uadd (w * B) B = (w + 1) * B := by
        rw [uadd_of_lt _ _ (by rw [Nat.add_mul] at h2; omega), Nat.add_mul]; omega
      obtain ⟨s2, t2, hs2, ht2, hQ2⟩ := ih (w + 1) s1 t1 (by omega) (by omega) hQ1
      exact ⟨s2, t2, by simp [forStride, h1, hs1, h3, hs2],
        by simp [forStride, h1, ht1, h3, ht2], hQ2⟩

/-- Invariant rule for two runs of `whileDown` side by side. -/
theorem whileDown_inv2 {σ τ : Type} (B m : Nat) (bodyA : Nat → σ → Option σ)
    (bodyB : Nat → τ → Option τ) (Q : Nat → σ → τ → Prop) (hB : 1 ≤ B)
    (hfit : m * B < 4294967296)
    (hbody : ∀ w s t, w ≤ m → Q (w + 1) s t →
      ∃ s1 t1, bodyA (w * B) s = some s1 ∧ bodyB (w * B) t = some t1 ∧ Q w s1 t1) :
    ∀ (fuel w : Nat) (s : σ) (t : τ), w ≤ m → w < fuel → Q (w + 1) s t →
      ∃ s1 t1, whileDown B bodyA fuel (w * B) s = some s1 ∧
        whileDown B bodyB fuel (w * B) t = some t1 ∧ Q 0 s1 t1 := by
  intro fuel
  induction fuel with
  | zero => intro w s t _ hf _; omega
  | succ fuel ih =>
    intro w s t hw hf hQ
    obtain ⟨s1, t1, hs1, ht1, hQ1⟩ := hbody w s t hw hQ
    by_cases hw0 : w = 0
    · subst hw0
      refine ⟨s1, t1, ?_, ?_, hQ1⟩
      · have : 0 * B < B := by omega
        simp only [whileDown, hs1, Option.some_bind, this, if_true]
      · have : 0 * B < B := by omega
        simp only [whileDown, ht1, Option.some_bind, this, if_true]
    · have hwB : w * B ≤ m * B := Nat.mul_le_mul_right B hw
      have h1 : B ≤ w * B := Nat.le_mul_of_pos_left B (by omega)
      have h2 : usub (w * B) B = (w - 1) * B := by
        rw [usub_of_le _ _ h1 (by omega), Nat.sub_mul, Nat.one_mul]
      have h3 : w - 1 + 1 = w := by omega
      obtain ⟨s2, t2, hs2, ht2, hQ2⟩ :=
        ih (w - 1) s1 t1 (by omega) (by omega) (by rw [h3]; exact hQ1)
      refine ⟨s2, t2, ?_, ?_, hQ2⟩
      · have : ¬ w * B < B := by omega
        simp only [whileDown, hs1, Option.some_bind, this, if_false, h2, hs2]
      · have : ¬ w * B < B := by omega
        simp only [whileDown, ht1, Option.some_bind, this, if_false, h2, ht2]

/-- A run of `forCount` seen through a map `g` that commutes with the body. -/
theorem forCount_map {σ τ : Type} (g : σ → τ) (f : Nat → σ → Option σ)
    (f2 : Nat → τ → Option τ) (h : ∀ k s, (f k s).map g = f2 k (g s)) :
    ∀ (c k : Nat) (s : σ), (forCount f c k s).map g = forCount f2 c k (g s) := by
  intro c
  induction c with
  | zero => intro k s; rfl
  | succ c ih =>
    intro k s
    have hk := h k s
    simp only [forCount]
    cases hf : f k s with
    | none => rw [hf] at hk; simp [← hk]
    | some s1 =>
      rw [hf] at hk
      simp only [Option.map_some'] at hk
      simp only [Option.some_bind, ← hk]
      exact ih (k + 1) s1

/-- A run of `forStride` seen through a map `g` that commutes with the body. -/
theorem forStride_map {σ τ : Type} (g : σ → τ) (B loop_end : Nat) (f : Nat → σ → Option σ)
    (f2 : Nat → τ → Option τ) (h : ∀ k s, (f k s).map g = f2 k (g s)) :
    ∀ (fuel i : Nat) (s : σ),
      (forStride B loop_end f fuel i s).map g = forStride B loop_end f2 fuel i (g s) := by
  intro fuel
  induction fuel with
  | zero => intro i s; simp only [forStride]; split_ifs <;> rfl
  | succ fuel ih =>
    intro i s
    have hk := h i s
    simp only [forStride]
    split_ifs
    · cases hf : f i s with
      | none => rw [hf] at hk; simp [← hk]
      | some s1 =>
        rw [hf] at hk
        simp only [Option.map_some'] at hk
        simp only [Option.some_bind, ← hk]
        exact ih (uadd i B) s1
    · rfl

/-- A run of `whileDown` seen through a map `g` that commutes with the body. -/
theorem whileDown_map {σ τ : Type} (g : σ → τ) (B : Nat) (f : Nat → σ → Option σ)
    (f2 : Nat → τ → Option τ) (h : ∀ k s, (f k s).map g = f2 k (g s)) :
    ∀ (fuel i : Nat) (s : σ),
      (whileDown B f fuel i s).map g = whileDown B f2 fuel i (g s) := by
  intro fuel
  induction fuel with
  | zero => intro i s; rfl
  | succ fuel ih =>
    intro i s
    have hk := h i s
    simp only [whileDown]
    cases hf : f i s with
    | none => rw [hf] at hk; simp [← hk]
    | some s1 =>
      rw [hf] at hk
      simp only [Option.map_some'] at hk
      simp only [Option.some_bind, ← hk]
      split_ifs
      · rfl
      · exact ih (usub i B) s1

/-! ## The record of a run -/

omit [Field T] in
theorem writtenRows_append (l1 l2 : List (Event T)) :
    writtenRows (l1 ++ l2) = writtenRows l1 ++ writtenRows l2 := by
  induction l1 with
  | nil => rfl
  | cons e l ih => cases e <;> simp [writtenRows, ih]

omit [Field T] in
theorem windowCount_append (l1 l2 : List (Event T)) :
    windowCount (l1 ++ l2) = windowCount l1 + windowCount l2 := by
  induction l1 with
  | nil => simp [windowCount]
  | cons e l ih =>
    cases e with
    | window =>
      show windowCount (l ++ l2) + 1 = windowCount l + 1 + windowCount l2
      rw [ih]; omega
    | write r => exact ih
    | shortcut v x => exact ih

omit [Field T] in
theorem shortcutsSound_append (l1 l2 : List (Event T)) (h1 : ShortcutsSound l1)
    (h2 : ShortcutsSound l2) : ShortcutsSound (l1 ++ l2) := by
  intro v x hmem
  rcases List.mem_append.mp hmem with h | h
  · exact h1 v x h
  · exact h2 v x h

omit [Field T] in
theorem shortcutsSound_nil : ShortcutsSound ([] : List (Event T)) := by
  intro v x hmem; simp at hmem

omit [Field T] in
theorem shortcutsSound_write (r : Nat) : ShortcutsSound [(Event.write r : Event T)] := by
  intro v x hmem; simp at hmem

omit [Field T] in
theorem shortcutsSound_window : ShortcutsSound [(Event.window : Event T)] := by
  intro v x hmem; simp at hmem

/-! ## The forward kernels: two observed runs side by side -/

theorem forward_finalize_observed_hit (fin : Nat → T → Option T) (ro : List Nat) (n p : Nat)
    (s : SolveState T) (ev : List (Event T)) (val : T) (hro : ro.length = n + 1)
    (hn : n < 4294967296) (hlen : s.vector.length = n) (hrow : s.current_row < n)
    (hp : p = s.next_row) (hval : fin s.current_row s.current_vector_entry = some val) :
    forward_finalize_observed fin ro n p (s, ev) =
      some ({ vector := s.vector.set s.current_row val, current_row := s.current_row + 1,
              row_at_window_start := s.row_at_window_start,
              current_vector_entry :=
                if s.current_row + 1 < n then
                  (s.vector.set s.current_row val).getD (s.current_row + 1) 0
                else s.current_vector_entry,
              next_row :=
                if s.current_row + 1 < n then ro.getD (s.current_row + 2) 0
                else s.next_row },
            ev ++ [Event.write s.current_row]) := by
  subst hp
  have hu : uadd s.current_row 1 = s.current_row + 1 := uadd_of_lt _ _ (by omega)
  simp only [forward_finalize_observed, hrow, and_self, if_true, hval, Option.some_bind,
    gwrite_of_lt _ _ _ (by omega : s.current_row < s.vector.length), hu]
  by_cases h1 : s.current_row + 1 < n
  · have hu2 : uadd (s.current_row + 1) 1 = s.current_row + 2 := uadd_of_lt _ _ (by omega)
    simp only [h1, if_true, hu2]
    rw [gread_of_lt ro _ 0 (by omega), Option.some_bind,
      gread_of_lt _ _ 0 (by rw [List.length_set]; omega), Option.some_bind]
  · simp only [h1, if_false]

theorem forward_finalize_pair {n nnz : Nat} {ro col : List Nat} {el : List T}
    (fin : Nat → T → Option T) (V : List T) (w p : Nat) (a : SolveState T)
    (ev : List (Event T)) (b : SolveState T) (evb : List (Event T))
    (hwf : WellFormedCSR n ro col el) (hnnz : nnz = ro.getD n 0) (hn : n < 4294967296)
    (hfin : ∀ r v, r < n → ∃ val, fin r v = some val)
    (h : ForwardPair n nnz V w p a ev b) :
    ∃ a1 ev1 b1 evb1, forward_finalize_observed fin ro n p (a, ev) = some (a1, ev1) ∧
      forward_finalize_observed fin ro n p (b, evb) = some (b1, evb1) ∧
      ForwardPair n nnz V w (p + 1) a1 ev1 b1 := by
  by_cases hc : a.current_row < n ∧ p = a.next_row
  · obtain ⟨hrow, hp⟩ := hc
    have hcve : a.current_vector_entry = b.current_vector_entry := by
      rcases h.acc with h1 | h1 | h1
      · exact h1
      · omega
      · omega
    obtain ⟨val, hval⟩ := hfin a.current_row a.current_vector_entry hrow
    have hA := forward_finalize_observed_hit fin ro n p a ev val hwf.rows_len hn h.len hrow
      hp hval
    have hB := forward_finalize_observed_hit fin ro n p b evb val hwf.rows_len hn
      (by rw [h.same_vector]; exact h.len) (by rw [h.same_row]; exact hrow)
      (by rw [h.same_next]; exact hp) (by rw [h.same_row, ← hcve]; exact hval)
    refine ⟨_, _, _, _, hA, hB, ?_⟩
    exact
      { len := by
          show (a.vector.set a.current_row val).length = n
          rw [List.length_set]; exact h.len
        row_le := by
          show a.current_row + 1 ≤ n
          omega
        start_le := by
          show a.row_at_window_start ≤ a.current_row + 1
          have := h.start_le
          omega
        next_le := by
          intro hlt
          have hlt2 : a.current_row + 1 < n := hlt
          show (if a.current_row + 1 < n then ro.getD (a.current_row + 2) 0
            else a.next_row) ≤ nnz
          rw [if_pos hlt2, hnnz]
          exact hwf.mono_le n (a.current_row + 2) (by omega) (le_refl n)
        kept := by
          intro j hj
          have hj2 : j < a.row_at_window_start := hj
          show (a.vector.set a.current_row val).getD j 0 = V.getD j 0
          have := h.start_le
          rw [getD_set_of_ne _ _ _ _ _ (by omega)]
          exact h.kept j hj2
        same_vector := by
          show b.vector.set b.current_row val = a.vector.set a.current_row val
          rw [h.same_vector, h.same_row]
        same_row := by
          show b.current_row + 1 = a.current_row + 1
          rw [h.same_row]
        same_start := h.same_start
        same_next := by
          show (if b.current_row + 1 < n then ro.getD (b.current_row + 2) 0
            else b.next_row) = (if a.current_row + 1 < n then ro.getD (a.current_row + 2) 0
            else a.next_row)
          rw [h.same_row, h.same_next]
        acc := by
          left
          show (if a.current_row + 1 < n then
              (a.vector.set a.current_row val).getD (a.current_row + 1) 0
            else a.current_vector_entry) = (if b.current_row + 1 < n then
              (b.vector.set b.current_row val).getD (b.current_row + 1) 0
            else b.current_vector_entry)
          rw [h.same_vector, h.same_row, hcve]
        windows := by
          rw [windowCount_append]
          simp only [windowCount, Nat.add_zero]
          exact h.windows
        increasing := by
          rw [writtenRows_append]
          refine List.pairwise_append.mpr ⟨h.increasing, List.pairwise_singleton _ _, ?_⟩
          intro r hr x hx
          simp only [writtenRows, List.mem_singleton] at hx
          subst hx
          exact h.below r hr
        below := by
          intro r hr
          show r < a.current_row + 1
          rw [writtenRows_append] at hr
          rcases List.mem_append.mp hr with h1 | h1
          · have := h.below r h1
            omega
          · simp only [writtenRows, List.mem_singleton] at h1
            omega
        sound := shortcutsSound_append _ _ h.sound (shortcutsSound_write _) }
  · have hcb : ¬ (b.current_row < n ∧ p = b.next_row) := by
      rw [h.same_row, h.same_next]; exact hc
    refine ⟨a, ev, b, evb, by simp only [forward_finalize_observed, hc, if_false],
      by simp only [forward_finalize_observed, hcb, if_false], ?_⟩
    exact
      { len := h.len
        row_le := h.row_le
        start_le := h.start_le
        next_le := h.next_le
        kept := h.kept
        same_vector := h.same_vector
        same_row := h.same_row
        same_start := h.same_start
        same_next := h.same_next
        acc := by
          rcases h.acc with h1 | h1 | h1
          · exact Or.inl h1
          · exact Or.inr (Or.inl h1)
          · exact Or.inr (Or.inr (by omega))
        windows := h.windows
        increasing := h.increasing
        below := h.below
        sound := h.sound }

theorem forward_substitute_observed_spec (d : Bool) (n nnz i : Nat) (st : Staging T)
    (k : Nat) (s : SolveState T) (ev : List (Event T)) (V : List T) (c0 : Nat) (e0 : T)
    (hk : k < 128) (hlen : s.vector.length = n)
    (hkept : ∀ j, j < s.row_at_window_start → s.vector.getD j 0 = V.getD j 0)
    (hL : uadd i k < nnz → st.col_index_buffer k = c0 ∧ st.element_buffer k = e0 ∧
      st.vector_buffer k = V.getD c0 0) :
    ∃ δ evs, forward_substitute_observed d n nnz i st k (s, ev) =
        some ({ s with current_vector_entry := s.current_vector_entry - δ }, ev ++ evs) ∧
      (uadd i k < nnz →
        δ = if s.current_row < n ∧ c0 < s.current_row then e0 * s.vector.getD c0 0 else 0) ∧
      writtenRows evs = [] ∧ windowCount evs = 0 ∧ ShortcutsSound evs := by
  by_cases h1 : s.current_row < n
  · by_cases h2 : st.col_index_buffer k < s.current_row
    · have hg : gread s.vector (st.col_index_buffer k) =
          some (s.vector.getD (st.col_index_buffer k) 0) := gread_of_lt _ _ 0 (by omega)
      by_cases h3 : st.col_index_buffer k < s.row_at_window_start
      · cases d with
        | true =>
          refine ⟨st.element_buffer k * s.vector.getD (st.col_index_buffer k) 0, [], ?_, ?_,
            rfl, rfl, shortcutsSound_nil⟩
          · simp only [forward_substitute_observed, h1, if_true, sread_of_lt _ _ _ hk,
              Option.some_bind, h2, h3, hg, List.append_nil]
          · intro hin
            obtain ⟨hc, he, _⟩ := hL hin
            rw [← hc, ← he, if_pos ⟨h1, h2⟩]
        | false =>
          refine ⟨st.element_buffer k * st.vector_buffer k,
            if uadd i k < nnz then
              [Event.shortcut (st.vector_buffer k) (gread s.vector (st.col_index_buffer k))]
            else [], ?_, ?_, ?_, ?_, ?_⟩
          · simp only [forward_substitute_observed, h1, if_true, sread_of_lt _ _ _ hk,
              Option.some_bind, h2, h3, Bool.false_eq_true, if_false]
            by_cases hin : uadd i k < nnz
            · simp only [hin, if_true]
            · simp only [hin, if_false, List.append_nil]
          · intro hin
            obtain ⟨hc, he, hv⟩ := hL hin
            rw [hv, ← hkept c0 (by rw [← hc]; exact h3), ← hc, ← he, if_pos ⟨h1, h2⟩]
          · split_ifs <;> rfl
          · split_ifs <;> rfl
          · by_cases hin : uadd i k < nnz
            · simp only [hin, if_true]
              obtain ⟨hc, _, hv⟩ := hL hin
              intro v x hmem
              simp only [List.mem_singleton, Event.shortcut.injEq] at hmem
              obtain ⟨hv1, hx1⟩ := hmem
              rw [hx1, hv1, hg, hv, hc, hkept c0 (by rw [← hc]; exact h3)]
            · simp only [hin, if_false]
              exact shortcutsSound_nil
      · refine ⟨st.element_buffer k * s.vector.getD (st.col_index_buffer k) 0, [], ?_, ?_,
          rfl, rfl, shortcutsSound_nil⟩
        · simp only [forward_substitute_observed, h1, if_true, sread_of_lt _ _ _ hk,
            Option.some_bind, h2, h3, if_false, hg, List.append_nil]
        · intro hin
          obtain ⟨hc, he, _⟩ := hL hin
          rw [← hc, ← he, if_pos ⟨h1, h2⟩]
    · refine ⟨0, [], ?_, ?_, rfl, rfl, shortcutsSound_nil⟩
      · simp only [forward_substitute_observed, h1, if_true, sread_of_lt _ _ _ hk,
          Option.some_bind, h2, if_false, List.append_nil, sub_zero]
      · intro hin
        obtain ⟨hc, _, _⟩ := hL hin
        rw [if_neg]
        rw [← hc]
        exact fun hh => h2 hh.2
  · refine ⟨0, [], ?_, ?_, rfl, rfl, shortcutsSound_nil⟩
    · simp only [forward_substitute_observed, h1, if_false, List.append_nil, sub_zero]
    · intro _
      rw [if_neg]
      exact fun hh => h1 hh.1

theorem forward_substitute_pair {n nnz : Nat} (dA dB : Bool) (i k : Nat)
    (stA stB : Staging T) (V : List T) (w p : Nat) (a : SolveState T) (ev : List (Event T))
    (b : SolveState T) (evb : List (Event T)) (c0 : Nat) (e0 : T) (hk : k < 128)
    (hp : uadd i k = p) (h : ForwardPair n nnz V w (p + 1) a ev b)
    (hA : p < nnz → stA.col_index_buffer k = c0 ∧ stA.element_buffer k = e0 ∧
      stA.vector_buffer k = V.getD c0 0)
    (hB : p < nnz → stB.col_index_buffer k = c0 ∧ stB.element_buffer k = e0 ∧
      stB.vector_buffer k = V.getD c0 0) :
    ∃ a1 ev1 b1 evb1,
      forward_substitute_observed dA n nnz i stA k (a, ev) = some (a1, ev1) ∧
      forward_substitute_observed dB n nnz i stB k (b, evb) = some (b1, evb1) ∧
      ForwardPair n nnz V w (p + 1) a1 ev1 b1 := by
  obtain ⟨δA, evsA, hA1, hA2, hA3, hA4, hA5⟩ := forward_substitute_observed_spec dA n nnz i
    stA k a ev V c0 e0 hk h.len h.kept (by rw [hp]; exact hA)
  obtain ⟨δB, evsB, hB1, hB2, _, _, _⟩ := forward_substitute_observed_spec dB n nnz i
    stB k b evb V c0 e0 hk (by rw [h.same_vector]; exact h.len)
    (by rw [h.same_vector, h.same_start]; exact h.kept) (by rw [hp]; exact hB)
  refine ⟨_, _, _, _, hA1, hB1, ?_⟩
  exact
    { len := h.len
      row_le := h.row_le
      start_le := h.start_le
      next_le := h.next_le
      kept := h.kept
      same_vector := h.same_vector
      same_row := h.same_row
      same_start := h.same_start
      same_next := h.same_next
      acc := by
        show a.current_vector_entry - δA = b.current_vector_entry - δB ∨
          n ≤ a.current_row ∨ a.next_row < p + 1
        by_cases hin : p < nnz
        · rcases h.acc with h1 | h1 | h1
          · left
            rw [hA2 (by rw [hp]; exact hin), hB2 (by rw [hp]; exact hin), h.same_row,
              h.same_vector, h1]
          · exact Or.inr (Or.inl h1)
          · exact Or.inr (Or.inr h1)
        · by_cases hr : a.current_row < n
          · have := h.next_le hr
            exact Or.inr (Or.inr (by omega))
          · exact Or.inr (Or.inl (by omega))
      windows := by
        rw [windowCount_append, hA4]
        exact h.windows
      increasing := by
        rw [writtenRows_append, hA3, List.append_nil]
        exact h.increasing
      below := by
        intro r hr
        rw [writtenRows_append, hA3, List.append_nil] at hr
        exact h.below r hr
      sound := shortcutsSound_append _ _ h.sound hA5 }

theorem forward_step_pair {n nnz : Nat} {ro col : List Nat} {el : List T} (dA dB : Bool)
    (fin : Nat → T → Option T) (i k : Nat) (stA stB : Staging T) (V : List T) (w p : Nat)
    (a : SolveState T) (ev : List (Event T)) (b : SolveState T) (evb : List (Event T))
    (c0 : Nat) (e0 : T) (hwf : WellFormedCSR n ro col el) (hnnz : nnz = ro.getD n 0)
    (hn : n < 4294967296) (hfin : ∀ r v, r < n → ∃ val, fin r v = some val)
    (hk : k < 128) (hp : uadd i k = p) (h : ForwardPair n nnz V w p a ev b)
    (hA : p < nnz → stA.col_index_buffer k = c0 ∧ stA.element_buffer k = e0 ∧
      stA.vector_buffer k = V.getD c0 0)
    (hB : p < nnz → stB.col_index_buffer k = c0 ∧ stB.element_buffer k = e0 ∧
      stB.vector_buffer k = V.getD c0 0) :
    ∃ a1 ev1 b1 evb1,
      forward_step_observed dA fin ro n nnz i stA k (a, ev) = some (a1, ev1) ∧
      forward_step_observed dB fin ro n nnz i stB k (b, evb) = some (b1, evb1) ∧
      ForwardPair n nnz V w (p + 1) a1 ev1 b1 := by
  obtain ⟨a1, ev1, b1, evb1, h1, h2, h3⟩ := forward_finalize_pair fin V w p a ev b evb hwf
    hnnz hn hfin h
  obtain ⟨a2, ev2, b2, evb2, h4, h5, h6⟩ := forward_substitute_pair dA dB i k stA stB V w p
    a1 ev1 b1 evb1 c0 e0 hk hp h3 hA hB
  refine ⟨a2, ev2, b2, evb2, ?_, ?_, h6⟩
  · simp only [forward_step_observed, hp, h1, Option.some_bind, h4]
  · simp only [forward_step_observed, hp, h2, Option.some_bind, h5]

theorem forward_window_pair {n nnz B : Nat} {ro col : List Nat} {el : List T}
    (dA dB : Bool) (fin : Nat → T → Option T) (loop_end w : Nat) (stA stB : Staging T)
    (a : SolveState T) (ev : List (Event T)) (b : SolveState T) (evb : List (Event T))
    (hwf : WellFormedCSR n ro col el) (hnnz : nnz = ro.getD n 0) (hn : n < 4294967296)
    (hB : B ≤ 128) (hend : (w + 1) * B ≤ loop_end) (hle : loop_end < 4294967296)
    (hfin : ∀ r v, r < n → ∃ val, fin r v = some val)
    (h : ForwardPair n nnz a.vector w (w * B) a ev b) :
    ∃ pa pb,
      forward_window_observed dA fin ro col el n nnz loop_end B (w * B) ((stA, a), ev) =
        some pa ∧
      forward_window_observed dB fin ro col el n nnz loop_end B (w * B) ((stB, b), evb) =
        some pb ∧
      ForwardPair n nnz pa.1.2.vector (w + 1) ((w + 1) * B) pa.1.2 pa.2 pb.1.2 := by
  have hend2 : w * B + B ≤ loop_end := by rw [Nat.add_mul, Nat.one_mul] at hend; exact hend
  have hc : col.length = nnz := by rw [hnnz]; exact hwf.cols_len
  have he : el.length = nnz := by rw [hnnz]; exact hwf.elems_len
  have hv : ∀ q, q < nnz → col.getD q 0 < a.vector.length := by
    intro q hq
    rw [h.len]
    exact hwf.cols_lt q (by omega)
  obtain ⟨stA1, hlA, hLA⟩ := load_forward_spec col el a.vector nnz loop_end B (w * B) stA hB
    hend2 hle hc he hv
  obtain ⟨stB1, hlB, hLB⟩ := load_forward_spec col el a.vector nnz loop_end B (w * B) stB hB
    hend2 hle hc he hv
  obtain ⟨qa, qb, hqa, hqb, hP⟩ := forCount_inv2
    (forward_step_observed dA fin ro n nnz (w * B) stA1)
    (forward_step_observed dB fin ro n nnz (w * B) stB1)
    (fun k x y => ForwardPair n nnz a.vector (w + 1) (w * B + k) x.1 x.2 y.1)
    B 0 (a, ev ++ [Event.window]) (b, evb ++ [Event.window])
    { len := h.len
      row_le := h.row_le
      start_le := h.start_le
      next_le := h.next_le
      kept := h.kept
      same_vector := h.same_vector
      same_row := h.same_row
      same_start := h.same_start
      same_next := h.same_next
      acc := h.acc
      windows := by
        show windowCount (ev ++ [Event.window]) = w + 1
        rw [windowCount_append, h.windows]
        rfl
      increasing := by
        show List.Pairwise _ (writtenRows (ev ++ [Event.window]))
        rw [writtenRows_append]
        simp only [writtenRows, List.append_nil]
        exact h.increasing
      below := by
        intro r hr
        have hr2 : r ∈ writtenRows (ev ++ [Event.window]) := hr
        rw [writtenRows_append] at hr2
        simp only [writtenRows, List.append_nil] at hr2
        exact h.below r hr2
      sound := shortcutsSound_append _ _ h.sound shortcutsSound_window }
    (by
      intro j x y _ hj hP
      have hj2 : j < B := by omega
      have hu : uadd (w * B) j = w * B + j := uadd_of_lt _ _ (by omega)
      obtain ⟨a1, ev1, b1, evb1, h1, h2, h3⟩ := forward_step_pair dA dB fin (w * B) j stA1
        stB1 a.vector (w + 1) (w * B + j) x.1 x.2 y.1 y.2 (col.getD (w * B + j) 0)
        (el.getD (w * B + j) 0) hwf hnnz hn hfin (by omega) hu hP
        (fun hin => hLA j hj2 hin) (fun hin => hLB j hj2 hin)
      exact ⟨(a1, ev1), (b1, evb1), h1, h2, h3⟩)
  refine ⟨((stA1, { qa.1 with row_at_window_start := qa.1.current_row }), qa.2),
    ((stB1, { qb.1 with row_at_window_start := qb.1.current_row }), qb.2), ?_, ?_, ?_⟩
  · simp only [forward_window_observed, hlA, Option.some_bind, hqa]
  · simp only [forward_window_observed, h.same_vector, hlB, Option.some_bind, hqb]
  · have hP2 : ForwardPair n nnz a.vector (w + 1) (w * B + B) qa.1 qa.2 qb.1 := by
      have := hP
      simp only [Nat.zero_add] at this
      exact this
    exact
      { len := hP2.len
        row_le := hP2.row_le
        start_le := le_refl _
        next_le := hP2.next_le
        kept := fun _ _ => rfl
        same_vector := hP2.same_vector
        same_row := hP2.same_row
        same_start := hP2.same_row
        same_next := hP2.same_next
        acc := by
          have := hP2.acc
          rw [Nat.add_mul, Nat.one_mul]
          exact this
        windows := hP2.windows
        increasing := hP2.increasing
        below := hP2.below
        sound := hP2.sound }

/-- Two observed runs of a forward kernel on a well-formed input, with any staging contents
and either way of reading the solution entries: both end, with the same vector. -/
theorem forward_kernel_observed_pair {n B : Nat} {ro col : List Nat} {el b : List T}
    (dA dB : Bool) (fin : Nat → T → Option T) (stA stB : Staging T)
    (hwf : WellFormedCSR n ro col el) (hn1 : 1 ≤ n) (hn : n < 4294967296) (hB1 : 1 ≤ B)
    (hB : B ≤ 128) (hb : b.length = n) (hfit : ro.getD n 0 + B < 4294967296)
    (hfin : ∀ r v, r < n → ∃ val, fin r v = some val) :
    ∃ x evA evB, forward_kernel_observed dA fin B stA ro col el b n = some (x, evA) ∧
      forward_kernel_observed dB fin B stB ro col el b n = some (x, evB) ∧
      x.length = n ∧ windowCount evA = ro.getD n 0 / B + 1 ∧
      List.Pairwise (fun r1 r2 => r1 < r2) (writtenRows evA) ∧ ShortcutsSound evA := by
  have hdiv : ro.getD n 0 / B * B ≤ ro.getD n 0 := Nat.div_mul_le_self _ _
  have hend : (ro.getD n 0 / B + 1) * B ≤ ro.getD n 0 + B := by
    rw [Nat.add_mul]; omega
  have hdivle : ro.getD n 0 / B ≤ ro.getD n 0 := Nat.div_le_self _ _
  have hle : umul (uadd (ro.getD n 0 / B) 1) B = (ro.getD n 0 / B + 1) * B := by
    rw [uadd_of_lt _ _ (by omega), umul_of_lt _ _ (by omega)]
  have hm : ro.getD n 0 / B + 1 ≤ (ro.getD n 0 / B + 1) * B :=
    Nat.le_mul_of_pos_right _ (by omega)
  obtain ⟨pa, pb, hpa, hpb, hQ⟩ := forStride_inv2 B (ro.getD n 0 / B + 1)
    (forward_window_observed dA fin ro col el n (ro.getD n 0)
      ((ro.getD n 0 / B + 1) * B) B)
    (forward_window_observed dB fin ro col el n (ro.getD n 0)
      ((ro.getD n 0 / B + 1) * B) B)
    (fun w x y => ForwardPair n (ro.getD n 0) x.1.2.vector w (w * B) x.1.2 x.2 y.1.2)
    hB1 (by omega)
    (fun w x y hw hQ => forward_window_pair dA dB fin ((ro.getD n 0 / B + 1) * B) w
      x.1.1 y.1.1 x.1.2 x.2 y.1.2 y.2 hwf rfl hn hB
      (Nat.mul_le_mul_right B (by omega)) (by omega) hfin hQ)
    ((ro.getD n 0 / B + 1) * B) 0
    ((stA, { vector := b, current_row := 0, row_at_window_start := 0,
             current_vector_entry := b.getD 0 0, next_row := ro.getD 1 0 }), [])
    ((stB, { vector := b, current_row := 0, row_at_window_start := 0,
             current_vector_entry := b.getD 0 0, next_row := ro.getD 1 0 }), [])
    (Nat.zero_le _) (by rw [Nat.sub_zero]; exact hm)
    { len := hb
      row_le := Nat.zero_le n
      start_le := le_refl _
      next_le := fun _ => hwf.mono_le n 1 hn1 (le_refl n)
      kept := fun _ _ => rfl
      same_vector := rfl
      same_row := rfl
      same_start := rfl
      same_next := rfl
      acc := Or.inl rfl
      windows := rfl
      increasing := List.Pairwise.nil
      below := fun r hr => by simp [writtenRows] at hr
      sound := shortcutsSound_nil }
  rw [Nat.zero_mul] at hpa hpb
  refine ⟨pa.1.2.vector, pa.2, pb.2, ?_, ?_, hQ.len, hQ.windows, hQ.increasing, hQ.sound⟩
  · unfold forward_kernel_observed
    rw [gread_of_lt ro n 0 (by rw [hwf.rows_len]; omega), Option.some_bind,
      gread_of_lt b 0 0 (by omega), Option.some_bind,
      gread_of_lt ro 1 0 (by rw [hwf.rows_len]; omega), Option.some_bind, hle, hpa,
      Option.some_bind]
  · unfold forward_kernel_observed
    rw [gread_of_lt ro n 0 (by rw [hwf.rows_len]; omega), Option.some_bind,
      gread_of_lt b 0 0 (by omega), Option.some_bind,
      gread_of_lt ro 1 0 (by rw [hwf.rows_len]; omega), Option.some_bind, hle, hpb,
      Option.some_bind, ← hQ.same_vector]

/-! ## The observed forward kernels without their record -/

omit [Field T] in
theorem forward_finalize_observed_erase (fin : Nat → T → Option T) (ro : List Nat)
    (size p : Nat) (q : SolveState T × List (Event T)) :
    (forward_finalize_observed fin ro size p q).map Prod.fst =
      forward_finalize fin ro size p q.1 := by
  unfold forward_finalize_observed forward_finalize
  by_cases hc : q.1.current_row < size ∧ p = q.1.next_row
  · simp only [hc, and_self, if_true]
    cases fin q.1.current_row q.1.current_vector_entry with
    | none => rfl
    | some val =>
      simp only [Option.some_bind]
      cases gwrite q.1.vector q.1.current_row val with
      | none => rfl
      | some vec =>
        simp only [Option.some_bind]
        by_cases h1 : uadd q.1.current_row 1 < size
        · simp only [h1, if_true]
          cases gread ro (uadd (uadd q.1.current_row 1) 1) with
          | none => rfl
          | some nr =>
            simp only [Option.some_bind]
            cases gread vec (uadd q.1.current_row 1) with
            | none => rfl
            | some cve => rfl
        · simp only [h1, if_false, Option.map_some']
  · simp only [hc, if_false, Option.map_some']

theorem forward_substitute_observed_erase (size nnz i : Nat) (st : Staging T) (k : Nat)
    (q : SolveState T × List (Event T)) :
    (forward_substitute_observed false size nnz i st k q).map Prod.fst =
      forward_substitute size st k q.1 := by
  unfold forward_substitute_observed forward_substitute
  by_cases h1 : q.1.current_row < size
  · simp only [h1, if_true]
    cases sread 128 st.col_index_buffer k with
    | none => rfl
    | some c =>
      simp only [Option.some_bind]
      by_cases h2 : c < q.1.current_row
      · simp only [h2, if_true]
        by_cases h3 : c < q.1.row_at_window_start
        · simp only [h3, if_true, Bool.false_eq_true, if_false]
          cases sread 128 st.element_buffer k with
          | none => rfl
          | some e =>
            simp only [Option.some_bind]
            cases sread 128 st.vector_buffer k with
            | none => rfl
            | some v => rfl
        · simp only [h3, if_false]
          cases sread 128 st.element_buffer k with
          | none => rfl
          | some e =>
            simp only [Option.some_bind]
            cases gread q.1.vector c with
            | none => rfl
            | some x => rfl
      · simp only [h2, if_false, Option.map_some']
  · simp only [h1, if_false, Option.map_some']

theorem forward_step_observed_erase (fin : Nat → T → Option T) (ro : List Nat)
    (size nnz i : Nat) (st : Staging T) (k : Nat) (q : SolveState T × List (Event T)) :
    (forward_step_observed false fin ro size nnz i st k q).map Prod.fst =
      (forward_finalize fin ro size (uadd i k) q.1).bind (forward_substitute size st k) := by
  unfold forward_step_observed
  rw [← forward_finalize_observed_erase fin ro size (uadd i k) q]
  cases forward_finalize_observed fin ro size (uadd i k) q with
  | none => rfl
  | some q1 => exact forward_substitute_observed_erase size nnz i st k q1

theorem forward_window_observed_erase (fin : Nat → T → Option T) (ro col : List Nat)
    (el : List T) (size nnz loop_end B i : Nat)
    (p : (Staging T × SolveState T) × List (Event T)) :
    (forward_window_observed false fin ro col el size nnz loop_end B i p).map Prod.fst =
      forward_round fin ro col el size nnz loop_end B i p.1 := by
  unfold forward_window_observed forward_round
  cases load_forward col el p.1.2.vector nnz loop_end B i p.1.1 with
  | none => rfl
  | some st =>
    simp only [Option.some_bind]
    have h := forCount_map Prod.fst (forward_step_observed false fin ro size nnz i st)
      (fun k s => (forward_finalize fin ro size (uadd i k) s).bind
        (forward_substitute size st k))
      (forward_step_observed_erase fin ro size nnz i st) B 0 (p.1.2, p.2 ++ [Event.window])
    rw [← h]
    cases forCount (forward_step_observed false fin ro size nnz i st) B 0
        (p.1.2, p.2 ++ [Event.window]) with
    | none => rfl
    | some q => rfl

theorem forward_kernel_observed_erase (fin : Nat → T → Option T) (B : Nat) (st0 : Staging T)
    (ro col : List Nat) (el b : List T) (size : Nat) :
    (forward_kernel_observed false fin B st0 ro col el b size).map Prod.fst =
      (gread ro size).bind fun nnz =>
      (gread b 0).bind fun cve =>
      (gread ro 1).bind fun next_row =>
      (forStride B (umul (uadd (nnz / B) 1) B)
          (forward_round fin ro col el size nnz (umul (uadd (nnz / B) 1) B) B)
          (umul (uadd (nnz / B) 1) B) 0
          (st0, { vector := b, current_row := 0, row_at_window_start := 0,
                  current_vector_entry := cve, next_row := next_row })).bind fun p =>
      some p.2.vector := by
  unfold forward_kernel_observed
  cases gread ro size with
  | none => rfl
  | some nnz =>
    simp only [Option.some_bind]
    cases gread b 0 with
    | none => rfl
    | some cve =>
      simp only [Option.some_bind]
      cases gread ro 1 with
      | none => rfl
      | some next_row =>
        simp only [Option.some_bind]
        have h := forStride_map Prod.fst B (umul (uadd (nnz / B) 1) B)
          (forward_window_observed false fin ro col el size nnz
            (umul (uadd (nnz / B) 1) B) B)
          (forward_round fin ro col el size nnz (umul (uadd (nnz / B) 1) B) B)
          (forward_window_observed_erase fin ro col el size nnz
            (umul (uadd (nnz / B) 1) B) B)
          (umul (uadd (nnz / B) 1) B) 0
          ((st0, { vector := b, current_row := 0, row_at_window_start := 0,
                   current_vector_entry := cve, next_row := next_row }), [])
        rw [← h]
        cases forStride B (umul (uadd (nnz / B) 1) B)
          (forward_window_observed false fin ro col el size nnz
            (umul (uadd (nnz / B) 1) B) B)
          (umul (uadd (nnz / B) 1) B) 0
          ((st0, { vector := b, current_row := 0, row_at_window_start := 0,
                   current_vector_entry := cve, next_row := next_row }), []) with
        | none => rfl
        | some p => rfl

/-- The observed kernel `csr_unit_lu_forward_kernel` leaves what the kernel leaves. -/
theorem csr_unit_lu_forward_kernel_observed_erase (B : Nat) (st0 : Staging T)
    (ro col : List Nat) (el b : List T) (size : Nat) :
    (csr_unit_lu_forward_kernel_observed false B st0 ro col el b size).map Prod.fst =
      csr_unit_lu_forward_kernel B st0 ro col el b size := by
  unfold csr_unit_lu_forward_kernel_observed csr_unit_lu_forward_kernel
  rw [forward_kernel_observed_erase]
  simp only [unit_forward_window_eq]

/-- The observed kernel `csr_lu_forward_kernel` leaves what the kernel leaves. -/
theorem csr_lu_forward_kernel_observed_erase (B : Nat) (st0 : Staging T)
    (ro col : List Nat) (el d b : List T) (size : Nat) :
    (csr_lu_forward_kernel_observed false B st0 ro col el d b size).map Prod.fst =
      csr_lu_forward_kernel B st0 ro col el d b size := by
  unfold csr_lu_forward_kernel_observed csr_lu_forward_kernel
  rw [forward_kernel_observed_erase]
  simp only [lu_forward_window_eq]

/-! ## The backward kernels: two observed runs side by side -/

theorem backward_substitute_observed_spec (d ud : Bool) (n : Nat) (st : Staging T)
    (kk : Nat) (s : SolveStateD T) (ev : List (Event T)) (V : List T) (c0 : Nat) (e0 : T)
    (hkk : kk < 128) (hlen : s.vector.length = n) (hc0 : c0 < n)
    (hkept : ∀ j, s.row_at_window_start < j → s.vector.getD j 0 = V.getD j 0)
    (hL : st.col_index_buffer kk = c0 ∧ st.element_buffer kk = e0 ∧
      st.vector_buffer kk = V.getD c0 0) :
    ∃ evs, backward_substitute_observed d ud st kk (s, ev) =
        some (if c0 > s.row_at_window_start ∨ c0 > s.current_row then
                { s with current_vector_entry :=
                    s.current_vector_entry - e0 * s.vector.getD c0 0 }
              else if ud = false ∧ c0 = s.current_row then { s with diagonal_entry := e0 }
              else s, ev ++ evs) ∧
      writtenRows evs = [] ∧ windowCount evs = 0 ∧ ShortcutsSound evs := by
  obtain ⟨hc, he, hv⟩ := hL
  have hg : gread s.vector c0 = some (s.vector.getD c0 0) := gread_of_lt _ _ 0 (by omega)
  by_cases h1 : c0 > s.row_at_window_start
  · have h1' : c0 > s.row_at_window_start ∨ c0 > s.current_row := Or.inl h1
    cases d with
    | true =>
      refine ⟨[], ?_, rfl, rfl, shortcutsSound_nil⟩
      rw [if_pos h1']
      simp only [backward_substitute_observed, sread_of_lt _ _ _ hkk, Option.some_bind, hc,
        he, h1, if_true, hg, List.append_nil]
    | false =>
      refine ⟨[Event.shortcut (V.getD c0 0) (gread s.vector c0)], ?_, rfl, rfl, ?_⟩
      · rw [if_pos h1']
        simp only [backward_substitute_observed, sread_of_lt _ _ _ hkk, Option.some_bind,
          hc, he, hv, h1, if_true, Bool.false_eq_true, if_false, hkept c0 h1]
      · intro v x hmem
        simp only [List.mem_singleton, Event.shortcut.injEq] at hmem
        obtain ⟨hv1, hx1⟩ := hmem
        rw [hx1, hv1, hg, hkept c0 h1]
  · by_cases h2 : c0 > s.current_row
    · have h2' : c0 > s.row_at_window_start ∨ c0 > s.current_row := Or.inr h2
      refine ⟨[], ?_, rfl, rfl, shortcutsSound_nil⟩
      rw [if_pos h2']
      simp only [backward_substitute_observed, sread_of_lt _ _ _ hkk, Option.some_bind, hc,
        he, h1, if_false, h2, if_true, hg, List.append_nil]
    · have h2' : ¬ (c0 > s.row_at_window_start ∨ c0 > s.current_row) := by
        intro hh
        rcases hh with hh | hh
        · exact h1 hh
        · exact h2 hh
      refine ⟨[], ?_, rfl, rfl, shortcutsSound_nil⟩
      rw [if_neg h2']
      by_cases h3 : ud = false ∧ c0 = s.current_row
      · rw [if_pos h3]
        simp only [backward_substitute_observed, sread_of_lt _ _ _ hkk, Option.some_bind, hc,
          he, h1, if_false, h2, List.append_nil]
        rw [if_pos h3]
      · rw [if_neg h3]
        simp only [backward_substitute_observed, sread_of_lt _ _ _ hkk, Option.some_bind, hc,
          h1, if_false, h2, List.append_nil]
        rw [if_neg h3]

theorem backward_finalize_observed_spec (ud : Bool) (ro : List Nat) (n p : Nat)
    (s : SolveStateD T) (hro : ro.length = n + 1) (hn : n < 4294967296)
    (hlen : s.vector.length = n) (hrow : s.current_row < n) :
    ∃ s2 evs, (∀ ev, backward_finalize_observed ud ro p (s, ev) = some (s2, ev ++ evs)) ∧
      s2.vector.length = n ∧ s2.row_at_window_start = s.row_at_window_start ∧
      s2.current_row ≤ s.current_row ∧
      (∀ j, j ≠ s.current_row → s2.vector.getD j 0 = s.vector.getD j 0) ∧
      windowCount evs = 0 ∧ ShortcutsSound evs ∧
      ((p = s.next_row ∧ writtenRows evs = [s.current_row] ∧
          (s2.current_row < s.current_row ∨ (s2.current_row = 0 ∧ s2.next_row = p))) ∨
        (p ≠ s.next_row ∧ s2 = s ∧ writtenRows evs = [])) := by
  by_cases hp : p = s.next_row
  · have hw := gwrite_of_lt s.vector s.current_row
      (if ud then s.current_vector_entry else s.current_vector_entry / s.diagonal_entry)
      (by omega)
    by_cases h0 : s.current_row > 0
    · have hu : usub s.current_row 1 = s.current_row - 1 := usub_of_le _ _ h0 (by omega)
      refine ⟨{ s with
          vector := s.vector.set s.current_row
            (if ud then s.current_vector_entry
              else s.current_vector_entry / s.diagonal_entry),
          current_row := s.current_row - 1,
          next_row := ro.getD (s.current_row - 1) 0,
          current_vector_entry := (s.vector.set s.current_row
            (if ud then s.current_vector_entry
              else s.current_vector_entry / s.diagonal_entry)).getD (s.current_row - 1) 0 },
        [Event.write s.current_row], ?_, ?_, rfl, ?_, ?_, rfl, shortcutsSound_write _, ?_⟩
      · intro ev
        simp only [backward_finalize_observed, hp, if_true, hw, Option.some_bind, h0, hu]
        rw [gread_of_lt ro _ 0 (by omega), Option.some_bind,
          gread_of_lt _ _ 0 (by rw [List.length_set]; omega), Option.some_bind]
      · show (s.vector.set _ _).length = n
        rw [List.length_set]; exact hlen
      · show s.current_row - 1 ≤ s.current_row
        omega
      · intro j hj
        show (s.vector.set _ _).getD j 0 = _
        rw [getD_set_of_ne _ _ _ _ _ (fun h => hj h.symm)]
      · left
        refine ⟨hp, rfl, Or.inl ?_⟩
        show s.current_row - 1 < s.current_row
        omega
    · refine ⟨{ s with
          vector := s.vector.set s.current_row
            (if ud then s.current_vector_entry
              else s.current_vector_entry / s.diagonal_entry) },
        [Event.write s.current_row], ?_, ?_, rfl, le_refl _, ?_, rfl,
        shortcutsSound_write _, ?_⟩
      · intro ev
        simp only [backward_finalize_observed, hp, if_true, hw, Option.some_bind, h0,
          if_false]
      · show (s.vector.set _ _).length = n
        rw [List.length_set]; exact hlen
      · intro j hj
        show (s.vector.set _ _).getD j 0 = _
        rw [getD_set_of_ne _ _ _ _ _ (fun h => hj h.symm)]
      · left
        refine ⟨hp, rfl, Or.inr ⟨?_, hp.symm⟩⟩
        show s.current_row = 0
        omega
  · refine ⟨s, [], ?_, hlen, rfl, le_refl _, fun _ _ => rfl, rfl, shortcutsSound_nil, ?_⟩
    · intro ev
      simp only [backward_finalize_observed, hp, if_false, List.append_nil]
    · right
      exact ⟨hp, rfl, rfl⟩

theorem backward_step_pair {n nnz B : Nat} {ro col : List Nat} {el : List T}
    (dA dB ud : Bool) (i k2 : Nat) (stA stB : Staging T) (V : List T) (wc : Nat)
    (s : SolveStateD T) (ev evb : List (Event T))
    (hwf : WellFormedCSR n ro col el) (hnnz : nnz = ro.getD n 0) (hn : n < 4294967296)
    (hB : B ≤ 128) (hk2 : k2 < B) (hfit : i + B < 4294967296)
    (h : BackwardObs n V wc (i + B - k2) s ev)
    (hLA : Loaded col el V nnz i B stA) (hLB : Loaded col el V nnz i B stB) :
    ∃ s1 ev1 evb1,
      backward_step_observed dA ud ro nnz B i stA k2 (s, ev) = some (s1, ev1) ∧
      backward_step_observed dB ud ro nnz B i stB k2 (s, evb) = some (s1, evb1) ∧
      BackwardObs n V wc (i + B - (k2 + 1)) s1 ev1 := by
  have hkk : usub (usub B k2) 1 = B - 1 - k2 := usub_lane B k2 hk2 hB
  have hu : uadd i (B - 1 - k2) = i + (B - 1 - k2) := uadd_of_lt _ _ (by omega)
  have hpos : i + B - (k2 + 1) = i + (B - 1 - k2) := by omega
  by_cases hskip : i + (B - 1 - k2) ≥ nnz
  · refine ⟨s, ev, evb, ?_, ?_, ?_⟩
    · simp only [backward_step_observed, hkk, hu, hskip, if_true]
    · simp only [backward_step_observed, hkk, hu, hskip, if_true]
    · exact
        { len := h.len
          row_lt := h.row_lt
          le_start := h.le_start
          kept := h.kept
          windows := h.windows
          decreasing := h.decreasing
          above := by
            rcases h.above with h1 | h1
            · exact Or.inl h1
            · exact Or.inr (by omega)
          sound := h.sound }
  · have hin : i + (B - 1 - k2) < nnz := by omega
    have hc0 : col.getD (i + (B - 1 - k2)) 0 < n :=
      hwf.cols_lt _ (by rw [hwf.cols_len, ← hnnz]; exact hin)
    obtain ⟨evsA, hA1, hA2, hA3, hA4⟩ := backward_substitute_observed_spec dA ud n stA
      (B - 1 - k2) s ev V (col.getD (i + (B - 1 - k2)) 0) (el.getD (i + (B - 1 - k2)) 0)
      (by omega) h.len hc0 h.kept (hLA (B - 1 - k2) (by omega) hin)
    obtain ⟨evsB, hB1, _, _, _⟩ := backward_substitute_observed_spec dB ud n stB
      (B - 1 - k2) s evb V (col.getD (i + (B - 1 - k2)) 0) (el.getD (i + (B - 1 - k2)) 0)
      (by omega) h.len hc0 h.kept (hLB (B - 1 - k2) (by omega) hin)
    obtain ⟨s1, hs1⟩ : ∃ x : SolveStateD T, x =
        (if col.getD (i + (B - 1 - k2)) 0 > s.row_at_window_start ∨
            col.getD (i + (B - 1 - k2)) 0 > s.current_row then
          { s with current_vector_entry := s.current_vector_entry -
              el.getD (i + (B - 1 - k2)) 0 * s.vector.getD (col.getD (i + (B - 1 - k2)) 0) 0 }
        else if ud = false ∧ col.getD (i + (B - 1 - k2)) 0 = s.current_row then
          { s with diagonal_entry := el.getD (i + (B - 1 - k2)) 0 }
        else s) := ⟨_, rfl⟩
    rw [← hs1] at hA1 hB1
    have e1 : s1.vector = s.vector := by rw [hs1]; split_ifs <;> rfl
    have e2 : s1.current_row = s.current_row := by rw [hs1]; split_ifs <;> rfl
    have e3 : s1.row_at_window_start = s.row_at_window_start := by
      rw [hs1]; split_ifs <;> rfl
    have e4 : s1.next_row = s.next_row := by rw [hs1]; split_ifs <;> rfl
    obtain ⟨s2, evs, hF, g1, g2, g3, g4, g5, g6, g7⟩ := backward_finalize_observed_spec ud ro
      n (i + (B - 1 - k2)) s1 hwf.rows_len hn (by rw [e1]; exact h.len)
      (by rw [e2]; exact h.row_lt)
    refine ⟨s2, ev ++ evsA ++ evs, evb ++ evsB ++ evs, ?_, ?_, ?_⟩
    · simp only [backward_step_observed, hkk, hu, hskip, if_false, hA1, Option.some_bind, hF]
    · simp only [backward_step_observed, hkk, hu, hskip, if_false, hB1, Option.some_bind, hF]
    · rw [hpos]
      have hrows : writtenRows (ev ++ evsA ++ evs) = writtenRows ev ++ writtenRows evs := by
        rw [writtenRows_append, writtenRows_append, hA2, List.append_nil]
      have hle := h.le_start
      exact
        { len := g1
          row_lt := by
            have := h.row_lt
            omega
          le_start := by omega
          kept := by
            intro j hj
            rw [g2, e3] at hj
            rw [g4 j (by omega), e1]
            exact h.kept j hj
          windows := by
            rw [windowCount_append, windowCount_append, hA3, g5]
            exact h.windows
          decreasing := by
            rw [hrows]
            rcases g7 with ⟨hp, hw, _⟩ | ⟨_, _, hw⟩
            · rw [hw]
              refine List.pairwise_append.mpr ⟨h.decreasing, List.pairwise_singleton _ _, ?_⟩
              intro r hr x hx
              simp only [List.mem_singleton] at hx
              subst hx
              rcases h.above with h1 | h1
              · rw [e2]; exact h1 r hr
              · omega
            · rw [hw, List.append_nil]
              exact h.decreasing
          above := by
            rw [hrows]
            rcases g7 with ⟨hp, hw, hcase⟩ | ⟨hp, hs, hw⟩
            · rcases hcase with hlt | ⟨_, hnext⟩
              · left
                intro r hr
                rw [hw] at hr
                rcases List.mem_append.mp hr with h1 | h1
                · rcases h.above with h2 | h2
                  · have := h2 r h1
                    omega
                  · omega
                · simp only [List.mem_singleton] at h1
                  omega
              · right
                omega
            · rw [hw, List.append_nil, hs, e2, e4]
              rcases h.above with h1 | h1
              · exact Or.inl h1
              · exact Or.inr (by omega)
          sound := shortcutsSound_append _ _ (shortcutsSound_append _ _ h.sound hA4) g6 }

theorem backward_window_pair {n nnz B : Nat} {ro col : List Nat} {el : List T}
    (dA dB ud : Bool) (w wc : Nat) (stA stB : Staging T) (s : SolveStateD T)
    (ev evb : List (Event T)) (hwf : WellFormedCSR n ro col el) (hnnz : nnz = ro.getD n 0)
    (hn : n < 4294967296) (hB : B ≤ 128) (hfit : w * B + B < 4294967296)
    (h : BackwardObs n s.vector wc ((w + 1) * B) s ev) :
    ∃ pa pb,
      backward_window_observed dA ud ro col el nnz B (w * B) ((stA, s), ev) = some pa ∧
      backward_window_observed dB ud ro col el nnz B (w * B) ((stB, s), evb) = some pb ∧
      pb.1.2 = pa.1.2 ∧ BackwardObs n pa.1.2.vector (wc + 1) (w * B) pa.1.2 pa.2 := by
  have hc : col.length = nnz := by rw [hnnz]; exact hwf.cols_len
  have he : el.length = nnz := by rw [hnnz]; exact hwf.elems_len
  have hv : ∀ q, q < nnz → col.getD q 0 < s.vector.length := by
    intro q hq
    rw [h.len]
    exact hwf.cols_lt q (by omega)
  obtain ⟨stA1, hlA, hLA⟩ := load_backward_spec col el s.vector nnz B (w * B) stA hB hfit hc
    he hv
  obtain ⟨stB1, hlB, hLB⟩ := load_backward_spec col el s.vector nnz B (w * B) stB hB hfit hc
    he hv
  have hwB : (w + 1) * B = w * B + B := by rw [Nat.add_mul, Nat.one_mul]
  obtain ⟨qa, qb, hqa, hqb, hP⟩ := forCount_inv2
    (backward_step_observed dA ud ro nnz B (w * B) stA1)
    (backward_step_observed dB ud ro nnz B (w * B) stB1)
    (fun k2 x y => y.1 = x.1 ∧ BackwardObs n s.vector (wc + 1) (w * B + B - k2) x.1 x.2)
    B 0 (s, ev ++ [Event.window]) (s, evb ++ [Event.window])
    ⟨rfl,
      { len := h.len
        row_lt := h.row_lt
        le_start := h.le_start
        kept := h.kept
        windows := by
          show windowCount (ev ++ [Event.window]) = wc + 1
          rw [windowCount_append, h.windows]
          rfl
        decreasing := by
          show List.Pairwise _ (writtenRows (ev ++ [Event.window]))
          rw [writtenRows_append]
          simp only [writtenRows, List.append_nil]
          exact h.decreasing
        above := by
          show (∀ r, r ∈ writtenRows (ev ++ [Event.window]) → _) ∨ _
          rw [writtenRows_append]
          simp only [writtenRows, List.append_nil, Nat.sub_zero]
          rw [← hwB]
          exact h.above
        sound := shortcutsSound_append _ _ h.sound shortcutsSound_window }⟩
    (by
      intro j x y _ hj hP
      have hj2 : j < B := by omega
      obtain ⟨hxy, hobs⟩ := hP
      obtain ⟨s1, ev1, evb1, h1, h2, h3⟩ := backward_step_pair dA dB ud (w * B) j stA1 stB1
        s.vector (wc + 1) x.1 x.2 y.2 hwf hnnz hn hB hj2 hfit hobs hLA hLB
      have hy : y = (x.1, y.2) := by rw [← hxy]
      refine ⟨(s1, ev1), (s1, evb1), h1, ?_, rfl, h3⟩
      rw [hy]; exact h2)
  obtain ⟨hab, hobs⟩ := hP
  refine ⟨((stA1, { qa.1 with row_at_window_start := qa.1.current_row }), qa.2),
    ((stB1, { qb.1 with row_at_window_start := qb.1.current_row }), qb.2), ?_, ?_, ?_, ?_⟩
  · simp only [backward_window_observed, hlA, Option.some_bind, hqa]
  · simp only [backward_window_observed, hlB, Option.some_bind, hqb]
  · show ({ qb.1 with row_at_window_start := qb.1.current_row } : SolveStateD T) =
      { qa.1 with row_at_window_start := qa.1.current_row }
    rw [hab]
  · have hobs2 : BackwardObs n s.vector (wc + 1) (w * B) qa.1 qa.2 := by
      have := hobs
      simp only [Nat.zero_add, Nat.add_sub_cancel] at this
      exact this
    exact
      { len := hobs2.len
        row_lt := hobs2.row_lt
        le_start := le_refl _
        kept := fun _ _ => rfl
        windows := hobs2.windows
        decreasing := hobs2.decreasing
        above := hobs2.above
        sound := hobs2.sound }

/-- Two observed runs of a backward kernel on a well-formed input with at least one stored
entry, with any staging contents and either way of reading the solution entries: both
end, with the same vector. -/
theorem backward_kernel_observed_pair {n B : Nat} {ro col : List Nat} {el b : List T}
    (dA dB ud : Bool) (stA stB : Staging T) (diag0 : T)
    (hwf : WellFormedCSR n ro col el) (hn1 : 1 ≤ n) (hn : n < 4294967296) (hB1 : 1 ≤ B)
    (hB : B ≤ 128) (hb : b.length = n) (hnnz : 1 ≤ ro.getD n 0)
    (hfit : ro.getD n 0 + B < 4294967296) :
    ∃ x evA evB, backward_kernel_observed dA ud B stA diag0 ro col el b n = some (x, evA) ∧
      backward_kernel_observed dB ud B stB diag0 ro col el b n = some (x, evB) ∧
      x.length = n ∧ windowCount evA = (ro.getD n 0 - 1) / B + 1 ∧
      List.Pairwise (fun r1 r2 => r1 > r2) (writtenRows evA) ∧ ShortcutsSound evA := by
  have hdiv : (ro.getD n 0 - 1) / B * B ≤ ro.getD n 0 - 1 := Nat.div_mul_le_self _ _
  have hle : umul (usub (ro.getD n 0) 1 / B) B = (ro.getD n 0 - 1) / B * B := by
    rw [usub_of_le _ _ hnnz (by omega), umul_of_lt _ _ (by omega)]
  have hm : (ro.getD n 0 - 1) / B ≤ (ro.getD n 0 - 1) / B * B :=
    Nat.le_mul_of_pos_right _ (by omega)
  obtain ⟨pa, pb, hpa, hpb, hQ⟩ := whileDown_inv2 B ((ro.getD n 0 - 1) / B)
    (backward_window_observed dA ud ro col el (ro.getD n 0) B)
    (backward_window_observed dB ud ro col el (ro.getD n 0) B)
    (fun w x y => y.1.2 = x.1.2 ∧
      BackwardObs n x.1.2.vector ((ro.getD n 0 - 1) / B + 1 - w) (w * B) x.1.2 x.2)
    hB1 (by omega)
    (by
      intro w x y hw hQ
      obtain ⟨hxy, hobs⟩ := hQ
      have hwB := Nat.mul_le_mul_right B hw
      obtain ⟨pa, pb, h1, h2, h3, h4⟩ := backward_window_pair dA dB ud w
        ((ro.getD n 0 - 1) / B + 1 - (w + 1)) x.1.1 y.1.1 x.1.2 x.2 y.2 hwf rfl hn hB
        (by omega) hobs
      have hy : y = ((y.1.1, x.1.2), y.2) := by rw [← hxy]
      have hx : x = ((x.1.1, x.1.2), x.2) := rfl
      refine ⟨pa, pb, ?_, ?_, h3, ?_⟩
      · rw [hx]; exact h1
      · rw [hy]; exact h2
      · have e : (ro.getD n 0 - 1) / B + 1 - (w + 1) + 1 = (ro.getD n 0 - 1) / B + 1 - w := by
          omega
        rw [e] at h4
        exact h4)
    ((ro.getD n 0 - 1) / B * B + 1) ((ro.getD n 0 - 1) / B)
    ((stA, { vector := b, current_row := n - 1, row_at_window_start := n - 1,
             current_vector_entry := b.getD (n - 1) 0, next_row := ro.getD (n - 1) 0,
             diagonal_entry := diag0 }), [])
    ((stB, { vector := b, current_row := n - 1, row_at_window_start := n - 1,
             current_vector_entry := b.getD (n - 1) 0, next_row := ro.getD (n - 1) 0,
             diagonal_entry := diag0 }), [])
    (le_refl _) (by omega)
    ⟨rfl,
      { len := hb
        row_lt := by show n - 1 < n; omega
        le_start := le_refl _
        kept := fun _ _ => rfl
        windows := by
          show windowCount ([] : List (Event T)) = _
          simp only [windowCount]
          omega
        decreasing := List.Pairwise.nil
        above := Or.inl (fun r hr => by simp [writtenRows] at hr)
        sound := shortcutsSound_nil }⟩
  obtain ⟨hab, hobs⟩ := hQ
  refine ⟨pa.1.2.vector, pa.2, pb.2, ?_, ?_, hobs.len, hobs.windows, hobs.decreasing,
    hobs.sound⟩
  · unfold backward_kernel_observed
    rw [gread_of_lt ro n 0 (by rw [hwf.rows_len]; omega), Option.some_bind,
      usub_of_le n 1 hn1 hn,
      gread_of_lt b (n - 1) 0 (by omega), Option.some_bind,
      gread_of_lt ro (n - 1) 0 (by rw [hwf.rows_len]; omega), Option.some_bind, hle, hpa,
      Option.some_bind]
  · unfold backward_kernel_observed
    rw [gread_of_lt ro n 0 (by rw [hwf.rows_len]; omega), Option.some_bind,
      usub_of_le n 1 hn1 hn,
      gread_of_lt b (n - 1) 0 (by omega), Option.some_bind,
      gread_of_lt ro (n - 1) 0 (by rw [hwf.rows_len]; omega), Option.some_bind, hle, hpb,
      Option.some_bind, hab]

/-! ## The observed backward kernels without their record -/

theorem backward_substitute_observed_erase (ud : Bool) (st : Staging T) (kk : Nat)
    (q : SolveStateD T × List (Event T)) :
    (backward_substitute_observed false ud st kk q).map Prod.fst =
      backward_substitute ud st kk q.1 := by
  unfold backward_substitute_observed backward_substitute
  cases sread 128 st.col_index_buffer kk with
  | none => rfl
  | some c =>
    simp only [Option.some_bind]
    by_cases h1 : c > q.1.row_at_window_start
    · simp only [h1, if_true, Bool.false_eq_true, if_false]
      cases sread 128 st.element_buffer kk with
      | none => rfl
      | some e =>
        simp only [Option.some_bind]
        cases sread 128 st.vector_buffer kk with
        | none => rfl
        | some v => rfl
    · simp only [h1, if_false]
      by_cases h2 : c > q.1.current_row
      · simp only [h2, if_true]
        cases sread 128 st.element_buffer kk with
        | none => rfl
        | some e =>
          simp only [Option.some_bind]
          cases gread q.1.vector c with
          | none => rfl
          | some x => rfl
      · simp only [h2, if_false]
        by_cases h3 : ud = false ∧ c = q.1.current_row
        · rw [if_pos h3, if_pos h3]
          cases sread 128 st.element_buffer kk with
          | none => rfl
          | some e => rfl
        · rw [if_neg h3, if_neg h3]
          rfl

theorem backward_finalize_observed_erase (ud : Bool) (ro : List Nat) (p : Nat)
    (q : SolveStateD T × List (Event T)) :
    (backward_finalize_observed ud ro p q).map Prod.fst = backward_finalize ud ro p q.1 := by
  unfold backward_finalize_observed backward_finalize
  by_cases hp : p = q.1.next_row
  · simp only [hp, if_true]
    cases gwrite q.1.vector q.1.current_row
        (if ud = true then q.1.current_vector_entry
          else q.1.current_vector_entry / q.1.diagonal_entry) with
    | none => rfl
    | some vec =>
      simp only [Option.some_bind]
      by_cases h0 : q.1.current_row > 0
      · simp only [h0, if_true]
        cases gread ro (usub q.1.current_row 1) with
        | none => rfl
        | some nr =>
          simp only [Option.some_bind]
          cases gread vec (usub q.1.current_row 1) with
          | none => rfl
          | some cve => rfl
      · simp only [h0, if_false, Option.map_some']
  · simp only [hp, if_false, Option.map_some']

omit [Field T] in
theorem map_bind_erase {α β : Type} (x : Option (α × β)) (f : α × β → Option (α × β))
    (g : α → Option α) (h : ∀ q, (f q).map Prod.fst = g q.1) :
    (x.bind f).map Prod.fst = (x.map Prod.fst).bind g := by
  cases x with
  | none => rfl
  | some q => exact h q

theorem backward_step_observed_erase (ud : Bool) (ro : List Nat) (nnz B i : Nat)
    (st : Staging T) (k2 : Nat) (q : SolveStateD T × List (Event T)) :
    (backward_step_observed false ud ro nnz B i st k2 q).map Prod.fst =
      backward_step ud ro nnz B i st k2 q.1 := by
  unfold backward_step_observed backward_step
  by_cases hskip : uadd i (usub (usub B k2) 1) ≥ nnz
  · rw [if_pos hskip, if_pos hskip]
    rfl
  · rw [if_neg hskip, if_neg hskip,
      ← backward_substitute_observed_erase ud st (usub (usub B k2) 1) q]
    exact map_bind_erase _ _ _
      (backward_finalize_observed_erase ud ro (uadd i (usub (usub B k2) 1)))

theorem backward_step_false_eq (ro : List Nat) (nnz B i : Nat) (st : Staging T) (k2 : Nat)
    (s : SolveStateD T) :
    backward_step false ro nnz B i st k2 s = lu_backward_step ro nnz B i st k2 s := by
  unfold backward_step lu_backward_step backward_substitute backward_finalize
  generalize usub (usub B k2) 1 = kk
  generalize uadd i kk = p
  by_cases hskip : p ≥ nnz
  · rw [if_pos hskip, if_pos hskip]
  · rw [if_neg hskip, if_neg hskip]
    cases sread 128 st.col_index_buffer kk with
    | none => rfl
    | some c =>
      simp only [Option.some_bind, true_and, Bool.false_eq_true, if_false]

omit [Field T] in
theorem map_bind_gen {α β : Type} (m : α → β) (x : Option α) (y : Option β)
    (f : α → Option α) (g : β → Option β) (hxy : x.map m = y)
    (h : ∀ a, (f a).map m = g (m a)) : (x.bind f).map m = y.bind g := by
  subst hxy
  cases x with
  | none => rfl
  | some a => exact h a

theorem backward_substitute_true_toSolve (st : Staging T) (kk : Nat) (s : SolveStateD T) :
    (backward_substitute true st kk s).map SolveStateD.toSolve =
      (sread 128 st.col_index_buffer kk).bind fun c =>
      if c > s.toSolve.row_at_window_start then
        (sread 128 st.element_buffer kk).bind fun e =>
        (sread 128 st.vector_buffer kk).bind fun v =>
        some { s.toSolve with
          current_vector_entry := s.toSolve.current_vector_entry - e * v }
      else if c > s.toSolve.current_row then
        (sread 128 st.element_buffer kk).bind fun e =>
        (gread s.toSolve.vector c).bind fun x =>
        some { s.toSolve with
          current_vector_entry := s.toSolve.current_vector_entry - e * x }
      else some s.toSolve := by
  unfold backward_substitute
  cases sread 128 st.col_index_buffer kk with
  | none => rfl
  | some c =>
    simp only [Option.some_bind]
    by_cases h1 : c > s.row_at_window_start
    · have h1b : c > s.toSolve.row_at_window_start := h1
      rw [if_pos h1, if_pos h1b]
      cases sread 128 st.element_buffer kk with
      | none => rfl
      | some e =>
        simp only [Option.some_bind]
        cases sread 128 st.vector_buffer kk with
        | none => rfl
        | some v => rfl
    · have h1b : ¬ c > s.toSolve.row_at_window_start := h1
      rw [if_neg h1, if_neg h1b]
      by_cases h2 : c > s.current_row
      · have h2b : c > s.toSolve.current_row := h2
        rw [if_pos h2, if_pos h2b]
        cases sread 128 st.element_buffer kk with
        | none => rfl
        | some e =>
          simp only [Option.some_bind]
          cases hx : gread s.vector c with
          | none =>
            have hxb : gread s.toSolve.vector c = none := hx
            rw [hxb]; rfl
          | some x =>
            have hxb : gread s.toSolve.vector c = some x := hx
            rw [hxb]; rfl
      · have h2b : ¬ c > s.toSolve.current_row := h2
        rw [if_neg h2, if_neg h2b]
        have h3 : ¬ ((true : Bool) = false ∧ c = s.current_row) := by
          intro h; exact Bool.noConfusion h.1
        rw [if_neg h3]
        rfl

theorem backward_finalize_true_toSolve (ro : List Nat) (p : Nat) (s1 : SolveStateD T) :
    (backward_finalize true ro p s1).map SolveStateD.toSolve =
      if p = s1.toSolve.next_row then
        (gwrite s1.toSolve.vector s1.toSolve.current_row
            s1.toSolve.current_vector_entry).bind fun vec =>
        if s1.toSolve.current_row > 0 then
          (gread ro (usub s1.toSolve.current_row 1)).bind fun nr =>
          (gread vec (usub s1.toSolve.current_row 1)).bind fun cve =>
          some { s1.toSolve with vector := vec,
                                 current_row := usub s1.toSolve.current_row 1,
                                 next_row := nr, current_vector_entry := cve }
        else some { s1.toSolve with vector := vec }
      else some s1.toSolve := by
  unfold backward_finalize
  by_cases hp : p = s1.next_row
  · have hpb : p = s1.toSolve.next_row := hp
    rw [if_pos hp, if_pos hpb]
    simp only [if_true]
    cases hw : gwrite s1.vector s1.current_row s1.current_vector_entry with
    | none =>
      have hwb : gwrite s1.toSolve.vector s1.toSolve.current_row
          s1.toSolve.current_vector_entry = none := hw
      rw [hwb]; rfl
    | some vec =>
      have hwb : gwrite s1.toSolve.vector s1.toSolve.current_row
          s1.toSolve.current_vector_entry = some vec := hw
      rw [hwb]
      simp only [Option.some_bind]
      by_cases h0 : s1.current_row > 0
      · have h0b : s1.toSolve.current_row > 0 := h0
        rw [if_pos h0, if_pos h0b]
        have e1 : s1.toSolve.current_row = s1.current_row := rfl
        rw [e1]
        cases gread ro (usub s1.current_row 1) with
        | none => rfl
        | some nr =>
          simp only [Option.some_bind]
          cases gread vec (usub s1.current_row 1) with
          | none => rfl
          | some cve => rfl
      · have h0b : ¬ s1.toSolve.current_row > 0 := h0
        rw [if_neg h0, if_neg h0b]
        rfl
  · have hpb : ¬ p = s1.toSolve.next_row := hp
    rw [if_neg hp, if_neg hpb]
    rfl

theorem backward_step_true_toSolve (ro : List Nat) (nnz B i : Nat) (st : Staging T) (k2 : Nat)
    (s : SolveStateD T) :
    (backward_step true ro nnz B i st k2 s).map SolveStateD.toSolve =
      unit_backward_step ro nnz B i st k2 s.toSolve := by
  unfold backward_step unit_backward_step
  generalize usub (usub B k2) 1 = kk
  generalize uadd i kk = p
  by_cases hskip : p ≥ nnz
  · rw [if_pos hskip, if_pos hskip]
    rfl
  · rw [if_neg hskip, if_neg hskip]
    have hsub := backward_substitute_true_toSolve st kk s
    have hfin := @backward_finalize_true_toSolve T _ ro p
    cases hc : sread 128 st.col_index_buffer kk with
    | none =>
      rw [hc] at hsub
      simp only [Option.none_bind] at hsub ⊢
      cases hx : backward_substitute true st kk s with
      | none => rfl
      | some a => rw [hx] at hsub; simp at hsub
    | some c =>
      rw [hc] at hsub
      simp only [Option.some_bind] at hsub ⊢
      refine map_bind_gen (SolveStateD.toSolve : SolveStateD T → SolveState T) _ _ _ _ hsub ?_
      exact hfin

theorem lu_backward_window_observed_erase (ro col : List Nat) (el : List T) (nnz B i : Nat)
    (p : (Staging T × SolveStateD T) × List (Event T)) :
    (backward_window_observed false false ro col el nnz B i p).map Prod.fst =
      lu_backward_window ro col el nnz B i p.1 := by
  unfold backward_window_observed lu_backward_window
  cases load_backward col el p.1.2.vector nnz B i p.1.1 with
  | none => rfl
  | some st =>
    simp only [Option.some_bind]
    have h := forCount_map Prod.fst (backward_step_observed false false ro nnz B i st)
      (lu_backward_step ro nnz B i st)
      (fun k q => by
        rw [backward_step_observed_erase, backward_step_false_eq]) B 0
      (p.1.2, p.2 ++ [Event.window])
    rw [← h]
    cases forCount (backward_step_observed false false ro nnz B i st) B 0
        (p.1.2, p.2 ++ [Event.window]) with
    | none => rfl
    | some q => rfl

theorem unit_backward_window_observed_erase (ro col : List Nat) (el : List T) (nnz B i : Nat)
    (p : (Staging T × SolveStateD T) × List (Event T)) :
    (backward_window_observed false true ro col el nnz B i p).map
        (fun r => (r.1.1, r.1.2.toSolve)) =
      unit_backward_window ro col el nnz B i (p.1.1, p.1.2.toSolve) := by
  unfold backward_window_observed unit_backward_window
  have hv : (p.1.1, p.1.2.toSolve).2.vector = p.1.2.vector := rfl
  have h1 : (p.1.1, p.1.2.toSolve).1 = p.1.1 := rfl
  rw [hv, h1]
  cases load_backward col el p.1.2.vector nnz B i p.1.1 with
  | none => rfl
  | some st =>
    simp only [Option.some_bind]
    have h := forCount_map (fun q : SolveStateD T × List (Event T) => q.1.toSolve)
      (backward_step_observed false true ro nnz B i st)
      (unit_backward_step ro nnz B i st)
      (fun k q => by
        have e := backward_step_observed_erase true ro nnz B i st k q
        rw [← backward_step_true_toSolve, ← e, Option.map_map]
        rfl) B 0
      (p.1.2, p.2 ++ [Event.window])
    have h2 : (p.1.2, p.2 ++ [Event.window]).1.toSolve = p.1.2.toSolve := rfl
    rw [h2] at h
    rw [← h]
    cases forCount (backward_step_observed false true ro nnz B i st) B 0
        (p.1.2, p.2 ++ [Event.window]) with
    | none => rfl
    | some q => rfl

/-- The observed kernel `csr_lu_backward_kernel` leaves what the kernel leaves. -/
theorem csr_lu_backward_kernel_observed_erase (B : Nat) (st0 : Staging T) (diag0 : T)
    (ro col : List Nat) (el b : List T) (size : Nat) :
    (csr_lu_backward_kernel_observed false B st0 diag0 ro col el b size).map Prod.fst =
      csr_lu_backward_kernel B st0 diag0 ro col el b size := by
  unfold csr_lu_backward_kernel_observed backward_kernel_observed csr_lu_backward_kernel
  cases gread ro size with
  | none => rfl
  | some nnz =>
    simp only [Option.some_bind]
    cases gread b (usub size 1) with
    | none => rfl
    | some cve =>
      simp only [Option.some_bind]
      cases gread ro (usub size 1) with
      | none => rfl
      | some next_row =>
        simp only [Option.some_bind]
        have h := whileDown_map Prod.fst B
          (backward_window_observed false false ro col el nnz B)
          (lu_backward_window ro col el nnz B)
          (lu_backward_window_observed_erase ro col el nnz B)
          (umul (usub nnz 1 / B) B + 1) (umul (usub nnz 1 / B) B)
          ((st0, { vector := b, current_row := usub size 1,
                   row_at_window_start := usub size 1,
                   current_vector_entry := cve, next_row := next_row,
                   diagonal_entry := diag0 }), [])
        rw [← h]
        cases whileDown B (backward_window_observed false false ro col el nnz B)
          (umul (usub nnz 1 / B) B + 1) (umul (usub nnz 1 / B) B)
          ((st0, { vector := b, current_row := usub size 1,
                   row_at_window_start := usub size 1,
                   current_vector_entry := cve, next_row := next_row,
                   diagonal_entry := diag0 }), []) with
        | none => rfl
        | some p => rfl

/-- The observed kernel `csr_unit_lu_backward_kernel` leaves what the kernel leaves. -/
theorem csr_unit_lu_backward_kernel_observed_erase (B : Nat) (st0 : Staging T)
    (ro col : List Nat) (el b : List T) (size : Nat) :
    (csr_unit_lu_backward_kernel_observed false B st0 ro col el b size).map Prod.fst =
      csr_unit_lu_backward_kernel B st0 ro col el b size := by
  unfold csr_unit_lu_backward_kernel_observed backward_kernel_observed
    csr_unit_lu_backward_kernel
  cases gread ro size with
  | none => rfl
  | some nnz =>
    simp only [Option.some_bind]
    cases gread b (usub size 1) with
    | none => rfl
    | some cve =>
      simp only [Option.some_bind]
      cases gread ro (usub size 1) with
      | none => rfl
      | some next_row =>
        simp only [Option.some_bind]
        have h := whileDown_map
          (fun r : (Staging T × SolveStateD T) × List (Event T) => (r.1.1, r.1.2.toSolve)) B
          (backward_window_observed false true ro col el nnz B)
          (unit_backward_window ro col el nnz B)
          (unit_backward_window_observed_erase ro col el nnz B)
          (umul (usub nnz 1 / B) B + 1) (umul (usub nnz 1 / B) B)
          ((st0, { vector := b, current_row := usub size 1,
                   row_at_window_start := usub size 1,
                   current_vector_entry := cve, next_row := next_row,
                   diagonal_entry := 0 }), [])
        refine Eq.trans ?_
          (congrArg (fun x : Option (Staging T × SolveState T) =>
            x.bind fun p => some p.2.vector) h)
        cases whileDown B (backward_window_observed false true ro col el nnz B)
          (umul (usub nnz 1 / B) B + 1) (umul (usub nnz 1 / B) B)
          ((st0, { vector := b, current_row := usub size 1,
                   row_at_window_start := usub size 1,
                   current_vector_entry := cve, next_row := next_row,
                   diagonal_entry := 0 }), []) with
        | none => rfl
        | some p => rfl

/-! ## The backward kernels on a matrix without entries -/

omit [Field T] in
theorem load_backward_empty (col : List Nat) (el v : List T) (B i : Nat) (st : Staging T) :
    load_backward col el v 0 B i st = some st := by
  unfold load_backward
  obtain ⟨s2, h, hs⟩ := forCount_inv
    (fun tid st1 => load_lane col el v 0 (uadd i tid) tid st1) (fun _ s => s = st) B 0 st rfl
    (by
      intro j s1 _ _ hs1
      exact ⟨s1, if_neg (Nat.not_lt_zero _), hs1⟩)
  rw [h, hs]

theorem backward_window_observed_empty (d ud : Bool) (ro col : List Nat) (el : List T)
    (B i : Nat) (p : (Staging T × SolveStateD T) × List (Event T))
    (hrow : p.1.2.row_at_window_start = p.1.2.current_row) :
    backward_window_observed d ud ro col el 0 B i p = some (p.1, p.2 ++ [Event.window]) := by
  unfold backward_window_observed
  rw [load_backward_empty]
  simp only [Option.some_bind]
  obtain ⟨s2, h, hs⟩ := forCount_inv
    (backward_step_observed d ud ro 0 B i p.1.1)
    (fun _ s => s = (p.1.2, p.2 ++ [Event.window])) B 0 (p.1.2, p.2 ++ [Event.window]) rfl
    (by
      intro j s1 _ _ hs1
      refine ⟨s1, ?_, hs1⟩
      unfold backward_step_observed
      rw [if_pos (Nat.zero_le _)])
  rw [h, hs]
  obtain ⟨⟨st, s⟩, ev⟩ := p
  cases s
  simp only at hrow
  subst hrow
  rfl

/-- On a matrix without entries a backward kernel leaves the vector as it is and stores
nothing. -/
theorem backward_kernel_observed_empty {n B : Nat} {ro col : List Nat} {el b : List T}
    (d ud : Bool) (st : Staging T) (diag0 : T)
    (hwf : WellFormedCSR n ro col el) (hn1 : 1 ≤ n) (hn : n < 4294967296) (hB1 : 1 ≤ B)
    (hb : b.length = n) (hnnz : ro.getD n 0 = 0) :
    ∃ ev, backward_kernel_observed d ud B st diag0 ro col el b n = some (b, ev) ∧
      writtenRows ev = [] ∧ ShortcutsSound ev := by
  have hlen := hwf.rows_len
  have hsub : usub n 1 = n - 1 := usub_of_le _ _ hn1 hn
  have h1 : gread ro n = some 0 := by
    rw [gread_of_lt ro n 0 (by omega), hnnz]
  have h2 : gread b (usub n 1) = some (b.getD (n - 1) 0) := by
    rw [hsub, gread_of_lt b (n - 1) 0 (by omega)]
  have h3 : gread ro (usub n 1) = some (ro.getD (n - 1) 0) := by
    rw [hsub, gread_of_lt ro (n - 1) 0 (by omega)]
  have hdiv : 4294967295 / B * B ≤ 4294967295 := Nat.div_mul_le_self _ _
  have hu : usub 0 1 = 4294967295 := by decide
  have hm : umul (usub 0 1 / B) B = 4294967295 / B * B := by
    rw [hu, umul_of_lt _ _ (by omega)]
  have hmB : 4294967295 / B ≤ 4294967295 / B * B := Nat.le_mul_of_pos_right _ (by omega)
  obtain ⟨p, hp, hQ⟩ := whileDown_inv B (4294967295 / B)
    (backward_window_observed d ud ro col el 0 B)
    (fun _ p => p.1.2.vector = b ∧ p.1.2.row_at_window_start = p.1.2.current_row ∧
      writtenRows p.2 = [] ∧ ShortcutsSound p.2)
    hB1 (by omega)
    (by
      intro w s _ hs
      refine ⟨_, backward_window_observed_empty d ud ro col el B (w * B) s hs.2.1, hs.1,
        hs.2.1, ?_, ?_⟩
      · rw [writtenRows_append, hs.2.2.1]; rfl
      · exact shortcutsSound_append _ _ hs.2.2.2 shortcutsSound_window)
    (4294967295 / B * B + 1) (4294967295 / B)
    ((st, { vector := b, current_row := usub n 1, row_at_window_start := usub n 1,
            current_vector_entry := b.getD (n - 1) 0, next_row := ro.getD (n - 1) 0,
            diagonal_entry := diag0 }), [])
    (le_refl _) (by omega) ⟨rfl, rfl, rfl, shortcutsSound_nil⟩
  refine ⟨p.2, ?_, hQ.2.2.1, hQ.2.2.2⟩
  unfold backward_kernel_observed
  rw [h1]
  simp only [Option.some_bind]
  rw [h2, h3]
  simp only [Option.some_bind]
  rw [hm, hp]
  simp only [Option.some_bind]
  rw [hQ.1]

/-! ## The kernels at further inputs -/

/-- C11: the row lookup of `csr_trans_lu_forward_kernel` leaves the lookahead table.  For
`n = 1` with the one entry `3` on the diagonal and `b = [6]`: with `B = 256` every slot of
the table holds `0`, the loop of line 456 passes slot `255` and reads slot `256`; with
`B = 2` it reads slot `2`, which no lane has written, and when that slot holds `5` the
kernel leaves `[6]`, not `[6 / 3]`. -/
theorem lookup_forward_leaves_table :
    lookup_forward (fun _ => 0) 0 256 0 = none ∧
    csr_trans_lu_forward_kernel 256 (fun _ => 0) (fun _ => 0) [0, 1] [0] [(1 : ℚ)] [3] [6] 1 =
      none ∧
    csr_trans_lu_forward_kernel 2 (fun _ => 5) (fun _ => 0) [0, 1] [0] [(1 : ℚ)] [3] [6] 1 =
      some [6] := by
  decide!

/-- C12: a row without stored entry stops the forward kernels.  The strictly lower
triangle of `[[1,0,0],[0,1,0],[2,0,1]]` with `b = [1,1,1]`: `csr_unit_lu_forward_kernel`
leaves `[1, 1, 1]`, the solution is `[1, 1, -1]`.  The strictly lower triangle of
`[[1,0,0],[2,1,0],[0,0,2]]` with `b = [1,1,4]`: `csr_lu_forward_kernel` leaves `[1, -1, 4]`,
the solution is `[1, -1, 2]`. -/
theorem forward_kernels_stop_at_empty_row :
    csr_unit_lu_forward_kernel 128
        ({ col_index_buffer := fun _ => 0, element_buffer := fun _ => 0,
           vector_buffer := fun _ => 0 } : Staging ℚ)
        [0, 0, 0, 1] [0] [(2 : ℚ)] [1, 1, 1] 3 = some [1, 1, 1] ∧
    (1 : ℚ) - lowerSum [0, 0, 0, 1] [0] [(2 : ℚ)] [1, 1, 1] 2 = -1 ∧
    csr_lu_forward_kernel 128
        ({ col_index_buffer := fun _ => 0, element_buffer := fun _ => 0,
           vector_buffer := fun _ => 0 } : Staging ℚ)
        [0, 0, 1, 1] [0] [(2 : ℚ)] [1, 1, 2] [1, 1, 4] 3 = some [1, -1, 4] ∧
    ((4 : ℚ) - lowerSum [0, 0, 1, 1] [0] [(2 : ℚ)] [1, -1, 4] 2) / 2 = 2 := by
  decide!

/-- C13: `csr_unit_lu_backward_kernel` writes nothing when the last row stores no entry.
The strictly upper triangle of `[[1,3],[0,1]]` with `b = [1, 2]`: the kernel leaves
`[1, 2]`, the solution is `[-5, 2]`. -/
theorem unit_backward_kernel_writes_nothing :
    csr_unit_lu_backward_kernel 128
        ({ col_index_buffer := fun _ => 0, element_buffer := fun _ => 0,
           vector_buffer := fun _ => 0 } : Staging ℚ)
        [0, 1, 1] [1] [(3 : ℚ)] [1, 2] 2 = some [1, 2] ∧
    (1 : ℚ) - upperSum [0, 1, 1] [1] [(3 : ℚ)] [1, 2] 0 = -5 := by
  decide!

/-- C23: in `csr_trans_lu_backward_kernel2` every lane steps by one entry (line 574), so
with two lanes the second entry of a row is applied twice.  Row `2` stores `(2,0)` and
`(2,1)`, both `1`, the diagonal is `[1,1,1]` and `b = [0,0,1]`: one lane leaves
`[-1, -1, 1]`, two lanes leave `[-1, -2, 1]`. -/
theorem trans_backward_kernel2_applies_twice :
    csr_trans_lu_backward_kernel2 1 [0, 0, 0, 2] [0, 1] [(1 : ℚ), 1] [1, 1, 1] [0, 0, 1] 3 =
      some [-1, -1, 1] ∧
    csr_trans_lu_backward_kernel2 2 [0, 0, 0, 2] [0, 1] [(1 : ℚ), 1] [1, 1, 1] [0, 0, 1] 3 =
      some [-1, -2, 1] := by
  decide!

/-! ## Addresses in a matrix view -/

theorem zadd_modEq {a b a2 b2 : Nat} (ha : a ≡ a2 [MOD 18446744073709551616])
    (hb : b ≡ b2 [MOD 18446744073709551616]) :
    zadd a b ≡ a2 + b2 [MOD 18446744073709551616] :=
  (Nat.mod_modEq _ _).trans (Nat.ModEq.add ha hb)

theorem zmul_modEq {a b a2 b2 : Nat} (ha : a ≡ a2 [MOD 18446744073709551616])
    (hb : b ≡ b2 [MOD 18446744073709551616]) :
    zmul a b ≡ a2 * b2 [MOD 18446744073709551616] :=
  (Nat.mod_modEq _ _).trans (Nat.ModEq.mul ha hb)

theorem zadd_lt (a b : Nat) : zadd a b < 18446744073709551616 :=
  Nat.mod_lt _ (by norm_num)

theorem zadd_le (a b : Nat) : zadd a b ≤ a + b := Nat.mod_le _ _

theorem zmul_le (a b : Nat) : zmul a b ≤ a * b := Nat.mod_le _ _

theorem to_uint_modEq {a b : Nat} (h : a ≡ b [MOD 18446744073709551616]) :
    to_uint a ≡ b [MOD 4294967296] :=
  (Nat.mod_modEq _ _).trans (Nat.ModEq.of_dvd (by norm_num) h)

theorem to_uint_lt (a : Nat) : to_uint a < 4294967296 := Nat.mod_lt _ (by norm_num)

theorem to_uint_le (a : Nat) : to_uint a ≤ a := Nat.mod_le _ _

/-- An address `x + c * y` computed from the `unsigned int` values `x` of a start and `y`
of a stride that agree with `L0` and `S` modulo `2^64` as `vcl_size_t`: it agrees with
`L0 + c * S` modulo `2^32`, and is equal to it when that number is below `2^32`. -/
theorem address_spec (x y L0 S c L : Nat) (hx2 : x ≡ L0 [MOD 18446744073709551616])
    (hy : y ≡ S [MOD 18446744073709551616]) (hyle : y ≤ S) (hL : L = L0 + c * S) :
    (to_uint x + c * to_uint y) % 4294967296 = L % 4294967296 ∧
      (L < 4294967296 → to_uint x + c * to_uint y = L) := by
  have hx3 := to_uint_modEq hx2
  have hy3 := to_uint_modEq hy
  have hy4 : to_uint y ≤ S := le_trans (to_uint_le y) hyle
  constructor
  · rw [hL]
    exact Nat.ModEq.add hx3 (Nat.ModEq.mul (Nat.ModEq.refl c) hy3)
  · intro hfit
    have hx4 : to_uint x = L0 := Nat.ModEq.eq_of_lt_of_lt hx3 (to_uint_lt x) (by omega)
    rcases Nat.eq_zero_or_pos c with hc | hc
    · subst hc
      rw [hL, hx4]
      simp
    · have hS : S ≤ c * S := Nat.le_mul_of_pos_left S hc
      have hy2 : to_uint y = S := Nat.ModEq.eq_of_lt_of_lt hy3 (by omega) (by omega)
      rw [hL, hx4, hy2]

theorem to_size_ineg (k : Int) (h1 : -2147483648 < k) (h2 : k < 0) :
    to_size (ineg k) = (-k).toNat := by
  unfold to_size ineg
  omega

theorem to_size_nonneg (k : Int) (h1 : 0 ≤ k) (h2 : k < 2147483648) :
    to_size k = k.toNat := by
  unfold to_size
  omega

/-- The addresses of `matrix_diag_from_vector` and `matrix_diag_to_vector`, for a row `fr`
and a column `fc` that the diagonal starts at. -/
theorem matrix_diag_spec (mat : MatrixView) (k : Int) (fr fc t : Nat)
    (hfr : (if k < 0 then to_size (ineg k) else 0) = fr)
    (hfc : (if k < 0 then 0 else to_size k) = fc) :
    (((matrix_diag_from_vector mat k).1 + t * (matrix_diag_from_vector mat k).2) %
        4294967296 = linear_index mat (t + fr) (t + fc) % 4294967296 ∧
      (linear_index mat (t + fr) (t + fc) < 4294967296 →
        (matrix_diag_from_vector mat k).1 + t * (matrix_diag_from_vector mat k).2 =
          linear_index mat (t + fr) (t + fc))) ∧
    matrix_diag_to_vector mat k = matrix_diag_from_vector mat k := by
  refine ⟨?_, rfl⟩
  unfold matrix_diag_from_vector linear_index
  rw [hfr, hfc]
  cases hrm : mat.row_major with
  | true =>
    simp only [if_true]
    refine address_spec _ _
      ((mat.start1 + fr * mat.stride1) * mat.internal_size2 + mat.start2 + fc * mat.stride2)
      (mat.stride1 * mat.internal_size2 + mat.stride2) t _ ?_ ?_ ?_ ?_
    · exact zadd_modEq (zadd_modEq (zmul_modEq (zadd_modEq (Nat.ModEq.refl _)
        (zmul_modEq (Nat.ModEq.refl _) (Nat.ModEq.refl _))) (Nat.ModEq.refl _))
        (Nat.ModEq.refl _)) (zmul_modEq (Nat.ModEq.refl _) (Nat.ModEq.refl _))
    · exact zadd_modEq (zmul_modEq (Nat.ModEq.refl _) (Nat.ModEq.refl _)) (Nat.ModEq.refl _)
    · exact le_trans (zadd_le _ _) (Nat.add_le_add_right (zmul_le _ _) _)
    · ring
  | false =>
    simp only [Bool.false_eq_true, if_false]
    refine address_spec _ _
      (mat.start1 + fr * mat.stride1 + (mat.start2 + fc * mat.stride2) * mat.internal_size1)
      (mat.stride2 * mat.internal_size1 + mat.stride1) t _ ?_ ?_ ?_ ?_
    · exact zadd_modEq (zadd_modEq (Nat.ModEq.refl _)
        (zmul_modEq (Nat.ModEq.refl _) (Nat.ModEq.refl _)))
        (zmul_modEq (zadd_modEq (Nat.ModEq.refl _)
          (zmul_modEq (Nat.ModEq.refl _) (Nat.ModEq.refl _))) (Nat.ModEq.refl _))
    · exact zadd_modEq (zmul_modEq (Nat.ModEq.refl _) (Nat.ModEq.refl _)) (Nat.ModEq.refl _)
    · exact le_trans (zadd_le _ _) (Nat.add_le_add_right (zmul_le _ _) _)
    · ring

/-! ## Claims on `matrix_operations.hpp` -/

/-- C27: `matrix_column` takes `stride2` where the step from one row to the next is
`stride1`.  In a row-major view with `stride1 = 2`, `stride2 = 1`, `internal_size2 = 4` the
element `(1, 0)` of column `0` has linear index `8` and `mat_start + 1 * mat_stride` is `4`;
in the column-major view with the same strides the index is `2` and the address is `1`. -/
theorem matrix_column_steps_by_stride2 :
    linear_index ⟨true, 0, 0, 2, 1, 4, 4⟩ 1 0 = 8 ∧
    (matrix_column ⟨true, 0, 0, 2, 1, 4, 4⟩ 0).1 +
      1 * (matrix_column ⟨true, 0, 0, 2, 1, 4, 4⟩ 0).2 = 4 ∧
    linear_index ⟨false, 0, 0, 2, 1, 4, 4⟩ 1 0 = 2 ∧
    (matrix_column ⟨false, 0, 0, 2, 1, 4, 4⟩ 0).1 +
      1 * (matrix_column ⟨false, 0, 0, 2, 1, 4, 4⟩ 0).2 = 1 := by
  decide

/-- C28: `matrix_diag_from_vector` and `matrix_diag_to_vector` address the `k`-th diagonal.
For every `int` `k` other than the least one (whose negation is not an `int`), every view
and every `t`, the two functions compute the same `mat_start` and `mat_stride`, and
`mat_start + t * mat_stride` is the linear index of the element
`(t + max(-k,0), t + max(k,0))`: modulo `2^32` always, and exactly when that index is
below `2^32`, in both layouts.  `mat_start` and `mat_stride` are the `unsigned int` values
that the launch of `av_kernel` receives. -/
theorem matrix_diag_addresses (mat : MatrixView) (k : Int) (t : Nat)
    (hk1 : -2147483648 < k) (hk2 : k < 2147483648) :
    (((matrix_diag_from_vector mat k).1 + t * (matrix_diag_from_vector mat k).2) %
        4294967296 =
        linear_index mat (t + (max (-k) 0).toNat) (t + (max k 0).toNat) %
          4294967296 ∧
      (linear_index mat (t + (max (-k) 0).toNat) (t + (max k 0).toNat) <
          4294967296 →
        (matrix_diag_from_vector mat k).1 + t * (matrix_diag_from_vector mat k).2 =
          linear_index mat (t + (max (-k) 0).toNat) (t + (max k 0).toNat))) ∧
    matrix_diag_to_vector mat k = matrix_diag_from_vector mat k := by
  apply matrix_diag_spec
  · by_cases h : k < 0
    · rw [if_pos h, to_size_ineg k hk1 h]
      congr 1
      omega
    · rw [if_neg h]
      have : max (-k) 0 = 0 := by omega
      rw [this]
      rfl
  · by_cases h : k < 0
    · rw [if_pos h]
      have : max k 0 = 0 := by omega
      rw [this]
      rfl
    · rw [if_neg h, to_size_nonneg k (by omega) hk2]
      congr 1
      omega

/-- C28 at an instance: the first sub-diagonal (`k = -1`) of a row-major view. -/
theorem matrix_diag_addresses_witness :
    (((matrix_diag_from_vector ⟨true, 1, 2, 1, 1, 5, 7⟩ (-1)).1 +
        3 * (matrix_diag_from_vector ⟨true, 1, 2, 1, 1, 5, 7⟩ (-1)).2) %
        4294967296 =
        linear_index ⟨true, 1, 2, 1, 1, 5, 7⟩ (3 + (max (-(-1 : Int)) 0).toNat)
          (3 + (max (-1 : Int) 0).toNat) % 4294967296 ∧
      (linear_index ⟨true, 1, 2, 1, 1, 5, 7⟩ (3 + (max (-(-1 : Int)) 0).toNat)
          (3 + (max (-1 : Int) 0).toNat) < 4294967296 →
        (matrix_diag_from_vector ⟨true, 1, 2, 1, 1, 5, 7⟩ (-1)).1 +
          3 * (matrix_diag_from_vector ⟨true, 1, 2, 1, 1, 5, 7⟩ (-1)).2 =
          linear_index ⟨true, 1, 2, 1, 1, 5, 7⟩ (3 + (max (-(-1 : Int)) 0).toNat)
            (3 + (max (-1 : Int) 0).toNat))) ∧
    matrix_diag_to_vector ⟨true, 1, 2, 1, 1, 5, 7⟩ (-1) =
      matrix_diag_from_vector ⟨true, 1, 2, 1, 1, 5, 7⟩ (-1) :=
  matrix_diag_addresses ⟨true, 1, 2, 1, 1, 5, 7⟩ (-1) 3 (by decide) (by decide)

/-- C29: `matrix_row` addresses row `i`.  For every view, every `i` and every `c`,
`mat_start + c * mat_stride` is the linear index of the element `(i, c)`: modulo `2^32`
always, and exactly when that index is below `2^32`, in both layouts.  `mat_start` and
`mat_stride` are the `unsigned int` values that the launch of `av_kernel` receives. -/
theorem matrix_row_addresses (mat : MatrixView) (i c : Nat) :
    ((matrix_row mat i).1 + c * (matrix_row mat i).2) % 4294967296 =
        linear_index mat i c % 4294967296 ∧
      (linear_index mat i c < 4294967296 →
        (matrix_row mat i).1 + c * (matrix_row mat i).2 = linear_index mat i c) := by
  unfold matrix_row linear_index
  cases hrm : mat.row_major with
  | true =>
    simp only [if_true]
    refine address_spec _ _
      ((mat.start1 + i * mat.stride1) * mat.internal_size2 + mat.start2) mat.stride2 c _
      ?_ (Nat.ModEq.refl _) (le_refl _) ?_
    · exact zadd_modEq (zmul_modEq (zadd_modEq (Nat.ModEq.refl _)
        (zmul_modEq (Nat.ModEq.refl _) (Nat.ModEq.refl _))) (Nat.ModEq.refl _))
        (Nat.ModEq.refl _)
    · ring
  | false =>
    simp only [Bool.false_eq_true, if_false]
    refine address_spec _ _
      (mat.start1 + i * mat.stride1 + mat.start2 * mat.internal_size1)
      (mat.stride2 * mat.internal_size1) c _ ?_ ?_ (zmul_le _ _) ?_
    · exact zadd_modEq (zadd_modEq (Nat.ModEq.refl _)
        (zmul_modEq (Nat.ModEq.refl _) (Nat.ModEq.refl _)))
        (zmul_modEq (Nat.ModEq.refl _) (Nat.ModEq.refl _))
    · exact zmul_modEq (Nat.ModEq.refl _) (Nat.ModEq.refl _)
    · ring

/-- An index of `2^32` or more reaches the kernel modulo `2^32`: in a row-major view with
`start1 = 5`, `start2 = 3` and `internal_size2 = 2^30` the element `(0, 0)` has the linear
index `5368709123`, and the launch of `av_kernel` in `matrix_row` receives
`mat_start = 1073741827`. -/
theorem matrix_row_start_modulo :
    linear_index ⟨true, 5, 3, 1, 1, 1073741824, 1073741824⟩ 0 0 = 5368709123 ∧
    (matrix_row ⟨true, 5, 3, 1, 1, 1073741824, 1073741824⟩ 0).1 = 1073741827 := by
  decide

/-- C29 at an instance: element `(2, 3)` of a column-major view. -/
theorem matrix_row_addresses_witness :
    ((matrix_row ⟨false, 1, 2, 1, 1, 5, 7⟩ 2).1 + 3 * (matrix_row ⟨false, 1, 2, 1, 1, 5, 7⟩ 2).2) %
        4294967296 =
        linear_index ⟨false, 1, 2, 1, 1, 5, 7⟩ 2 3 % 4294967296 ∧
      (linear_index ⟨false, 1, 2, 1, 1, 5, 7⟩ 2 3 < 4294967296 →
        (matrix_row ⟨false, 1, 2, 1, 1, 5, 7⟩ 2).1 +
          3 * (matrix_row ⟨false, 1, 2, 1, 1, 5, 7⟩ 2).2 =
          linear_index ⟨false, 1, 2, 1, 1, 5, 7⟩ 2 3) :=
  matrix_row_addresses ⟨false, 1, 2, 1, 1, 5, 7⟩ 2 3

/-- C30: the dispatch of the matrix-matrix product.  Whatever the three sizes,
`detail::prod` launches what `detail::prod_slow_kernel` launches, and for each of the 32
combinations of the five flags that is the one kernel
`matrix_matrix_<C>_<A>_<B>_prod_<tA><tB>_kernel`. -/
theorem prod_dispatch (size1_A size2_A size1_B : Nat)
    (row_major_C row_major_A row_major_B transposed_A transposed_B : Bool) :
    prod size1_A size2_A size1_B row_major_C row_major_A row_major_B transposed_A
        transposed_B =
      prod_slow_kernel row_major_C row_major_A row_major_B transposed_A transposed_B ∧
    prod_slow_kernel row_major_C row_major_A row_major_B transposed_A transposed_B =
      [prod_kernel_name row_major_C row_major_A row_major_B transposed_A transposed_B] := by
  constructor
  · unfold prod
    split_ifs <;> rfl
  · cases row_major_C <;> cases row_major_A <;> cases row_major_B <;> cases transposed_A <;>
      cases transposed_B <;> decide

/-! ## Runs of the four non-transposed kernels on any well-formed matrix -/

omit [Field T] in
theorem fst_of_observed {α β : Type} {o : Option (α × β)} {k : Option α} {x : α} {ev : β}
    (herase : o.map Prod.fst = k) (h : o = some (x, ev)) : k = some x := by
  rw [← herase, h]
  rfl

theorem lu_forward_fin_total {n : Nat} (d : List T) (hd : d.length = n) :
    ∀ (r : Nat) (v : T), r < n →
      ∃ val, (fun r v => (gread d r).bind fun dd => some (v / dd)) r v = some val := by
  intro r v hr
  refine ⟨v / d.getD r 0, ?_⟩
  show (gread d r).bind (fun dd => some (v / dd)) = some (v / d.getD r 0)
  rw [gread_of_lt d r 0 (by omega)]
  rfl

/-- Two runs of a backward kernel, with or without entries in the matrix. -/
theorem backward_kernel_observed_runs {n B : Nat} {ro col : List Nat} {el b : List T}
    (dA dB ud : Bool) (stA stB : Staging T) (diag0 : T)
    (hwf : WellFormedCSR n ro col el) (hn1 : 1 ≤ n) (hn : n < 4294967296) (hB1 : 1 ≤ B)
    (hB : B ≤ 128) (hb : b.length = n) (hfit : ro.getD n 0 + B < 4294967296) :
    ∃ x evA evB, backward_kernel_observed dA ud B stA diag0 ro col el b n = some (x, evA) ∧
      backward_kernel_observed dB ud B stB diag0 ro col el b n = some (x, evB) ∧
      x.length = n ∧
      List.Pairwise (fun r1 r2 => r1 > r2) (writtenRows evA) ∧ ShortcutsSound evA := by
  by_cases hnnz : 1 ≤ ro.getD n 0
  · obtain ⟨x, evA, evB, hA, hB2, hx, _, hp, hs⟩ :=
      backward_kernel_observed_pair dA dB ud stA stB diag0 hwf hn1 hn hB1 hB hb hnnz hfit
    exact ⟨x, evA, evB, hA, hB2, hx, hp, hs⟩
  · have h0 : ro.getD n 0 = 0 := by omega
    obtain ⟨evA, hA, hwA, hsA⟩ :=
      backward_kernel_observed_empty dA ud stA diag0 hwf hn1 hn hB1 hb h0
    obtain ⟨evB, hB2, _, _⟩ :=
      backward_kernel_observed_empty dB ud stB diag0 hwf hn1 hn hB1 hb h0
    refine ⟨b, evA, evB, hA, hB2, hb, ?_, hsA⟩
    rw [hwA]
    exact List.Pairwise.nil

omit [Field T] in
theorem nodup_of_increasing (l : List Nat) (h : List.Pairwise (fun r1 r2 => r1 < r2) l) :
    l.Nodup :=
  List.Pairwise.imp (fun hlt => Nat.ne_of_lt hlt) h

omit [Field T] in
theorem nodup_of_decreasing (l : List Nat) (h : List.Pairwise (fun r1 r2 => r1 > r2) l) :
    l.Nodup :=
  List.Pairwise.imp (fun hgt => Nat.ne_of_gt hgt) h

/-! ## C15: no access out of bounds -/

/-- C15: on every well-formed CSR input with `n >= 1`, `nnz >= 1` and `1 <= B <= 128`,
triangular or not, each of the four non-transposed kernels runs to its end without an
access out of bounds (in the model such an access gives `none`) and leaves a vector of
length `n`. -/
theorem nontransposed_kernels_never_fault (n B : Nat) (st : Staging T) (diag0 : T)
    (ro col : List Nat) (el d b : List T)
    (hwf : WellFormedCSR n ro col el) (hn1 : 1 ≤ n) (hn : n < 4294967296) (hB1 : 1 ≤ B)
    (hB : B ≤ 128) (hb : b.length = n) (hd : d.length = n) (hnnz : 1 ≤ ro.getD n 0)
    (hfit : ro.getD n 0 + B < 4294967296) :
    (∃ x, csr_unit_lu_forward_kernel B st ro col el b n = some x ∧ x.length = n) ∧
    (∃ x, csr_lu_forward_kernel B st ro col el d b n = some x ∧ x.length = n) ∧
    (∃ x, csr_unit_lu_backward_kernel B st ro col el b n = some x ∧ x.length = n) ∧
    (∃ x, csr_lu_backward_kernel B st diag0 ro col el b n = some x ∧ x.length = n) := by
  refine ⟨?_, ?_, ?_, ?_⟩
  · obtain ⟨x, evA, _, hA, _, hx, _⟩ :=
      forward_kernel_observed_pair false false (fun _ v => some v) st st hwf hn1 hn hB1 hB hb
        hfit (fun r v _ => ⟨v, rfl⟩)
    exact ⟨x, fst_of_observed (csr_unit_lu_forward_kernel_observed_erase B st ro col el b n)
      hA, hx⟩
  · obtain ⟨x, evA, _, hA, _, hx, _⟩ :=
      forward_kernel_observed_pair false false
        (fun r v => (gread d r).bind fun dd => some (v / dd)) st st hwf hn1 hn hB1 hB hb
        hfit (lu_forward_fin_total d hd)
    exact ⟨x, fst_of_observed (csr_lu_forward_kernel_observed_erase B st ro col el d b n)
      hA, hx⟩
  · obtain ⟨x, evA, _, hA, _, hx, _⟩ :=
      backward_kernel_observed_pair false false true st st 0 hwf hn1 hn hB1 hB hb hnnz hfit
    exact ⟨x, fst_of_observed (csr_unit_lu_backward_kernel_observed_erase B st ro col el b n)
      hA, hx⟩
  · obtain ⟨x, evA, _, hA, _, hx, _⟩ :=
      backward_kernel_observed_pair false false false st st diag0 hwf hn1 hn hB1 hB hb hnnz
        hfit
    exact ⟨x, fst_of_observed
      (csr_lu_backward_kernel_observed_erase B st diag0 ro col el b n) hA, hx⟩

/-- The theorem for C15 at the full matrix `[[2,1,3],[0,4,5],[0,0,8]]`, which is not lower
triangular, with two lanes. -/
theorem nontransposed_kernels_never_fault_witness :
    WellFormedCSR 3 [0, 3, 5, 6] [0, 1, 2, 1, 2, 2] [(2 : ℚ), 1, 3, 4, 5, 8] ∧
    ((∃ x, csr_unit_lu_forward_kernel 2 (⟨fun _ => 0, fun _ => 0, fun _ => 0⟩ : Staging ℚ)
        [0, 3, 5, 6] [0, 1, 2, 1, 2, 2] [(2 : ℚ), 1, 3, 4, 5, 8] [(1 : ℚ), 2, 3] 3 = some x ∧ x.length = 3) ∧
    (∃ x, csr_lu_forward_kernel 2 (⟨fun _ => 0, fun _ => 0, fun _ => 0⟩ : Staging ℚ)
        [0, 3, 5, 6] [0, 1, 2, 1, 2, 2] [(2 : ℚ), 1, 3, 4, 5, 8] [(1 : ℚ), 2, 4] [(1 : ℚ), 2, 3] 3 = some x ∧ x.length = 3) ∧
    (∃ x, csr_unit_lu_backward_kernel 2 (⟨fun _ => 0, fun _ => 0, fun _ => 0⟩ : Staging ℚ)
        [0, 3, 5, 6] [0, 1, 2, 1, 2, 2] [(2 : ℚ), 1, 3, 4, 5, 8] [(1 : ℚ), 2, 3] 3 = some x ∧ x.length = 3) ∧
    (∃ x, csr_lu_backward_kernel 2 (⟨fun _ => 0, fun _ => 0, fun _ => 0⟩ : Staging ℚ) 0
        [0, 3, 5, 6] [0, 1, 2, 1, 2, 2] [(2 : ℚ), 1, 3, 4, 5, 8] [(1 : ℚ), 2, 3] 3 = some x ∧ x.length = 3)) :=
  ⟨⟨by decide, by decide, by decide, by decide, by decide, by decide⟩,
    nontransposed_kernels_never_fault 3 2 (⟨fun _ => 0, fun _ => 0, fun _ => 0⟩ : Staging ℚ) 0
      [0, 3, 5, 6] [0, 1, 2, 1, 2, 2] [(2 : ℚ), 1, 3, 4, 5, 8] [(1 : ℚ), 2, 4] [(1 : ℚ), 2, 3]
      ⟨by decide, by decide, by decide, by decide, by decide, by decide⟩
      (by decide) (by decide) (by decide) (by decide) (by decide) (by decide) (by decide)
      (by decide)⟩

/-! ## C17: the contents of the staging arrays at the start -/

/-- C17: on every well-formed CSR input with `1 <= B <= 128`, two runs of a non-transposed
kernel that start with different contents of `col_index_buffer`, `element_buffer` and
`vector_buffer` both run to their end and leave the same vector. -/
theorem staging_contents_do_not_matter (n B : Nat) (stA stB : Staging T) (diag0 : T)
    (ro col : List Nat) (el d b : List T)
    (hwf : WellFormedCSR n ro col el) (hn1 : 1 ≤ n) (hn : n < 4294967296) (hB1 : 1 ≤ B)
    (hB : B ≤ 128) (hb : b.length = n) (hd : d.length = n)
    (hfit : ro.getD n 0 + B < 4294967296) :
    (∃ x, csr_unit_lu_forward_kernel B stA ro col el b n = some x ∧
      csr_unit_lu_forward_kernel B stB ro col el b n = some x) ∧
    (∃ x, csr_lu_forward_kernel B stA ro col el d b n = some x ∧
      csr_lu_forward_kernel B stB ro col el d b n = some x) ∧
    (∃ x, csr_unit_lu_backward_kernel B stA ro col el b n = some x ∧
      csr_unit_lu_backward_kernel B stB ro col el b n = some x) ∧
    (∃ x, csr_lu_backward_kernel B stA diag0 ro col el b n = some x ∧
      csr_lu_backward_kernel B stB diag0 ro col el b n = some x) := by
  refine ⟨?_, ?_, ?_, ?_⟩
  · obtain ⟨x, evA, evB, hA, hB2, _⟩ :=
      forward_kernel_observed_pair false false (fun _ v => some v) stA stB hwf hn1 hn hB1 hB
        hb hfit (fun r v _ => ⟨v, rfl⟩)
    exact ⟨x,
      fst_of_observed (csr_unit_lu_forward_kernel_observed_erase B stA ro col el b n) hA,
      fst_of_observed (csr_unit_lu_forward_kernel_observed_erase B stB ro col el b n) hB2⟩
  · obtain ⟨x, evA, evB, hA, hB2, _⟩ :=
      forward_kernel_observed_pair false false
        (fun r v => (gread d r).bind fun dd => some (v / dd)) stA stB hwf hn1 hn hB1 hB hb
        hfit (lu_forward_fin_total d hd)
    exact ⟨x,
      fst_of_observed (csr_lu_forward_kernel_observed_erase B stA ro col el d b n) hA,
      fst_of_observed (csr_lu_forward_kernel_observed_erase B stB ro col el d b n) hB2⟩
  · obtain ⟨x, evA, evB, hA, hB2, _⟩ :=
      backward_kernel_observed_runs false false true stA stB 0 hwf hn1 hn hB1 hB hb hfit
    exact ⟨x,
      fst_of_observed (csr_unit_lu_backward_kernel_observed_erase B stA ro col el b n) hA,
      fst_of_observed (csr_unit_lu_backward_kernel_observed_erase B stB ro col el b n) hB2⟩
  · obtain ⟨x, evA, evB, hA, hB2, _⟩ :=
      backward_kernel_observed_runs false false false stA stB diag0 hwf hn1 hn hB1 hB hb
        hfit
    exact ⟨x,
      fst_of_observed (csr_lu_backward_kernel_observed_erase B stA diag0 ro col el b n) hA,
      fst_of_observed (csr_lu_backward_kernel_observed_erase B stB diag0 ro col el b n)
        hB2⟩

/-- The theorem for C17 at the matrix `[[2,1,3],[0,4,5],[0,0,8]]` with four lanes, so that
the second window is partially filled; one run starts with zeros in the staging arrays and
the other with `7`, `5` and `3`. -/
theorem staging_contents_do_not_matter_witness :
    WellFormedCSR 3 [0, 3, 5, 6] [0, 1, 2, 1, 2, 2] [(2 : ℚ), 1, 3, 4, 5, 8] ∧
    ((∃ x, csr_unit_lu_forward_kernel 4 (⟨fun _ => 0, fun _ => 0, fun _ => 0⟩ : Staging ℚ)
        [0, 3, 5, 6] [0, 1, 2, 1, 2, 2] [(2 : ℚ), 1, 3, 4, 5, 8] [(1 : ℚ), 2, 3] 3 = some x ∧
      csr_unit_lu_forward_kernel 4 (⟨fun _ => 7, fun _ => 5, fun _ => 3⟩ : Staging ℚ)
        [0, 3, 5, 6] [0, 1, 2, 1, 2, 2] [(2 : ℚ), 1, 3, 4, 5, 8] [(1 : ℚ), 2, 3] 3 = some x) ∧
    (∃ x, csr_lu_forward_kernel 4 (⟨fun _ => 0, fun _ => 0, fun _ => 0⟩ : Staging ℚ)
        [0, 3, 5, 6] [0, 1, 2, 1, 2, 2] [(2 : ℚ), 1, 3, 4, 5, 8] [(1 : ℚ), 2, 4] [(1 : ℚ), 2, 3] 3 = some x ∧
      csr_lu_forward_kernel 4 (⟨fun _ => 7, fun _ => 5, fun _ => 3⟩ : Staging ℚ)
        [0, 3, 5, 6] [0, 1, 2, 1, 2, 2] [(2 : ℚ), 1, 3, 4, 5, 8] [(1 : ℚ), 2, 4] [(1 : ℚ), 2, 3] 3 = some x) ∧
    (∃ x, csr_unit_lu_backward_kernel 4 (⟨fun _ => 0, fun _ => 0, fun _ => 0⟩ : Staging ℚ)
        [0, 3, 5, 6] [0, 1, 2, 1, 2, 2] [(2 : ℚ), 1, 3, 4, 5, 8] [(1 : ℚ), 2, 3] 3 = some x ∧
      csr_unit_lu_backward_kernel 4 (⟨fun _ => 7, fun _ => 5, fun _ => 3⟩ : Staging ℚ)
        [0, 3, 5, 6] [0, 1, 2, 1, 2, 2] [(2 : ℚ), 1, 3, 4, 5, 8] [(1 : ℚ), 2, 3] 3 = some x) ∧
    (∃ x, csr_lu_backward_kernel 4 (⟨fun _ => 0, fun _ => 0, fun _ => 0⟩ : Staging ℚ) 0
        [0, 3, 5, 6] [0, 1, 2, 1, 2, 2] [(2 : ℚ), 1, 3, 4, 5, 8] [(1 : ℚ), 2, 3] 3 = some x ∧
      csr_lu_backward_kernel 4 (⟨fun _ => 7, fun _ => 5, fun _ => 3⟩ : Staging ℚ) 0
        [0, 3, 5, 6] [0, 1, 2, 1, 2, 2] [(2 : ℚ), 1, 3, 4, 5, 8] [(1 : ℚ), 2, 3] 3 = some x)) :=
  ⟨⟨by decide, by decide, by decide, by decide, by decide, by decide⟩,
    staging_contents_do_not_matter 3 4 (⟨fun _ => 0, fun _ => 0, fun _ => 0⟩ : Staging ℚ)
      (⟨fun _ => 7, fun _ => 5, fun _ => 3⟩ : Staging ℚ) 0
      [0, 3, 5, 6] [0, 1, 2, 1, 2, 2] [(2 : ℚ), 1, 3, 4, 5, 8] [(1 : ℚ), 2, 4] [(1 : ℚ), 2, 3]
      ⟨by decide, by decide, by decide, by decide, by decide, by decide⟩
      (by decide) (by decide) (by decide) (by decide) (by decide) (by decide) (by decide)⟩

/-! ## C18: the number of windows -/

/-- C18: on every well-formed CSR input with `1 <= B <= 128` and `nnz + B < 2^32` each
forward kernel runs to its end after `nnz / B + 1` windows, and each backward kernel with
`nnz >= 1` after `(nnz - 1) / B + 1` windows, whatever the column indices, the elements
and the vector are. -/
theorem window_count_fixed_by_nnz (n B : Nat) (st : Staging T) (diag0 : T)
    (ro col : List Nat) (el d b : List T)
    (hwf : WellFormedCSR n ro col el) (hn1 : 1 ≤ n) (hn : n < 4294967296) (hB1 : 1 ≤ B)
    (hB : B ≤ 128) (hb : b.length = n) (hd : d.length = n)
    (hfit : ro.getD n 0 + B < 4294967296) :
    (∃ x ev, csr_unit_lu_forward_kernel_observed false B st ro col el b n = some (x, ev) ∧
      csr_unit_lu_forward_kernel B st ro col el b n = some x ∧
      windowCount ev = ro.getD n 0 / B + 1) ∧
    (∃ x ev, csr_lu_forward_kernel_observed false B st ro col el d b n = some (x, ev) ∧
      csr_lu_forward_kernel B st ro col el d b n = some x ∧
      windowCount ev = ro.getD n 0 / B + 1) ∧
    (1 ≤ ro.getD n 0 →
      (∃ x ev, csr_unit_lu_backward_kernel_observed false B st ro col el b n = some (x, ev) ∧
        csr_unit_lu_backward_kernel B st ro col el b n = some x ∧
        windowCount ev = (ro.getD n 0 - 1) / B + 1) ∧
      (∃ x ev, csr_lu_backward_kernel_observed false B st diag0 ro col el b n
          = some (x, ev) ∧
        csr_lu_backward_kernel B st diag0 ro col el b n = some x ∧
        windowCount ev = (ro.getD n 0 - 1) / B + 1)) := by
  refine ⟨?_, ?_, ?_⟩
  · obtain ⟨x, evA, _, hA, _, _, hw, _⟩ :=
      forward_kernel_observed_pair false false (fun _ v => some v) st st hwf hn1 hn hB1 hB hb
        hfit (fun r v _ => ⟨v, rfl⟩)
    exact ⟨x, evA, hA,
      fst_of_observed (csr_unit_lu_forward_kernel_observed_erase B st ro col el b n) hA, hw⟩
  · obtain ⟨x, evA, _, hA, _, _, hw, _⟩ :=
      forward_kernel_observed_pair false false
        (fun r v => (gread d r).bind fun dd => some (v / dd)) st st hwf hn1 hn hB1 hB hb
        hfit (lu_forward_fin_total d hd)
    exact ⟨x, evA, hA,
      fst_of_observed (csr_lu_forward_kernel_observed_erase B st ro col el d b n) hA, hw⟩
  · intro hnnz
    refine ⟨?_, ?_⟩
    · obtain ⟨x, evA, _, hA, _, _, hw, _⟩ :=
        backward_kernel_observed_pair false false true st st 0 hwf hn1 hn hB1 hB hb hnnz
          hfit
      exact ⟨x, evA, hA,
        fst_of_observed (csr_unit_lu_backward_kernel_observed_erase B st ro col el b n) hA,
        hw⟩
    · obtain ⟨x, evA, _, hA, _, _, hw, _⟩ :=
        backward_kernel_observed_pair false false false st st diag0 hwf hn1 hn hB1 hB hb
          hnnz hfit
      exact ⟨x, evA, hA,
        fst_of_observed (csr_lu_backward_kernel_observed_erase B st diag0 ro col el b n) hA,
        hw⟩

/-- The theorem for C18 at the matrix `[[2,1,3],[0,4,5],[0,0,8]]` with two lanes: `nnz = 6`,
four windows forward and three backward. -/
theorem window_count_fixed_by_nnz_witness :
    WellFormedCSR 3 [0, 3, 5, 6] [0, 1, 2, 1, 2, 2] [(2 : ℚ), 1, 3, 4, 5, 8] ∧
    ((∃ x ev, csr_unit_lu_forward_kernel_observed false 2 (⟨fun _ => 0, fun _ => 0, fun _ => 0⟩ : Staging ℚ)
        [0, 3, 5, 6] [0, 1, 2, 1, 2, 2] [(2 : ℚ), 1, 3, 4, 5, 8] [(1 : ℚ), 2, 3] 3 = some (x, ev) ∧
      csr_unit_lu_forward_kernel 2 (⟨fun _ => 0, fun _ => 0, fun _ => 0⟩ : Staging ℚ)
        [0, 3, 5, 6] [0, 1, 2, 1, 2, 2] [(2 : ℚ), 1, 3, 4, 5, 8] [(1 : ℚ), 2, 3] 3 = some x ∧
      windowCount ev = ([0, 3, 5, 6] : List Nat).getD 3 0 / 2 + 1) ∧
    (∃ x ev, csr_lu_forward_kernel_observed false 2 (⟨fun _ => 0, fun _ => 0, fun _ => 0⟩ : Staging ℚ)
        [0, 3, 5, 6] [0, 1, 2, 1, 2, 2] [(2 : ℚ), 1, 3, 4, 5, 8] [(1 : ℚ), 2, 4] [(1 : ℚ), 2, 3] 3 = some (x, ev) ∧
      csr_lu_forward_kernel 2 (⟨fun _ => 0, fun _ => 0, fun _ => 0⟩ : Staging ℚ)
        [0, 3, 5, 6] [0, 1, 2, 1, 2, 2] [(2 : ℚ), 1, 3, 4, 5, 8] [(1 : ℚ), 2, 4] [(1 : ℚ), 2, 3] 3 = some x ∧
      windowCount ev = ([0, 3, 5, 6] : List Nat).getD 3 0 / 2 + 1) ∧
    (1 ≤ ([0, 3, 5, 6] : List Nat).getD 3 0 →
      (∃ x ev, csr_unit_lu_backward_kernel_observed false 2 (⟨fun _ => 0, fun _ => 0, fun _ => 0⟩ : Staging ℚ)
          [0, 3, 5, 6] [0, 1, 2, 1, 2, 2] [(2 : ℚ), 1, 3, 4, 5, 8] [(1 : ℚ), 2, 3] 3 = some (x, ev) ∧
        csr_unit_lu_backward_kernel 2 (⟨fun _ => 0, fun _ => 0, fun _ => 0⟩ : Staging ℚ)
          [0, 3, 5, 6] [0, 1, 2, 1, 2, 2] [(2 : ℚ), 1, 3, 4, 5, 8] [(1 : ℚ), 2, 3] 3 = some x ∧
        windowCount ev = (([0, 3, 5, 6] : List Nat).getD 3 0 - 1) / 2 + 1) ∧
      (∃ x ev, csr_lu_backward_kernel_observed false 2 (⟨fun _ => 0, fun _ => 0, fun _ => 0⟩ : Staging ℚ) 0
          [0, 3, 5, 6] [0, 1, 2, 1, 2, 2] [(2 : ℚ), 1, 3, 4, 5, 8] [(1 : ℚ), 2, 3] 3 = some (x, ev) ∧
        csr_lu_backward_kernel 2 (⟨fun _ => 0, fun _ => 0, fun _ => 0⟩ : Staging ℚ) 0
          [0, 3, 5, 6] [0, 1, 2, 1, 2, 2] [(2 : ℚ), 1, 3, 4, 5, 8] [(1 : ℚ), 2, 3] 3 = some x ∧
        windowCount ev = (([0, 3, 5, 6] : List Nat).getD 3 0 - 1) / 2 + 1))) :=
  ⟨⟨by decide, by decide, by decide, by decide, by decide, by decide⟩,
    window_count_fixed_by_nnz 3 2 (⟨fun _ => 0, fun _ => 0, fun _ => 0⟩ : Staging ℚ) 0
      [0, 3, 5, 6] [0, 1, 2, 1, 2, 2] [(2 : ℚ), 1, 3, 4, 5, 8] [(1 : ℚ), 2, 4] [(1 : ℚ), 2, 3]
      ⟨by decide, by decide, by decide, by decide, by decide, by decide⟩
      (by decide) (by decide) (by decide) (by decide) (by decide) (by decide) (by decide)⟩

/-! ## C19: the value taken from `vector_buffer` -/

/-- C19: on every well-formed CSR input with `1 <= B <= 128`, in each non-transposed
kernel every use of `vector_buffer[k]` for an entry of the matrix takes the value that
`vector[col_index_buffer[k]]` holds at that moment, and the run that reads the vector
instead leaves the same vector. -/
theorem staged_shortcut_is_sound (n B : Nat) (st : Staging T) (diag0 : T)
    (ro col : List Nat) (el d b : List T)
    (hwf : WellFormedCSR n ro col el) (hn1 : 1 ≤ n) (hn : n < 4294967296) (hB1 : 1 ≤ B)
    (hB : B ≤ 128) (hb : b.length = n) (hd : d.length = n)
    (hfit : ro.getD n 0 + B < 4294967296) :
    (∃ x ev ev2, csr_unit_lu_forward_kernel_observed false B st ro col el b n
        = some (x, ev) ∧
      csr_unit_lu_forward_kernel B st ro col el b n = some x ∧ ShortcutsSound ev ∧
      csr_unit_lu_forward_kernel_observed true B st ro col el b n = some (x, ev2)) ∧
    (∃ x ev ev2, csr_lu_forward_kernel_observed false B st ro col el d b n = some (x, ev) ∧
      csr_lu_forward_kernel B st ro col el d b n = some x ∧ ShortcutsSound ev ∧
      csr_lu_forward_kernel_observed true B st ro col el d b n = some (x, ev2)) ∧
    (∃ x ev ev2, csr_unit_lu_backward_kernel_observed false B st ro col el b n
        = some (x, ev) ∧
      csr_unit_lu_backward_kernel B st ro col el b n = some x ∧ ShortcutsSound ev ∧
      csr_unit_lu_backward_kernel_observed true B st ro col el b n = some (x, ev2)) ∧
    (∃ x ev ev2, csr_lu_backward_kernel_observed false B st diag0 ro col el b n
        = some (x, ev) ∧
      csr_lu_backward_kernel B st diag0 ro col el b n = some x ∧ ShortcutsSound ev ∧
      csr_lu_backward_kernel_observed true B st diag0 ro col el b n = some (x, ev2)) := by
  refine ⟨?_, ?_, ?_, ?_⟩
  · obtain ⟨x, evA, evB, hA, hB2, _, _, _, hs⟩ :=
      forward_kernel_observed_pair false true (fun _ v => some v) st st hwf hn1 hn hB1 hB hb
        hfit (fun r v _ => ⟨v, rfl⟩)
    exact ⟨x, evA, evB, hA,
      fst_of_observed (csr_unit_lu_forward_kernel_observed_erase B st ro col el b n) hA, hs,
      hB2⟩
  · obtain ⟨x, evA, evB, hA, hB2, _, _, _, hs⟩ :=
      forward_kernel_observed_pair false true
        (fun r v => (gread d r).bind fun dd => some (v / dd)) st st hwf hn1 hn hB1 hB hb
        hfit (lu_forward_fin_total d hd)
    exact ⟨x, evA, evB, hA,
      fst_of_observed (csr_lu_forward_kernel_observed_erase B st ro col el d b n) hA, hs,
      hB2⟩
  · obtain ⟨x, evA, evB, hA, hB2, _, _, hs⟩ :=
      backward_kernel_observed_runs false true true st st 0 hwf hn1 hn hB1 hB hb hfit
    exact ⟨x, evA, evB, hA,
      fst_of_observed (csr_unit_lu_backward_kernel_observed_erase B st ro col el b n) hA,
      hs, hB2⟩
  · obtain ⟨x, evA, evB, hA, hB2, _, _, hs⟩ :=
      backward_kernel_observed_runs false true false st st diag0 hwf hn1 hn hB1 hB hb hfit
    exact ⟨x, evA, evB, hA,
      fst_of_observed (csr_lu_backward_kernel_observed_erase B st diag0 ro col el b n) hA,
      hs, hB2⟩

/-- The theorem for C19 at the matrix `[[2,1,3],[0,4,5],[0,0,8]]` with two lanes. -/
theorem staged_shortcut_is_sound_witness :
    WellFormedCSR 3 [0, 3, 5, 6] [0, 1, 2, 1, 2, 2] [(2 : ℚ), 1, 3, 4, 5, 8] ∧
    ((∃ x ev ev2, csr_unit_lu_forward_kernel_observed false 2 (⟨fun _ => 0, fun _ => 0, fun _ => 0⟩ : Staging ℚ)
        [0, 3, 5, 6] [0, 1, 2, 1, 2, 2] [(2 : ℚ), 1, 3, 4, 5, 8] [(1 : ℚ), 2, 3] 3 = some (x, ev) ∧
      csr_unit_lu_forward_kernel 2 (⟨fun _ => 0, fun _ => 0, fun _ => 0⟩ : Staging ℚ)
        [0, 3, 5, 6] [0, 1, 2, 1, 2, 2] [(2 : ℚ), 1, 3, 4, 5, 8] [(1 : ℚ), 2, 3] 3 = some x ∧ ShortcutsSound ev ∧
      csr_unit_lu_forward_kernel_observed true 2 (⟨fun _ => 0, fun _ => 0, fun _ => 0⟩ : Staging ℚ)
        [0, 3, 5, 6] [0, 1, 2, 1, 2, 2] [(2 : ℚ), 1, 3, 4, 5, 8] [(1 : ℚ), 2, 3] 3 = some (x, ev2)) ∧
    (∃ x ev ev2, csr_lu_forward_kernel_observed false 2 (⟨fun _ => 0, fun _ => 0, fun _ => 0⟩ : Staging ℚ)
        [0, 3, 5, 6] [0, 1, 2, 1, 2, 2] [(2 : ℚ), 1, 3, 4, 5, 8] [(1 : ℚ), 2, 4] [(1 : ℚ), 2, 3] 3 = some (x, ev) ∧
      csr_lu_forward_kernel 2 (⟨fun _ => 0, fun _ => 0, fun _ => 0⟩ : Staging ℚ)
        [0, 3, 5, 6] [0, 1, 2, 1, 2, 2] [(2 : ℚ), 1, 3, 4, 5, 8] [(1 : ℚ), 2, 4] [(1 : ℚ), 2, 3] 3 = some x ∧ ShortcutsSound ev ∧
      csr_lu_forward_kernel_observed true 2 (⟨fun _ => 0, fun _ => 0, fun _ => 0⟩ : Staging ℚ)
        [0, 3, 5, 6] [0, 1, 2, 1, 2, 2] [(2 : ℚ), 1, 3, 4, 5, 8] [(1 : ℚ), 2, 4] [(1 : ℚ), 2, 3] 3 = some (x, ev2)) ∧
    (∃ x ev ev2, csr_unit_lu_backward_kernel_observed false 2 (⟨fun _ => 0, fun _ => 0, fun _ => 0⟩ : Staging ℚ)
        [0, 3, 5, 6] [0, 1, 2, 1, 2, 2] [(2 : ℚ), 1, 3, 4, 5, 8] [(1 : ℚ), 2, 3] 3 = some (x, ev) ∧
      csr_unit_lu_backward_kernel 2 (⟨fun _ => 0, fun _ => 0, fun _ => 0⟩ : Staging ℚ)
        [0, 3, 5, 6] [0, 1, 2, 1, 2, 2] [(2 : ℚ), 1, 3, 4, 5, 8] [(1 : ℚ), 2, 3] 3 = some x ∧ ShortcutsSound ev ∧
      csr_unit_lu_backward_kernel_observed true 2 (⟨fun _ => 0, fun _ => 0, fun _ => 0⟩ : Staging ℚ)
        [0, 3, 5, 6] [0, 1, 2, 1, 2, 2] [(2 : ℚ), 1, 3, 4, 5, 8] [(1 : ℚ), 2, 3] 3 = some (x, ev2)) ∧
    (∃ x ev ev2, csr_lu_backward_kernel_observed false 2 (⟨fun _ => 0, fun _ => 0, fun _ => 0⟩ : Staging ℚ) 0
        [0, 3, 5, 6] [0, 1, 2, 1, 2, 2] [(2 : ℚ), 1, 3, 4, 5, 8] [(1 : ℚ), 2, 3] 3 = some (x, ev) ∧
      csr_lu_backward_kernel 2 (⟨fun _ => 0, fun _ => 0, fun _ => 0⟩ : Staging ℚ) 0
        [0, 3, 5, 6] [0, 1, 2, 1, 2, 2] [(2 : ℚ), 1, 3, 4, 5, 8] [(1 : ℚ), 2, 3] 3 = some x ∧ ShortcutsSound ev ∧
      csr_lu_backward_kernel_observed true 2 (⟨fun _ => 0, fun _ => 0, fun _ => 0⟩ : Staging ℚ) 0
        [0, 3, 5, 6] [0, 1, 2, 1, 2, 2] [(2 : ℚ), 1, 3, 4, 5, 8] [(1 : ℚ), 2, 3] 3 = some (x, ev2))) :=
  ⟨⟨by decide, by decide, by decide, by decide, by decide, by decide⟩,
    staged_shortcut_is_sound 3 2 (⟨fun _ => 0, fun _ => 0, fun _ => 0⟩ : Staging ℚ) 0
      [0, 3, 5, 6] [0, 1, 2, 1, 2, 2] [(2 : ℚ), 1, 3, 4, 5, 8] [(1 : ℚ), 2, 4] [(1 : ℚ), 2, 3]
      ⟨by decide, by decide, by decide, by decide, by decide, by decide⟩
      (by decide) (by decide) (by decide) (by decide) (by decide) (by decide) (by decide)⟩

/-! ## C20: the order of the stores -/

/-- C20: on every well-formed CSR input with `1 <= B <= 128` the rows stored to the vector
during a run come in strictly increasing order in the forward kernels and in strictly
decreasing order in the backward kernels, so no row is stored twice. -/
theorem finalization_order_monotonic (n B : Nat) (st : Staging T) (diag0 : T)
    (ro col : List Nat) (el d b : List T)
    (hwf : WellFormedCSR n ro col el) (hn1 : 1 ≤ n) (hn : n < 4294967296) (hB1 : 1 ≤ B)
    (hB : B ≤ 128) (hb : b.length = n) (hd : d.length = n)
    (hfit : ro.getD n 0 + B < 4294967296) :
    (∃ x ev, csr_unit_lu_forward_kernel_observed false B st ro col el b n = some (x, ev) ∧
      csr_unit_lu_forward_kernel B st ro col el b n = some x ∧
      List.Pairwise (fun r1 r2 => r1 < r2) (writtenRows ev) ∧ (writtenRows ev).Nodup) ∧
    (∃ x ev, csr_lu_forward_kernel_observed false B st ro col el d b n = some (x, ev) ∧
      csr_lu_forward_kernel B st ro col el d b n = some x ∧
      List.Pairwise (fun r1 r2 => r1 < r2) (writtenRows ev) ∧ (writtenRows ev).Nodup) ∧
    (∃ x ev, csr_unit_lu_backward_kernel_observed false B st ro col el b n = some (x, ev) ∧
      csr_unit_lu_backward_kernel B st ro col el b n = some x ∧
      List.Pairwise (fun r1 r2 => r1 > r2) (writtenRows ev) ∧ (writtenRows ev).Nodup) ∧
    (∃ x ev, csr_lu_backward_kernel_observed false B st diag0 ro col el b n
        = some (x, ev) ∧
      csr_lu_backward_kernel B st diag0 ro col el b n = some x ∧
      List.Pairwise (fun r1 r2 => r1 > r2) (writtenRows ev) ∧ (writtenRows ev).Nodup) := by
  refine ⟨?_, ?_, ?_, ?_⟩
  · obtain ⟨x, evA, _, hA, _, _, _, hp, _⟩ :=
      forward_kernel_observed_pair false false (fun _ v => some v) st st hwf hn1 hn hB1 hB hb
        hfit (fun r v _ => ⟨v, rfl⟩)
    exact ⟨x, evA, hA,
      fst_of_observed (csr_unit_lu_forward_kernel_observed_erase B st ro col el b n) hA, hp,
      nodup_of_increasing _ hp⟩
  · obtain ⟨x, evA, _, hA, _, _, _, hp, _⟩ :=
      forward_kernel_observed_pair false false
        (fun r v => (gread d r).bind fun dd => some (v / dd)) st st hwf hn1 hn hB1 hB hb
        hfit (lu_forward_fin_total d hd)
    exact ⟨x, evA, hA,
      fst_of_observed (csr_lu_forward_kernel_observed_erase B st ro col el d b n) hA, hp,
      nodup_of_increasing _ hp⟩
  · obtain ⟨x, evA, _, hA, _, _, hp, _⟩ :=
      backward_kernel_observed_runs false false true st st 0 hwf hn1 hn hB1 hB hb hfit
    exact ⟨x, evA, hA,
      fst_of_observed (csr_unit_lu_backward_kernel_observed_erase B st ro col el b n) hA,
      hp, nodup_of_decreasing _ hp⟩
  · obtain ⟨x, evA, _, hA, _, _, hp, _⟩ :=
      backward_kernel_observed_runs false false false st st diag0 hwf hn1 hn hB1 hB hb hfit
    exact ⟨x, evA, hA,
      fst_of_observed (csr_lu_backward_kernel_observed_erase B st diag0 ro col el b n) hA,
      hp, nodup_of_decreasing _ hp⟩

/-- The theorem for C20 at the matrix `[[2,1,3],[0,4,5],[0,0,8]]` with two lanes. -/
theorem finalization_order_monotonic_witness :
    WellFormedCSR 3 [0, 3, 5, 6] [0, 1, 2, 1, 2, 2] [(2 : ℚ), 1, 3, 4, 5, 8] ∧
    ((∃ x ev, csr_unit_lu_forward_kernel_observed false 2 (⟨fun _ => 0, fun _ => 0, fun _ => 0⟩ : Staging ℚ)
        [0, 3, 5, 6] [0, 1, 2, 1, 2, 2] [(2 : ℚ), 1, 3, 4, 5, 8] [(1 : ℚ), 2, 3] 3 = some (x, ev) ∧
      csr_unit_lu_forward_kernel 2 (⟨fun _ => 0, fun _ => 0, fun _ => 0⟩ : Staging ℚ)
        [0, 3, 5, 6] [0, 1, 2, 1, 2, 2] [(2 : ℚ), 1, 3, 4, 5, 8] [(1 : ℚ), 2, 3] 3 = some x ∧
      List.Pairwise (fun r1 r2 => r1 < r2) (writtenRows ev) ∧ (writtenRows ev).Nodup) ∧
    (∃ x ev, csr_lu_forward_kernel_observed false 2 (⟨fun _ => 0, fun _ => 0, fun _ => 0⟩ : Staging ℚ)
        [0, 3, 5, 6] [0, 1, 2, 1, 2, 2] [(2 : ℚ), 1, 3, 4, 5, 8] [(1 : ℚ), 2, 4] [(1 : ℚ), 2, 3] 3 = some (x, ev) ∧
      csr_lu_forward_kernel 2 (⟨fun _ => 0, fun _ => 0, fun _ => 0⟩ : Staging ℚ)
        [0, 3, 5, 6] [0, 1, 2, 1, 2, 2] [(2 : ℚ), 1, 3, 4, 5, 8] [(1 : ℚ), 2, 4] [(1 : ℚ), 2, 3] 3 = some x ∧
      List.Pairwise (fun r1 r2 => r1 < r2) (writtenRows ev) ∧ (writtenRows ev).Nodup) ∧
    (∃ x ev, csr_unit_lu_backward_kernel_observed false 2 (⟨fun _ => 0, fun _ => 0, fun _ => 0⟩ : Staging ℚ)
        [0, 3, 5, 6] [0, 1, 2, 1, 2, 2] [(2 : ℚ), 1, 3, 4, 5, 8] [(1 : ℚ), 2, 3] 3 = some (x, ev) ∧
      csr_unit_lu_backward_kernel 2 (⟨fun _ => 0, fun _ => 0, fun _ => 0⟩ : Staging ℚ)
        [0, 3, 5, 6] [0, 1, 2, 1, 2, 2] [(2 : ℚ), 1, 3, 4, 5, 8] [(1 : ℚ), 2, 3] 3 = some x ∧
      List.Pairwise (fun r1 r2 => r1 > r2) (writtenRows ev) ∧ (writtenRows ev).Nodup) ∧
    (∃ x ev, csr_lu_backward_kernel_observed false 2 (⟨fun _ => 0, fun _ => 0, fun _ => 0⟩ : Staging ℚ) 0
        [0, 3, 5, 6] [0, 1, 2, 1, 2, 2] [(2 : ℚ), 1, 3, 4, 5, 8] [(1 : ℚ), 2, 3] 3 = some (x, ev) ∧
      csr_lu_backward_kernel 2 (⟨fun _ => 0, fun _ => 0, fun _ => 0⟩ : Staging ℚ) 0
        [0, 3, 5, 6] [0, 1, 2, 1, 2, 2] [(2 : ℚ), 1, 3, 4, 5, 8] [(1 : ℚ), 2, 3] 3 = some x ∧
      List.Pairwise (fun r1 r2 => r1 > r2) (writtenRows ev) ∧ (writtenRows ev).Nodup)) :=
  ⟨⟨by decide, by decide, by decide, by decide, by decide, by decide⟩,
    finalization_order_monotonic 3 2 (⟨fun _ => 0, fun _ => 0, fun _ => 0⟩ : Staging ℚ) 0
      [0, 3, 5, 6] [0, 1, 2, 1, 2, 2] [(2 : ℚ), 1, 3, 4, 5, 8] [(1 : ℚ), 2, 4] [(1 : ℚ), 2, 3]
      ⟨by decide, by decide, by decide, by decide, by decide, by decide⟩
      (by decide) (by decide) (by decide) (by decide) (by decide) (by decide) (by decide)⟩

/-! ## Loops: what holds of a result -/

/-- Rule for `forCount` without a claim that the loop returns. -/
theorem forCount_preserve {σ : Type} (body : Nat → σ → Option σ) (P : Nat → σ → Prop) :
    ∀ (c k : Nat) (s s2 : σ), P k s →
      (∀ j s1 s3, k ≤ j → j < k + c → P j s1 → body j s1 = some s3 → P (j + 1) s3) →
      forCount body c k s = some s2 → P (k + c) s2 := by
  intro c
  induction c with
  | zero =>
    intro k s s2 h0 _ hrun
    simp only [forCount, Option.some.injEq] at hrun
    subst hrun
    exact h0
  | succ c ih =>
    intro k s s2 h0 hbody hrun
    simp only [forCount] at hrun
    cases hb : body k s with
    | none => rw [hb] at hrun; exact absurd hrun (by simp)
    | some s1 =>
      rw [hb, Option.some_bind] at hrun
      have h1 := hbody k s s1 (le_refl _) (by omega) h0 hb
      have := ih (k + 1) s1 s2 h1
        (fun j a a2 hj1 hj2 => hbody j a a2 (by omega) (by omega)) hrun
      have e : k + 1 + c = k + (c + 1) := by omega
      rw [e] at this
      exact this

/-- Rule for `forStride` without a claim that the loop returns. -/
theorem forStride_preserve {σ : Type} (B m : Nat) (body : Nat → σ → Option σ)
    (Q : Nat → σ → Prop) (hB : 1 ≤ B) (hfit : m * B < 4294967296)
    (hbody : ∀ w s s1, w < m → Q w s → body (w * B) s = some s1 → Q (w + 1) s1) :
    ∀ (fuel w : Nat) (s s2 : σ), w ≤ m → Q w s →
      forStride B (m * B) body fuel (w * B) s = some s2 → Q m s2 := by
  intro fuel
  induction fuel with
  | zero =>
    intro w s s2 hw hQ hrun
    simp only [forStride] at hrun
    by_cases hlt : w * B < m * B
    · rw [if_pos hlt] at hrun; exact absurd hrun (by simp)
    · rw [if_neg hlt] at hrun
      simp only [Option.some.injEq] at hrun
      subst hrun
      have : w = m := by
        rcases Nat.lt_or_ge w m with h | h
        · exact absurd (Nat.mul_lt_mul_of_pos_right h (by omega)) hlt
        · omega
      rw [← this]; exact hQ
  | succ fuel ih =>
    intro w s s2 hw hQ hrun
    simp only [forStride] at hrun
    by_cases hlt : w * B < m * B
    · rw [if_pos hlt] at hrun
      have hwm : w < m := by
        rcases Nat.lt_or_ge w m with h | h
        · exact h
        · exact absurd hlt (Nat.not_lt.mpr (Nat.mul_le_mul_right B h))
      cases hb : body (w * B) s with
      | none => rw [hb] at hrun; exact absurd hrun (by simp)
      | some s1 =>
        rw [hb, Option.some_bind] at hrun
        have hstep : uadd (w * B) B = (w + 1) * B := by
          have h1 : (w + 1) * B ≤ m * B := Nat.mul_le_mul_right B hwm
          rw [uadd_of_lt _ _ (by rw [Nat.add_mul] at h1; omega), Nat.add_mul, Nat.one_mul]
        rw [hstep] at hrun
        exact ih (w + 1) s1 s2 hwm (hbody w s s1 hwm hQ hb) hrun
    · rw [if_neg hlt] at hrun
      simp only [Option.some.injEq] at hrun
      subst hrun
      have : w = m := by
        rcases Nat.lt_or_ge w m with h | h
        · exact absurd (Nat.mul_lt_mul_of_pos_right h (by omega)) hlt
        · omega
      rw [← this]; exact hQ

omit [Field T] in
theorem getD_of_gread {α : Type} (a : List α) (i : Nat) (v d : α) (h : gread a i = some v) :
    a.getD i d = v := by
  unfold gread at h
  rw [List.getD_eq_getElem?_getD, h]
  rfl

/-! ## The forward kernels below an empty row -/

theorem forward_finalize_observed_frontier {n r q : Nat} {ro : List Nat} {b : List T}
    (fin : Nat → T → Option T) (s : SolveState T) (ev : List (Event T))
    (s2 : SolveState T × List (Event T)) (hro : ro.length = n + 1) (hn : n < 4294967296)
    (hr : r < n) (hempty : ro.getD r 0 = ro.getD (r + 1) 0)
    (h : ForwardFrontier n ro b r q s ev)
    (hrun : forward_finalize_observed fin ro n q (s, ev) = some s2) :
    ForwardFrontier n ro b r (q + 1) s2.1 s2.2 := by
  by_cases hc : s.current_row < n ∧ q = s.next_row
  · obtain ⟨hrow, hp⟩ := hc
    have hne : s.current_row ≠ r := fun e => by have := h.stuck e; omega
    have hlt : s.current_row < r := lt_of_le_of_ne h.row_le hne
    have h1 : s.current_row + 1 < n := by omega
    cases hval : fin s.current_row s.current_vector_entry with
    | none =>
      subst hp
      simp only [forward_finalize_observed, hrow, and_self, if_true, hval,
        Option.none_bind] at hrun
      cases hrun
    | some val =>
      rw [forward_finalize_observed_hit fin ro n q s ev val hro hn h.len hrow hp hval] at hrun
      simp only [Option.some.injEq] at hrun
      subst hrun
      simp only [if_pos h1]
      refine ⟨?_, ?_, ?_, ?_, ?_, ?_⟩
      · show (s.vector.set s.current_row val).length = n
        rw [List.length_set]; exact h.len
      · show s.current_row + 1 ≤ r
        omega
      · rfl
      · show s.current_row + 1 = r → ro.getD (s.current_row + 2) 0 < q + 1
        intro e
        have e2 : ro.getD (s.current_row + 2) 0 = ro.getD (r + 1) 0 := by rw [← e]
        have e3 : ro.getD (s.current_row + 1) 0 = ro.getD r 0 := by rw [e]
        have := h.next_eq
        omega
      · show ∀ j, s.current_row + 1 ≤ j →
          (s.vector.set s.current_row val).getD j 0 = b.getD j 0
        intro j hj
        rw [getD_set_of_ne _ _ _ _ _ (by omega)]
        exact h.pending j (by omega)
      · show ∀ w, w ∈ writtenRows (ev ++ [Event.write s.current_row]) →
          w < s.current_row + 1
        intro w hw
        rw [writtenRows_append] at hw
        rcases List.mem_append.mp hw with hw1 | hw1
        · have := h.below w hw1; omega
        · simp only [writtenRows, List.mem_singleton] at hw1
          omega
  · simp only [forward_finalize_observed, hc, if_false, Option.some.injEq] at hrun
    subst hrun
    refine ⟨h.len, h.row_le, h.next_eq, ?_, h.pending, h.below⟩
    intro e
    have := h.stuck e
    show s.next_row < q + 1
    omega

theorem forward_substitute_observed_frame (d : Bool) (size nnz i : Nat) (st : Staging T)
    (k : Nat) (q q2 : SolveState T × List (Event T))
    (hrun : forward_substitute_observed d size nnz i st k q = some q2) :
    q2.1.vector = q.1.vector ∧ q2.1.current_row = q.1.current_row ∧
      q2.1.next_row = q.1.next_row ∧ writtenRows q2.2 = writtenRows q.2 := by
  unfold forward_substitute_observed at hrun
  by_cases h1 : q.1.current_row < size
  · rw [if_pos h1] at hrun
    cases hc : sread 128 st.col_index_buffer k with
    | none => rw [hc] at hrun; cases hrun
    | some c =>
      rw [hc, Option.some_bind] at hrun
      by_cases h2 : c < q.1.current_row
      · rw [if_pos h2] at hrun
        by_cases h3 : c < q.1.row_at_window_start
        · rw [if_pos h3] at hrun
          cases he : sread 128 st.element_buffer k with
          | none => rw [he] at hrun; cases hrun
          | some e =>
            rw [he, Option.some_bind] at hrun
            cases d with
            | true =>
              simp only [if_true] at hrun
              cases hx : gread q.1.vector c with
              | none => rw [hx] at hrun; cases hrun
              | some x =>
                rw [hx, Option.some_bind] at hrun
                cases hrun
                exact ⟨rfl, rfl, rfl, rfl⟩
            | false =>
              simp only [Bool.false_eq_true, if_false] at hrun
              cases hv : sread 128 st.vector_buffer k with
              | none => rw [hv] at hrun; cases hrun
              | some v =>
                rw [hv, Option.some_bind] at hrun
                cases hrun
                refine ⟨rfl, rfl, rfl, ?_⟩
                by_cases h4 : uadd i k < nnz
                · simp only [if_pos h4, writtenRows_append]
                  simp [writtenRows]
                · simp only [if_neg h4]
        · rw [if_neg h3, if_pos h2] at hrun
          cases he : sread 128 st.element_buffer k with
          | none => rw [he] at hrun; cases hrun
          | some e =>
            rw [he, Option.some_bind] at hrun
            cases hx : gread q.1.vector c with
            | none => rw [hx] at hrun; cases hrun
            | some x =>
              rw [hx, Option.some_bind] at hrun
              cases hrun
              exact ⟨rfl, rfl, rfl, rfl⟩
      · rw [if_neg h2] at hrun
        cases hrun
        exact ⟨rfl, rfl, rfl, rfl⟩
  · rw [if_neg h1] at hrun
    cases hrun
    exact ⟨rfl, rfl, rfl, rfl⟩

theorem forward_step_observed_frontier {n nnz r q : Nat} {ro : List Nat} {b : List T}
    (d : Bool) (fin : Nat → T → Option T) (i : Nat) (st : Staging T) (k : Nat)
    (s s2 : SolveState T × List (Event T)) (hro : ro.length = n + 1) (hn : n < 4294967296)
    (hr : r < n) (hempty : ro.getD r 0 = ro.getD (r + 1) 0) (hq : uadd i k = q)
    (h : ForwardFrontier n ro b r q s.1 s.2)
    (hrun : forward_step_observed d fin ro n nnz i st k s = some s2) :
    ForwardFrontier n ro b r (q + 1) s2.1 s2.2 := by
  unfold forward_step_observed at hrun
  rw [hq] at hrun
  cases hf : forward_finalize_observed fin ro n q s with
  | none => rw [hf] at hrun; cases hrun
  | some s1 =>
    rw [hf, Option.some_bind] at hrun
    have h1 := forward_finalize_observed_frontier fin s.1 s.2 s1 hro hn hr hempty h hf
    obtain ⟨e1, e2, e3, e4⟩ := forward_substitute_observed_frame d n nnz i st k s1 s2 hrun
    refine ⟨?_, ?_, ?_, ?_, ?_, ?_⟩
    · rw [e1]; exact h1.len
    · rw [e2]; exact h1.row_le
    · rw [e3, e2]; exact h1.next_eq
    · rw [e3, e2]; exact h1.stuck
    · rw [e1, e2]; exact h1.pending
    · rw [e4, e2]; exact h1.below

theorem forward_window_observed_frontier {n nnz B r : Nat} {ro col : List Nat}
    {el b : List T} (d : Bool) (fin : Nat → T → Option T) (loop_end i : Nat)
    (p p2 : (Staging T × SolveState T) × List (Event T)) (hro : ro.length = n + 1)
    (hn : n < 4294967296) (hr : r < n) (hempty : ro.getD r 0 = ro.getD (r + 1) 0)
    (hi : i + B ≤ 4294967296) (h : ForwardFrontier n ro b r i p.1.2 p.2)
    (hrun : forward_window_observed d fin ro col el n nnz loop_end B i p = some p2) :
    ForwardFrontier n ro b r (i + B) p2.1.2 p2.2 := by
  unfold forward_window_observed at hrun
  cases hl : load_forward col el p.1.2.vector nnz loop_end B i p.1.1 with
  | none => rw [hl] at hrun; cases hrun
  | some st =>
    rw [hl, Option.some_bind] at hrun
    cases hc : forCount (forward_step_observed d fin ro n nnz i st) B 0
        (p.1.2, p.2 ++ [Event.window]) with
    | none => rw [hc] at hrun; cases hrun
    | some q =>
      rw [hc, Option.some_bind] at hrun
      cases hrun
      have h0 : ForwardFrontier n ro b r (i + 0) (p.1.2, p.2 ++ [Event.window]).1
          (p.1.2, p.2 ++ [Event.window]).2 := by
        refine ⟨h.len, h.row_le, h.next_eq, h.stuck, h.pending, ?_⟩
        intro w hw
        have e : writtenRows (p.2 ++ [Event.window]) = writtenRows p.2 := by
          rw [writtenRows_append]
          simp [writtenRows]
        have hw2 : w ∈ writtenRows (p.2 ++ [Event.window]) := hw
        rw [e] at hw2
        exact h.below w hw2
      have hq := forCount_preserve (forward_step_observed d fin ro n nnz i st)
        (fun k s => ForwardFrontier n ro b r (i + k) s.1 s.2) B 0
        (p.1.2, p.2 ++ [Event.window]) q h0
        (fun j s1 s3 _ hj hP hstep =>
          forward_step_observed_frontier d fin i st j s1 s3 hro hn hr hempty
            (uadd_of_lt _ _ (by omega)) hP hstep) hc
      rw [Nat.zero_add] at hq
      exact ⟨hq.len, hq.row_le, hq.next_eq, hq.stuck, hq.pending, hq.below⟩

/-- A forward kernel on a matrix whose row `r >= 1` has no entry stores only rows below
`r` and leaves the entries of the vector from `r` on as they are. -/
theorem forward_kernel_observed_frontier {n B r : Nat} {ro col : List Nat} {el b : List T}
    (d : Bool) (fin : Nat → T → Option T) (st : Staging T)
    (hwf : WellFormedCSR n ro col el) (hn : n < 4294967296) (hB1 : 1 ≤ B)
    (hb : b.length = n) (hfit : ro.getD n 0 + B < 4294967296)
    (hr1 : 1 ≤ r) (hr : r < n) (hempty : ro.getD r 0 = ro.getD (r + 1) 0)
    (x : List T) (ev : List (Event T))
    (hrun : forward_kernel_observed d fin B st ro col el b n = some (x, ev)) :
    (∀ w, w ∈ writtenRows ev → w < r) ∧ ∀ j, r ≤ j → x.getD j 0 = b.getD j 0 := by
  have hdiv : ro.getD n 0 / B * B ≤ ro.getD n 0 := Nat.div_mul_le_self _ _
  have hend : (ro.getD n 0 / B + 1) * B ≤ ro.getD n 0 + B := by
    rw [Nat.add_mul]; omega
  have hdivle : ro.getD n 0 / B ≤ ro.getD n 0 := Nat.div_le_self _ _
  have hle : umul (uadd (ro.getD n 0 / B) 1) B = (ro.getD n 0 / B + 1) * B := by
    rw [uadd_of_lt _ _ (by omega), umul_of_lt _ _ (by omega)]
  unfold forward_kernel_observed at hrun
  rw [gread_of_lt ro n 0 (by rw [hwf.rows_len]; omega), Option.some_bind,
    gread_of_lt b 0 0 (by omega), Option.some_bind,
    gread_of_lt ro 1 0 (by rw [hwf.rows_len]; omega), Option.some_bind, hle] at hrun
  cases hs : forStride B ((ro.getD n 0 / B + 1) * B)
      (forward_window_observed d fin ro col el n (ro.getD n 0)
        ((ro.getD n 0 / B + 1) * B) B)
      ((ro.getD n 0 / B + 1) * B) 0
      ((st, { vector := b, current_row := 0, row_at_window_start := 0,
              current_vector_entry := b.getD 0 0, next_row := ro.getD 1 0 }), []) with
  | none => rw [hs] at hrun; cases hrun
  | some p =>
    rw [hs, Option.some_bind] at hrun
    cases hrun
    have hQ := forStride_preserve B (ro.getD n 0 / B + 1)
      (forward_window_observed d fin ro col el n (ro.getD n 0)
        ((ro.getD n 0 / B + 1) * B) B)
      (fun w p => ForwardFrontier n ro b r (w * B) p.1.2 p.2) hB1 (by omega)
      (fun w s s1 hw hP hstep => by
        have hwB : (w + 1) * B ≤ (ro.getD n 0 / B + 1) * B :=
          Nat.mul_le_mul_right B (by omega)
        have e : (w + 1) * B = w * B + B := by rw [Nat.add_mul, Nat.one_mul]
        show ForwardFrontier n ro b r ((w + 1) * B) s1.1.2 s1.2
        rw [e]
        exact forward_window_observed_frontier d fin _ (w * B) s s1 hwf.rows_len hn hr
          hempty (by omega) hP hstep)
      ((ro.getD n 0 / B + 1) * B) 0
      ((st, { vector := b, current_row := 0, row_at_window_start := 0,
              current_vector_entry := b.getD 0 0, next_row := ro.getD 1 0 }), []) p
      (Nat.zero_le _)
      { len := hb
        row_le := Nat.zero_le r
        next_eq := rfl
        stuck := fun e => by
          have e2 : (0 : Nat) = r := e
          omega
        pending := fun _ _ => rfl
        below := fun w hw => by simp [writtenRows] at hw }
      (by rw [Nat.zero_mul]; exact hs)
    refine ⟨?_, ?_⟩
    · intro w hw
      have := hQ.below w hw
      have := hQ.row_le
      omega
    · intro j hj
      exact hQ.pending j (le_trans hQ.row_le hj)

/-! ## C26: an empty row stops the forward kernels -/

/-- C26: on a well-formed CSR input in which row `r`, `1 <= r <= n - 1`, has no entry, with
`1 <= B <= 128`, each forward kernel runs to its end, stores only rows below `r` (the
cursor does not pass `r`) and leaves `vector[j]` as it was for every `j >= r`. -/
theorem empty_row_stops_forward_frontier (n B r : Nat) (st : Staging T)
    (ro col : List Nat) (el d b : List T)
    (hwf : WellFormedCSR n ro col el) (hn : n < 4294967296) (hB1 : 1 ≤ B) (hB : B ≤ 128)
    (hb : b.length = n) (hd : d.length = n) (hfit : ro.getD n 0 + B < 4294967296)
    (hr1 : 1 ≤ r) (hr : r < n) (hempty : ro.getD r 0 = ro.getD (r + 1) 0) :
    (∃ x ev, csr_unit_lu_forward_kernel_observed false B st ro col el b n = some (x, ev) ∧
      csr_unit_lu_forward_kernel B st ro col el b n = some x ∧
      (∀ w, w ∈ writtenRows ev → w < r) ∧ ∀ j, r ≤ j → x.getD j 0 = b.getD j 0) ∧
    (∃ x ev, csr_lu_forward_kernel_observed false B st ro col el d b n = some (x, ev) ∧
      csr_lu_forward_kernel B st ro col el d b n = some x ∧
      (∀ w, w ∈ writtenRows ev → w < r) ∧ ∀ j, r ≤ j → x.getD j 0 = b.getD j 0) := by
  refine ⟨?_, ?_⟩
  · obtain ⟨x, evA, _, hA, _⟩ :=
      forward_kernel_observed_pair false false (fun _ v => some v) st st hwf (by omega) hn
        hB1 hB hb hfit (fun r v _ => ⟨v, rfl⟩)
    obtain ⟨h1, h2⟩ := forward_kernel_observed_frontier false (fun _ v => some v) st hwf hn
      hB1 hb hfit hr1 hr hempty x evA hA
    exact ⟨x, evA, hA,
      fst_of_observed (csr_unit_lu_forward_kernel_observed_erase B st ro col el b n) hA,
      h1, h2⟩
  · obtain ⟨x, evA, _, hA, _⟩ :=
      forward_kernel_observed_pair false false
        (fun r v => (gread d r).bind fun dd => some (v / dd)) st st hwf (by omega) hn hB1 hB
        hb hfit (lu_forward_fin_total d hd)
    obtain ⟨h1, h2⟩ := forward_kernel_observed_frontier false
      (fun r v => (gread d r).bind fun dd => some (v / dd)) st hwf hn hB1 hb hfit hr1 hr
      hempty x evA hA
    exact ⟨x, evA, hA,
      fst_of_observed (csr_lu_forward_kernel_observed_erase B st ro col el d b n) hA,
      h1, h2⟩

/-- The theorem for C26 at the matrix with the entries `(0,0) = 1` and `(2,0) = 2`, whose
row `1` is empty, with two lanes. -/
theorem empty_row_stops_forward_frontier_witness :
    WellFormedCSR 3 [0, 1, 1, 2] [0, 0] [(1 : ℚ), 2] ∧
    ([0, 1, 1, 2] : List Nat).getD 1 0 = ([0, 1, 1, 2] : List Nat).getD (1 + 1) 0 ∧
    ((∃ x ev, csr_unit_lu_forward_kernel_observed false 2 (⟨fun _ => 0, fun _ => 0, fun _ => 0⟩ : Staging ℚ)
        [0, 1, 1, 2] [0, 0] [(1 : ℚ), 2] [(1 : ℚ), 1, 1] 3 = some (x, ev) ∧
      csr_unit_lu_forward_kernel 2 (⟨fun _ => 0, fun _ => 0, fun _ => 0⟩ : Staging ℚ)
        [0, 1, 1, 2] [0, 0] [(1 : ℚ), 2] [(1 : ℚ), 1, 1] 3 = some x ∧
      (∀ w, w ∈ writtenRows ev → w < 1) ∧
      ∀ j, 1 ≤ j → x.getD j 0 = ([(1 : ℚ), 1, 1] : List ℚ).getD j 0) ∧
    (∃ x ev, csr_lu_forward_kernel_observed false 2 (⟨fun _ => 0, fun _ => 0, fun _ => 0⟩ : Staging ℚ)
        [0, 1, 1, 2] [0, 0] [(1 : ℚ), 2] [(1 : ℚ), 1, 2] [(1 : ℚ), 1, 1] 3 = some (x, ev) ∧
      csr_lu_forward_kernel 2 (⟨fun _ => 0, fun _ => 0, fun _ => 0⟩ : Staging ℚ)
        [0, 1, 1, 2] [0, 0] [(1 : ℚ), 2] [(1 : ℚ), 1, 2] [(1 : ℚ), 1, 1] 3 = some x ∧
      (∀ w, w ∈ writtenRows ev → w < 1) ∧
      ∀ j, 1 ≤ j → x.getD j 0 = ([(1 : ℚ), 1, 1] : List ℚ).getD j 0)) :=
  ⟨⟨by decide, by decide, by decide, by decide, by decide, by decide⟩, by decide,
    empty_row_stops_forward_frontier 3 2 1 (⟨fun _ => 0, fun _ => 0, fun _ => 0⟩ : Staging ℚ)
      [0, 1, 1, 2] [0, 0] [(1 : ℚ), 2] [(1 : ℚ), 1, 2] [(1 : ℚ), 1, 1]
      ⟨by decide, by decide, by decide, by decide, by decide, by decide⟩
      (by decide) (by decide) (by decide) (by decide) (by decide) (by decide) (by decide)
      (by decide) (by decide)⟩

/-! ## Loops with two bodies that agree on the states that occur -/

theorem forUpTo_congr_inv {σ : Type} (last : Nat) (f g : Nat → σ → Option σ) (P : σ → Prop)
    (hfg : ∀ row s, P s → f row s = g row s)
    (hP : ∀ row s s2, P s → f row s = some s2 → P s2) :
    ∀ (fuel row : Nat) (s : σ), P s → forUpTo last f fuel row s = forUpTo last g fuel row s := by
  intro fuel
  induction fuel with
  | zero => intro row s _; rfl
  | succ fuel ih =>
    intro row s hs
    simp only [forUpTo]
    by_cases hle : row ≤ last
    · rw [if_pos hle, if_pos hle, ← hfg row s hs]
      cases hf : f row s with
      | none => rfl
      | some s2 => exact ih (uadd row 1) s2 (hP row s s2 hs hf)
    · rw [if_neg hle, if_neg hle]

theorem forUpTo_preserve {σ : Type} (last : Nat) (f : Nat → σ → Option σ) (P : σ → Prop)
    (hP : ∀ row s s2, P s → f row s = some s2 → P s2) :
    ∀ (fuel row : Nat) (s s2 : σ), P s → forUpTo last f fuel row s = some s2 → P s2 := by
  intro fuel
  induction fuel with
  | zero =>
    intro row s s2 hs hrun
    simp only [forUpTo] at hrun
    by_cases hle : row ≤ last
    · rw [if_pos hle] at hrun; cases hrun
    · rw [if_neg hle] at hrun; cases hrun; exact hs
  | succ fuel ih =>
    intro row s s2 hs hrun
    simp only [forUpTo] at hrun
    by_cases hle : row ≤ last
    · rw [if_pos hle] at hrun
      cases hf : f row s with
      | none => rw [hf] at hrun; cases hrun
      | some s1 =>
        rw [hf, Option.some_bind] at hrun
        exact ih (uadd row 1) s1 s2 (hP row s s1 hs hf) hrun
    · rw [if_neg hle] at hrun; cases hrun; exact hs

theorem forStride_congr_inv {σ : Type} (B loop_end : Nat) (f g : Nat → σ → Option σ)
    (P : σ → Prop) (hfg : ∀ i s, P s → f i s = g i s)
    (hP : ∀ i s s2, P s → f i s = some s2 → P s2) :
    ∀ (fuel i : Nat) (s : σ), P s →
      forStride B loop_end f fuel i s = forStride B loop_end g fuel i s := by
  intro fuel
  induction fuel with
  | zero => intro i s _; rfl
  | succ fuel ih =>
    intro i s hs
    simp only [forStride]
    by_cases hlt : i < loop_end
    · rw [if_pos hlt, if_pos hlt, ← hfg i s hs]
      cases hf : f i s with
      | none => rfl
      | some s2 => exact ih (uadd i B) s2 (hP i s s2 hs hf)
    · rw [if_neg hlt, if_neg hlt]

/-! ## C21: the forward kernels with a diagonal of ones -/

theorem forward_finalize_diagonal_one (d : List T) (ro : List Nat) (size p : Nat)
    (hd : ∀ i, i < size → gread d i = some 1) (s : SolveState T) :
    forward_finalize (fun r v => (gread d r).bind fun dd => some (v / dd)) ro size p s =
      forward_finalize (fun _ v => some v) ro size p s := by
  unfold forward_finalize
  by_cases hc : s.current_row < size ∧ p = s.next_row
  · rw [if_pos hc, if_pos hc]
    simp only [hd _ hc.1, Option.some_bind, div_one]
  · rw [if_neg hc, if_neg hc]

theorem forward_round_diagonal_one (d : List T) (ro col : List Nat) (el : List T)
    (size nnz loop_end B : Nat) (hd : ∀ i, i < size → gread d i = some 1) :
    forward_round (fun r v => (gread d r).bind fun dd => some (v / dd)) ro col el size nnz
        loop_end B =
      forward_round (fun _ v => some v) ro col el size nnz loop_end B := by
  funext i p
  unfold forward_round
  simp only [forward_finalize_diagonal_one d ro size _ hd]

omit [Field T] in
theorem gwrite_length {α : Type} (a a2 : List α) (i : Nat) (v : α)
    (h : gwrite a i v = some a2) : a2.length = a.length := by
  unfold gwrite at h
  by_cases hi : i < a.length
  · rw [if_pos hi] at h; cases h; exact List.length_set _ _ _
  · rw [if_neg hi] at h; cases h

theorem trans_scatter_length (below : Bool) (B loop_end i row : Nat) (regs : LaneRegs T)
    (x : T) (v v2 : List T) (h : trans_scatter below B loop_end i row regs x v = some v2) :
    v2.length = v.length := by
  unfold trans_scatter at h
  have := forCount_preserve _ (fun _ acc => acc.length = v.length) B 0 v v2 rfl
    (fun j s1 s3 _ _ hP hstep => by
      by_cases hc : uadd i j < loop_end ∧ regs.row_index j = row ∧
          (if below = true then regs.col_index j < row else regs.col_index j > row)
      · rw [if_pos hc] at hstep
        cases ho : gread v (regs.col_index j) with
        | none => rw [ho] at hstep; cases hstep
        | some old =>
          rw [ho, Option.some_bind] at hstep
          show s3.length = v.length
          rw [gwrite_length _ _ _ _ hstep]
          exact hP
      · rw [if_neg hc] at hstep
        cases hstep
        exact hP) h
  exact this

theorem trans_unit_row_length (below : Bool) (B loop_end i : Nat) (regs : LaneRegs T)
    (row : Nat) (v v2 : List T) (h : trans_unit_row below B loop_end i regs row v = some v2) :
    v2.length = v.length := by
  unfold trans_unit_row at h
  cases hx : gread v row with
  | none => rw [hx] at h; cases h
  | some x =>
    rw [hx, Option.some_bind] at h
    exact trans_scatter_length below B loop_end i row regs x v v2 h

omit [Field T] in
theorem gwrite_same {α : Type} (a : List α) (i : Nat) (x : α) (h : gread a i = some x) :
    gwrite a i x = some a := by
  unfold gread at h
  have hi : i < a.length := by
    by_contra hc
    rw [List.getElem?_eq_none (by omega)] at h
    cases h
  rw [gwrite_of_lt _ _ _ hi]
  congr 1
  apply List.ext_getElem (by rw [List.length_set])
  intro j h1 h2
  rw [List.getElem_set]
  by_cases hij : i = j
  · subst hij
    rw [if_pos rfl]
    rw [List.getElem?_eq_getElem hi] at h
    cases h
    rfl
  · rw [if_neg hij]

theorem trans_lu_row_diagonal_one (below : Bool) (d : List T) (size B loop_end i : Nat)
    (regs : LaneRegs T) (row : Nat) (v : List T)
    (hd : ∀ i, i < size → gread d i = some 1) (hv : v.length ≤ size) :
    trans_lu_row below d B loop_end i regs row v =
      trans_unit_row below B loop_end i regs row v := by
  unfold trans_lu_row trans_unit_row
  cases hx : gread v row with
  | none => rfl
  | some x =>
    have hrow : row < v.length := by
      unfold gread at hx
      by_contra hc
      rw [List.getElem?_eq_none (by omega)] at hx
      cases hx
    rw [Option.some_bind, Option.some_bind, hd row (by omega), Option.some_bind, div_one,
      gwrite_same v row x hx, Option.some_bind]

theorem trans_forward_prepare_vector (ro col : List Nat) (el : List T)
    (size nnz loop_end B i : Nat) (s : TransState T) (q : TransState T × LaneRegs T)
    (h : trans_forward_prepare ro col el size nnz loop_end B i s = some q) :
    q.1.vector = s.vector := by
  unfold trans_forward_prepare at h
  simp only [Option.bind_eq_some] at h
  obtain ⟨p1, _, p2, _, ws, _, we, _, h⟩ := h
  cases h
  rfl

theorem trans_unit_forward_window_length (ro col : List Nat) (el : List T)
    (size nnz loop_end B i : Nat) (s s2 : TransState T)
    (h : trans_unit_forward_window ro col el size nnz loop_end B i s = some s2) :
    s2.vector.length = s.vector.length := by
  unfold trans_unit_forward_window at h
  cases hq : trans_forward_prepare ro col el size nnz loop_end B i s with
  | none => rw [hq] at h; cases h
  | some q =>
    rw [hq, Option.some_bind] at h
    have hv := trans_forward_prepare_vector ro col el size nnz loop_end B i s q hq
    cases hf : forUpTo q.1.row_at_window_end (trans_unit_row false B loop_end i q.2)
        (q.1.row_at_window_end + 1) q.1.row_at_window_start q.1.vector with
    | none => rw [hf] at h; cases h
    | some vec =>
      rw [hf, Option.some_bind] at h
      cases h
      have := forUpTo_preserve q.1.row_at_window_end (trans_unit_row false B loop_end i q.2)
        (fun v => v.length = s.vector.length)
        (fun row v v2 hP hstep => by
          show v2.length = s.vector.length
          rw [trans_unit_row_length false B loop_end i q.2 row v v2 hstep]
          exact hP)
        (q.1.row_at_window_end + 1) q.1.row_at_window_start q.1.vector vec
        (by show q.1.vector.length = s.vector.length; rw [hv]) hf
      exact this

theorem trans_forward_window_diagonal_one (ro col : List Nat) (el d : List T)
    (size nnz loop_end B i : Nat) (s : TransState T)
    (hd : ∀ i, i < size → gread d i = some 1) (hs : s.vector.length ≤ size) :
    trans_lu_forward_window ro col el d size nnz loop_end B i s =
      trans_unit_forward_window ro col el size nnz loop_end B i s := by
  unfold trans_lu_forward_window trans_unit_forward_window
  cases hq : trans_forward_prepare ro col el size nnz loop_end B i s with
  | none => rfl
  | some q =>
    have hv := trans_forward_prepare_vector ro col el size nnz loop_end B i s q hq
    rw [Option.some_bind, Option.some_bind,
      forUpTo_congr_inv q.1.row_at_window_end (trans_lu_row false d B loop_end i q.2)
        (trans_unit_row false B loop_end i q.2) (fun v => v.length ≤ size)
        (fun row v hP => trans_lu_row_diagonal_one false d size B loop_end i q.2 row v hd hP)
        (fun row v v2 hP hstep => by
          rw [trans_lu_row_diagonal_one false d size B loop_end i q.2 row v hd hP] at hstep
          show v2.length ≤ size
          rw [trans_unit_row_length false B loop_end i q.2 row v v2 hstep]
          exact hP)
        (q.1.row_at_window_end + 1) q.1.row_at_window_start q.1.vector
        (by show q.1.vector.length ≤ size; rw [hv]; exact hs)]

/-- C21: with `diagonal_entries[i] = 1` for every `i < size`, `csr_lu_forward_kernel`
leaves what `csr_unit_lu_forward_kernel` leaves on the same arrays, and so does
`csr_trans_lu_forward_kernel` against `csr_trans_unit_lu_forward_kernel` on a vector of
at most `size` entries; the matrix need not be well formed, and a run that ends in an
access out of bounds does so in both kernels. -/
theorem forward_kernels_agree_on_unit_diagonal (B : Nat) (st : Staging T)
    (la0 rib0 : Nat → Nat) (ro col : List Nat) (el d b : List T) (size : Nat)
    (hd : ∀ i, i < size → gread d i = some 1) :
    csr_lu_forward_kernel B st ro col el d b size =
        csr_unit_lu_forward_kernel B st ro col el b size ∧
      (b.length ≤ size →
        csr_trans_lu_forward_kernel B la0 rib0 ro col el d b size =
          csr_trans_unit_lu_forward_kernel B la0 rib0 ro col el b size) := by
  refine ⟨?_, ?_⟩
  · unfold csr_lu_forward_kernel csr_unit_lu_forward_kernel
    simp only [lu_forward_window_eq, unit_forward_window_eq,
      forward_round_diagonal_one d ro col el size _ _ B hd]
  · intro hb
    unfold csr_trans_lu_forward_kernel csr_trans_unit_lu_forward_kernel
    cases gread ro size with
    | none => rfl
    | some nnz =>
      rw [Option.some_bind, Option.some_bind,
        forStride_congr_inv B (umul (uadd (usub nnz 1 / B) 1) B)
          (trans_lu_forward_window ro col el d size nnz (umul (uadd (usub nnz 1 / B) 1) B) B)
          (trans_unit_forward_window ro col el size nnz (umul (uadd (usub nnz 1 / B) 1) B) B)
          (fun s => s.vector.length ≤ size)
          (fun i s hP => trans_forward_window_diagonal_one ro col el d size nnz _ B i s hd hP)
          (fun i s s2 hP hstep => by
            rw [trans_forward_window_diagonal_one ro col el d size nnz _ B i s hd hP]
              at hstep
            show s2.vector.length ≤ size
            rw [trans_unit_forward_window_length ro col el size nnz _ B i s s2 hstep]
            exact hP)
          (umul (uadd (usub nnz 1 / B) 1) B) 0 _ hb]

/-- The theorem for C21 at the matrix `[[1,0,0],[2,1,0],[3,4,1]]` with two lanes and the
diagonal `[1, 1, 1]`. -/
theorem forward_kernels_agree_on_unit_diagonal_witness :
    (∀ i, i < 3 → gread ([(1 : ℚ), 1, 1] : List ℚ) i = some 1) ∧
    (csr_lu_forward_kernel 2 (⟨fun _ => 0, fun _ => 0, fun _ => 0⟩ : Staging ℚ)
        [0, 1, 3, 6] [0, 0, 1, 0, 1, 2] [(1 : ℚ), 2, 1, 3, 4, 1] [(1 : ℚ), 1, 1] [(1 : ℚ), 4, 11] 3 =
      csr_unit_lu_forward_kernel 2 (⟨fun _ => 0, fun _ => 0, fun _ => 0⟩ : Staging ℚ)
        [0, 1, 3, 6] [0, 0, 1, 0, 1, 2] [(1 : ℚ), 2, 1, 3, 4, 1] [(1 : ℚ), 4, 11] 3 ∧
    (([(1 : ℚ), 4, 11] : List ℚ).length ≤ 3 →
      csr_trans_lu_forward_kernel 2 (fun _ => 0) (fun _ => 0)
          [0, 1, 3, 6] [0, 0, 1, 0, 1, 2] [(1 : ℚ), 2, 1, 3, 4, 1] [(1 : ℚ), 1, 1] [(1 : ℚ), 4, 11] 3 =
        csr_trans_unit_lu_forward_kernel 2 (fun _ => 0) (fun _ => 0)
          [0, 1, 3, 6] [0, 0, 1, 0, 1, 2] [(1 : ℚ), 2, 1, 3, 4, 1] [(1 : ℚ), 4, 11] 3)) :=
  ⟨by intro i hi; interval_cases i <;> rfl,
    forward_kernels_agree_on_unit_diagonal 2 (⟨fun _ => 0, fun _ => 0, fun _ => 0⟩ : Staging ℚ)
      (fun _ => 0) (fun _ => 0) [0, 1, 3, 6] [0, 0, 1, 0, 1, 2] [(1 : ℚ), 2, 1, 3, 4, 1] [(1 : ℚ), 1, 1] [(1 : ℚ), 4, 11] 3
      (by intro i hi; interval_cases i <;> rfl)⟩

/-! ## C16: the lanes at a position beyond `nnz` -/

theorem forCount_congr_bounded {σ : Type} (f g : Nat → σ → Option σ) :
    ∀ (c k : Nat) (s : σ), (∀ j s1, k ≤ j → j < k + c → f j s1 = g j s1) →
      forCount f c k s = forCount g c k s := by
  intro c
  induction c with
  | zero => intro k s _; rfl
  | succ c ih =>
    intro k s h
    simp only [forCount]
    rw [h k s (le_refl _) (by omega)]
    cases g k s with
    | none => rw [Option.none_bind, Option.none_bind]
    | some s2 =>
      rw [Option.some_bind, Option.some_bind]
      exact ih (k + 1) s2 (fun j s1 h1 h2 => h j s1 (by omega) (by omega))

/-- What the lanes beyond `nnz` hold after the first part of a round of a forward kernel,
in which lane `tid` has the position `i + tid`. -/
theorem trans_forward_prepare_neutral (ro col : List Nat) (el : List T)
    (size nnz loop_end B i : Nat) (s : TransState T) (q : TransState T × LaneRegs T)
    (h : trans_forward_prepare ro col el size nnz loop_end B i s = some q) :
    ∀ tid, tid < B → uadd i tid < loop_end → ¬ uadd i tid < nnz →
      q.2.col_index tid = 0 ∧ q.2.matrix_entry tid = 0 ∧ q.2.row_index tid = uadd size 1 := by
  unfold trans_forward_prepare at h
  simp only [Option.bind_eq_some] at h
  obtain ⟨p1, h1, p2, h2, ws, _, we, _, h⟩ := h
  cases h
  have hP1 := forCount_preserve _
    (fun k (p : (Nat → Nat) × LaneRegs T) => ∀ tid, tid < k → uadd i tid < loop_end →
      ¬ uadd i tid < nnz → p.2.col_index tid = 0 ∧ p.2.matrix_entry tid = 0) B 0 _ p1
    (fun tid ht => absurd ht (Nat.not_lt_zero _))
    (fun j a a2 _ _ hP hstep => by
      intro tid ht hin hout
      by_cases hj : uadd i j < loop_end
      · rw [if_pos hj] at hstep
        unfold trans_forward_fetch at hstep
        simp only [Option.bind_eq_some] at hstep
        obtain ⟨c, hc, e, he, la, _, lk, _, hstep⟩ := hstep
        cases hstep
        by_cases htj : tid = j
        · subst htj
          rw [if_neg hout] at hc he
          cases hc
          cases he
          exact ⟨Function.update_same _ _ _, Function.update_same _ _ _⟩
        · have := hP tid (by omega) hin hout
          refine ⟨?_, ?_⟩
          · show Function.update a.2.col_index j c tid = 0
            rw [Function.update_noteq htj]; exact this.1
          · show Function.update a.2.matrix_entry j e tid = 0
            rw [Function.update_noteq htj]; exact this.2
      · rw [if_neg hj] at hstep
        cases hstep
        by_cases htj : tid = j
        · subst htj; exact absurd hin hj
        · exact hP tid (by omega) hin hout) h1
  have hP2 : (∀ tid, p2.2.col_index tid = p1.2.col_index tid ∧
        p2.2.matrix_entry tid = p1.2.matrix_entry tid) ∧
      ∀ tid, tid < 0 + B → uadd i tid < loop_end → ¬ uadd i tid < nnz →
        p2.2.row_index tid = uadd size 1 := by
    refine forCount_preserve _
      (fun k (p : (Nat → Nat) × LaneRegs T) =>
        (∀ tid, p.2.col_index tid = p1.2.col_index tid ∧
          p.2.matrix_entry tid = p1.2.matrix_entry tid) ∧
        ∀ tid, tid < k → uadd i tid < loop_end → ¬ uadd i tid < nnz →
          p.2.row_index tid = uadd size 1) B 0 _ p2 ?_ ?_ h2
    · exact ⟨fun _ => ⟨rfl, rfl⟩, fun tid ht => absurd ht (Nat.not_lt_zero _)⟩
    · intro j a a2 _ _ hP hstep
      by_cases hj : uadd i j < loop_end
      · rw [if_pos hj] at hstep
        unfold trans_forward_rows at hstep
        by_cases hn : uadd i j < nnz
        · rw [if_pos hn] at hstep
          simp only [Option.bind_eq_some] at hstep
          obtain ⟨inc, _, rib, _, hstep⟩ := hstep
          cases hstep
          refine ⟨hP.1, ?_⟩
          intro tid ht hin hout
          by_cases htj : tid = j
          · subst htj; exact absurd hn hout
          · show Function.update a.2.row_index j _ tid = uadd size 1
            rw [Function.update_noteq htj]
            exact hP.2 tid (by omega) hin hout
        · rw [if_neg hn] at hstep
          simp only [Option.bind_eq_some] at hstep
          obtain ⟨rib, _, hstep⟩ := hstep
          cases hstep
          refine ⟨hP.1, ?_⟩
          intro tid ht hin hout
          by_cases htj : tid = j
          · subst htj
            exact Function.update_same _ _ _
          · show Function.update a.2.row_index j _ tid = uadd size 1
            rw [Function.update_noteq htj]
            exact hP.2 tid (by omega) hin hout
      · rw [if_neg hj] at hstep
        cases hstep
        refine ⟨hP.1, ?_⟩
        intro tid ht hin hout
        by_cases htj : tid = j
        · subst htj; exact absurd hin hj
        · exact hP.2 tid (by omega) hin hout
  intro tid ht hin hout
  have a := hP1 tid (by omega) hin hout
  have b := hP2.1 tid
  exact ⟨by show p2.2.col_index tid = 0; rw [b.1]; exact a.1,
    by show p2.2.matrix_entry tid = 0; rw [b.2]; exact a.2, hP2.2 tid (by omega) hin hout⟩

/-- What the lanes beyond `nnz` hold after the first part of a round of a backward kernel,
in which lane `tid` has the position `(loop_end - (i2 + tid)) - 1`. -/
theorem trans_backward_prepare_neutral (ro col : List Nat) (el : List T)
    (size nnz loop_end B i : Nat) (s : TransState T) (q : TransState T × LaneRegs T)
    (h : trans_backward_prepare ro col el size nnz loop_end B i s = some q) :
    ∀ tid, tid < B → uadd i tid < loop_end → ¬ usub (usub loop_end (uadd i tid)) 1 < nnz →
      q.2.col_index tid = 0 ∧ q.2.matrix_entry tid = 0 ∧ q.2.row_index tid = uadd size 1 := by
  unfold trans_backward_prepare at h
  simp only [Option.bind_eq_some] at h
  obtain ⟨p1, h1, p2, h2, ws, _, we, _, h⟩ := h
  cases h
  have hP1 := forCount_preserve _
    (fun k (p : (Nat → Nat) × LaneRegs T) => ∀ tid, tid < k → uadd i tid < loop_end →
      ¬ usub (usub loop_end (uadd i tid)) 1 < nnz → p.2.col_index tid = 0 ∧ p.2.matrix_entry tid = 0) B 0 _ p1
    (fun tid ht => absurd ht (Nat.not_lt_zero _))
    (fun j a a2 _ _ hP hstep => by
      intro tid ht hin hout
      by_cases hj : uadd i j < loop_end
      · rw [if_pos hj] at hstep
        unfold trans_backward_fetch at hstep
        simp only [Option.bind_eq_some] at hstep
        obtain ⟨c, hc, e, he, la, _, lk, _, hstep⟩ := hstep
        cases hstep
        by_cases htj : tid = j
        · subst htj
          rw [if_neg hout] at hc he
          cases hc
          cases he
          exact ⟨Function.update_same _ _ _, Function.update_same _ _ _⟩
        · have := hP tid (by omega) hin hout
          refine ⟨?_, ?_⟩
          · show Function.update a.2.col_index j c tid = 0
            rw [Function.update_noteq htj]; exact this.1
          · show Function.update a.2.matrix_entry j e tid = 0
            rw [Function.update_noteq htj]; exact this.2
      · rw [if_neg hj] at hstep
        cases hstep
        by_cases htj : tid = j
        · subst htj; exact absurd hin hj
        · exact hP tid (by omega) hin hout) h1
  have hP2 : (∀ tid, p2.2.col_index tid = p1.2.col_index tid ∧
        p2.2.matrix_entry tid = p1.2.matrix_entry tid) ∧
      ∀ tid, tid < 0 + B → uadd i tid < loop_end → ¬ usub (usub loop_end (uadd i tid)) 1 < nnz →
        p2.2.row_index tid = uadd size 1 := by
    refine forCount_preserve _
      (fun k (p : (Nat → Nat) × LaneRegs T) =>
        (∀ tid, p.2.col_index tid = p1.2.col_index tid ∧
          p.2.matrix_entry tid = p1.2.matrix_entry tid) ∧
        ∀ tid, tid < k → uadd i tid < loop_end → ¬ usub (usub loop_end (uadd i tid)) 1 < nnz →
          p.2.row_index tid = uadd size 1) B 0 _ p2 ?_ ?_ h2
    · exact ⟨fun _ => ⟨rfl, rfl⟩, fun tid ht => absurd ht (Nat.not_lt_zero _)⟩
    · intro j a a2 _ _ hP hstep
      by_cases hj : uadd i j < loop_end
      · rw [if_pos hj] at hstep
        unfold trans_backward_rows at hstep
        by_cases hn : usub (usub loop_end (uadd i j)) 1 < nnz
        · rw [if_pos hn] at hstep
          simp only [Option.bind_eq_some] at hstep
          obtain ⟨inc, _, rib, _, hstep⟩ := hstep
          cases hstep
          refine ⟨hP.1, ?_⟩
          intro tid ht hin hout
          by_cases htj : tid = j
          · subst htj; exact absurd hn hout
          · show Function.update a.2.row_index j _ tid = uadd size 1
            rw [Function.update_noteq htj]
            exact hP.2 tid (by omega) hin hout
        · rw [if_neg hn] at hstep
          simp only [Option.bind_eq_some] at hstep
          obtain ⟨rib, _, hstep⟩ := hstep
          cases hstep
          refine ⟨hP.1, ?_⟩
          intro tid ht hin hout
          by_cases htj : tid = j
          · subst htj
            exact Function.update_same _ _ _
          · show Function.update a.2.row_index j _ tid = uadd size 1
            rw [Function.update_noteq htj]
            exact hP.2 tid (by omega) hin hout
      · rw [if_neg hj] at hstep
        cases hstep
        refine ⟨hP.1, ?_⟩
        intro tid ht hin hout
        by_cases htj : tid = j
        · subst htj; exact absurd hin hj
        · exact hP.2 tid (by omega) hin hout
  intro tid ht hin hout
  have a := hP1 tid (by omega) hin hout
  have b := hP2.1 tid
  exact ⟨by show p2.2.col_index tid = 0; rw [b.1]; exact a.1,
    by show p2.2.matrix_entry tid = 0; rw [b.2]; exact a.2, hP2.2 tid (by omega) hin hout⟩

theorem trans_scatter_in_range_eq (below : Bool) (size nnz : Nat) (pos : Nat → Nat)
    (B loop_end i row : Nat) (regs : LaneRegs T) (x : T) (v : List T)
    (hR : ∀ tid, tid < B → uadd i tid < loop_end → ¬ pos tid < nnz →
      regs.col_index tid = 0 ∧ regs.matrix_entry tid = 0 ∧ regs.row_index tid = uadd size 1)
    (hrow : below = true → ¬ (row = uadd size 1 ∧ 0 < row)) :
    trans_scatter below B loop_end i row regs x v =
      trans_scatter_in_range below nnz pos B loop_end i row regs x v := by
  unfold trans_scatter trans_scatter_in_range
  apply forCount_congr_bounded
  intro j acc _ hj
  beta_reduce
  by_cases hp : pos j < nnz
  · by_cases hc : uadd i j < loop_end ∧ regs.row_index j = row ∧
        (if below = true then regs.col_index j < row else regs.col_index j > row)
    · rw [if_pos hc, if_pos ⟨hp, hc⟩]
    · rw [if_neg hc, if_neg (fun h => hc h.2)]
  · have hn : ¬ (pos j < nnz ∧ uadd i j < loop_end ∧ regs.row_index j = row ∧
        (if below = true then regs.col_index j < row else regs.col_index j > row)) :=
      fun h => hp h.1
    rw [if_neg hn]
    by_cases hc : uadd i j < loop_end ∧ regs.row_index j = row ∧
        (if below = true then regs.col_index j < row else regs.col_index j > row)
    · exfalso
      obtain ⟨h1, h2, h3⟩ := hc
      obtain ⟨r1, _, r3⟩ := hR j (by omega) h1 hp
      rw [r1] at h3
      cases below with
      | true =>
        simp only [if_true] at h3
        exact hrow rfl ⟨by rw [← h2, r3], h3⟩
      | false =>
        simp only [Bool.false_eq_true, if_false] at h3
        exact absurd h3 (Nat.not_lt_zero _)
    · rw [if_neg hc]

theorem row_not_beyond (size row : Nat) (hsize : size < 4294967296) (hrow : row < size) :
    ¬ (row = uadd size 1 ∧ 0 < row) := by
  unfold uadd
  omega

omit [Field T] in
theorem lt_length_of_gread {α : Type} (a : List α) (i : Nat) (x : α)
    (h : gread a i = some x) : i < a.length := by
  unfold gread at h
  by_contra hc
  rw [List.getElem?_eq_none (by omega)] at h
  cases h

theorem trans_unit_row_in_range_eq (below : Bool) (size nnz : Nat) (pos : Nat → Nat)
    (B loop_end i row : Nat) (regs : LaneRegs T) (v : List T)
    (hsize : size < 4294967296) (hv : v.length = size)
    (hR : ∀ tid, tid < B → uadd i tid < loop_end → ¬ pos tid < nnz →
      regs.col_index tid = 0 ∧ regs.matrix_entry tid = 0 ∧ regs.row_index tid = uadd size 1) :
    trans_unit_row below B loop_end i regs row v =
      trans_unit_row_with (trans_scatter_in_range below nnz pos B loop_end i) regs row v := by
  unfold trans_unit_row trans_unit_row_with
  cases hx : gread v row with
  | none => rw [Option.none_bind, Option.none_bind]
  | some x =>
    have hlt := lt_length_of_gread v row x hx
    rw [Option.some_bind, Option.some_bind,
      trans_scatter_in_range_eq below size nnz pos B loop_end i row regs x v hR
        (fun _ => row_not_beyond size row hsize (by omega))]

theorem trans_lu_row_in_range_eq (below : Bool) (size nnz : Nat) (pos : Nat → Nat)
    (d : List T) (B loop_end i row : Nat) (regs : LaneRegs T) (v : List T)
    (hsize : size < 4294967296) (hv : v.length = size)
    (hR : ∀ tid, tid < B → uadd i tid < loop_end → ¬ pos tid < nnz →
      regs.col_index tid = 0 ∧ regs.matrix_entry tid = 0 ∧ regs.row_index tid = uadd size 1) :
    trans_lu_row below d B loop_end i regs row v =
      trans_lu_row_with (trans_scatter_in_range below nnz pos B loop_end i) d regs row v := by
  unfold trans_lu_row trans_lu_row_with
  cases hx : gread v row with
  | none => rw [Option.none_bind, Option.none_bind]
  | some x =>
    have hlt := lt_length_of_gread v row x hx
    rw [Option.some_bind, Option.some_bind]
    cases gread d row with
    | none => rw [Option.none_bind, Option.none_bind]
    | some dd =>
      rw [Option.some_bind, Option.some_bind]
      cases gwrite v row (x / dd) with
      | none => rw [Option.none_bind, Option.none_bind]
      | some v1 =>
        rw [Option.some_bind, Option.some_bind,
          trans_scatter_in_range_eq below size nnz pos B loop_end i row regs (x / dd) v1 hR
            (fun _ => row_not_beyond size row hsize (by omega))]

theorem trans_lu_row_length (below : Bool) (d : List T) (B loop_end i : Nat)
    (regs : LaneRegs T) (row : Nat) (v v2 : List T)
    (h : trans_lu_row below d B loop_end i regs row v = some v2) : v2.length = v.length := by
  unfold trans_lu_row at h
  simp only [Option.bind_eq_some] at h
  obtain ⟨x, _, dd, _, v1, h1, h⟩ := h
  rw [trans_scatter_length below B loop_end i row regs (x / dd) v1 v2 h,
    gwrite_length v v1 row (x / dd) h1]

theorem trans_backward_prepare_vector (ro col : List Nat) (el : List T)
    (size nnz loop_end B i : Nat) (s : TransState T) (q : TransState T × LaneRegs T)
    (h : trans_backward_prepare ro col el size nnz loop_end B i s = some q) :
    q.1.vector = s.vector := by
  unfold trans_backward_prepare at h
  simp only [Option.bind_eq_some] at h
  obtain ⟨p1, _, p2, _, ws, _, we, _, h⟩ := h
  cases h
  rfl

omit [Field T] in
/-- Two kernels built by `trans_kernel_with` from one `prepare` leave the same vector when
their row bodies agree on the registers that `prepare` gives and on vectors of `size`
entries. -/
theorem trans_kernel_with_congr
    (prepare : Nat → Nat → Nat → TransState T → Option (TransState T × LaneRegs T))
    (rowf1 rowf2 : Nat → Nat → Nat → LaneRegs T → Nat → List T → Option (List T))
    (B : Nat) (la0 rib0 : Nat → Nat) (ro : List Nat) (b : List T) (size : Nat)
    (hb : b.length = size)
    (hprep : ∀ nnz le i s q, prepare nnz le i s = some q → q.1.vector = s.vector)
    (hlen : ∀ nnz le i regs row v v2, rowf1 nnz le i regs row v = some v2 →
      v2.length = v.length)
    (hrow : ∀ nnz le i s q row v, prepare nnz le i s = some q → v.length = size →
      rowf1 nnz le i q.2 row v = rowf2 nnz le i q.2 row v) :
    trans_kernel_with prepare rowf1 B la0 rib0 ro b size =
      trans_kernel_with prepare rowf2 B la0 rib0 ro b size := by
  unfold trans_kernel_with
  cases gread ro size with
  | none => rw [Option.none_bind, Option.none_bind]
  | some nnz =>
    rw [Option.some_bind, Option.some_bind]
    generalize umul (uadd (usub nnz 1 / B) 1) B = le
    have hwin : ∀ i s, s.vector.length = size →
        trans_window_with (prepare nnz le) (rowf1 nnz le) i s =
          trans_window_with (prepare nnz le) (rowf2 nnz le) i s := by
      intro i s hs
      unfold trans_window_with
      cases hq : prepare nnz le i s with
      | none => rw [Option.none_bind, Option.none_bind]
      | some q =>
        rw [Option.some_bind, Option.some_bind,
          forUpTo_congr_inv q.1.row_at_window_end (rowf1 nnz le i q.2) (rowf2 nnz le i q.2)
            (fun v => v.length = size)
            (fun row v hP => hrow nnz le i s q row v hq hP)
            (fun row v v2 hP hstep => by
              show v2.length = size
              rw [hlen nnz le i q.2 row v v2 hstep]
              exact hP)
            (q.1.row_at_window_end + 1) q.1.row_at_window_start q.1.vector
            (by show q.1.vector.length = size; rw [hprep nnz le i s q hq]; exact hs)]
    have hpres : ∀ i s s2, s.vector.length = size →
        trans_window_with (prepare nnz le) (rowf1 nnz le) i s = some s2 →
        s2.vector.length = size := by
      intro i s s2 hs hrun
      unfold trans_window_with at hrun
      simp only [Option.bind_eq_some] at hrun
      obtain ⟨q, hq, vec, hvec, hrun⟩ := hrun
      cases hrun
      exact forUpTo_preserve q.1.row_at_window_end (rowf1 nnz le i q.2)
        (fun v => v.length = size)
        (fun row v v2 hP hstep => by
          show v2.length = size
          rw [hlen nnz le i q.2 row v v2 hstep]
          exact hP)
        (q.1.row_at_window_end + 1) q.1.row_at_window_start q.1.vector vec
        (by show q.1.vector.length = size; rw [hprep nnz le i s q hq]; exact hs) hvec
    rw [forStride_congr_inv B le _ _ (fun s => s.vector.length = size) hwin hpres le 0 _ hb]

/-- Claim C16, amended.  In each of the four windowed transposed kernels a lane whose
position is `>= nnz` holds the column index `0`, the coefficient `0` and
`row_index = size + 1` after the first part of every round, and the kernel leaves the
vector that it leaves when these lanes take no part in the scatter (`size < 2^32`, vector
of `size` entries).  The lanes are not without effect: in the kernels compared here they
still store the lookahead entry and `size - 1` in their slots of the two shared tables,
and the result changes when these stores are left out too. -/
theorem out_of_range_lanes_contribute_nothing (B : Nat) (la0 rib0 : Nat → Nat)
    (ro col : List Nat) (el d b : List T) (size : Nat)
    (hsize : size < 4294967296) (hb : b.length = size) :
    (∀ nnz loop_end i s q,
      trans_forward_prepare ro col el size nnz loop_end B i s = some q →
      ∀ tid, tid < B → uadd i tid < loop_end → nnz ≤ uadd i tid →
        q.2.col_index tid = 0 ∧ q.2.matrix_entry tid = 0 ∧ q.2.row_index tid = uadd size 1) ∧
    (∀ nnz loop_end i2 s q,
      trans_backward_prepare ro col el size nnz loop_end B i2 s = some q →
      ∀ tid, tid < B → uadd i2 tid < loop_end → nnz ≤ usub (usub loop_end (uadd i2 tid)) 1 →
        q.2.col_index tid = 0 ∧ q.2.matrix_entry tid = 0 ∧ q.2.row_index tid = uadd size 1) ∧
    csr_trans_unit_lu_forward_kernel B la0 rib0 ro col el b size =
      csr_trans_unit_lu_forward_kernel_in_range B la0 rib0 ro col el b size ∧
    csr_trans_lu_forward_kernel B la0 rib0 ro col el d b size =
      csr_trans_lu_forward_kernel_in_range B la0 rib0 ro col el d b size ∧
    csr_trans_unit_lu_backward_kernel B la0 rib0 ro col el b size =
      csr_trans_unit_lu_backward_kernel_in_range B la0 rib0 ro col el b size ∧
    csr_trans_lu_backward_kernel B la0 rib0 ro col el d b size =
      csr_trans_lu_backward_kernel_in_range B la0 rib0 ro col el d b size := by
  refine ⟨?_, ?_, ?_, ?_, ?_, ?_⟩
  · intro nnz loop_end i s q h tid ht hin hout
    exact trans_forward_prepare_neutral ro col el size nnz loop_end B i s q h tid ht hin
      (by omega)
  · intro nnz loop_end i2 s q h tid ht hin hout
    exact trans_backward_prepare_neutral ro col el size nnz loop_end B i2 s q h tid ht hin
      (by omega)
  · exact trans_kernel_with_congr
      (fun nnz loop_end => trans_forward_prepare ro col el size nnz loop_end B)
      (fun _ loop_end i regs => trans_unit_row false B loop_end i regs) _ B la0 rib0 ro b size
      hb
      (fun nnz le i s q h => trans_forward_prepare_vector ro col el size nnz le B i s q h)
      (fun _ le i regs row v v2 h => trans_unit_row_length false B le i regs row v v2 h)
      (fun nnz le i s q row v h hv =>
        trans_unit_row_in_range_eq false size nnz (uadd i) B le i row q.2 v hsize hv
          (trans_forward_prepare_neutral ro col el size nnz le B i s q h))
  · exact trans_kernel_with_congr
      (fun nnz loop_end => trans_forward_prepare ro col el size nnz loop_end B)
      (fun _ loop_end i regs => trans_lu_row false d B loop_end i regs) _ B la0 rib0 ro b size
      hb
      (fun nnz le i s q h => trans_forward_prepare_vector ro col el size nnz le B i s q h)
      (fun _ le i regs row v v2 h => trans_lu_row_length false d B le i regs row v v2 h)
      (fun nnz le i s q row v h hv =>
        trans_lu_row_in_range_eq false size nnz (uadd i) d B le i row q.2 v hsize hv
          (trans_forward_prepare_neutral ro col el size nnz le B i s q h))
  · exact trans_kernel_with_congr
      (fun nnz loop_end => trans_backward_prepare ro col el size nnz loop_end B)
      (fun _ loop_end i regs => trans_unit_row true B loop_end i regs) _ B la0 rib0 ro b size
      hb
      (fun nnz le i s q h => trans_backward_prepare_vector ro col el size nnz le B i s q h)
      (fun _ le i regs row v v2 h => trans_unit_row_length true B le i regs row v v2 h)
      (fun nnz le i s q row v h hv =>
        trans_unit_row_in_range_eq true size nnz
          (fun tid => usub (usub le (uadd i tid)) 1) B le i row q.2 v hsize hv
          (trans_backward_prepare_neutral ro col el size nnz le B i s q h))
  · exact trans_kernel_with_congr
      (fun nnz loop_end => trans_backward_prepare ro col el size nnz loop_end B)
      (fun _ loop_end i regs => trans_lu_row true d B loop_end i regs) _ B la0 rib0 ro b size
      hb
      (fun nnz le i s q h => trans_backward_prepare_vector ro col el size nnz le B i s q h)
      (fun _ le i regs row v v2 h => trans_lu_row_length true d B le i regs row v v2 h)
      (fun nnz le i s q row v h hv =>
        trans_lu_row_in_range_eq true size nnz
          (fun tid => usub (usub le (uadd i tid)) 1) d B le i row q.2 v hsize hv
          (trans_backward_prepare_neutral ro col el size nnz le B i s q h))

/-- The theorem for C16 at the matrix `[[2,1],[0,4]]` with two lanes: `nnz = 3`, so the
second window has one lane beyond `nnz`. -/
theorem out_of_range_lanes_contribute_nothing_witness :
    ([(6 : ℚ), 7] : List ℚ).length = 2 ∧
    ((∀ nnz loop_end i s q,
      trans_forward_prepare [0, 2, 3] [0, 1, 1] [(2 : ℚ), 1, 4] 2 nnz loop_end 2 i s = some q →
      ∀ tid, tid < 2 → uadd i tid < loop_end → nnz ≤ uadd i tid →
        q.2.col_index tid = 0 ∧ q.2.matrix_entry tid = 0 ∧ q.2.row_index tid = uadd 2 1) ∧
    (∀ nnz loop_end i2 s q,
      trans_backward_prepare [0, 2, 3] [0, 1, 1] [(2 : ℚ), 1, 4] 2 nnz loop_end 2 i2 s = some q →
      ∀ tid, tid < 2 → uadd i2 tid < loop_end → nnz ≤ usub (usub loop_end (uadd i2 tid)) 1 →
        q.2.col_index tid = 0 ∧ q.2.matrix_entry tid = 0 ∧ q.2.row_index tid = uadd 2 1) ∧
    csr_trans_unit_lu_forward_kernel 2 (fun _ => 10) (fun _ => 0) [0, 2, 3] [0, 1, 1] [(2 : ℚ), 1, 4] [(6 : ℚ), 7] 2 =
      csr_trans_unit_lu_forward_kernel_in_range 2 (fun _ => 10) (fun _ => 0) [0, 2, 3] [0, 1, 1] [(2 : ℚ), 1, 4] [(6 : ℚ), 7] 2 ∧
    csr_trans_lu_forward_kernel 2 (fun _ => 10) (fun _ => 0) [0, 2, 3] [0, 1, 1] [(2 : ℚ), 1, 4] [(2 : ℚ), 4] [(6 : ℚ), 7] 2 =
      csr_trans_lu_forward_kernel_in_range 2 (fun _ => 10) (fun _ => 0) [0, 2, 3] [0, 1, 1] [(2 : ℚ), 1, 4] [(2 : ℚ), 4] [(6 : ℚ), 7] 2 ∧
    csr_trans_unit_lu_backward_kernel 2 (fun _ => 10) (fun _ => 0) [0, 2, 3] [0, 1, 1] [(2 : ℚ), 1, 4] [(6 : ℚ), 7] 2 =
      csr_trans_unit_lu_backward_kernel_in_range 2 (fun _ => 10) (fun _ => 0) [0, 2, 3] [0, 1, 1] [(2 : ℚ), 1, 4] [(6 : ℚ), 7] 2 ∧
    csr_trans_lu_backward_kernel 2 (fun _ => 10) (fun _ => 0) [0, 2, 3] [0, 1, 1] [(2 : ℚ), 1, 4] [(2 : ℚ), 4] [(6 : ℚ), 7] 2 =
      csr_trans_lu_backward_kernel_in_range 2 (fun _ => 10) (fun _ => 0) [0, 2, 3] [0, 1, 1] [(2 : ℚ), 1, 4] [(2 : ℚ), 4] [(6 : ℚ), 7] 2) :=
  ⟨rfl,
    out_of_range_lanes_contribute_nothing 2 (fun _ => 10) (fun _ => 0)
      [0, 2, 3] [0, 1, 1] [(2 : ℚ), 1, 4] [(2 : ℚ), 4] [(6 : ℚ), 7] 2 (by decide) rfl⟩

/-- Counterexample to C16 as stated: the result is not the one of a run in which the
lanes beyond `nnz` do not exist.  With two lanes and `nnz = 3` the second window of a
forward kernel has lane `1` at position `3`; its store of `size - 1` to
`row_index_buffer[1]` is what `row_at_window_end` is read from, and without it the slot
still holds the row of position `1`, so the row of position `2` is not processed.  For
the strictly upper part of `[[0,2,1],[0,0,4],[0,0,0]]` and the right-hand side `[6,7,9]`
the unit kernel leaves `[6,-5,23]` and without the lane `[6,-5,3]`; for `[[2,1],[0,4]]` with
the diagonal `[2,4]` and the right-hand side `[6,7]` the kernel with a diagonal leaves
`[3,1]` and without the lane `[3,4]`.  In the first window of a backward kernel lane `0`
is at position `3`, and `row_at_window_start` is read from its slot. -/
theorem lanes_beyond_nnz_set_the_window :
    csr_trans_unit_lu_forward_kernel 2 (fun _ => 10) (fun _ => 0)
        [0, 2, 3, 3] [1, 2, 2] [(2 : ℚ), 1, 4] [(6 : ℚ), 7, 9] 3 = some [6, -5, 23] ∧
    csr_trans_unit_lu_forward_kernel_lanes_absent 2 (fun _ => 10) (fun _ => 0)
        [0, 2, 3, 3] [1, 2, 2] [(2 : ℚ), 1, 4] [(6 : ℚ), 7, 9] 3 = some [6, -5, 3] ∧
    csr_trans_lu_forward_kernel 2 (fun _ => 10) (fun _ => 0)
        [0, 2, 3] [0, 1, 1] [(2 : ℚ), 1, 4] [(2 : ℚ), 4] [(6 : ℚ), 7] 2 = some [3, 1] ∧
    csr_trans_lu_forward_kernel_lanes_absent 2 (fun _ => 10) (fun _ => 0)
        [0, 2, 3] [0, 1, 1] [(2 : ℚ), 1, 4] [(2 : ℚ), 4] [(6 : ℚ), 7] 2 = some [3, 4] ∧
    csr_trans_lu_backward_kernel 2 (fun _ => 10) (fun _ => 0)
        [0, 2, 3] [0, 1, 1] [(2 : ℚ), 1, 4] [(2 : ℚ), 4] [(6 : ℚ), 7] 2 = some [3, 7] ∧
    csr_trans_lu_backward_kernel_lanes_absent 2 (fun _ => 10) (fun _ => 0)
        [0, 2, 3] [0, 1, 1] [(2 : ℚ), 1, 4] [(2 : ℚ), 4] [(6 : ℚ), 7] 2 =
      some [(3 : ℚ) / 2, 7] := by
  decide!

/-! ## C24: two lanes writing one slot -/

set_option maxRecDepth 100000 in
theorem trans_forward_prepare_two_lanes :
    (trans_forward_prepare [0, 2, 3] [0, 1, 1] [(2 : ℚ), 1, 4] 2 3 4 2 0
        { vector := [6, 7], row_index_lookahead := fun _ => 10, row_index_buffer := fun _ => 0,
          row_at_window_start := 0, row_at_window_end := 0 }).map
      (fun p => (p.1.row_at_window_start, p.1.row_at_window_end,
        trans_lu_row_writes false 4 0 0 p.2 0, trans_lu_row_writes false 4 0 0 p.2 1)) =
      some (0, 0, [0], [0, 1]) := by
  decide!

set_option maxRecDepth 100000 in
theorem csr_trans_lu_forward_kernel_two_lanes :
    csr_trans_lu_forward_kernel 2 (fun _ => 10) (fun _ => 0) [0, 2, 3] [0, 1, 1]
      [(2 : ℚ), 1, 4] [2, 4] [6, 7] 2 = some [3, 1] := by
  decide!

set_option maxRecDepth 100000 in
theorem csr_trans_lu_backward_kernel2_writes_two_lanes :
    csr_trans_lu_backward_kernel2_writes [0, 0, 0, 2] [0, 1] 3 0 0 = some [0, 1] ∧
    csr_trans_lu_backward_kernel2_writes [0, 0, 0, 2] [0, 1] 3 0 1 = some [1] := by
  decide!

/-- C24: two phases in which two lanes write the same slot of the vector.  In
`csr_trans_lu_forward_kernel` on the upper triangular matrix `[[2,1],[0,4]]` with two
lanes, the first window handles row `0` and both lanes store `vector[0]` (line 476); the
run ends with the solution `[3, 1]` of the transposed system for `b = [6, 7]`.  In
`csr_trans_lu_backward_kernel2` on the lower triangular matrix with the entries `(2,0)` and
`(2,1)` with two lanes, in the round of row `2` lane `0` updates the slots `0` and `1` and
lane `1` the slot `1` (line 574 steps by one). -/
theorem phases_with_two_writers :
    (∃ q regs, trans_forward_prepare [0, 2, 3] [0, 1, 1] [(2 : ℚ), 1, 4] 2 3 4 2 0
        { vector := [6, 7], row_index_lookahead := fun _ => 10, row_index_buffer := fun _ => 0,
          row_at_window_start := 0, row_at_window_end := 0 } = some (q, regs) ∧
      q.row_at_window_start = 0 ∧ q.row_at_window_end = 0 ∧
      trans_lu_row_writes false 4 0 0 regs 0 = [0] ∧
      trans_lu_row_writes false 4 0 0 regs 1 = [0, 1] ∧
      ¬ SingleWriter 2 (trans_lu_row_writes false 4 0 0 regs)) ∧
    csr_trans_lu_forward_kernel 2 (fun _ => 10) (fun _ => 0) [0, 2, 3] [0, 1, 1]
      [(2 : ℚ), 1, 4] [2, 4] [6, 7] 2 = some [3, 1] ∧
    csr_trans_lu_backward_kernel2_writes [0, 0, 0, 2] [0, 1] 3 0 0 = some [0, 1] ∧
    csr_trans_lu_backward_kernel2_writes [0, 0, 0, 2] [0, 1] 3 0 1 = some [1] ∧
    ¬ SingleWriter 2 (fun tid =>
      (csr_trans_lu_backward_kernel2_writes [0, 0, 0, 2] [0, 1] 3 0 tid).getD []) := by
  have h1 := trans_forward_prepare_two_lanes
  obtain ⟨h2, h3⟩ := csr_trans_lu_backward_kernel2_writes_two_lanes
  refine ⟨?_, csr_trans_lu_forward_kernel_two_lanes, h2, h3, ?_⟩
  · cases hp : trans_forward_prepare [0, 2, 3] [0, 1, 1] [(2 : ℚ), 1, 4] 2 3 4 2 0
        { vector := [6, 7], row_index_lookahead := fun _ => 10, row_index_buffer := fun _ => 0,
          row_at_window_start := 0, row_at_window_end := 0 } with
    | none => rw [hp] at h1; cases h1
    | some p =>
      rw [hp] at h1
      simp only [Option.map_some', Option.some.injEq, Prod.mk.injEq] at h1
      obtain ⟨a1, a2, a3, a4⟩ := h1
      refine ⟨p.1, p.2, rfl, a1, a2, a3, a4, ?_⟩
      intro hS
      have := hS 0 1 0 (by decide) (by decide) (by decide) (by rw [a3]; simp)
      rw [a4] at this
      simp at this
  · intro hS
    have := hS 0 1 1 (by decide) (by decide) (by decide)
      (by show 1 ∈ (csr_trans_lu_backward_kernel2_writes [0, 0, 0, 2] [0, 1] 3 0 0).getD []
          rw [h2]; simp)
    have h4 : (1 : Nat) ∉ (csr_trans_lu_backward_kernel2_writes [0, 0, 0, 2] [0, 1] 3 0 1).getD
        [] := this
    rw [h3] at h4
    simp at h4

/-! ## Runs with a record: results and records -/

omit [Field T] in
theorem then_logged_fst {α β : Type} (x : Option α × List Nat)
    (f : α → List Nat → Option β × List Nat) (g : α → Option β)
    (h : ∀ a log, (f a log).1 = g a) : (then_logged x f).1 = x.1.bind g := by
  unfold then_logged
  cases hx : x.1 with
  | none => rfl
  | some a => exact h a x.2

omit [Field T] in
theorem then_logged_below {α β : Type} (m : Nat) (x : Option α × List Nat)
    (f : α → List Nat → Option β × List Nat) (hx : ReadsBelow m x.2)
    (hf : ∀ a log, ReadsBelow m log → ReadsBelow m (f a log).2) :
    ReadsBelow m (then_logged x f).2 := by
  unfold then_logged
  cases hx1 : x.1 with
  | none => exact hx
  | some a => exact hf a x.2 hx

omit [Field T] in
theorem readsBelow_append (m : Nat) (log : List Nat) (i : Nat) (h : ReadsBelow m log)
    (hi : i < m) : ReadsBelow m (log ++ [i]) := by
  intro j hj
  rcases List.mem_append.mp hj with h1 | h1
  · exact h j h1
  · rw [List.mem_singleton.mp h1]; exact hi

omit [Field T] in
theorem readsBelow_nil (m : Nat) : ReadsBelow m [] := by
  intro j hj
  cases hj

omit [Field T] in
theorem forCount_logged_fst {σ : Type} (body : Nat → σ → List Nat → Option σ × List Nat)
    (body0 : Nat → σ → Option σ) (h : ∀ k s log, (body k s log).1 = body0 k s) :
    ∀ (c k : Nat) (s : σ) (log : List Nat),
      (forCount_logged body c k s log).1 = forCount body0 c k s := by
  intro c
  induction c with
  | zero => intro k s log; rfl
  | succ c ih =>
    intro k s log
    simp only [forCount_logged, forCount]
    rw [then_logged_fst _ _ (forCount body0 c (k + 1)) (fun a log1 => ih (k + 1) a log1),
      h k s log]

omit [Field T] in
theorem forCount_logged_below {σ : Type} (m : Nat)
    (body : Nat → σ → List Nat → Option σ × List Nat)
    (h : ∀ k s log, ReadsBelow m log → ReadsBelow m (body k s log).2) :
    ∀ (c k : Nat) (s : σ) (log : List Nat), ReadsBelow m log →
      ReadsBelow m (forCount_logged body c k s log).2 := by
  intro c
  induction c with
  | zero => intro k s log hlog; exact hlog
  | succ c ih =>
    intro k s log hlog
    simp only [forCount_logged]
    exact then_logged_below m _ _ (h k s log hlog) (fun a log1 h1 => ih (k + 1) a log1 h1)

omit [Field T] in
theorem forStride_logged_fst {σ : Type} (B loop_end : Nat)
    (body : Nat → σ → List Nat → Option σ × List Nat)
    (body0 : Nat → σ → Option σ) (h : ∀ k s log, (body k s log).1 = body0 k s) :
    ∀ (fuel i : Nat) (s : σ) (log : List Nat),
      (forStride_logged B loop_end body fuel i s log).1 =
        forStride B loop_end body0 fuel i s := by
  intro fuel
  induction fuel with
  | zero => intro i s log; rfl
  | succ fuel ih =>
    intro i s log
    simp only [forStride_logged, forStride]
    by_cases hlt : i < loop_end
    · rw [if_pos hlt, if_pos hlt,
        then_logged_fst _ _ (forStride B loop_end body0 fuel (uadd i B))
          (fun a log1 => ih (uadd i B) a log1), h i s log]
    · rw [if_neg hlt, if_neg hlt]

omit [Field T] in
theorem forStride_logged_below {σ : Type} (m B loop_end : Nat)
    (body : Nat → σ → List Nat → Option σ × List Nat)
    (h : ∀ i s log, i < loop_end → ReadsBelow m log → ReadsBelow m (body i s log).2) :
    ∀ (fuel i : Nat) (s : σ) (log : List Nat), ReadsBelow m log →
      ReadsBelow m (forStride_logged B loop_end body fuel i s log).2 := by
  intro fuel
  induction fuel with
  | zero => intro i s log hlog; exact hlog
  | succ fuel ih =>
    intro i s log hlog
    simp only [forStride_logged]
    by_cases hlt : i < loop_end
    · rw [if_pos hlt]
      exact then_logged_below m _ _ (h i s log hlt hlog)
        (fun a log1 h1 => ih (uadd i B) a log1 h1)
    · rw [if_neg hlt]
      exact hlog

omit [Field T] in
theorem whileDown_logged_fst {σ : Type} (B : Nat)
    (body : Nat → σ → List Nat → Option σ × List Nat)
    (body0 : Nat → σ → Option σ) (h : ∀ k s log, (body k s log).1 = body0 k s) :
    ∀ (fuel i : Nat) (s : σ) (log : List Nat),
      (whileDown_logged B body fuel i s log).1 = whileDown B body0 fuel i s := by
  intro fuel
  induction fuel with
  | zero => intro i s log; rfl
  | succ fuel ih =>
    intro i s log
    simp only [whileDown_logged, whileDown]
    rw [then_logged_fst _ _
      (fun s1 => if i < B then some s1 else whileDown B body0 fuel (usub i B) s1)
      (fun a log1 => by
        by_cases hlt : i < B
        · simp only [if_pos hlt]
        · simp only [if_neg hlt]
          exact ih (usub i B) a log1), h i s log]

omit [Field T] in
theorem whileDown_logged_below {σ : Type} (m B : Nat)
    (body : Nat → σ → List Nat → Option σ × List Nat)
    (h : ∀ i s log, ReadsBelow m log → ReadsBelow m (body i s log).2) :
    ∀ (fuel i : Nat) (s : σ) (log : List Nat), ReadsBelow m log →
      ReadsBelow m (whileDown_logged B body fuel i s log).2 := by
  intro fuel
  induction fuel with
  | zero => intro i s log hlog; exact hlog
  | succ fuel ih =>
    intro i s log hlog
    simp only [whileDown_logged]
    exact then_logged_below m _ _ (h i s log hlog) (fun a log1 h1 => by
      by_cases hlt : i < B
      · rw [if_pos hlt]; exact h1
      · rw [if_neg hlt]; exact ih (usub i B) a log1 h1)

/-! ## The ten kernels with a record: results and records -/

omit [Field T] in
theorem then_logged_some {α β : Type} (a : α) (log : List Nat)
    (f : α → List Nat → Option β × List Nat) : then_logged (some a, log) f = f a log := rfl

omit [Field T] in
theorem then_logged_none {α β : Type} (log : List Nat)
    (f : α → List Nat → Option β × List Nat) :
    then_logged ((none : Option α), log) f = (none, log) := rfl

omit [Field T] in
theorem then_logged_pure_fst {α β : Type} (x : Option α × List Nat) (g : α → Option β) :
    (then_logged x (fun a log1 => (g a, log1))).1 = x.1.bind g :=
  then_logged_fst x _ g (fun _ _ => rfl)

omit [Field T] in
theorem then_logged_pure_snd {α β : Type} (x : Option α × List Nat) (g : α → Option β) :
    (then_logged x (fun a log1 => (g a, log1))).2 = x.2 := by
  unfold then_logged
  cases x.1 with
  | none => rfl
  | some a => rfl

omit [Field T] in
theorem load_lane_logged_fst (col : List Nat) (el v : List T) (nnz i tid : Nat)
    (st : Staging T) (log : List Nat) :
    (load_lane_logged col el v nnz i tid st log).1 = load_lane col el v nnz i tid st := by
  unfold load_lane_logged load_lane gread_logged
  by_cases h : i < nnz
  · rw [if_pos h, if_pos h]
    cases gread el i with
    | none => rfl
    | some e =>
      rw [then_logged_some, Option.some_bind]
      cases swrite 128 st.element_buffer tid e with
      | none => rfl
      | some eb =>
        rw [then_logged_some, Option.some_bind]
        cases gread col i with
        | none => rfl
        | some tmp => rfl
  · rw [if_neg h, if_neg h]

omit [Field T] in
theorem load_lane_logged_below (col : List Nat) (el v : List T) (nnz i tid : Nat)
    (st : Staging T) (log : List Nat) (hlog : ReadsBelow nnz log) :
    ReadsBelow nnz (load_lane_logged col el v nnz i tid st log).2 := by
  unfold load_lane_logged gread_logged
  by_cases h : i < nnz
  · rw [if_pos h]
    have h1 := readsBelow_append nnz log i hlog h
    have h2 := readsBelow_append nnz _ i h1 h
    cases gread el i with
    | none => exact h1
    | some e =>
      rw [then_logged_some]
      cases swrite 128 st.element_buffer tid e with
      | none => exact h1
      | some eb =>
        rw [then_logged_some]
        cases gread col i with
        | none => exact h2
        | some tmp => exact h2
  · rw [if_neg h]
    exact hlog

omit [Field T] in
theorem load_forward_logged_fst (col : List Nat) (el v : List T) (nnz loop_end B i : Nat)
    (st : Staging T) (log : List Nat) :
    (load_forward_logged col el v nnz loop_end B i st log).1 =
      load_forward col el v nnz loop_end B i st := by
  unfold load_forward_logged load_forward
  apply forCount_logged_fst
  intro tid st1 log1
  by_cases h : uadd i tid < loop_end
  · simp only [if_pos h]
    exact load_lane_logged_fst col el v nnz (uadd i tid) tid st1 log1
  · simp only [if_neg h]

omit [Field T] in
theorem load_forward_logged_below (col : List Nat) (el v : List T) (nnz loop_end B i : Nat)
    (st : Staging T) (log : List Nat) (hlog : ReadsBelow nnz log) :
    ReadsBelow nnz (load_forward_logged col el v nnz loop_end B i st log).2 := by
  unfold load_forward_logged
  apply forCount_logged_below nnz _ _ B 0 st log hlog
  intro tid st1 log1 h1
  by_cases h : uadd i tid < loop_end
  · simp only [if_pos h]
    exact load_lane_logged_below col el v nnz (uadd i tid) tid st1 log1 h1
  · simp only [if_neg h]
    exact h1

omit [Field T] in
theorem load_backward_logged_fst (col : List Nat) (el v : List T) (nnz B i : Nat)
    (st : Staging T) (log : List Nat) :
    (load_backward_logged col el v nnz B i st log).1 = load_backward col el v nnz B i st := by
  unfold load_backward_logged load_backward
  apply forCount_logged_fst
  intro tid st1 log1
  exact load_lane_logged_fst col el v nnz (uadd i tid) tid st1 log1

omit [Field T] in
theorem load_backward_logged_below (col : List Nat) (el v : List T) (nnz B i : Nat)
    (st : Staging T) (log : List Nat) (hlog : ReadsBelow nnz log) :
    ReadsBelow nnz (load_backward_logged col el v nnz B i st log).2 := by
  unfold load_backward_logged
  apply forCount_logged_below nnz _ _ B 0 st log hlog
  intro tid st1 log1 h1
  exact load_lane_logged_below col el v nnz (uadd i tid) tid st1 log1 h1

theorem forward_round_logged_fst (fin : Nat → T → Option T) (ro col : List Nat)
    (el : List T) (size nnz loop_end B i : Nat) (p : Staging T × SolveState T)
    (log : List Nat) :
    (forward_round_logged fin ro col el size nnz loop_end B i p log).1 =
      forward_round fin ro col el size nnz loop_end B i p := by
  unfold forward_round_logged forward_round
  rw [then_logged_pure_fst, load_forward_logged_fst]

theorem forward_round_logged_below (fin : Nat → T → Option T) (ro col : List Nat)
    (el : List T) (size nnz loop_end B i : Nat) (p : Staging T × SolveState T)
    (log : List Nat) (hlog : ReadsBelow nnz log) :
    ReadsBelow nnz (forward_round_logged fin ro col el size nnz loop_end B i p log).2 := by
  unfold forward_round_logged
  rw [then_logged_pure_snd]
  exact load_forward_logged_below col el p.2.vector nnz loop_end B i p.1 log hlog

omit [Field T] in
theorem backward_round_logged_fst {σ : Type} (vec : σ → List T) (setR : σ → σ)
    (stepf : Nat → Staging T → Nat → σ → Option σ) (col : List Nat) (el : List T)
    (nnz B i : Nat) (p : Staging T × σ) (log : List Nat) :
    (backward_round_logged vec setR stepf col el nnz B i p log).1 =
      backward_round vec setR stepf col el nnz B i p := by
  unfold backward_round_logged backward_round
  rw [then_logged_pure_fst, load_backward_logged_fst]

omit [Field T] in
theorem backward_round_logged_below {σ : Type} (vec : σ → List T) (setR : σ → σ)
    (stepf : Nat → Staging T → Nat → σ → Option σ) (col : List Nat) (el : List T)
    (nnz B i : Nat) (p : Staging T × σ) (log : List Nat) (hlog : ReadsBelow nnz log) :
    ReadsBelow nnz (backward_round_logged vec setR stepf col el nnz B i p log).2 := by
  unfold backward_round_logged
  rw [then_logged_pure_snd]
  exact load_backward_logged_below col el (vec p.2) nnz B i p.1 log hlog

theorem forward_kernel_logged_fst (fin : Nat → T → Option T) (B : Nat) (st0 : Staging T)
    (ro col : List Nat) (el b : List T) (size : Nat) :
    (forward_kernel_logged fin B st0 ro col el b size).1 =
      (gread ro size).bind fun nnz =>
      (gread b 0).bind fun cve =>
      (gread ro 1).bind fun next_row =>
      (forStride B (umul (uadd (nnz / B) 1) B)
          (forward_round fin ro col el size nnz (umul (uadd (nnz / B) 1) B) B)
          (umul (uadd (nnz / B) 1) B) 0
          (st0, { vector := b, current_row := 0, row_at_window_start := 0,
                  current_vector_entry := cve, next_row := next_row })).bind fun p =>
      some p.2.vector := by
  unfold forward_kernel_logged
  cases gread ro size with
  | none => rfl
  | some nnz =>
    rw [then_logged_some, Option.some_bind]
    cases gread b 0 with
    | none => rfl
    | some cve =>
      rw [then_logged_some, Option.some_bind]
      cases gread ro 1 with
      | none => rfl
      | some next_row =>
        rw [then_logged_some, Option.some_bind, then_logged_pure_fst,
          forStride_logged_fst B _ _ _
            (forward_round_logged_fst fin ro col el size nnz (umul (uadd (nnz / B) 1) B) B)]

theorem forward_kernel_logged_below (fin : Nat → T → Option T) (B : Nat) (st0 : Staging T)
    (ro col : List Nat) (el b : List T) (size : Nat) :
    ReadsBelow (ro.getD size 0) (forward_kernel_logged fin B st0 ro col el b size).2 := by
  unfold forward_kernel_logged
  cases hn : gread ro size with
  | none => exact readsBelow_nil _
  | some nnz =>
    rw [getD_of_gread ro size nnz 0 hn, then_logged_some]
    cases gread b 0 with
    | none => exact readsBelow_nil _
    | some cve =>
      rw [then_logged_some]
      cases gread ro 1 with
      | none => exact readsBelow_nil _
      | some next_row =>
        rw [then_logged_some, then_logged_pure_snd]
        exact forStride_logged_below nnz B _ _
          (fun i s log _ hlog => forward_round_logged_below fin ro col el size nnz
            (umul (uadd (nnz / B) 1) B) B i s log hlog) _ _ _ _ (readsBelow_nil _)

theorem csr_unit_lu_backward_kernel_logged_fst (B : Nat) (st0 : Staging T)
    (ro col : List Nat) (el b : List T) (size : Nat) :
    (csr_unit_lu_backward_kernel_logged B st0 ro col el b size).1 =
      csr_unit_lu_backward_kernel B st0 ro col el b size := by
  unfold csr_unit_lu_backward_kernel_logged csr_unit_lu_backward_kernel
  cases gread ro size with
  | none => rfl
  | some nnz =>
    rw [then_logged_some, Option.some_bind]
    cases gread b (usub size 1) with
    | none => rfl
    | some cve =>
      rw [then_logged_some, Option.some_bind]
      cases gread ro (usub size 1) with
      | none => rfl
      | some next_row =>
        rw [then_logged_some, Option.some_bind, then_logged_pure_fst,
          whileDown_logged_fst B _ _
            (backward_round_logged_fst (fun s : SolveState T => s.vector)
              (fun s => { s with row_at_window_start := s.current_row })
              (unit_backward_step ro nnz B) col el nnz B),
          unit_backward_window_eq]

theorem csr_unit_lu_backward_kernel_logged_below (B : Nat) (st0 : Staging T)
    (ro col : List Nat) (el b : List T) (size : Nat) :
    ReadsBelow (ro.getD size 0)
      (csr_unit_lu_backward_kernel_logged B st0 ro col el b size).2 := by
  unfold csr_unit_lu_backward_kernel_logged
  cases hn : gread ro size with
  | none => exact readsBelow_nil _
  | some nnz =>
    rw [getD_of_gread ro size nnz 0 hn, then_logged_some]
    cases gread b (usub size 1) with
    | none => exact readsBelow_nil _
    | some cve =>
      rw [then_logged_some]
      cases gread ro (usub size 1) with
      | none => exact readsBelow_nil _
      | some next_row =>
        rw [then_logged_some, then_logged_pure_snd]
        exact whileDown_logged_below nnz B _
          (fun i s log hlog => backward_round_logged_below _ _ _ col el nnz B i s log hlog)
          _ _ _ _ (readsBelow_nil _)

theorem csr_lu_backward_kernel_logged_fst (B : Nat) (st0 : Staging T) (diag0 : T)
    (ro col : List Nat) (el b : List T) (size : Nat) :
    (csr_lu_backward_kernel_logged B st0 diag0 ro col el b size).1 =
      csr_lu_backward_kernel B st0 diag0 ro col el b size := by
  unfold csr_lu_backward_kernel_logged csr_lu_backward_kernel
  cases gread ro size with
  | none => rfl
  | some nnz =>
    rw [then_logged_some, Option.some_bind]
    cases gread b (usub size 1) with
    | none => rfl
    | some cve =>
      rw [then_logged_some, Option.some_bind]
      cases gread ro (usub size 1) with
      | none => rfl
      | some next_row =>
        rw [then_logged_some, Option.some_bind, then_logged_pure_fst,
          whileDown_logged_fst B _ _
            (backward_round_logged_fst (fun s : SolveStateD T => s.vector)
              (fun s => { s with row_at_window_start := s.current_row })
              (lu_backward_step ro nnz B) col el nnz B),
          lu_backward_window_eq]

theorem csr_lu_backward_kernel_logged_below (B : Nat) (st0 : Staging T) (diag0 : T)
    (ro col : List Nat) (el b : List T) (size : Nat) :
    ReadsBelow (ro.getD size 0)
      (csr_lu_backward_kernel_logged B st0 diag0 ro col el b size).2 := by
  unfold csr_lu_backward_kernel_logged
  cases hn : gread ro size with
  | none => exact readsBelow_nil _
  | some nnz =>
    rw [getD_of_gread ro size nnz 0 hn, then_logged_some]
    cases gread b (usub size 1) with
    | none => exact readsBelow_nil _
    | some cve =>
      rw [then_logged_some]
      cases gread ro (usub size 1) with
      | none => exact readsBelow_nil _
      | some next_row =>
        rw [then_logged_some, then_logged_pure_snd]
        exact whileDown_logged_below nnz B _
          (fun i s log hlog => backward_round_logged_below _ _ _ col el nnz B i s log hlog)
          _ _ _ _ (readsBelow_nil _)

omit [Field T] in
theorem row_stop_le_nnz {n : Nat} {ro col : List Nat} {el : List T}
    (hwf : WellFormedCSR n ro col el) (j row_stop : Nat) (h : gread ro j = some row_stop) :
    row_stop ≤ ro.getD n 0 := by
  have hj : j < ro.length := by
    unfold gread at h
    by_contra hc
    rw [List.getElem?_eq_none (by omega)] at h
    cases h
  have hv := getD_of_gread ro j row_stop 0 h
  rw [← hv]
  exact hwf.mono_le n j (by have := hwf.rows_len; omega) (le_refl n)

theorem csr_unit_lu_forward_kernel_logged_fst (B : Nat) (st0 : Staging T)
    (ro col : List Nat) (el b : List T) (size : Nat) :
    (csr_unit_lu_forward_kernel_logged B st0 ro col el b size).1 =
      csr_unit_lu_forward_kernel B st0 ro col el b size := by
  unfold csr_unit_lu_forward_kernel_logged csr_unit_lu_forward_kernel
  rw [forward_kernel_logged_fst]
  simp only [unit_forward_window_eq]

theorem csr_lu_forward_kernel_logged_fst (B : Nat) (st0 : Staging T)
    (ro col : List Nat) (el d b : List T) (size : Nat) :
    (csr_lu_forward_kernel_logged B st0 ro col el d b size).1 =
      csr_lu_forward_kernel B st0 ro col el d b size := by
  unfold csr_lu_forward_kernel_logged csr_lu_forward_kernel
  rw [forward_kernel_logged_fst]
  simp only [lu_forward_window_eq]

/-! ### The windowed transposed kernels -/

theorem trans_forward_fetch_logged_fst (ro col : List Nat) (el : List T)
    (size nnz ws i tid : Nat) (p : (Nat → Nat) × LaneRegs T) (log : List Nat) :
    (trans_forward_fetch_logged ro col el size nnz ws i tid p log).1 =
      trans_forward_fetch ro col el size nnz ws i tid p := by
  unfold trans_forward_fetch_logged trans_forward_fetch gread_logged
  by_cases h : i < nnz
  · simp only [if_pos h]
    cases gread col i with
    | none => rfl
    | some c =>
      rw [then_logged_some, Option.some_bind]
      cases gread el i with
      | none => rfl
      | some e => rfl
  · simp only [if_neg h]
    rfl

theorem trans_forward_fetch_logged_below (ro col : List Nat) (el : List T)
    (size nnz ws i tid : Nat) (p : (Nat → Nat) × LaneRegs T) (log : List Nat)
    (hlog : ReadsBelow nnz log) :
    ReadsBelow nnz (trans_forward_fetch_logged ro col el size nnz ws i tid p log).2 := by
  unfold trans_forward_fetch_logged gread_logged
  by_cases h : i < nnz
  · simp only [if_pos h]
    have h1 := readsBelow_append nnz log i hlog h
    have h2 := readsBelow_append nnz _ i h1 h
    cases gread col i with
    | none => exact h1
    | some c =>
      rw [then_logged_some]
      cases gread el i with
      | none => exact h2
      | some e => exact h2
  · simp only [if_neg h]
    exact hlog

theorem trans_backward_fetch_logged_fst (ro col : List Nat) (el : List T)
    (nnz loop_end B ws i2 tid : Nat) (p : (Nat → Nat) × LaneRegs T) (log : List Nat) :
    (trans_backward_fetch_logged ro col el nnz loop_end B ws i2 tid p log).1 =
      trans_backward_fetch ro col el nnz loop_end B ws i2 tid p := by
  unfold trans_backward_fetch_logged trans_backward_fetch gread_logged
  generalize usub (usub loop_end i2) 1 = i
  by_cases h : i < nnz
  · simp only [if_pos h]
    cases gread col i with
    | none => rfl
    | some c =>
      rw [then_logged_some, Option.some_bind]
      cases gread el i with
      | none => rfl
      | some e => rfl
  · simp only [if_neg h]
    rfl

theorem trans_backward_fetch_logged_below (ro col : List Nat) (el : List T)
    (nnz loop_end B ws i2 tid : Nat) (p : (Nat → Nat) × LaneRegs T) (log : List Nat)
    (hlog : ReadsBelow nnz log) :
    ReadsBelow nnz
      (trans_backward_fetch_logged ro col el nnz loop_end B ws i2 tid p log).2 := by
  unfold trans_backward_fetch_logged gread_logged
  generalize usub (usub loop_end i2) 1 = i
  by_cases h : i < nnz
  · simp only [if_pos h]
    have h1 := readsBelow_append nnz log i hlog h
    have h2 := readsBelow_append nnz _ i h1 h
    cases gread col i with
    | none => exact h1
    | some c =>
      rw [then_logged_some]
      cases gread el i with
      | none => exact h2
      | some e => exact h2
  · simp only [if_neg h]
    exact hlog

theorem trans_forward_prepare_logged_fst (ro col : List Nat) (el : List T)
    (size nnz loop_end B i : Nat) (s : TransState T) (log : List Nat) :
    (trans_forward_prepare_logged ro col el size nnz loop_end B i s log).1 =
      trans_forward_prepare ro col el size nnz loop_end B i s := by
  unfold trans_forward_prepare_logged trans_forward_prepare
  have h := forCount_logged_fst
    (fun tid (p : (Nat → Nat) × LaneRegs T) log1 =>
      if uadd i tid < loop_end then
        trans_forward_fetch_logged ro col el size nnz s.row_at_window_start (uadd i tid)
          tid p log1
      else (some p, log1))
    (fun tid p =>
      if uadd i tid < loop_end then
        trans_forward_fetch ro col el size nnz s.row_at_window_start (uadd i tid) tid p
      else some p)
    (fun tid p log1 => by
      by_cases hlt : uadd i tid < loop_end
      · simp only [if_pos hlt]
        exact trans_forward_fetch_logged_fst ro col el size nnz _ _ tid p log1
      · simp only [if_neg hlt]) B 0
    (s.row_index_lookahead,
      { row_index := fun _ => 0, col_index := fun _ => 0, matrix_entry := fun _ => 0 }) log
  rw [then_logged_pure_fst, h]

theorem trans_forward_prepare_logged_below (ro col : List Nat) (el : List T)
    (size nnz loop_end B i : Nat) (s : TransState T) (log : List Nat)
    (hlog : ReadsBelow nnz log) :
    ReadsBelow nnz (trans_forward_prepare_logged ro col el size nnz loop_end B i s log).2 := by
  unfold trans_forward_prepare_logged
  rw [then_logged_pure_snd]
  apply forCount_logged_below nnz _ _ B 0 _ log hlog
  intro tid p log1 h1
  by_cases hlt : uadd i tid < loop_end
  · simp only [if_pos hlt]
    exact trans_forward_fetch_logged_below ro col el size nnz _ _ tid p log1 h1
  · simp only [if_neg hlt]
    exact h1

theorem trans_backward_prepare_logged_fst (ro col : List Nat) (el : List T)
    (size nnz loop_end B i2 : Nat) (s : TransState T) (log : List Nat) :
    (trans_backward_prepare_logged ro col el size nnz loop_end B i2 s log).1 =
      trans_backward_prepare ro col el size nnz loop_end B i2 s := by
  unfold trans_backward_prepare_logged trans_backward_prepare
  have h := forCount_logged_fst
    (fun tid (p : (Nat → Nat) × LaneRegs T) log1 =>
      if uadd i2 tid < loop_end then
        trans_backward_fetch_logged ro col el nnz loop_end B s.row_at_window_start
          (uadd i2 tid) tid p log1
      else (some p, log1))
    (fun tid p =>
      if uadd i2 tid < loop_end then
        trans_backward_fetch ro col el nnz loop_end B s.row_at_window_start (uadd i2 tid)
          tid p
      else some p)
    (fun tid p log1 => by
      by_cases hlt : uadd i2 tid < loop_end
      · simp only [if_pos hlt]
        exact trans_backward_fetch_logged_fst ro col el nnz loop_end B _ _ tid p log1
      · simp only [if_neg hlt]) B 0
    (s.row_index_lookahead,
      { row_index := fun _ => 0, col_index := fun _ => 0, matrix_entry := fun _ => 0 }) log
  rw [then_logged_pure_fst, h]

theorem trans_backward_prepare_logged_below (ro col : List Nat) (el : List T)
    (size nnz loop_end B i2 : Nat) (s : TransState T) (log : List Nat)
    (hlog : ReadsBelow nnz log) :
    ReadsBelow nnz
      (trans_backward_prepare_logged ro col el size nnz loop_end B i2 s log).2 := by
  unfold trans_backward_prepare_logged
  rw [then_logged_pure_snd]
  apply forCount_logged_below nnz _ _ B 0 _ log hlog
  intro tid p log1 h1
  by_cases hlt : uadd i2 tid < loop_end
  · simp only [if_pos hlt]
    exact trans_backward_fetch_logged_below ro col el nnz loop_end B _ _ tid p log1 h1
  · simp only [if_neg hlt]
    exact h1

omit [Field T] in
theorem trans_window_with_logged_fst
    (prepare_l : Nat → TransState T → List Nat → Option (TransState T × LaneRegs T) × List Nat)
    (prepare : Nat → TransState T → Option (TransState T × LaneRegs T))
    (rowf : Nat → LaneRegs T → Nat → List T → Option (List T))
    (h : ∀ i s log, (prepare_l i s log).1 = prepare i s)
    (i : Nat) (s : TransState T) (log : List Nat) :
    (trans_window_with_logged prepare_l rowf i s log).1 =
      trans_window_with prepare rowf i s := by
  unfold trans_window_with_logged trans_window_with
  rw [then_logged_pure_fst, h]

omit [Field T] in
theorem trans_window_with_logged_below (m : Nat)
    (prepare_l : Nat → TransState T → List Nat → Option (TransState T × LaneRegs T) × List Nat)
    (rowf : Nat → LaneRegs T → Nat → List T → Option (List T))
    (h : ∀ i s log, ReadsBelow m log → ReadsBelow m (prepare_l i s log).2)
    (i : Nat) (s : TransState T) (log : List Nat) (hlog : ReadsBelow m log) :
    ReadsBelow m (trans_window_with_logged prepare_l rowf i s log).2 := by
  unfold trans_window_with_logged
  rw [then_logged_pure_snd]
  exact h i s log hlog

omit [Field T] in
theorem trans_kernel_with_logged_fst
    (prepare_l : Nat → Nat → Nat → TransState T → List Nat →
      Option (TransState T × LaneRegs T) × List Nat)
    (prepare : Nat → Nat → Nat → TransState T → Option (TransState T × LaneRegs T))
    (rowf : Nat → Nat → Nat → LaneRegs T → Nat → List T → Option (List T))
    (h : ∀ nnz le i s log, (prepare_l nnz le i s log).1 = prepare nnz le i s)
    (B : Nat) (la0 rib0 : Nat → Nat) (ro : List Nat) (b : List T) (size : Nat) :
    (trans_kernel_with_logged prepare_l rowf B la0 rib0 ro b size).1 =
      trans_kernel_with prepare rowf B la0 rib0 ro b size := by
  unfold trans_kernel_with_logged trans_kernel_with
  cases gread ro size with
  | none => rfl
  | some nnz =>
    rw [then_logged_some, Option.some_bind, then_logged_pure_fst,
      forStride_logged_fst B _ _ _
        (fun i s log => trans_window_with_logged_fst
          (prepare_l nnz (umul (uadd (usub nnz 1 / B) 1) B))
          (prepare nnz (umul (uadd (usub nnz 1 / B) 1) B))
          (rowf nnz (umul (uadd (usub nnz 1 / B) 1) B)) (h nnz _) i s log)]

omit [Field T] in
theorem trans_kernel_with_logged_below
    (prepare_l : Nat → Nat → Nat → TransState T → List Nat →
      Option (TransState T × LaneRegs T) × List Nat)
    (rowf : Nat → Nat → Nat → LaneRegs T → Nat → List T → Option (List T))
    (h : ∀ nnz le i s log, ReadsBelow nnz log → ReadsBelow nnz (prepare_l nnz le i s log).2)
    (B : Nat) (la0 rib0 : Nat → Nat) (ro : List Nat) (b : List T) (size : Nat) :
    ReadsBelow (ro.getD size 0)
      (trans_kernel_with_logged prepare_l rowf B la0 rib0 ro b size).2 := by
  unfold trans_kernel_with_logged
  cases hn : gread ro size with
  | none => exact readsBelow_nil _
  | some nnz =>
    rw [getD_of_gread ro size nnz 0 hn, then_logged_some, then_logged_pure_snd]
    exact forStride_logged_below nnz B _ _
      (fun i s log _ hlog => trans_window_with_logged_below nnz _ _ (h nnz _) i s log hlog)
      _ _ _ _ (readsBelow_nil _)

/-! ### The two transposed kernels without windows -/

theorem trans_entry2_logged_fst (below : Bool) (col : List Nat) (el : List T) (row : Nat)
    (result_entry : T) (entry_index : Nat) (v : List T) (log : List Nat) :
    (trans_entry2_logged below col el row result_entry entry_index v log).1 =
      trans_entry2 below col el row result_entry entry_index v := by
  unfold trans_entry2_logged trans_entry2 gread_logged
  cases gread col entry_index with
  | none => rfl
  | some c =>
    rw [then_logged_some, Option.some_bind]
    by_cases hc : (if below then c < row else c > row)
    · rw [if_pos hc, if_pos hc]
      cases gread v c with
      | none => rfl
      | some old =>
        rw [then_logged_some, Option.some_bind]
        cases gread el entry_index with
        | none => rfl
        | some e => rfl
    · rw [if_neg hc, if_neg hc]

theorem trans_entry2_logged_below (m : Nat) (below : Bool) (col : List Nat) (el : List T)
    (row : Nat) (result_entry : T) (entry_index : Nat) (v : List T) (log : List Nat)
    (he : entry_index < m) (hlog : ReadsBelow m log) :
    ReadsBelow m
      (trans_entry2_logged below col el row result_entry entry_index v log).2 := by
  unfold trans_entry2_logged gread_logged
  have h1 := readsBelow_append m log entry_index hlog he
  have h2 := readsBelow_append m _ entry_index h1 he
  cases gread col entry_index with
  | none => exact h1
  | some c =>
    rw [then_logged_some]
    by_cases hc : (if below then c < row else c > row)
    · rw [if_pos hc]
      cases gread v c with
      | none => exact h1
      | some old =>
        rw [then_logged_some]
        cases gread el entry_index with
        | none => exact h2
        | some e => exact h2
    · rw [if_neg hc]
      exact h1

theorem lanes2_logged_fst (below : Bool) (S B : Nat) (col : List Nat) (el : List T)
    (row : Nat) (result_entry : T) (row_start row_stop : Nat) (v : List T)
    (log : List Nat) :
    (forCount_logged (fun tid acc log4 =>
      forStride_logged S row_stop (trans_entry2_logged below col el row result_entry)
        row_stop (uadd row_start tid) acc log4) B 0 v log).1 =
    forCount (fun tid acc =>
      forStride S row_stop (trans_entry2 below col el row result_entry)
        row_stop (uadd row_start tid) acc) B 0 v :=
  forCount_logged_fst _ _
    (fun tid acc log4 => forStride_logged_fst S row_stop _ _
      (fun e v1 log1 => trans_entry2_logged_fst below col el row result_entry e v1 log1)
      row_stop (uadd row_start tid) acc log4) B 0 v log

theorem lanes2_logged_below (m : Nat) (below : Bool) (S B : Nat) (col : List Nat)
    (el : List T) (row : Nat) (result_entry : T) (row_start row_stop : Nat) (v : List T)
    (log : List Nat) (hstop : row_stop ≤ m) (hlog : ReadsBelow m log) :
    ReadsBelow m (forCount_logged (fun tid acc log4 =>
      forStride_logged S row_stop (trans_entry2_logged below col el row result_entry)
        row_stop (uadd row_start tid) acc log4) B 0 v log).2 :=
  forCount_logged_below m _
    (fun tid acc log4 h4 => forStride_logged_below m S row_stop _
      (fun e v1 log1 he h1 =>
        trans_entry2_logged_below m below col el row result_entry e v1 log1
          (Nat.lt_of_lt_of_le he hstop) h1)
      row_stop (uadd row_start tid) acc log4 h4) B 0 v log hlog

theorem csr_trans_lu_forward_kernel2_logged_fst (B : Nat) (ro col : List Nat)
    (el b : List T) (size : Nat) :
    (csr_trans_lu_forward_kernel2_logged B ro col el b size).1 =
      csr_trans_lu_forward_kernel2 B ro col el b size := by
  unfold csr_trans_lu_forward_kernel2_logged csr_trans_lu_forward_kernel2
  apply forCount_logged_fst
  intro row v log
  beta_reduce
  cases gread v row with
  | none => rfl
  | some re =>
    rw [then_logged_some, Option.some_bind]
    cases gread ro row with
    | none => rfl
    | some row_start =>
      rw [then_logged_some, Option.some_bind]
      cases gread ro (uadd row 1) with
      | none => rfl
      | some row_stop =>
        rw [then_logged_some, Option.some_bind]
        exact lanes2_logged_fst false B B col el row re row_start row_stop v log

theorem csr_trans_lu_forward_kernel2_logged_below {n : Nat} {ro col : List Nat}
    {el : List T} (hwf : WellFormedCSR n ro col el) (B : Nat) (b : List T) (size : Nat) :
    ReadsBelow (ro.getD n 0) (csr_trans_lu_forward_kernel2_logged B ro col el b size).2 := by
  unfold csr_trans_lu_forward_kernel2_logged
  apply forCount_logged_below (ro.getD n 0) _ _ size 0 b [] (readsBelow_nil _)
  intro row v log hlog
  beta_reduce
  cases gread v row with
  | none => exact hlog
  | some re =>
    rw [then_logged_some]
    cases gread ro row with
    | none => exact hlog
    | some row_start =>
      rw [then_logged_some]
      cases hst : gread ro (uadd row 1) with
      | none => exact hlog
      | some row_stop =>
        rw [then_logged_some]
        exact lanes2_logged_below _ false B B col el row re row_start row_stop v log
          (row_stop_le_nnz hwf _ _ hst) hlog

theorem csr_trans_lu_backward_kernel2_logged_fst (B : Nat) (ro col : List Nat)
    (el d b : List T) (size : Nat) :
    (csr_trans_lu_backward_kernel2_logged B ro col el d b size).1 =
      csr_trans_lu_backward_kernel2 B ro col el d b size := by
  unfold csr_trans_lu_backward_kernel2_logged csr_trans_lu_backward_kernel2
  apply forCount_logged_fst
  intro row2 v log
  beta_reduce
  generalize usub (usub size row2) 1 = row
  cases gread v row with
  | none => rfl
  | some x =>
    rw [then_logged_some, Option.some_bind]
    cases gread d row with
    | none => rfl
    | some dd =>
      rw [then_logged_some, Option.some_bind]
      cases gread ro row with
      | none => rfl
      | some row_start =>
        rw [then_logged_some, Option.some_bind]
        cases gread ro (uadd row 1) with
        | none => rfl
        | some row_stop =>
          rw [then_logged_some, Option.some_bind, then_logged_pure_fst,
            lanes2_logged_fst true 1 B col el row (x / dd) row_start row_stop v log]

theorem csr_trans_lu_backward_kernel2_logged_below {n : Nat} {ro col : List Nat}
    {el : List T} (hwf : WellFormedCSR n ro col el) (B : Nat) (d b : List T) (size : Nat) :
    ReadsBelow (ro.getD n 0)
      (csr_trans_lu_backward_kernel2_logged B ro col el d b size).2 := by
  unfold csr_trans_lu_backward_kernel2_logged
  apply forCount_logged_below (ro.getD n 0) _ _ size 0 b [] (readsBelow_nil _)
  intro row2 v log hlog
  beta_reduce
  generalize usub (usub size row2) 1 = row
  cases gread v row with
  | none => exact hlog
  | some x =>
    rw [then_logged_some]
    cases gread d row with
    | none => exact hlog
    | some dd =>
      rw [then_logged_some]
      cases gread ro row with
      | none => exact hlog
      | some row_start =>
        rw [then_logged_some]
        cases hst : gread ro (uadd row 1) with
        | none => exact hlog
        | some row_stop =>
          rw [then_logged_some, then_logged_pure_snd]
          exact lanes2_logged_below _ true 1 B col el row (x / dd) row_start row_stop v log
            (row_stop_le_nnz hwf _ _ hst) hlog

/-! ## No kernel reads `column_indices` or `elements` at or beyond `nnz` -/

/-- The records of the runs of the four non-transposed kernels on the matrix `[[1,0],[2,1]]`
with two lanes: the second window reads position `2` only. -/
theorem nontransposed_records_two_lanes :
    csr_unit_lu_forward_kernel_logged 2 (⟨fun _ => 0, fun _ => 0, fun _ => 0⟩ : Staging ℚ)
        [0, 1, 3] [0, 0, 1] [(1 : ℚ), 2, 1] [(1 : ℚ), 4] 2 = (some [1, 2], [0, 0, 1, 1, 2, 2]) ∧
    csr_lu_forward_kernel_logged 2 (⟨fun _ => 0, fun _ => 0, fun _ => 0⟩ : Staging ℚ)
        [0, 1, 3] [0, 0, 1] [(1 : ℚ), 2, 1] [(1 : ℚ), 1] [(1 : ℚ), 4] 2 =
      (some [1, 2], [0, 0, 1, 1, 2, 2]) ∧
    csr_unit_lu_backward_kernel_logged 2 (⟨fun _ => 0, fun _ => 0, fun _ => 0⟩ : Staging ℚ)
        [0, 1, 3] [0, 0, 1] [(1 : ℚ), 2, 1] [(1 : ℚ), 4] 2 = (some [1, 4], [2, 2, 0, 0, 1, 1]) ∧
    csr_lu_backward_kernel_logged 2 (⟨fun _ => 0, fun _ => 0, fun _ => 0⟩ : Staging ℚ) 0
        [0, 1, 3] [0, 0, 1] [(1 : ℚ), 2, 1] [(1 : ℚ), 4] 2 = (some [1, 4], [2, 2, 0, 0, 1, 1]) := by
  decide!

/-- The records of the runs of the six transposed kernels on the same input. -/
theorem transposed_records_two_lanes :
    csr_trans_lu_forward_kernel2_logged 2 [0, 1, 3] [0, 0, 1] [(1 : ℚ), 2, 1] [(1 : ℚ), 4] 2 =
      (some [1, 4], [0, 1, 2]) ∧
    csr_trans_unit_lu_forward_kernel_logged 2 (fun _ => 10) (fun _ => 0)
        [0, 1, 3] [0, 0, 1] [(1 : ℚ), 2, 1] [(1 : ℚ), 4] 2 = (some [1, 4], [0, 0, 1, 1, 2, 2]) ∧
    csr_trans_lu_forward_kernel_logged 2 (fun _ => 10) (fun _ => 0)
        [0, 1, 3] [0, 0, 1] [(1 : ℚ), 2, 1] [(1 : ℚ), 1] [(1 : ℚ), 4] 2 =
      (some [1, 4], [0, 0, 1, 1, 2, 2]) ∧
    csr_trans_lu_backward_kernel2_logged 2 [0, 1, 3] [0, 0, 1] [(1 : ℚ), 2, 1] [(1 : ℚ), 1]
        [(1 : ℚ), 4] 2 = (some [-7, 4], [1, 1, 2, 2, 0]) ∧
    csr_trans_unit_lu_backward_kernel_logged 2 (fun _ => 10) (fun _ => 0)
        [0, 1, 3] [0, 0, 1] [(1 : ℚ), 2, 1] [(1 : ℚ), 4] 2 = (some [1, 4], [2, 2, 1, 1, 0, 0]) ∧
    csr_trans_lu_backward_kernel_logged 2 (fun _ => 10) (fun _ => 0)
        [0, 1, 3] [0, 0, 1] [(1 : ℚ), 2, 1] [(1 : ℚ), 1] [(1 : ℚ), 4] 2 =
      (some [1, 4], [2, 2, 1, 1, 0, 0]) := by
  decide!

/-- Claim C14.  Each of the ten kernels is run with a record of every index at which it
reads `column_indices` or `elements`; the record is kept up to the point where a run
stops, also when it stops at an access outside an array or with its rounds used up.  The
run with the record leaves what the kernel leaves, and on a well-formed CSR input every
index in the record is below `nnz = row_indices[n]`, for every number `B` of lanes and
whatever the staging arrays and the two shared tables hold at the start. -/
theorem nonzero_arrays_read_below_nnz (n B : Nat) (st : Staging T) (diag0 : T)
    (la0 rib0 : Nat → Nat) (ro col : List Nat) (el d b : List T)
    (hwf : WellFormedCSR n ro col el) :
    (((csr_unit_lu_forward_kernel_logged B st ro col el b n).1 =
        csr_unit_lu_forward_kernel B st ro col el b n) ∧
      ReadsBelow (ro.getD n 0)
        (csr_unit_lu_forward_kernel_logged B st ro col el b n).2) ∧
    (((csr_lu_forward_kernel_logged B st ro col el d b n).1 =
        csr_lu_forward_kernel B st ro col el d b n) ∧
      ReadsBelow (ro.getD n 0)
        (csr_lu_forward_kernel_logged B st ro col el d b n).2) ∧
    (((csr_unit_lu_backward_kernel_logged B st ro col el b n).1 =
        csr_unit_lu_backward_kernel B st ro col el b n) ∧
      ReadsBelow (ro.getD n 0)
        (csr_unit_lu_backward_kernel_logged B st ro col el b n).2) ∧
    (((csr_lu_backward_kernel_logged B st diag0 ro col el b n).1 =
        csr_lu_backward_kernel B st diag0 ro col el b n) ∧
      ReadsBelow (ro.getD n 0)
        (csr_lu_backward_kernel_logged B st diag0 ro col el b n).2) ∧
    (((csr_trans_lu_forward_kernel2_logged B ro col el b n).1 =
        csr_trans_lu_forward_kernel2 B ro col el b n) ∧
      ReadsBelow (ro.getD n 0)
        (csr_trans_lu_forward_kernel2_logged B ro col el b n).2) ∧
    (((csr_trans_unit_lu_forward_kernel_logged B la0 rib0 ro col el b n).1 =
        csr_trans_unit_lu_forward_kernel B la0 rib0 ro col el b n) ∧
      ReadsBelow (ro.getD n 0)
        (csr_trans_unit_lu_forward_kernel_logged B la0 rib0 ro col el b n).2) ∧
    (((csr_trans_lu_forward_kernel_logged B la0 rib0 ro col el d b n).1 =
        csr_trans_lu_forward_kernel B la0 rib0 ro col el d b n) ∧
      ReadsBelow (ro.getD n 0)
        (csr_trans_lu_forward_kernel_logged B la0 rib0 ro col el d b n).2) ∧
    (((csr_trans_lu_backward_kernel2_logged B ro col el d b n).1 =
        csr_trans_lu_backward_kernel2 B ro col el d b n) ∧
      ReadsBelow (ro.getD n 0)
        (csr_trans_lu_backward_kernel2_logged B ro col el d b n).2) ∧
    (((csr_trans_unit_lu_backward_kernel_logged B la0 rib0 ro col el b n).1 =
        csr_trans_unit_lu_backward_kernel B la0 rib0 ro col el b n) ∧
      ReadsBelow (ro.getD n 0)
        (csr_trans_unit_lu_backward_kernel_logged B la0 rib0 ro col el b n).2) ∧
    (((csr_trans_lu_backward_kernel_logged B la0 rib0 ro col el d b n).1 =
        csr_trans_lu_backward_kernel B la0 rib0 ro col el d b n) ∧
      ReadsBelow (ro.getD n 0)
        (csr_trans_lu_backward_kernel_logged B la0 rib0 ro col el d b n).2) := by
  refine ⟨⟨?_, ?_⟩, ⟨?_, ?_⟩, ⟨?_, ?_⟩, ⟨?_, ?_⟩, ⟨?_, ?_⟩, ⟨?_, ?_⟩, ⟨?_, ?_⟩, ⟨?_, ?_⟩,
    ⟨?_, ?_⟩, ⟨?_, ?_⟩⟩
  · exact csr_unit_lu_forward_kernel_logged_fst B st ro col el b n
  · exact forward_kernel_logged_below _ B st ro col el b n
  · exact csr_lu_forward_kernel_logged_fst B st ro col el d b n
  · exact forward_kernel_logged_below _ B st ro col el b n
  · exact csr_unit_lu_backward_kernel_logged_fst B st ro col el b n
  · exact csr_unit_lu_backward_kernel_logged_below B st ro col el b n
  · exact csr_lu_backward_kernel_logged_fst B st diag0 ro col el b n
  · exact csr_lu_backward_kernel_logged_below B st diag0 ro col el b n
  · exact csr_trans_lu_forward_kernel2_logged_fst B ro col el b n
  · exact csr_trans_lu_forward_kernel2_logged_below hwf B b n
  · exact trans_kernel_with_logged_fst _
      (fun nnz le => trans_forward_prepare ro col el n nnz le B) _
      (fun nnz le i s log => trans_forward_prepare_logged_fst ro col el n nnz le B i s log)
      B la0 rib0 ro b n
  · exact trans_kernel_with_logged_below _ _
      (fun nnz le i s log h =>
        trans_forward_prepare_logged_below ro col el n nnz le B i s log h)
      B la0 rib0 ro b n
  · exact trans_kernel_with_logged_fst _
      (fun nnz le => trans_forward_prepare ro col el n nnz le B) _
      (fun nnz le i s log => trans_forward_prepare_logged_fst ro col el n nnz le B i s log)
      B la0 rib0 ro b n
  · exact trans_kernel_with_logged_below _ _
      (fun nnz le i s log h =>
        trans_forward_prepare_logged_below ro col el n nnz le B i s log h)
      B la0 rib0 ro b n
  · exact csr_trans_lu_backward_kernel2_logged_fst B ro col el d b n
  · exact csr_trans_lu_backward_kernel2_logged_below hwf B d b n
  · exact trans_kernel_with_logged_fst _
      (fun nnz le => trans_backward_prepare ro col el n nnz le B) _
      (fun nnz le i s log => trans_backward_prepare_logged_fst ro col el n nnz le B i s log)
      B la0 rib0 ro b n
  · exact trans_kernel_with_logged_below _ _
      (fun nnz le i s log h =>
        trans_backward_prepare_logged_below ro col el n nnz le B i s log h)
      B la0 rib0 ro b n
  · exact trans_kernel_with_logged_fst _
      (fun nnz le => trans_backward_prepare ro col el n nnz le B) _
      (fun nnz le i s log => trans_backward_prepare_logged_fst ro col el n nnz le B i s log)
      B la0 rib0 ro b n
  · exact trans_kernel_with_logged_below _ _
      (fun nnz le i s log h =>
        trans_backward_prepare_logged_below ro col el n nnz le B i s log h)
      B la0 rib0 ro b n

/-- The theorem for C14 at the matrix `[[1,0],[2,1]]` with two lanes, so `nnz = B + 1` and
the second window holds one entry; every run ends and its record holds the positions
`0`, `1`, `2` only. -/
theorem nonzero_arrays_read_below_nnz_witness :
    WellFormedCSR 2 [0, 1, 3] [0, 0, 1] [(1 : ℚ), 2, 1] ∧
    ((((csr_unit_lu_forward_kernel_logged 2 (⟨fun _ => 0, fun _ => 0, fun _ => 0⟩ : Staging ℚ) [0, 1, 3] [0, 0, 1] [(1 : ℚ), 2, 1] [(1 : ℚ), 4] 2).1 =
        csr_unit_lu_forward_kernel 2 (⟨fun _ => 0, fun _ => 0, fun _ => 0⟩ : Staging ℚ) [0, 1, 3] [0, 0, 1] [(1 : ℚ), 2, 1] [(1 : ℚ), 4] 2) ∧
      ReadsBelow (([0, 1, 3] : List Nat).getD 2 0)
        (csr_unit_lu_forward_kernel_logged 2 (⟨fun _ => 0, fun _ => 0, fun _ => 0⟩ : Staging ℚ) [0, 1, 3] [0, 0, 1] [(1 : ℚ), 2, 1] [(1 : ℚ), 4] 2).2) ∧
    (((csr_lu_forward_kernel_logged 2 (⟨fun _ => 0, fun _ => 0, fun _ => 0⟩ : Staging ℚ) [0, 1, 3] [0, 0, 1] [(1 : ℚ), 2, 1] [(1 : ℚ), 1] [(1 : ℚ), 4] 2).1 =
        csr_lu_forward_kernel 2 (⟨fun _ => 0, fun _ => 0, fun _ => 0⟩ : Staging ℚ) [0, 1, 3] [0, 0, 1] [(1 : ℚ), 2, 1] [(1 : ℚ), 1] [(1 : ℚ), 4] 2) ∧
      ReadsBelow (([0, 1, 3] : List Nat).getD 2 0)
        (csr_lu_forward_kernel_logged 2 (⟨fun _ => 0, fun _ => 0, fun _ => 0⟩ : Staging ℚ) [0, 1, 3] [0, 0, 1] [(1 : ℚ), 2, 1] [(1 : ℚ), 1] [(1 : ℚ), 4] 2).2) ∧
    (((csr_unit_lu_backward_kernel_logged 2 (⟨fun _ => 0, fun _ => 0, fun _ => 0⟩ : Staging ℚ) [0, 1, 3] [0, 0, 1] [(1 : ℚ), 2, 1] [(1 : ℚ), 4] 2).1 =
        csr_unit_lu_backward_kernel 2 (⟨fun _ => 0, fun _ => 0, fun _ => 0⟩ : Staging ℚ) [0, 1, 3] [0, 0, 1] [(1 : ℚ), 2, 1] [(1 : ℚ), 4] 2) ∧
      ReadsBelow (([0, 1, 3] : List Nat).getD 2 0)
        (csr_unit_lu_backward_kernel_logged 2 (⟨fun _ => 0, fun _ => 0, fun _ => 0⟩ : Staging ℚ) [0, 1, 3] [0, 0, 1] [(1 : ℚ), 2, 1] [(1 : ℚ), 4] 2).2) ∧
    (((csr_lu_backward_kernel_logged 2 (⟨fun _ => 0, fun _ => 0, fun _ => 0⟩ : Staging ℚ) 0 [0, 1, 3] [0, 0, 1] [(1 : ℚ), 2, 1] [(1 : ℚ), 4] 2).1 =
        csr_lu_backward_kernel 2 (⟨fun _ => 0, fun _ => 0, fun _ => 0⟩ : Staging ℚ) 0 [0, 1, 3] [0, 0, 1] [(1 : ℚ), 2, 1] [(1 : ℚ), 4] 2) ∧
      ReadsBelow (([0, 1, 3] : List Nat).getD 2 0)
        (csr_lu_backward_kernel_logged 2 (⟨fun _ => 0, fun _ => 0, fun _ => 0⟩ : Staging ℚ) 0 [0, 1, 3] [0, 0, 1] [(1 : ℚ), 2, 1] [(1 : ℚ), 4] 2).2) ∧
    (((csr_trans_lu_forward_kernel2_logged 2 [0, 1, 3] [0, 0, 1] [(1 : ℚ), 2, 1] [(1 : ℚ), 4] 2).1 =
        csr_trans_lu_forward_kernel2 2 [0, 1, 3] [0, 0, 1] [(1 : ℚ), 2, 1] [(1 : ℚ), 4] 2) ∧
      ReadsBelow (([0, 1, 3] : List Nat).getD 2 0)
        (csr_trans_lu_forward_kernel2_logged 2 [0, 1, 3] [0, 0, 1] [(1 : ℚ), 2, 1] [(1 : ℚ), 4] 2).2) ∧
    (((csr_trans_unit_lu_forward_kernel_logged 2 (fun _ => 10) (fun _ => 0) [0, 1, 3] [0, 0, 1] [(1 : ℚ), 2, 1] [(1 : ℚ), 4] 2).1 =
        csr_trans_unit_lu_forward_kernel 2 (fun _ => 10) (fun _ => 0) [0, 1, 3] [0, 0, 1] [(1 : ℚ), 2, 1] [(1 : ℚ), 4] 2) ∧
      ReadsBelow (([0, 1, 3] : List Nat).getD 2 0)
        (csr_trans_unit_lu_forward_kernel_logged 2 (fun _ => 10) (fun _ => 0) [0, 1, 3] [0, 0, 1] [(1 : ℚ), 2, 1] [(1 : ℚ), 4] 2).2) ∧
    (((csr_trans_lu_forward_kernel_logged 2 (fun _ => 10) (fun _ => 0) [0, 1, 3] [0, 0, 1] [(1 : ℚ), 2, 1] [(1 : ℚ), 1] [(1 : ℚ), 4] 2).1 =
        csr_trans_lu_forward_kernel 2 (fun _ => 10) (fun _ => 0) [0, 1, 3] [0, 0, 1] [(1 : ℚ), 2, 1] [(1 : ℚ), 1] [(1 : ℚ), 4] 2) ∧
      ReadsBelow (([0, 1, 3] : List Nat).getD 2 0)
        (csr_trans_lu_forward_kernel_logged 2 (fun _ => 10) (fun _ => 0) [0, 1, 3] [0, 0, 1] [(1 : ℚ), 2, 1] [(1 : ℚ), 1] [(1 : ℚ), 4] 2).2) ∧
    (((csr_trans_lu_backward_kernel2_logged 2 [0, 1, 3] [0, 0, 1] [(1 : ℚ), 2, 1] [(1 : ℚ), 1] [(1 : ℚ), 4] 2).1 =
        csr_trans_lu_backward_kernel2 2 [0, 1, 3] [0, 0, 1] [(1 : ℚ), 2, 1] [(1 : ℚ), 1] [(1 : ℚ), 4] 2) ∧
      ReadsBelow (([0, 1, 3] : List Nat).getD 2 0)
        (csr_trans_lu_backward_kernel2_logged 2 [0, 1, 3] [0, 0, 1] [(1 : ℚ), 2, 1] [(1 : ℚ), 1] [(1 : ℚ), 4] 2).2) ∧
    (((csr_trans_unit_lu_backward_kernel_logged 2 (fun _ => 10) (fun _ => 0) [0, 1, 3] [0, 0, 1] [(1 : ℚ), 2, 1] [(1 : ℚ), 4] 2).1 =
        csr_trans_unit_lu_backward_kernel 2 (fun _ => 10) (fun _ => 0) [0, 1, 3] [0, 0, 1] [(1 : ℚ), 2, 1] [(1 : ℚ), 4] 2) ∧
      ReadsBelow (([0, 1, 3] : List Nat).getD 2 0)
        (csr_trans_unit_lu_backward_kernel_logged 2 (fun _ => 10) (fun _ => 0) [0, 1, 3] [0, 0, 1] [(1 : ℚ), 2, 1] [(1 : ℚ), 4] 2).2) ∧
    (((csr_trans_lu_backward_kernel_logged 2 (fun _ => 10) (fun _ => 0) [0, 1, 3] [0, 0, 1] [(1 : ℚ), 2, 1] [(1 : ℚ), 1] [(1 : ℚ), 4] 2).1 =
        csr_trans_lu_backward_kernel 2 (fun _ => 10) (fun _ => 0) [0, 1, 3] [0, 0, 1] [(1 : ℚ), 2, 1] [(1 : ℚ), 1] [(1 : ℚ), 4] 2) ∧
      ReadsBelow (([0, 1, 3] : List Nat).getD 2 0)
        (csr_trans_lu_backward_kernel_logged 2 (fun _ => 10) (fun _ => 0) [0, 1, 3] [0, 0, 1] [(1 : ℚ), 2, 1] [(1 : ℚ), 1] [(1 : ℚ), 4] 2).2)) :=
  ⟨⟨by decide, by decide, by decide, by decide, by decide, by decide⟩,
    nonzero_arrays_read_below_nnz 2 2 (⟨fun _ => 0, fun _ => 0, fun _ => 0⟩ : Staging ℚ) 0
      (fun _ => 10) (fun _ => 0) [0, 1, 3] [0, 0, 1] [(1 : ℚ), 2, 1] [(1 : ℚ), 1] [(1 : ℚ), 4]
      ⟨by decide, by decide, by decide, by decide, by decide, by decide⟩⟩

/-! ## C22: `csr_trans_lu_forward_kernel2` -/

omit [Field T] in
theorem forCount_succ_last {σ : Type} (body : Nat → σ → Option σ) :
    ∀ (c k : Nat) (s : σ),
      forCount body (c + 1) k s = (forCount body c k s).bind (body (k + c)) := by
  intro c
  induction c with
  | zero =>
    intro k s
    simp only [forCount, Nat.add_zero, Option.some_bind]
    cases body k s with
    | none => rfl
    | some s1 => rfl
  | succ c ih =>
    intro k s
    have h1 : forCount body (c + 1 + 1) k s =
        (body k s).bind (forCount body (c + 1) (k + 1)) := rfl
    have h2 : forCount body (c + 1) k s = (body k s).bind (forCount body c (k + 1)) := rfl
    rw [h1, h2]
    cases body k s with
    | none => rfl
    | some s1 =>
      rw [Option.some_bind, Option.some_bind, ih (k + 1) s1]
      have e : k + 1 + c = k + (c + 1) := by omega
      rw [e]

omit [Field T] in
theorem forward_finalize_forget_window (fin : Nat → T → Option T) (ro : List Nat)
    (size p : Nat) (s : SolveState T) :
    forward_finalize fin ro size p (forget_window s) =
      (forward_finalize fin ro size p s).map forget_window := by
  unfold forward_finalize forget_window
  by_cases hc : s.current_row < size ∧ p = s.next_row
  · simp only [hc, and_self, if_true]
    cases fin s.current_row s.current_vector_entry with
    | none => rfl
    | some val =>
      simp only [Option.some_bind]
      cases gwrite s.vector s.current_row val with
      | none => rfl
      | some vec =>
        simp only [Option.some_bind]
        by_cases h1 : uadd s.current_row 1 < size
        · simp only [h1, if_true]
          cases gread ro (uadd (uadd s.current_row 1) 1) with
          | none => rfl
          | some nr =>
            simp only [Option.some_bind]
            cases gread vec (uadd s.current_row 1) with
            | none => rfl
            | some cve => rfl
        · simp only [h1, if_false, Option.map_some']
  · simp only [hc, if_false, Option.map_some']

omit [Field T] in
/-- What a store of lines 78-87 keeps: the length of the vector, and the bound of
`next_row`. -/
theorem forward_finalize_keeps {n : Nat} {ro col : List Nat} {el : List T}
    (hwf : WellFormedCSR n ro col el) (hn : n < 4294967296)
    (fin : Nat → T → Option T) (p : Nat) (s s1 : SolveState T)
    (hlen : s.vector.length = n) (hnext : s.current_row < n → s.next_row ≤ ro.getD n 0)
    (h : forward_finalize fin ro n p s = some s1) :
    s1.vector.length = n ∧ (s1.current_row < n → s1.next_row ≤ ro.getD n 0) := by
  unfold forward_finalize at h
  by_cases hc : s.current_row < n ∧ p = s.next_row
  · rw [if_pos hc] at h
    cases hf : fin s.current_row s.current_vector_entry with
    | none => rw [hf] at h; cases h
    | some val =>
      rw [hf, Option.some_bind] at h
      cases hw : gwrite s.vector s.current_row val with
      | none => rw [hw] at h; cases h
      | some vec =>
        rw [hw, Option.some_bind] at h
        have hvl : vec.length = n := by rw [gwrite_length _ _ _ _ hw]; exact hlen
        have e1 : uadd s.current_row 1 = s.current_row + 1 := uadd_of_lt _ _ (by omega)
        by_cases h1 : uadd s.current_row 1 < n
        · rw [if_pos h1] at h
          cases hr : gread ro (uadd (uadd s.current_row 1) 1) with
          | none => rw [hr] at h; cases h
          | some nr =>
            rw [hr, Option.some_bind] at h
            cases hg : gread vec (uadd s.current_row 1) with
            | none => rw [hg] at h; cases h
            | some cve =>
              rw [hg, Option.some_bind] at h
              cases h
              refine ⟨hvl, fun _ => ?_⟩
              show nr ≤ ro.getD n 0
              have e2 : uadd (uadd s.current_row 1) 1 = s.current_row + 2 := by
                rw [e1, uadd_of_lt _ _ (by omega)]
              rw [e2] at hr
              rw [← getD_of_gread ro _ nr 0 hr]
              exact hwf.mono_le n (s.current_row + 2) (by rw [e1] at h1; omega) (le_refl n)
        · rw [if_neg h1] at h
          cases h
          refine ⟨hvl, fun hlt => ?_⟩
          exact absurd hlt h1
  · rw [if_neg hc] at h
    cases h
    exact ⟨hlen, hnext⟩

omit [Field T] in
theorem forward_finalize_idle (fin : Nat → T → Option T) (ro : List Nat) (size p : Nat)
    (s : SolveState T) (h : ¬ (s.current_row < size ∧ p = s.next_row)) :
    forward_finalize fin ro size p s = some s := by
  unfold forward_finalize
  rw [if_neg h]

/-- The substitution of a forward kernel changes the accumulator only. -/
theorem forward_substitute_observed_accumulator (direct : Bool) (size nnz i : Nat)
    (st : Staging T) (k : Nat) (q q2 : SolveState T × List (Event T))
    (h : forward_substitute_observed direct size nnz i st k q = some q2) :
    forget_accumulator q2.1 = forget_accumulator q.1 ∧ q2.1.vector = q.1.vector ∧
      q2.1.current_row = q.1.current_row ∧ q2.1.next_row = q.1.next_row := by
  unfold forward_substitute_observed at h
  by_cases h1 : q.1.current_row < size
  · rw [if_pos h1] at h
    cases hc : sread 128 st.col_index_buffer k with
    | none => rw [hc] at h; cases h
    | some c =>
      rw [hc, Option.some_bind] at h
      by_cases h2 : c < q.1.current_row
      · rw [if_pos h2] at h
        cases he : sread 128 st.element_buffer k with
        | none =>
          rw [he] at h
          by_cases h3 : c < q.1.row_at_window_start
          · rw [if_pos h3] at h; cases h
          · rw [if_neg h3, if_pos h2] at h; cases h
        | some e =>
          rw [he] at h
          simp only [Option.some_bind] at h
          by_cases h3 : c < q.1.row_at_window_start
          · rw [if_pos h3] at h
            cases direct with
            | true =>
              simp only [if_true] at h
              cases hx : gread q.1.vector c with
              | none => rw [hx] at h; cases h
              | some x => rw [hx, Option.some_bind] at h; cases h; exact ⟨rfl, rfl, rfl, rfl⟩
            | false =>
              simp only [Bool.false_eq_true, if_false] at h
              cases hv : sread 128 st.vector_buffer k with
              | none => rw [hv] at h; cases h
              | some v => rw [hv, Option.some_bind] at h; cases h; exact ⟨rfl, rfl, rfl, rfl⟩
          · rw [if_neg h3, if_pos h2] at h
            cases hx : gread q.1.vector c with
            | none => rw [hx] at h; cases h
            | some x => rw [hx, Option.some_bind] at h; cases h; exact ⟨rfl, rfl, rfl, rfl⟩
      · rw [if_neg h2] at h
        cases h
        exact ⟨rfl, rfl, rfl, rfl⟩
  · rw [if_neg h1] at h
    cases h
    exact ⟨rfl, rfl, rfl, rfl⟩

/-- The substitution that reads the vector, for a slot that holds the entry at position
`p`, is the substitution of the sequential run. -/
theorem forward_substitute_observed_entry (col : List Nat) (el : List T)
    (size nnz i p : Nat) (st : Staging T) (k : Nat) (q : SolveState T × List (Event T))
    (hk : k < 128) (hpc : p < col.length) (hpe : p < el.length)
    (hc : st.col_index_buffer k = col.getD p 0) (he : st.element_buffer k = el.getD p 0) :
    (forward_substitute_observed true size nnz i st k q).map (fun q2 => forget_window q2.1) =
      forward_entry col el size p (forget_window q.1) := by
  rcases q with ⟨⟨vec, cr, raws, cve, nr⟩, ev⟩
  unfold forward_substitute_observed forward_entry
  rw [sread_of_lt 128 _ k hk, sread_of_lt 128 _ k hk, gread_of_lt col p 0 hpc,
    gread_of_lt el p 0 hpe, hc, he]
  dsimp only [forget_window]
  simp only [Option.some_bind, if_true]
  by_cases h1 : cr < size
  · simp only [h1, if_true]
    by_cases h2 : col.getD p 0 < cr
    · simp only [h2, if_true]
      by_cases h3 : col.getD p 0 < raws
      · simp only [h3, if_true]
        cases gread vec (col.getD p 0) with
        | none => rfl
        | some x => rfl
      · simp only [h3, if_false]
        cases gread vec (col.getD p 0) with
        | none => rfl
        | some x => rfl
    · simp only [h2, if_false]
      rfl
  · simp only [h1, if_false]
    rfl

/-- One step of the loop over `k` of a forward kernel that reads the vector, at position
`i + k`, against the sequential substitution. -/
theorem forward_step_observed_at {n : Nat} {ro col : List Nat} {el : List T}
    (hwf : WellFormedCSR n ro col el) (hn : n < 4294967296)
    (fin : Nat → T → Option T) (s0 : SolveState T) (nnz i k : Nat) (st : Staging T)
    (q q2 : SolveState T × List (Event T)) (hnnz : ro.getD n 0 = nnz)
    (hk : k < 128) (hfit : i + k < 4294967296)
    (hload : i + k < nnz → st.col_index_buffer k = col.getD (i + k) 0 ∧
      st.element_buffer k = el.getD (i + k) 0)
    (hat : ForwardAt fin ro col el n nnz s0 (i + k) q.1)
    (h : forward_step_observed true fin ro n nnz i st k q = some q2) :
    ForwardAt fin ro col el n nnz s0 (i + k + 1) q2.1 := by
  obtain ⟨hlen, hnext, hex, hbey⟩ := hat
  unfold forward_step_observed at h
  rw [uadd_of_lt i k hfit] at h
  cases hq1 : forward_finalize_observed fin ro n (i + k) q with
  | none => rw [hq1] at h; cases h
  | some q1 =>
    rw [hq1, Option.some_bind] at h
    have hfz : forward_finalize fin ro n (i + k) q.1 = some q1.1 := by
      have h3 := forward_finalize_observed_erase fin ro n (i + k) q
      rw [hq1] at h3
      exact h3.symm
    obtain ⟨hlen1, hnext1⟩ := forward_finalize_keeps hwf hn fin (i + k) q.1 q1.1 hlen
      (by rw [hnnz]; exact hnext) hfz
    rw [hnnz] at hnext1
    obtain ⟨hacc, hv, hcr, hnr⟩ :=
      forward_substitute_observed_accumulator true n nnz i st k q1 q2 h
    refine ⟨by rw [hv]; exact hlen1, by rw [hcr, hnr]; exact hnext1, ?_, ?_⟩
    · intro hp
      have hlt : i + k < nnz := by omega
      rw [forCount_succ_last, Nat.zero_add, hex (by omega), Option.some_bind]
      unfold forward_position
      rw [forward_finalize_forget_window, hfz, Option.map_some', Option.some_bind, if_pos hlt]
      have h4 := forward_substitute_observed_entry col el n nnz i (i + k) st k q1 hk
        (by rw [hwf.cols_len, hnnz]; exact hlt) (by rw [hwf.elems_len, hnnz]; exact hlt)
        (hload hlt).1 (hload hlt).2
      rw [h, Option.map_some'] at h4
      exact h4.symm
    · intro hp
      by_cases heq : i + k = nnz
      · subst heq
        refine ⟨forget_window q1.1, ?_, hacc⟩
        rw [forCount_succ_last, Nat.zero_add, hex (le_refl _), Option.some_bind]
        unfold forward_position
        rw [forward_finalize_forget_window, hfz, Option.map_some', Option.some_bind,
          if_neg (lt_irrefl _)]
      · have hgt : nnz < i + k := by omega
        obtain ⟨r, hr, hrel⟩ := hbey hgt
        refine ⟨r, hr, ?_⟩
        have hidle : ¬ (q.1.current_row < n ∧ i + k = q.1.next_row) := by
          intro hc
          have h5 := hnext hc.1
          omega
        rw [forward_finalize_idle _ _ _ _ _ hidle] at hfz
        have e : q1.1 = q.1 := (Option.some.inj hfz).symm
        rw [e] at hacc
        exact hacc.trans hrel

/-- One round of the loop over `i` of a forward kernel that reads the vector, against the
sequential substitution. -/
theorem forward_window_observed_at {n B : Nat} {ro col : List Nat} {el : List T}
    (hwf : WellFormedCSR n ro col el) (hn : n < 4294967296) (hB : B ≤ 128)
    (fin : Nat → T → Option T) (s0 : SolveState T) (nnz le w : Nat)
    (hnnz : ro.getD n 0 = nnz) (hle : (w + 1) * B ≤ le) (hlefit : le < 4294967296)
    (p p2 : (Staging T × SolveState T) × List (Event T))
    (hat : ForwardAt fin ro col el n nnz s0 (w * B) p.1.2)
    (h : forward_window_observed true fin ro col el n nnz le B (w * B) p = some p2) :
    ForwardAt fin ro col el n nnz s0 ((w + 1) * B) p2.1.2 := by
  have hwB : w * B + B = (w + 1) * B := by rw [Nat.add_mul, Nat.one_mul]
  unfold forward_window_observed at h
  obtain ⟨st, hst, hloaded⟩ := load_forward_spec col el p.1.2.vector nnz le B (w * B) p.1.1 hB
    (by omega) hlefit (by rw [hwf.cols_len, hnnz]) (by rw [hwf.elems_len, hnnz])
    (fun q hq => by
      rw [hat.1]
      exact hwf.cols_lt q (by rw [hwf.cols_len, hnnz]; exact hq))
  rw [hst, Option.some_bind] at h
  cases hrun : forCount (forward_step_observed true fin ro n nnz (w * B) st) B 0
      (p.1.2, p.2 ++ [Event.window]) with
  | none => rw [hrun] at h; cases h
  | some q =>
    rw [hrun, Option.some_bind] at h
    cases h
    have hq := forCount_preserve (forward_step_observed true fin ro n nnz (w * B) st)
      (fun j s => ForwardAt fin ro col el n nnz s0 (w * B + j) s.1) B 0
      (p.1.2, p.2 ++ [Event.window]) q hat
      (fun j s1 s3 _ hj hP hstep =>
        forward_step_observed_at hwf hn fin s0 nnz (w * B) j st s1 s3 hnnz (by omega)
          (by omega)
          (fun hlt => ⟨(hloaded j (by omega) hlt).1, (hloaded j (by omega) hlt).2.1⟩)
          hP hstep) hrun
    have hq2 : ForwardAt fin ro col el n nnz s0 ((w + 1) * B) q.1 := by
      have e : w * B + (0 + B) = (w + 1) * B := by omega
      rw [← e]
      exact hq
    exact hq2

/-- A run of a forward kernel that reads the vector leaves the vector of the sequential
substitution. -/
theorem forward_kernel_observed_sequential {n B : Nat} {ro col : List Nat} {el b : List T}
    (hwf : WellFormedCSR n ro col el) (hn1 : 1 ≤ n) (hn : n < 4294967296) (hB1 : 1 ≤ B)
    (hB : B ≤ 128) (hb : b.length = n) (hfit : ro.getD n 0 + B < 4294967296)
    (fin : Nat → T → Option T) (st : Staging T) (x : List T) (ev : List (Event T))
    (h : forward_kernel_observed true fin B st ro col el b n = some (x, ev)) :
    forward_sequential fin ro col el b n = some x := by
  have hdiv : ro.getD n 0 / B * B ≤ ro.getD n 0 := Nat.div_mul_le_self _ _
  have hend : (ro.getD n 0 / B + 1) * B ≤ ro.getD n 0 + B := by
    rw [Nat.add_mul]; omega
  have hdivle : ro.getD n 0 / B ≤ ro.getD n 0 := Nat.div_le_self _ _
  have hle : umul (uadd (ro.getD n 0 / B) 1) B = (ro.getD n 0 / B + 1) * B := by
    rw [uadd_of_lt _ _ (by omega), umul_of_lt _ _ (by omega)]
  have hgt : ro.getD n 0 < (ro.getD n 0 / B + 1) * B := by
    have h1 := Nat.div_add_mod (ro.getD n 0) B
    have h2 := Nat.mod_lt (ro.getD n 0) (by omega : B > 0)
    rw [Nat.add_mul, Nat.one_mul, Nat.mul_comm]
    omega
  have hg1 : gread ro n = some (ro.getD n 0) :=
    gread_of_lt ro n 0 (by rw [hwf.rows_len]; omega)
  have hg2 : gread b 0 = some (b.getD 0 0) := gread_of_lt b 0 0 (by omega)
  have hg3 : gread ro 1 = some (ro.getD 1 0) :=
    gread_of_lt ro 1 0 (by rw [hwf.rows_len]; omega)
  unfold forward_kernel_observed at h
  unfold forward_sequential
  rw [hg1, Option.some_bind, hg2, Option.some_bind, hg3, Option.some_bind] at h
  rw [hg1, Option.some_bind, hg2, Option.some_bind, hg3, Option.some_bind]
  rw [hle] at h
  cases hrun : forStride B ((ro.getD n 0 / B + 1) * B)
      (forward_window_observed true fin ro col el n (ro.getD n 0)
        ((ro.getD n 0 / B + 1) * B) B)
      ((ro.getD n 0 / B + 1) * B) 0
      ((st, { vector := b, current_row := 0, row_at_window_start := 0,
              current_vector_entry := b.getD 0 0, next_row := ro.getD 1 0 }), []) with
  | none => rw [hrun] at h; cases h
  | some p =>
    rw [hrun, Option.some_bind] at h
    have hx : p.1.2.vector = x := congrArg Prod.fst (Option.some.inj h)
    have hrun2 : forStride B ((ro.getD n 0 / B + 1) * B)
        (forward_window_observed true fin ro col el n (ro.getD n 0)
          ((ro.getD n 0 / B + 1) * B) B)
        ((ro.getD n 0 / B + 1) * B) (0 * B)
        ((st, { vector := b, current_row := 0, row_at_window_start := 0,
                current_vector_entry := b.getD 0 0, next_row := ro.getD 1 0 }), []) =
        some p := by
      rw [Nat.zero_mul]
      exact hrun
    have hQ := forStride_preserve B (ro.getD n 0 / B + 1)
      (forward_window_observed true fin ro col el n (ro.getD n 0)
        ((ro.getD n 0 / B + 1) * B) B)
      (fun w p1 => ForwardAt fin ro col el n (ro.getD n 0)
        { vector := b, current_row := 0, row_at_window_start := 0,
          current_vector_entry := b.getD 0 0, next_row := ro.getD 1 0 } (w * B) p1.1.2)
      hB1 (by omega)
      (fun w s s1 hw hQ hstep =>
        forward_window_observed_at hwf hn hB fin _ (ro.getD n 0)
          ((ro.getD n 0 / B + 1) * B) w rfl
          (Nat.mul_le_mul_right B (by omega)) (by omega) s s1 hQ hstep)
      ((ro.getD n 0 / B + 1) * B) 0 _ p (Nat.zero_le _)
      ⟨hb, fun _ => hwf.mono_le n 1 hn1 (le_refl n),
        fun _ => by rw [Nat.zero_mul]; exact rfl,
        fun hlt => by rw [Nat.zero_mul] at hlt; omega⟩ hrun2
    obtain ⟨r, hr, hrel⟩ := hQ.2.2.2 hgt
    rw [hr, Option.some_bind, ← hx]
    have hv : r.vector = p.1.2.vector := (congrArg SolveState.vector hrel).symm
    rw [hv]

/-! ## The backward kernels against the sequential substitution -/

omit [Field T] in
theorem whileDown_preserve {σ : Type} (B m : Nat) (body : Nat → σ → Option σ)
    (Q : Nat → σ → Prop) (hB : 1 ≤ B) (hfit : m * B < 4294967296)
    (hbody : ∀ w s s1, w ≤ m → Q (w + 1) s → body (w * B) s = some s1 → Q w s1) :
    ∀ (fuel w : Nat) (s s2 : σ), w ≤ m → Q (w + 1) s →
      whileDown B body fuel (w * B) s = some s2 → Q 0 s2 := by
  intro fuel
  induction fuel with
  | zero =>
    intro w s s2 _ _ hrun
    simp only [whileDown] at hrun
    cases hrun
  | succ fuel ih =>
    intro w s s2 hw hQ hrun
    simp only [whileDown] at hrun
    cases hs1 : body (w * B) s with
    | none => rw [hs1] at hrun; cases hrun
    | some s1 =>
      rw [hs1, Option.some_bind] at hrun
      have hQ1 := hbody w s s1 hw hQ hs1
      by_cases hw0 : w = 0
      · subst hw0
        have h0 : 0 * B < B := by omega
        rw [if_pos h0] at hrun
        cases hrun
        exact hQ1
      · have hwB : w * B ≤ m * B := Nat.mul_le_mul_right B hw
        have h1 : B ≤ w * B := Nat.le_mul_of_pos_left B (by omega)
        have h2 : usub (w * B) B = (w - 1) * B := by
          rw [usub_of_le _ _ h1 (by omega), Nat.sub_mul, Nat.one_mul]
        have h3 : w - 1 + 1 = w := by omega
        have h4 : ¬ w * B < B := by omega
        rw [if_neg h4, h2] at hrun
        exact ih (w - 1) s1 s2 (by omega) (by rw [h3]; exact hQ1) hrun

theorem backward_finalize_forget_window (ud : Bool) (ro : List Nat) (p : Nat)
    (s : SolveStateD T) :
    backward_finalize ud ro p (forget_window_d s) =
      (backward_finalize ud ro p s).map forget_window_d := by
  rcases s with ⟨vec, cr, raws, cve, nr, de⟩
  unfold backward_finalize forget_window_d
  dsimp only
  by_cases hp : p = nr
  · simp only [hp, if_true]
    cases gwrite vec cr (if ud = true then cve else cve / de) with
    | none => rfl
    | some vec2 =>
      simp only [Option.some_bind]
      by_cases h0 : cr > 0
      · simp only [h0, if_true]
        cases gread ro (usub cr 1) with
        | none => rfl
        | some nr2 =>
          simp only [Option.some_bind]
          cases gread vec2 (usub cr 1) with
          | none => rfl
          | some cve2 => rfl
      · simp only [h0, if_false, Option.map_some']
  · simp only [hp, if_false, Option.map_some']

/-- What a store of lines 225-233 keeps: the length of the vector; `current_row` does not
grow and `row_at_window_start` stays. -/
theorem backward_finalize_keeps (ud : Bool) (ro : List Nat) (n p : Nat)
    (s s1 : SolveStateD T) (hn : n < 4294967296) (hlen : s.vector.length = n)
    (h : backward_finalize ud ro p s = some s1) :
    s1.vector.length = n ∧ s1.current_row ≤ s.current_row ∧
      s1.row_at_window_start = s.row_at_window_start := by
  rcases s with ⟨vec, cr, raws, cve, nr, de⟩
  unfold backward_finalize at h
  dsimp only at h hlen ⊢
  by_cases hp : p = nr
  · rw [if_pos hp] at h
    cases hw : gwrite vec cr (if ud = true then cve else cve / de) with
    | none => rw [hw] at h; cases h
    | some vec2 =>
      rw [hw, Option.some_bind] at h
      have hvl : vec2.length = n := by rw [gwrite_length _ _ _ _ hw]; exact hlen
      have hcr : cr < n := by
        unfold gwrite at hw
        by_cases hi : cr < vec.length
        · omega
        · rw [if_neg hi] at hw; cases hw
      by_cases h0 : cr > 0
      · rw [if_pos h0] at h
        cases hr : gread ro (usub cr 1) with
        | none => rw [hr] at h; cases h
        | some nr2 =>
          rw [hr, Option.some_bind] at h
          cases hg : gread vec2 (usub cr 1) with
          | none => rw [hg] at h; cases h
          | some cve2 =>
            rw [hg, Option.some_bind] at h
            cases h
            refine ⟨hvl, ?_, rfl⟩
            show usub cr 1 ≤ cr
            rw [usub_of_le _ _ (by omega) (by omega)]
            omega
      · rw [if_neg h0] at h
        cases h
        exact ⟨hvl, le_refl _, rfl⟩
  · rw [if_neg hp] at h
    cases h
    exact ⟨hlen, le_refl _, rfl⟩

/-- The substitution of a backward kernel keeps the vector, `current_row` and
`row_at_window_start`. -/
theorem backward_substitute_observed_keeps (direct ud : Bool) (st : Staging T) (kk : Nat)
    (q q2 : SolveStateD T × List (Event T))
    (h : backward_substitute_observed direct ud st kk q = some q2) :
    q2.1.vector = q.1.vector ∧ q2.1.current_row = q.1.current_row ∧
      q2.1.row_at_window_start = q.1.row_at_window_start := by
  unfold backward_substitute_observed at h
  cases hc : sread 128 st.col_index_buffer kk with
  | none => rw [hc] at h; cases h
  | some c =>
    rw [hc, Option.some_bind] at h
    cases he : sread 128 st.element_buffer kk with
    | none =>
      rw [he] at h
      by_cases h1 : c > q.1.row_at_window_start
      · rw [if_pos h1] at h; cases h
      · rw [if_neg h1] at h
        by_cases h2 : c > q.1.current_row
        · rw [if_pos h2] at h; cases h
        · rw [if_neg h2] at h
          by_cases h3 : ud = false ∧ c = q.1.current_row
          · rw [if_pos h3] at h; cases h
          · rw [if_neg h3] at h; cases h; exact ⟨rfl, rfl, rfl⟩
    | some e =>
      rw [he] at h
      simp only [Option.some_bind] at h
      by_cases h1 : c > q.1.row_at_window_start
      · rw [if_pos h1] at h
        cases direct with
        | true =>
          simp only [if_true] at h
          cases hx : gread q.1.vector c with
          | none => rw [hx] at h; cases h
          | some x => rw [hx, Option.some_bind] at h; cases h; exact ⟨rfl, rfl, rfl⟩
        | false =>
          simp only [Bool.false_eq_true, if_false] at h
          cases hv : sread 128 st.vector_buffer kk with
          | none => rw [hv] at h; cases h
          | some v => rw [hv, Option.some_bind] at h; cases h; exact ⟨rfl, rfl, rfl⟩
      · rw [if_neg h1] at h
        by_cases h2 : c > q.1.current_row
        · rw [if_pos h2] at h
          cases hx : gread q.1.vector c with
          | none => rw [hx] at h; cases h
          | some x => rw [hx, Option.some_bind] at h; cases h; exact ⟨rfl, rfl, rfl⟩
        · rw [if_neg h2] at h
          by_cases h3 : ud = false ∧ c = q.1.current_row
          · rw [if_pos h3] at h; cases h; exact ⟨rfl, rfl, rfl⟩
          · rw [if_neg h3] at h; cases h; exact ⟨rfl, rfl, rfl⟩

/-- The substitution that reads the vector, for a slot that holds the entry at position
`p`, is the substitution of the sequential run. -/
theorem backward_substitute_observed_entry (ud : Bool) (col : List Nat) (el : List T)
    (p : Nat) (st : Staging T) (kk : Nat) (q : SolveStateD T × List (Event T))
    (hk : kk < 128) (hpc : p < col.length) (hpe : p < el.length)
    (hc : st.col_index_buffer kk = col.getD p 0) (he : st.element_buffer kk = el.getD p 0)
    (hle : q.1.current_row ≤ q.1.row_at_window_start) :
    (backward_substitute_observed true ud st kk q).map (fun q2 => forget_window_d q2.1) =
      backward_entry ud col el p (forget_window_d q.1) := by
  rcases q with ⟨⟨vec, cr, raws, cve, nr, de⟩, ev⟩
  unfold backward_substitute_observed backward_entry
  rw [sread_of_lt 128 _ kk hk, sread_of_lt 128 _ kk hk, gread_of_lt col p 0 hpc,
    gread_of_lt el p 0 hpe, hc, he]
  dsimp only [forget_window_d] at hle ⊢
  simp only [Option.some_bind, if_true]
  by_cases h1 : col.getD p 0 > raws
  · have h2 : col.getD p 0 > cr := by omega
    simp only [h1, h2, if_true]
    cases gread vec (col.getD p 0) with
    | none => rfl
    | some x => rfl
  · simp only [h1, if_false]
    by_cases h2 : col.getD p 0 > cr
    · simp only [h2, if_true]
      cases gread vec (col.getD p 0) with
      | none => rfl
      | some x => rfl
    · simp only [h2, if_false]
      by_cases h3 : ud = false ∧ col.getD p 0 = cr
      · simp only [h3, and_self, if_true]
        rfl
      · simp only [h3, if_false]
        rfl

/-- One step of the loop over `k2` of a backward kernel that reads the vector, at position
`i + (B - 1 - k2)`, against the sequential substitution. -/
theorem backward_step_observed_at {n : Nat} {ro col : List Nat} {el : List T}
    (hwf : WellFormedCSR n ro col el) (hn : n < 4294967296) (ud : Bool)
    (s0 : SolveStateD T) (nnz B i k2 : Nat) (st : Staging T)
    (q q2 : SolveStateD T × List (Event T)) (hnnz : ro.getD n 0 = nnz)
    (hB : B ≤ 128) (hk : k2 < B) (hfit : i + B < 4294967296)
    (hload : i + (B - 1 - k2) < nnz →
      st.col_index_buffer (B - 1 - k2) = col.getD (i + (B - 1 - k2)) 0 ∧
      st.element_buffer (B - 1 - k2) = el.getD (i + (B - 1 - k2)) 0)
    (hat : BackwardAt ud ro col el n nnz s0 (i + (B - 1 - k2) + 1) q.1)
    (h : backward_step_observed true ud ro nnz B i st k2 q = some q2) :
    BackwardAt ud ro col el n nnz s0 (i + (B - 1 - k2)) q2.1 := by
  obtain ⟨hlen, hle, hex⟩ := hat
  unfold backward_step_observed at h
  rw [usub_lane B k2 hk hB, uadd_of_lt i (B - 1 - k2) (by omega)] at h
  by_cases hp : i + (B - 1 - k2) ≥ nnz
  · rw [if_pos hp] at h
    cases h
    refine ⟨hlen, hle, ?_⟩
    have e1 : nnz - (i + (B - 1 - k2)) = 0 := by omega
    have e2 : nnz - (i + (B - 1 - k2) + 1) = 0 := by omega
    rw [e1]
    rw [e2] at hex
    exact hex
  · rw [if_neg hp] at h
    have hlt : i + (B - 1 - k2) < nnz := by omega
    cases hq1 : backward_substitute_observed true ud st (B - 1 - k2) q with
    | none => rw [hq1] at h; cases h
    | some q1 =>
      rw [hq1, Option.some_bind] at h
      obtain ⟨hv, hcr, hraws⟩ :=
        backward_substitute_observed_keeps true ud st (B - 1 - k2) q q1 hq1
      have hfz : backward_finalize ud ro (i + (B - 1 - k2)) q1.1 = some q2.1 := by
        have h3 := backward_finalize_observed_erase ud ro (i + (B - 1 - k2)) q1
        rw [h] at h3
        exact h3.symm
      obtain ⟨hlen2, hcr2, hraws2⟩ := backward_finalize_keeps ud ro n
        (i + (B - 1 - k2)) q1.1 q2.1 hn (by rw [hv]; exact hlen) hfz
      refine ⟨hlen2, by rw [hraws2, hraws]; omega, ?_⟩
      have e1 : nnz - (i + (B - 1 - k2)) = nnz - (i + (B - 1 - k2) + 1) + 1 := by omega
      have e2 : nnz - 1 - (0 + (nnz - (i + (B - 1 - k2) + 1))) = i + (B - 1 - k2) := by
        omega
      rw [e1, forCount_succ_last, hex, Option.some_bind, e2]
      unfold backward_position
      have h4 := backward_substitute_observed_entry ud col el (i + (B - 1 - k2)) st
        (B - 1 - k2) q (by omega) (by rw [hwf.cols_len, hnnz]; exact hlt)
        (by rw [hwf.elems_len, hnnz]; exact hlt) (hload hlt).1 (hload hlt).2 hle
      rw [hq1, Option.map_some'] at h4
      rw [← h4, Option.some_bind, backward_finalize_forget_window, hfz, Option.map_some']

/-- One round of the loop `while (1)` of a backward kernel that reads the vector, against
the sequential substitution. -/
theorem backward_window_observed_at {n B : Nat} {ro col : List Nat} {el : List T}
    (hwf : WellFormedCSR n ro col el) (hn : n < 4294967296) (hB : B ≤ 128)
    (ud : Bool) (s0 : SolveStateD T) (nnz w : Nat)
    (hnnz : ro.getD n 0 = nnz) (hfit : w * B + B < 4294967296)
    (p p2 : (Staging T × SolveStateD T) × List (Event T))
    (hat : BackwardAt ud ro col el n nnz s0 ((w + 1) * B) p.1.2)
    (h : backward_window_observed true ud ro col el nnz B (w * B) p = some p2) :
    BackwardAt ud ro col el n nnz s0 (w * B) p2.1.2 := by
  have hwB : (w + 1) * B = w * B + B := by rw [Nat.add_mul, Nat.one_mul]
  unfold backward_window_observed at h
  obtain ⟨st, hst, hloaded⟩ := load_backward_spec col el p.1.2.vector nnz B (w * B) p.1.1 hB
    hfit (by rw [hwf.cols_len, hnnz]) (by rw [hwf.elems_len, hnnz])
    (fun q hq => by
      rw [hat.1]
      exact hwf.cols_lt q (by rw [hwf.cols_len, hnnz]; exact hq))
  rw [hst, Option.some_bind] at h
  cases hrun : forCount (backward_step_observed true ud ro nnz B (w * B) st) B 0
      (p.1.2, p.2 ++ [Event.window]) with
  | none => rw [hrun] at h; cases h
  | some q =>
    rw [hrun, Option.some_bind] at h
    cases h
    have hq := forCount_preserve (backward_step_observed true ud ro nnz B (w * B) st)
      (fun j s => BackwardAt ud ro col el n nnz s0 (w * B + (B - j)) s.1) B 0
      (p.1.2, p.2 ++ [Event.window]) q
      (by
        show BackwardAt ud ro col el n nnz s0 (w * B + (B - 0)) p.1.2
        rw [Nat.sub_zero, ← hwB]
        exact hat)
      (fun j s1 s3 _ hj hP hstep => by
        have hjB : j < B := by omega
        have e1 : w * B + (B - j) = w * B + (B - 1 - j) + 1 := by omega
        have e2 : w * B + (B - (j + 1)) = w * B + (B - 1 - j) := by omega
        show BackwardAt ud ro col el n nnz s0 (w * B + (B - (j + 1))) s3.1
        rw [e2]
        exact backward_step_observed_at hwf hn ud s0 nnz B (w * B) j st s1 s3 hnnz hB hjB
          hfit
          (fun hlt => ⟨(hloaded (B - 1 - j) (by omega) hlt).1,
            (hloaded (B - 1 - j) (by omega) hlt).2.1⟩)
          (by rw [← e1]; exact hP) hstep) hrun
    have hq2 : BackwardAt ud ro col el n nnz s0 (w * B) q.1 := by
      have e : w * B + (B - (0 + B)) = w * B := by omega
      have hq3 : BackwardAt ud ro col el n nnz s0 (w * B + (B - (0 + B))) q.1 := hq
      rw [e] at hq3
      exact hq3
    exact ⟨hq2.1, le_refl _, hq2.2.2⟩

/-- A run of a backward kernel that reads the vector leaves the vector of the sequential
substitution. -/
theorem backward_kernel_observed_sequential {n B : Nat} {ro col : List Nat}
    {el b : List T} (hwf : WellFormedCSR n ro col el) (hn1 : 1 ≤ n) (hn : n < 4294967296)
    (hB1 : 1 ≤ B) (hB : B ≤ 128) (hb : b.length = n) (hnnz : 1 ≤ ro.getD n 0)
    (hfit : ro.getD n 0 + B < 4294967296)
    (ud : Bool) (st : Staging T) (diag0 : T) (x : List T) (ev : List (Event T))
    (h : backward_kernel_observed true ud B st diag0 ro col el b n = some (x, ev)) :
    backward_sequential ud diag0 ro col el b n = some x := by
  have hdiv : (ro.getD n 0 - 1) / B * B ≤ ro.getD n 0 - 1 := Nat.div_mul_le_self _ _
  have hle : umul (usub (ro.getD n 0) 1 / B) B = (ro.getD n 0 - 1) / B * B := by
    rw [usub_of_le _ _ hnnz (by omega), umul_of_lt _ _ (by omega)]
  have hgt : ro.getD n 0 ≤ ((ro.getD n 0 - 1) / B + 1) * B := by
    have h1 := Nat.div_add_mod (ro.getD n 0 - 1) B
    have h2 := Nat.mod_lt (ro.getD n 0 - 1) (by omega : B > 0)
    rw [Nat.add_mul, Nat.one_mul, Nat.mul_comm]
    omega
  have hm : (ro.getD n 0 - 1) / B ≤ (ro.getD n 0 - 1) / B * B :=
    Nat.le_mul_of_pos_right _ (by omega)
  have hg1 : gread ro n = some (ro.getD n 0) :=
    gread_of_lt ro n 0 (by rw [hwf.rows_len]; omega)
  have hs1 : usub n 1 = n - 1 := usub_of_le _ _ hn1 hn
  have hg2 : gread b (usub n 1) = some (b.getD (usub n 1) 0) :=
    gread_of_lt b _ 0 (by rw [hs1]; omega)
  have hg3 : gread ro (usub n 1) = some (ro.getD (usub n 1) 0) :=
    gread_of_lt ro _ 0 (by rw [hs1, hwf.rows_len]; omega)
  unfold backward_kernel_observed at h
  unfold backward_sequential
  rw [hg1, Option.some_bind, hg2, Option.some_bind, hg3, Option.some_bind] at h
  rw [hg1, Option.some_bind, hg2, Option.some_bind, hg3, Option.some_bind]
  rw [hle] at h
  cases hrun : whileDown B
      (backward_window_observed true ud ro col el (ro.getD n 0) B)
      ((ro.getD n 0 - 1) / B * B + 1) ((ro.getD n 0 - 1) / B * B)
      ((st, { vector := b, current_row := usub n 1, row_at_window_start := usub n 1,
              current_vector_entry := b.getD (usub n 1) 0,
              next_row := ro.getD (usub n 1) 0, diagonal_entry := diag0 }), []) with
  | none => rw [hrun] at h; cases h
  | some p =>
    rw [hrun, Option.some_bind] at h
    have hx : p.1.2.vector = x := congrArg Prod.fst (Option.some.inj h)
    have hQ := whileDown_preserve B ((ro.getD n 0 - 1) / B)
      (backward_window_observed true ud ro col el (ro.getD n 0) B)
      (fun w p1 => BackwardAt ud ro col el n (ro.getD n 0)
        { vector := b, current_row := usub n 1, row_at_window_start := 0,
          current_vector_entry := b.getD (usub n 1) 0,
          next_row := ro.getD (usub n 1) 0, diagonal_entry := diag0 } (w * B) p1.1.2)
      hB1 (by omega)
      (fun w s s1 hw hQ hstep =>
        backward_window_observed_at hwf hn hB ud _ (ro.getD n 0) w rfl
          (by
            have := Nat.mul_le_mul_right B hw
            omega) s s1 hQ hstep)
      ((ro.getD n 0 - 1) / B * B + 1) ((ro.getD n 0 - 1) / B) _ p (le_refl _)
      ⟨hb, le_refl _, by
        have e : ro.getD n 0 - ((ro.getD n 0 - 1) / B + 1) * B = 0 := by omega
        rw [e]
        exact rfl⟩ hrun
    have hfin := hQ.2.2
    rw [Nat.zero_mul, Nat.sub_zero] at hfin
    rw [hfin, Option.some_bind, ← hx]
    rfl

/-! ## C25: the number of lanes and the result of the non-transposed kernels -/

/-- A forward kernel with `B` lanes, the kernel with one lane and the sequential
substitution leave the same vector. -/
theorem forward_kernel_window_free {n B : Nat} {ro col : List Nat} {el b : List T}
    (hwf : WellFormedCSR n ro col el) (hn1 : 1 ≤ n) (hn : n < 4294967296) (hB1 : 1 ≤ B)
    (hB : B ≤ 128) (hb : b.length = n) (hfit : ro.getD n 0 + B < 4294967296)
    (fin : Nat → T → Option T) (hfin : ∀ r v, r < n → ∃ val, fin r v = some val)
    (st st1 : Staging T) :
    ∃ x evA evA1, forward_kernel_observed false fin B st ro col el b n = some (x, evA) ∧
      forward_kernel_observed false fin 1 st1 ro col el b n = some (x, evA1) ∧
      forward_sequential fin ro col el b n = some x := by
  obtain ⟨x, evA, evB, hA, hB2, _⟩ :=
    forward_kernel_observed_pair false true fin st st hwf hn1 hn hB1 hB hb hfit hfin
  have hseq := forward_kernel_observed_sequential hwf hn1 hn hB1 hB hb hfit fin st x evB hB2
  obtain ⟨y, evA1, evB1, hA1, hB21, _⟩ :=
    forward_kernel_observed_pair false true fin st1 st1 hwf hn1 hn (le_refl 1) (by omega) hb
      (by omega) hfin
  have hseq1 := forward_kernel_observed_sequential hwf hn1 hn (le_refl 1) (by omega) hb
    (by omega) fin st1 y evB1 hB21
  have hxy : y = x := Option.some.inj (hseq1.symm.trans hseq)
  rw [hxy] at hA1
  exact ⟨x, evA, evA1, hA, hA1, hseq⟩

/-- A backward kernel with `B` lanes, the kernel with one lane and the sequential
substitution leave the same vector. -/
theorem backward_kernel_window_free {n B : Nat} {ro col : List Nat} {el b : List T}
    (hwf : WellFormedCSR n ro col el) (hn1 : 1 ≤ n) (hn : n < 4294967296) (hB1 : 1 ≤ B)
    (hB : B ≤ 128) (hb : b.length = n) (hnnz : 1 ≤ ro.getD n 0)
    (hfit : ro.getD n 0 + B < 4294967296) (ud : Bool) (diag0 : T) (st st1 : Staging T) :
    ∃ x evA evA1,
      backward_kernel_observed false ud B st diag0 ro col el b n = some (x, evA) ∧
      backward_kernel_observed false ud 1 st1 diag0 ro col el b n = some (x, evA1) ∧
      backward_sequential ud diag0 ro col el b n = some x := by
  obtain ⟨x, evA, evB, hA, hB2, _⟩ :=
    backward_kernel_observed_pair false true ud st st diag0 hwf hn1 hn hB1 hB hb hnnz hfit
  have hseq := backward_kernel_observed_sequential hwf hn1 hn hB1 hB hb hnnz hfit ud st
    diag0 x evB hB2
  obtain ⟨y, evA1, evB1, hA1, hB21, _⟩ :=
    backward_kernel_observed_pair false true ud st1 st1 diag0 hwf hn1 hn (le_refl 1)
      (by omega) hb hnnz (by omega)
  have hseq1 := backward_kernel_observed_sequential hwf hn1 hn (le_refl 1) (by omega) hb
    hnnz (by omega) ud st1 diag0 y evB1 hB21
  have hxy : y = x := Option.some.inj (hseq1.symm.trans hseq)
  rw [hxy] at hA1
  exact ⟨x, evA, evA1, hA, hA1, hseq⟩

/-- Claim C25.  On every well-formed CSR input with `n >= 1` and `nnz >= 1`, triangular or
not, with or without empty rows, each of the four non-transposed kernels run by
`1 <= B <= 128` lanes ends and leaves the vector that the same kernel leaves with one
lane, which is the vector of the sequential substitution entry by entry
(`forward_sequential`, `backward_sequential`), whatever the staging arrays hold at the
start of the two runs.  `n` and `nnz + B` are `unsigned int`; in the kernel with a stored
diagonal the array `diagonal_entries` has `n` entries, and the two runs of
`csr_lu_backward_kernel` start with the same value `diag0` in the register
`diagonal_entry`, which the kernel does not initialise. -/
theorem window_size_does_not_matter (n B : Nat) (st st1 : Staging T) (diag0 : T)
    (ro col : List Nat) (el d b : List T)
    (hwf : WellFormedCSR n ro col el) (hn1 : 1 ≤ n) (hn : n < 4294967296) (hB1 : 1 ≤ B)
    (hB : B ≤ 128) (hb : b.length = n) (hd : d.length = n) (hnnz : 1 ≤ ro.getD n 0)
    (hfit : ro.getD n 0 + B < 4294967296) :
    (∃ x, csr_unit_lu_forward_kernel B st ro col el b n = some x ∧
      csr_unit_lu_forward_kernel 1 st1 ro col el b n = some x ∧
      forward_sequential (fun _ v => some v) ro col el b n = some x) ∧
    (∃ x, csr_lu_forward_kernel B st ro col el d b n = some x ∧
      csr_lu_forward_kernel 1 st1 ro col el d b n = some x ∧
      forward_sequential (fun r v => (gread d r).bind fun dd => some (v / dd))
        ro col el b n = some x) ∧
    (∃ x, csr_unit_lu_backward_kernel B st ro col el b n = some x ∧
      csr_unit_lu_backward_kernel 1 st1 ro col el b n = some x ∧
      backward_sequential true 0 ro col el b n = some x) ∧
    (∃ x, csr_lu_backward_kernel B st diag0 ro col el b n = some x ∧
      csr_lu_backward_kernel 1 st1 diag0 ro col el b n = some x ∧
      backward_sequential false diag0 ro col el b n = some x) := by
  refine ⟨?_, ?_, ?_, ?_⟩
  · obtain ⟨x, evA, evA1, hA, hA1, hseq⟩ :=
      forward_kernel_window_free hwf hn1 hn hB1 hB hb hfit (fun _ v => some v)
        (fun r v _ => ⟨v, rfl⟩) st st1
    exact ⟨x,
      fst_of_observed (csr_unit_lu_forward_kernel_observed_erase B st ro col el b n) hA,
      fst_of_observed (csr_unit_lu_forward_kernel_observed_erase 1 st1 ro col el b n) hA1,
      hseq⟩
  · obtain ⟨x, evA, evA1, hA, hA1, hseq⟩ :=
      forward_kernel_window_free hwf hn1 hn hB1 hB hb hfit
        (fun r v => (gread d r).bind fun dd => some (v / dd)) (lu_forward_fin_total d hd)
        st st1
    exact ⟨x,
      fst_of_observed (csr_lu_forward_kernel_observed_erase B st ro col el d b n) hA,
      fst_of_observed (csr_lu_forward_kernel_observed_erase 1 st1 ro col el d b n) hA1,
      hseq⟩
  · obtain ⟨x, evA, evA1, hA, hA1, hseq⟩ :=
      backward_kernel_window_free hwf hn1 hn hB1 hB hb hnnz hfit true 0 st st1
    exact ⟨x,
      fst_of_observed (csr_unit_lu_backward_kernel_observed_erase B st ro col el b n) hA,
      fst_of_observed (csr_unit_lu_backward_kernel_observed_erase 1 st1 ro col el b n) hA1,
      hseq⟩
  · obtain ⟨x, evA, evA1, hA, hA1, hseq⟩ :=
      backward_kernel_window_free hwf hn1 hn hB1 hB hb hnnz hfit false diag0 st st1
    exact ⟨x,
      fst_of_observed (csr_lu_backward_kernel_observed_erase B st diag0 ro col el b n) hA,
      fst_of_observed (csr_lu_backward_kernel_observed_erase 1 st1 diag0 ro col el b n)
        hA1,
      hseq⟩

/-- The theorem for C25 at a matrix that is not triangular and has an empty row, the
rows `[0,2,0]`, `[0,0,0]`, `[3,4,5]` stored as `(0,1)`, `(2,2)`, `(2,0)`, `(2,1)`, with two
lanes: `nnz = 4`; the run with two lanes starts with zeros in the staging arrays and the
run with one lane with `7`, `5` and `3`. -/
theorem window_size_does_not_matter_witness :
    WellFormedCSR 3 [0, 1, 1, 4] [1, 2, 0, 1] [(2 : ℚ), 5, 3, 4] ∧
    ((∃ x, csr_unit_lu_forward_kernel 2 (⟨fun _ => 0, fun _ => 0, fun _ => 0⟩ : Staging ℚ)
        [0, 1, 1, 4] [1, 2, 0, 1] [(2 : ℚ), 5, 3, 4] [(1 : ℚ), 2, 3] 3 = some x ∧
      csr_unit_lu_forward_kernel 1 (⟨fun _ => 7, fun _ => 5, fun _ => 3⟩ : Staging ℚ)
        [0, 1, 1, 4] [1, 2, 0, 1] [(2 : ℚ), 5, 3, 4] [(1 : ℚ), 2, 3] 3 = some x ∧
      forward_sequential (fun _ v => some v)
        [0, 1, 1, 4] [1, 2, 0, 1] [(2 : ℚ), 5, 3, 4] [(1 : ℚ), 2, 3] 3 = some x) ∧
    (∃ x, csr_lu_forward_kernel 2 (⟨fun _ => 0, fun _ => 0, fun _ => 0⟩ : Staging ℚ)
        [0, 1, 1, 4] [1, 2, 0, 1] [(2 : ℚ), 5, 3, 4] [(1 : ℚ), 2, 4] [(1 : ℚ), 2, 3] 3 = some x ∧
      csr_lu_forward_kernel 1 (⟨fun _ => 7, fun _ => 5, fun _ => 3⟩ : Staging ℚ)
        [0, 1, 1, 4] [1, 2, 0, 1] [(2 : ℚ), 5, 3, 4] [(1 : ℚ), 2, 4] [(1 : ℚ), 2, 3] 3 = some x ∧
      forward_sequential
        (fun r v => (gread ([(1 : ℚ), 2, 4] : List ℚ) r).bind fun dd => some (v / dd))
        [0, 1, 1, 4] [1, 2, 0, 1] [(2 : ℚ), 5, 3, 4] [(1 : ℚ), 2, 3] 3 = some x) ∧
    (∃ x, csr_unit_lu_backward_kernel 2 (⟨fun _ => 0, fun _ => 0, fun _ => 0⟩ : Staging ℚ)
        [0, 1, 1, 4] [1, 2, 0, 1] [(2 : ℚ), 5, 3, 4] [(1 : ℚ), 2, 3] 3 = some x ∧
      csr_unit_lu_backward_kernel 1 (⟨fun _ => 7, fun _ => 5, fun _ => 3⟩ : Staging ℚ)
        [0, 1, 1, 4] [1, 2, 0, 1] [(2 : ℚ), 5, 3, 4] [(1 : ℚ), 2, 3] 3 = some x ∧
      backward_sequential true 0
        [0, 1, 1, 4] [1, 2, 0, 1] [(2 : ℚ), 5, 3, 4] [(1 : ℚ), 2, 3] 3 = some x) ∧
    (∃ x, csr_lu_backward_kernel 2 (⟨fun _ => 0, fun _ => 0, fun _ => 0⟩ : Staging ℚ) 9
        [0, 1, 1, 4] [1, 2, 0, 1] [(2 : ℚ), 5, 3, 4] [(1 : ℚ), 2, 3] 3 = some x ∧
      csr_lu_backward_kernel 1 (⟨fun _ => 7, fun _ => 5, fun _ => 3⟩ : Staging ℚ) 9
        [0, 1, 1, 4] [1, 2, 0, 1] [(2 : ℚ), 5, 3, 4] [(1 : ℚ), 2, 3] 3 = some x ∧
      backward_sequential false 9
        [0, 1, 1, 4] [1, 2, 0, 1] [(2 : ℚ), 5, 3, 4] [(1 : ℚ), 2, 3] 3 = some x)) :=
  ⟨⟨by decide, by decide, by decide, by decide, by decide, by decide⟩,
    window_size_does_not_matter 3 2 (⟨fun _ => 0, fun _ => 0, fun _ => 0⟩ : Staging ℚ)
      (⟨fun _ => 7, fun _ => 5, fun _ => 3⟩ : Staging ℚ) 9
      [0, 1, 1, 4] [1, 2, 0, 1] [(2 : ℚ), 5, 3, 4] [(1 : ℚ), 2, 4] [(1 : ℚ), 2, 3]
      ⟨by decide, by decide, by decide, by decide, by decide, by decide⟩
      (by decide) (by decide) (by decide) (by decide) (by decide) (by decide) (by decide)
      (by decide)⟩

end ViennaCL
